import Mathlib

/-!
# DPU debug dump engine (drivers/gpu/drm/msm/disp/dpu1/dpu_dbg.c, dpu_dbg_util.c)

Shallow embedding of the register-dump catalog, the dump trigger, the deferred
dump work, the devcoredump read/free callbacks and the register reader.

Conventions of the embedding

* Machine integers are `Nat`; `u32` truncates where the C code stores into a
  32-bit object, `s32` reinterprets a 32-bit pattern as a signed `int`.
* A C string is the list of its characters (`CStr`); a nullable `char *` is an
  `Option CStr`.
* `reg_base_list` is the kernel list in list order (head first).  A pointer to
  a `struct dpu_dbg_reg_base` is the position of the node counted from the
  tail of the list: `list_add` inserts at the head, so that position is fixed
  for the lifetime of the node, as a pointer is.
* Everything observable that the dump path does (Log sink lines, coredump
  printer lines, hardware reads, power calls, the halt) is appended to
  `trace`, oldest first.  Diagnostic `pr_err`/`pr_debug`/`pr_info` messages are
  not recorded.
* Io addresses are unbounded naturals; `addr - base_addr` is the byte offset
  printed by the source.
* A capture buffer is the list of its 32-bit words; the buffer the code
  allocates has `len_padded / 4` words.  A load through a NULL `dump_addr` is
  the event `oops`.  An access to `dump_addr[i * 4 + k]` outside the
  allocation (an index at or beyond the length of the buffer, or one that the
  `int` index expression cannot represent) is the event `overrun`: the
  behaviour of the code is undefined from there on.  Both stop the run of the
  embedding, as `panic` (event `halt`) does.
* `mutex_lock`/`mutex_unlock` are not modelled: the functions are run one
  after the other.  The worker queue and the devcoredump framework appear only
  as ghost fields of the state and as premises of `engine_step`.
-/

namespace DpuDbg

/-! ## Machine integers and strings -/

/-- Truncation to an unsigned 32-bit value. -/
def u32 (n : Nat) : Nat := n % 2 ^ 32

/-- Reinterpretation of a 32-bit pattern as a signed 32-bit integer. -/
def s32 (n : Nat) : Int :=
  if n % 2 ^ 32 < 2 ^ 31 then ((n % 2 ^ 32 : Nat) : Int)
  else ((n % 2 ^ 32 : Nat) : Int) - 2 ^ 32

/-- Unsigned 32-bit subtraction `a - b` with wrap-around. -/
def u32_sub (a b : Nat) : Nat := (u32 a + (2 ^ 32 - u32 b)) % 2 ^ 32

/-- Contents of a NUL-terminated C string. -/
abbrev CStr := List Char

/-- Length of a C string, as `strlen`. -/
def strlen (s : CStr) : Nat := s.length

/-- Result of `strlcpy(dst, src, size)` in `dst` (kernel library routine, used
with `size = sizeof(dst)`): the first `size - 1` characters of `src`, the last
byte of the buffer being the terminating NUL. -/
def strlcpy (src : CStr) (size : Nat) : CStr := src.take (size - 1)

/-! ## Constants of dpu_dbg.h -/

def DPU_DBG_DUMP_IN_LOG : Nat := 1
def DPU_DBG_DUMP_IN_MEM : Nat := 2
def DPU_DBG_DUMP_IN_COREDUMP : Nat := 4
def DPU_DBG_BASE_MAX : Nat := 10
def DEFAULT_REGDUMP : Nat := DPU_DBG_DUMP_IN_MEM
def RANGE_NAME_LEN : Nat := 40
def REG_BASE_NAME_LEN : Nat := 80
def REG_DUMP_ALIGN : Nat := 16
def EINVAL : Int := 22
def ENOMEM : Int := 12

/-- The two dump contexts of `enum dpu_dbg_dump_context`. -/
inductive dpu_dbg_dump_context where
  | DPU_DBG_DUMP_PROC_CTX
  | DPU_DBG_DUMP_CLK_ENABLED_CTX
deriving DecidableEq, Repr

/-! ## Data model -/

/-- Start and end offset of a sub-range (`struct dpu_dbg_reg_offset`, both `u32`). -/
structure dpu_dbg_reg_offset where
  start : Nat
  end_ : Nat
deriving DecidableEq, Repr

/-- Named sub-range of a base (`struct dpu_dbg_reg_range`); `reg_dump` is the
capture buffer as a list of 32-bit words, `none` for a NULL pointer. -/
structure dpu_dbg_reg_range where
  reg_dump : Option (List Nat)
  range_name : CStr
  offset : dpu_dbg_reg_offset
  xin_id : Nat
deriving DecidableEq, Repr

/-- Register region (`struct dpu_dbg_reg_base`).  `base` is the io address
(0 for NULL), `cb` the optional external dump callback.  The fields `off`,
`cnt`, `buf`, `buf_len` and `cb_ptr` are never read by the code embedded here
and are left out. -/
structure dpu_dbg_reg_base where
  sub_range_list : List dpu_dbg_reg_range
  name : CStr
  base : Nat
  max_offset : Nat
  reg_dump : Option (List Nat)
  cb : Option Nat
deriving DecidableEq, Repr

/-- Observable actions of the dump path, in the order of the source. -/
inductive dbg_event where
  /-- entry into `_dpu_dump_reg_by_ranges` for the base behind the pointer -/
  | reader (dbg : Option Nat)
  /-- dev_info "=========%s DUMP=========" -/
  | log_banner (name : CStr)
  /-- drm_printf "=========%s DUMP=========" -/
  | dump_banner (name : CStr)
  /-- call of the external dump callback `dbg->cb(dbg->cb_ptr)` -/
  | cb (id : Nat)
  /-- dev_info "Ranges not found, will dump full registers" -/
  | log_no_ranges
  /-- dev_info "base:0x%pK len:0x%zx" -/
  | log_base_len (base len : Nat)
  /-- dev_info "%s: start_offset 0x%lx len 0x%zx" -/
  | log_start (name : CStr) (off len : Nat)
  /-- dev_info "%s: start_addr:0x%pK len:0x%x reg_offset=0x%lx" -/
  | log_mem (name : CStr) (len_padded reg_offset : Nat)
  /-- drm_printf "%s: start_addr:0x%pK len:0x%x reg_offset=0x%lx" -/
  | dump_mem (name : CStr) (len_padded reg_offset : Nat)
  /-- pm_runtime_get_sync with its return code -/
  | pm_get (rc : Int)
  /-- pm_runtime_put_sync -/
  | pm_put
  /-- readl_relaxed at an io address -/
  | readl (addr : Nat)
  /-- dev_info "0x%lx : %08x %08x %08x %08x" -/
  | log_line (off x0 x4 x8 xc : Nat)
  /-- drm_printf "0x%lx : %08x %08x %08x %08x" -/
  | dump_line (off w0 w1 w2 w3 : Nat)
  /-- drm_printf "---" -/
  | dump_sep
  /-- drm_printf "module: " KBUILD_MODNAME -/
  | dump_module
  /-- drm_printf "dpu devcoredump" -/
  | dump_title
  /-- drm_printf "timestamp %lld" -/
  | dump_timestamp (ns : Nat)
  /-- drm_printf "===================dpu regs================" -/
  | dump_regs_banner
  /-- drm_printf "===================dpu drm state================" -/
  | dump_state_banner
  /-- drm_atomic_print_new_state of the bound snapshot -/
  | dump_atomic_state (snapshot : Nat)
  /-- dereference of a NULL capture buffer (`dump_addr[i * 4]` with `dump_addr == NULL`) -/
  | oops
  /-- access to a word outside the allocation of the capture buffer
  (`dump_addr[i * 4 + k]` beyond its end) -/
  | overrun
  /-- panic(name) -/
  | halt (msg : CStr)
deriving DecidableEq, Repr

/-- The collaborators the reader consumes: hardware register contents, the
return code of the n-th `pm_runtime_get_sync` call and whether the n-th
allocation (`kzalloc`/`devm_kzalloc`) succeeds. -/
structure dpu_env where
  readl_relaxed : Nat → Nat
  pm_runtime_get_sync : Nat → Int
  kzalloc_ok : Nat → Bool

/-- The part of `struct dpu_dbg_base` that the register reader reads and
writes, with the cursors into the environment: `n_pm` and `n_alloc` count the
power-enable and allocation calls made so far; `dead` is set once the code has
halted (panic) or faulted. -/
structure dump_st where
  reg_base_list : List dpu_dbg_reg_base
  trace : List dbg_event
  n_pm : Nat
  n_alloc : Nat
  dead : Bool
deriving DecidableEq, Repr

/-- Global debug state (`struct dpu_dbg_base`, the static `dpu_dbg`).
`req_dump_blks` holds pointers to bases.  Ghost fields: `work_queued` (the
dump work is on the worker's queue), `published` (number of `dev_coredumpm`
calls made), `released` (number of artifacts the devcoredump framework has
released), `state_puts` (number of `drm_atomic_state_put` calls). -/
structure dpu_dbg_base extends dump_st where
  req_dump_blks : List (Option Nat)
  work_panic : Bool
  enable_reg_dump : Nat
  dump_all : Bool
  coredump_pending : Bool
  atomic_state : Option Nat
  timestamp : Nat
  dump_mode : dpu_dbg_dump_context
  work_queued : Bool
  published : Nat
  released : Nat
  state_puts : Nat
deriving DecidableEq, Repr

/-- Append one event to the trace. -/
def dump_st.emit (st : dump_st) (e : dbg_event) : dump_st :=
  { st with trace := st.trace ++ [e] }

/-! ## Pointers into `reg_base_list` -/

/-- The base a pointer refers to. -/
def deref_base : List dpu_dbg_reg_base → Nat → Option dpu_dbg_reg_base
  | [], _ => none
  | b :: rest, p => if p = rest.length then some b else deref_base rest p

/-- Store through a pointer to a base. -/
def store_base : List dpu_dbg_reg_base → Nat → dpu_dbg_reg_base → List dpu_dbg_reg_base
  | [], _, _ => []
  | b :: rest, p, v => if p = rest.length then v :: rest else b :: store_base rest p v

/-! ## dpu_dbg_util.c -/

/-- Whether power has to be enabled by the reader (`_dpu_power_check`). -/
def _dpu_power_check (dump_mode : dpu_dbg_dump_context) : Bool :=
  if dump_mode = .DPU_DBG_DUMP_CLK_ENABLED_CTX then false else true

/-- One `(cond) ? readl_relaxed(a) : 0` of the chunk loop. -/
def _dpu_dump_reg_word (env : dpu_env) (cond : Bool) (a : Nat) (st : dump_st) :
    Nat × dump_st :=
  if cond then (env.readl_relaxed a, st.emit (.readl a)) else (0, st)

/-- The three sinks of one chunk of `_dpu_dump_reg` (source lines 109-131),
given the four words `x0`, `x4`, `x8`, `xc` of the chunk; `dump_addr` is the
local of that name (`none` = NULL).  The Memory sink stores the four words in
ascending order and the Coredump sink loads them: when the last of them,
`dump_addr[i * 4 + 3]`, is outside the allocation the stores below the end of
the buffer have been made and the next access is the overrun. -/
def _dpu_dump_reg_sinks (in_log in_mem in_dump : Nat) (base_addr : Nat) (i addr : Nat)
    (x0 x4 x8 xc : Nat) (st : dump_st) (dump_addr : Option (List Nat)) :
    dump_st × Option (List Nat) :=
  let st1 := if in_log ≠ 0 then st.emit (.log_line (addr - base_addr) x0 x4 x8 xc) else st
  match dump_addr with
  | some b =>
    let b1 := if in_mem ≠ 0 then
        (((b.set (i * 4) x0).set (i * 4 + 1) x4).set (i * 4 + 2) x8).set (i * 4 + 3) xc
      else b
    if (in_mem ≠ 0 ∨ in_dump ≠ 0) ∧ ¬ (i * 4 + 3 < b.length ∧ i * 4 + 3 < 2 ^ 31) then
      ({ st1.emit .overrun with dead := true }, some b1)
    else if in_dump ≠ 0 then
      (st1.emit (.dump_line (addr - base_addr) (b1.getD (i * 4) 0) (b1.getD (i * 4 + 1) 0)
        (b1.getD (i * 4 + 2) 0) (b1.getD (i * 4 + 3) 0)), some b1)
    else (st1, some b1)
  | none =>
    if in_dump ≠ 0 then ({ st1.emit .oops with dead := true }, none)
    else (st1, none)

/-- Body of the chunk loop of `_dpu_dump_reg` (source lines 97-133) for chunk
`i` at address `addr`: the four guarded reads (made when `in_log || in_mem`),
then the sinks. -/
def _dpu_dump_reg_chunk (env : dpu_env) (in_log in_mem in_dump : Nat)
    (base_addr end_addr : Nat) (i addr : Nat) (st : dump_st)
    (dump_addr : Option (List Nat)) : dump_st × Option (List Nat) :=
  let rd : Bool := decide (in_log ≠ 0 ∨ in_mem ≠ 0)
  let r0 := _dpu_dump_reg_word env (rd && decide (addr < end_addr)) (addr + 0x0) st
  let r4 := _dpu_dump_reg_word env (rd && decide (addr + 0x4 < end_addr)) (addr + 0x4) r0.2
  let r8 := _dpu_dump_reg_word env (rd && decide (addr + 0x8 < end_addr)) (addr + 0x8) r4.2
  let rc := _dpu_dump_reg_word env (rd && decide (addr + 0xc < end_addr)) (addr + 0xc) r8.2
  _dpu_dump_reg_sinks in_log in_mem in_dump base_addr i addr r0.1 r4.1 r8.1 rc.1 rc.2 dump_addr

/-- The chunk loop `for (i = 0; i < len_align; i++) { ...; addr += REG_DUMP_ALIGN; }`
with `n` iterations left. -/
def _dpu_dump_reg_loop (env : dpu_env) (in_log in_mem in_dump : Nat)
    (base_addr end_addr : Nat) :
    Nat → Nat → Nat → dump_st → Option (List Nat) → dump_st × Option (List Nat)
  | 0, _, _, st, dump_addr => (st, dump_addr)
  | n + 1, i, addr, st, dump_addr =>
    if st.dead then (st, dump_addr)
    else
      let r := _dpu_dump_reg_chunk env in_log in_mem in_dump base_addr end_addr i addr st
        dump_addr
      _dpu_dump_reg_loop env in_log in_mem in_dump base_addr end_addr n (i + 1)
        (addr + REG_DUMP_ALIGN) r.1 r.2

/-- Locals of `_dpu_dump_reg` after the buffer set-up: the state, the object
`*dump_mem`, the local `dump_addr` and the local `in_mem`. -/
structure dump_reg_bufs where
  st : dump_st
  dump_mem : Option (List Nat)
  dump_addr : Option (List Nat)
  in_mem : Nat

/-- The two header lines printed once the capture buffer exists
(source lines 71-81). -/
def _dpu_dump_reg_headers (st : dump_st) (dump_name : CStr) (in_dump len_padded reg_offset : Nat) :
    dump_st :=
  let s := st.emit (.log_mem dump_name len_padded reg_offset)
  if in_dump ≠ 0 then s.emit (.dump_mem dump_name len_padded reg_offset) else s

/-- The buffer set-up of `_dpu_dump_reg` (source lines 64-86): allocation on
first use, headers, and `in_mem = 0` when there is no buffer. -/
def _dpu_dump_reg_alloc (env : dpu_env) (st : dump_st) (dump_name : CStr)
    (in_mem in_dump len_padded reg_offset : Nat) (dump_mem : Option (List Nat)) :
    dump_reg_bufs :=
  if in_mem ≠ 0 ∨ in_dump ≠ 0 then
    match dump_mem with
    | some b =>
      { st := _dpu_dump_reg_headers st dump_name in_dump len_padded reg_offset,
        dump_mem := some b, dump_addr := some b, in_mem := in_mem }
    | none =>
      if env.kzalloc_ok st.n_alloc then
        { st := _dpu_dump_reg_headers { st with n_alloc := st.n_alloc + 1 } dump_name in_dump
            len_padded reg_offset,
          dump_mem := some (List.replicate (len_padded / 4) 0),
          dump_addr := some (List.replicate (len_padded / 4) 0), in_mem := in_mem }
      else
        { st := { st with n_alloc := st.n_alloc + 1 }, dump_mem := none, dump_addr := none,
          in_mem := 0 }
  else { st := st, dump_mem := dump_mem, dump_addr := none, in_mem := in_mem }

/-- The power bracket and the chunk loop of `_dpu_dump_reg` (source lines
88-137), run on the locals left by the buffer set-up; the result carries the
new value of `*dump_mem`. -/
def _dpu_dump_reg_run (env : dpu_env) (dump_mode : dpu_dbg_dump_context)
    (in_log in_dump base_addr end_addr len_align addr : Nat) (bufs : dump_reg_bufs) :
    dump_st × Option (List Nat) :=
  if _dpu_power_check dump_mode = true then
    let rc := env.pm_runtime_get_sync bufs.st.n_pm
    let st2 : dump_st := { bufs.st.emit (.pm_get rc) with n_pm := bufs.st.n_pm + 1 }
    if rc < 0 then (st2, bufs.dump_mem)
    else
      let r := _dpu_dump_reg_loop env in_log bufs.in_mem in_dump base_addr end_addr
        len_align 0 addr st2 bufs.dump_addr
      let dump_mem2 := match r.2 with
        | some b => some b
        | none => bufs.dump_mem
      if r.1.dead then (r.1, dump_mem2) else (r.1.emit .pm_put, dump_mem2)
  else
    let r := _dpu_dump_reg_loop env in_log bufs.in_mem in_dump base_addr end_addr
      len_align 0 addr bufs.st bufs.dump_addr
    let dump_mem2 := match r.2 with
      | some b => some b
      | none => bufs.dump_mem
    (r.1, dump_mem2)

/-- Dump of one window (`_dpu_dump_reg`).  `dump_mem` is the object `*dump_mem`
(both callers pass the address of a `reg_dump` field, never NULL); the result
carries its new value. -/
def _dpu_dump_reg (env : dpu_env) (dump_mode : dpu_dbg_dump_context) (st : dump_st)
    (dump_name : CStr) (reg_dump_flag : Nat) (base_addr addr len_bytes : Nat)
    (dump_mem : Option (List Nat)) : dump_st × Option (List Nat) :=
  if len_bytes = 0 then (st, dump_mem)
  else
    let in_log := reg_dump_flag &&& DPU_DBG_DUMP_IN_LOG
    let in_mem := reg_dump_flag &&& DPU_DBG_DUMP_IN_MEM
    let in_dump := reg_dump_flag &&& DPU_DBG_DUMP_IN_COREDUMP
    if in_log = 0 ∧ in_mem = 0 ∧ in_dump = 0 then (st, dump_mem)
    else
      let st1 := if in_log ≠ 0 then st.emit (.log_start dump_name (addr - base_addr) len_bytes)
        else st
      let len_align := u32 ((len_bytes + REG_DUMP_ALIGN - 1) / REG_DUMP_ALIGN)
      let len_padded := u32 (len_align * REG_DUMP_ALIGN)
      let end_addr := addr + len_bytes
      let bufs := _dpu_dump_reg_alloc env st1 dump_name in_mem in_dump len_padded
        (addr - base_addr) dump_mem
      _dpu_dump_reg_run env dump_mode in_log in_dump base_addr end_addr len_align addr bufs

/-- Length of the window of a range (`_dpu_dbg_get_dump_range`); `max_offset`
is a `size_t`, the result a `u32`. -/
def _dpu_dbg_get_dump_range (range_node : dpu_dbg_reg_offset) (max_offset : Nat) : Nat :=
  if range_node.start = 0 ∧ range_node.end_ = 0 then
    u32 max_offset
  else if range_node.start < max_offset then
    if range_node.end_ > max_offset then
      u32 (max_offset - range_node.start)
    else if range_node.start < range_node.end_ then
      u32 (range_node.end_ - range_node.start)
    else 0
  else 0

/-- Comparison callback handed to `list_sort` (`_dpu_dump_reg_range_cmp`): the
`u32` difference of the start offsets, returned as `int`. -/
def _dpu_dump_reg_range_cmp (a b : Option dpu_dbg_reg_range) : Int :=
  match a, b with
  | some ar, some br => s32 (u32_sub ar.offset.start br.offset.start)
  | _, _ => 0

/-- Modelled from the spec: `list_sort` (lib/list_sort.c) is not among the
sources.  It is the stable merge sort of the kernel: a node `b` is moved in
front of a node `a` that preceded it only when `cmp(a, b) > 0`.  This is the
merge of the single node `x` with the already sorted later nodes. -/
def list_sort_insert {α : Type} (cmp : Option α → Option α → Int) (x : α) : List α → List α
  | [] => [x]
  | y :: b =>
    if cmp (some x) (some y) ≤ 0 then x :: y :: b
    else y :: list_sort_insert cmp x b

/-- Modelled from the spec: `list_sort(priv, head, cmp)` (lib/list_sort.c is
not among the sources), a stable sort driven by the sign of `cmp`. -/
def list_sort {α : Type} (cmp : Option α → Option α → Int) : List α → List α
  | [] => []
  | x :: l => list_sort_insert cmp x (list_sort cmp l)

/-- The loop `list_for_each_entry(range_node, &dbg->sub_range_list, head)` of
`_dpu_dump_reg_by_ranges` (source lines 210-224); returns the ranges with their
`reg_dump` pointers as the dump left them. -/
def _dpu_dump_reg_ranges (env : dpu_env) (dump_mode : dpu_dbg_dump_context)
    (reg_dump_flag : Nat) (base max_offset : Nat) :
    dump_st → List dpu_dbg_reg_range → dump_st × List dpu_dbg_reg_range
  | st, [] => (st, [])
  | st, range_node :: rest =>
    if st.dead then (st, range_node :: rest)
    else
      let len := _dpu_dbg_get_dump_range range_node.offset max_offset
      let addr := base + range_node.offset.start
      let r := _dpu_dump_reg env dump_mode st range_node.range_name reg_dump_flag base addr len
        range_node.reg_dump
      let r2 := _dpu_dump_reg_ranges env dump_mode reg_dump_flag base max_offset r.1 rest
      (r2.1, { range_node with reg_dump := r.2 } :: r2.2)

/-- The three-way branch of `_dpu_dump_reg_by_ranges` (source lines 204-236)
for the base `b` behind the pointer `p`: the callback, else the sorted ranges,
else the whole base. -/
def _dpu_dump_reg_by_ranges_body (env : dpu_env) (dump_mode : dpu_dbg_dump_context)
    (reg_dump_flag : Nat) (p : Nat) (b : dpu_dbg_reg_base) (st : dump_st) : dump_st :=
  match b.cb with
  | some id => st.emit (.cb id)
  | none =>
    if b.sub_range_list ≠ [] then
      let sorted := list_sort _dpu_dump_reg_range_cmp b.sub_range_list
      let r := _dpu_dump_reg_ranges env dump_mode reg_dump_flag b.base b.max_offset st sorted
      { r.1 with reg_base_list :=
          store_base r.1.reg_base_list p { b with sub_range_list := r.2 } }
    else
      let st3 := (st.emit .log_no_ranges).emit (.log_base_len b.base b.max_offset)
      let r := _dpu_dump_reg env dump_mode st3 b.name reg_dump_flag b.base b.base
        b.max_offset b.reg_dump
      { r.1 with reg_base_list :=
          store_base r.1.reg_base_list p { b with reg_dump := r.2 } }

/-- Dump of one base by its ranges or as a whole (`_dpu_dump_reg_by_ranges`).
`dbg` is the pointer to the base (`none` = NULL, a pointer to no node is
treated alike). -/
def _dpu_dump_reg_by_ranges (env : dpu_env) (dump_mode : dpu_dbg_dump_context) (st : dump_st)
    (dbg : Option Nat) (reg_dump_flag : Nat) : dump_st :=
  let st0 := st.emit (.reader dbg)
  match dbg with
  | none => st0
  | some p =>
    match deref_base st.reg_base_list p with
    | none => st0
    | some b =>
      if b.base = 0 ∧ b.cb = none then st0
      else
        let st1 := st0.emit (.log_banner b.name)
        let st2 := if reg_dump_flag &&& DPU_DBG_DUMP_IN_COREDUMP ≠ 0 then
            st1.emit (.dump_banner b.name)
          else st1
        _dpu_dump_reg_by_ranges_body env dump_mode reg_dump_flag p b st2

/-- Lookup of a base by name (`_dpu_dump_get_blk_addr`): the first node of the
list whose name is non-empty and equal to `blk_name`. -/
def _dpu_dump_get_blk_addr : List dpu_dbg_reg_base → CStr → Option Nat
  | [], _ => none
  | blk_base :: rest, blk_name =>
    if strlen blk_base.name ≠ 0 ∧ blk_base.name = blk_name then some rest.length
    else _dpu_dump_get_blk_addr rest blk_name

/-- Dump of the base of a given name (`_dpu_dump_reg_by_blk`): the scan of the
list is the one of `_dpu_dump_get_blk_addr`, the first match is dumped. -/
def _dpu_dump_reg_by_blk (env : dpu_env) (dump_mode : dpu_dbg_dump_context)
    (enable_reg_dump : Nat) (st : dump_st) (blk_name : CStr) : dump_st :=
  match _dpu_dump_get_blk_addr st.reg_base_list blk_name with
  | some p => _dpu_dump_reg_by_ranges env dump_mode st (some p) enable_reg_dump
  | none => st

/-- The pointers to the nodes of a list of `n` bases, in list order. -/
def blk_pointers (n : Nat) : List Nat := (List.range n).reverse

/-- Dump of all bases (`_dpu_dump_reg_all`): walks the list and dumps by the
name found in each node. -/
def _dpu_dump_reg_all (env : dpu_env) (dump_mode : dpu_dbg_dump_context)
    (enable_reg_dump : Nat) (st : dump_st) : dump_st :=
  (blk_pointers st.reg_base_list.length).foldl
    (fun st p =>
      if st.dead then st
      else
        match deref_base st.reg_base_list p with
        | none => st
        | some blk_base =>
          if strlen blk_base.name = 0 then st
          else _dpu_dump_reg_by_blk env dump_mode enable_reg_dump st blk_base.name)
    st

/-- Dump of an array of base pointers or of everything (`_dpu_dump_array`);
`blk_arr` is `none` for a NULL array pointer. -/
def _dpu_dump_array (env : dpu_env) (dbg_base : dpu_dbg_base)
    (blk_arr : Option (List (Option Nat))) (len : Nat) (do_panic : Bool) (name : CStr)
    (dump_all : Bool) : dpu_dbg_base :=
  let st := dbg_base.todump_st
  let st1 :=
    if dump_all = true ∨ blk_arr = none ∨ len = 0 then
      _dpu_dump_reg_all env dbg_base.dump_mode dbg_base.enable_reg_dump st
    else
      (List.range len).foldl
        (fun st i =>
          if st.dead then st
          else
            match (blk_arr.getD []).getD i none with
            | some p =>
              _dpu_dump_reg_by_ranges env dbg_base.dump_mode st (some p)
                dbg_base.enable_reg_dump
            | none => st)
        st
  let st2 :=
    if st1.dead then st1
    else if do_panic then { st1.emit (.halt name) with dead := true }
    else st1
  { dbg_base with todump_st := st2 }

/-! ## dpu_dbg.c -/

/-- The zero-initialised static object `dpu_dbg`. -/
def dpu_dbg_static : dpu_dbg_base :=
  { reg_base_list := [], trace := [], n_pm := 0, n_alloc := 0, dead := false,
    req_dump_blks := List.replicate DPU_DBG_BASE_MAX none, work_panic := false,
    enable_reg_dump := 0, dump_all := false, coredump_pending := false,
    atomic_state := none, timestamp := 0,
    dump_mode := .DPU_DBG_DUMP_PROC_CTX, work_queued := false, published := 0,
    released := 0, state_puts := 0 }

/-- Initialisation (`dpu_dbg_init`); `dev` is `none` for a NULL device. -/
def dpu_dbg_init (dbg : dpu_dbg_base) (dev : Option Nat) : Int × dpu_dbg_base :=
  match dev with
  | none => (-EINVAL, dbg)
  | some _ =>
    (0, { dbg with reg_base_list := [], work_panic := false,
                   enable_reg_dump := DEFAULT_REGDUMP })

/-- Registration of a base (`dpu_dbg_reg_register_base`); `name` is `none`
for a NULL pointer. -/
def dpu_dbg_reg_register_base (env : dpu_env) (dbg : dpu_dbg_base) (name : Option CStr)
    (base max_offset : Nat) : Int × dpu_dbg_base :=
  match name with
  | none => (-EINVAL, dbg)
  | some nm =>
    if strlen nm = 0 then (-EINVAL, dbg)
    else if env.kzalloc_ok dbg.n_alloc = false then
      (-ENOMEM, { dbg with n_alloc := dbg.n_alloc + 1 })
    else
      let reg_base : dpu_dbg_reg_base :=
        { sub_range_list := [], name := strlcpy nm REG_BASE_NAME_LEN, base := base,
          max_offset := max_offset, reg_dump := none, cb := none }
      (0, { dbg with n_alloc := dbg.n_alloc + 1,
                     reg_base_list := reg_base :: dbg.reg_base_list })

/-- Registration of a sub-range of a base (`dpu_dbg_reg_register_dump_range`);
`range_name` is `none` for a NULL pointer, the offsets are `u32`. -/
def dpu_dbg_reg_register_dump_range (env : dpu_env) (dbg : dpu_dbg_base) (base_name : CStr)
    (range_name : Option CStr) (offset_start offset_end xin_id : Nat) : dpu_dbg_base :=
  match _dpu_dump_get_blk_addr dbg.reg_base_list base_name with
  | none => dbg
  | some p =>
    match range_name with
    | none => dbg
    | some rn =>
      if strlen rn = 0 then dbg
      else if u32_sub offset_end offset_start < REG_DUMP_ALIGN ∨ offset_start > offset_end then
        dbg
      else if env.kzalloc_ok dbg.n_alloc = false then
        { dbg with n_alloc := dbg.n_alloc + 1 }
      else
        let range : dpu_dbg_reg_range :=
          { reg_dump := none, range_name := strlcpy rn RANGE_NAME_LEN,
            offset := { start := offset_start, end_ := offset_end }, xin_id := xin_id }
        match deref_base dbg.reg_base_list p with
        | none => dbg
        | some reg_base =>
          { dbg with
            n_alloc := dbg.n_alloc + 1,
            reg_base_list := store_base dbg.reg_base_list p
              { reg_base with sub_range_list := reg_base.sub_range_list ++ [range] } }

/-- Locals of the argument loop of `dpu_dbg_dump`. -/
structure dump_args where
  blk_arr : List (Option Nat)
  index : Nat
  do_panic : Bool
  dump_all : Bool
deriving DecidableEq, Repr

/-- One turn of the loop `while ((blk_name = va_arg(args, char*)))`
of `dpu_dbg_dump` (source lines 159-181). -/
def dpu_dbg_dump_arg (reg_base_list : List dpu_dbg_reg_base) (blk_len : Nat)
    (a : dump_args) (blk_name : CStr) : dump_args :=
  let a1 :=
    match _dpu_dump_get_blk_addr reg_base_list blk_name with
    | some blk_base =>
      if a.index < blk_len then
        { a with blk_arr := a.blk_arr.set a.index (some blk_base), index := a.index + 1 }
      else a
    | none => a
  let a2 := if blk_name = "all".toList then { a1 with dump_all := true } else a1
  if blk_name = "panic".toList then { a2 with do_panic := true } else a2

/-- The dump trigger (`dpu_dbg_dump`); `targets` are the variadic arguments up
to the terminating NULL, `name` is the origin label. -/
def dpu_dbg_dump (dbg : dpu_dbg_base) (dump_mode : dpu_dbg_dump_context) (name : CStr)
    (targets : List CStr) : dpu_dbg_base :=
  if (dbg.enable_reg_dump = DPU_DBG_DUMP_IN_MEM ∨
      dbg.enable_reg_dump = DPU_DBG_DUMP_IN_COREDUMP) ∧ dbg.coredump_pending = true then
    dbg
  else
    let blk_len := DPU_DBG_BASE_MAX
    let a := targets.foldl (dpu_dbg_dump_arg dbg.reg_base_list blk_len)
      { blk_arr := List.replicate DPU_DBG_BASE_MAX none, index := 0, do_panic := false,
        dump_all := false }
    { dbg with req_dump_blks := a.blk_arr, dump_mode := dump_mode,
               work_panic := a.do_panic, dump_all := a.dump_all, work_queued := true }

/-- The deferred dump work (`_dpu_dump_work`, with CONFIG_DEV_COREDUMP); `now`
is the value of `ktime_get()`, `snapshot` the duplicated atomic state. -/
def _dpu_dump_work (dbg : dpu_dbg_base) (now snapshot : Nat) : dpu_dbg_base :=
  let d1 := { dbg with enable_reg_dump := DEFAULT_REGDUMP }
  -- dpu_devcoredump_capture_state()
  let d2 := { d1 with timestamp := now, atomic_state := some snapshot }
  if d2.enable_reg_dump &&& DPU_DBG_DUMP_IN_MEM ≠ 0 then
    -- dev_coredumpm(...); dpu_dbg.coredump_pending = true;
    { d2 with published := d2.published + 1, coredump_pending := true }
  else d2

/-- The pull read of the artifact (`dpu_devcoredump_read`): what it prints and
what it does to the state; the byte window `offset`, `count` of the printer is
not part of this function. -/
def dpu_devcoredump_read (env : dpu_env) (dbg : dpu_dbg_base) : dpu_dbg_base :=
  let st1 := (((dbg.todump_st.emit .dump_sep).emit .dump_module).emit .dump_title).emit
    (.dump_timestamp dbg.timestamp)
  let d1 := { dbg with todump_st := st1, enable_reg_dump := DPU_DBG_DUMP_IN_COREDUMP }
  let d2 := { d1 with todump_st := d1.todump_st.emit .dump_regs_banner }
  let d3 := _dpu_dump_array env d2 (some d2.req_dump_blks) DPU_DBG_BASE_MAX d2.work_panic
    "evtlog_workitem".toList d2.dump_all
  if d3.dead then d3
  else
    let st4 := d3.todump_st.emit .dump_state_banner
    match d3.atomic_state with
    | some snapshot => { d3 with todump_st := st4.emit (.dump_atomic_state snapshot) }
    | none => { d3 with todump_st := st4 }

/-- Release of the artifact (`dpu_devcoredump_free`). -/
def dpu_devcoredump_free (dbg : dpu_dbg_base) : dpu_dbg_base :=
  let d1 :=
    match dbg.atomic_state with
    | some _ => { dbg with state_puts := dbg.state_puts + 1, atomic_state := none }
    | none => dbg
  { d1 with coredump_pending := false }

/-- Write to the debugfs file (`dpu_debugfs_set`). -/
def dpu_debugfs_set (env : dpu_env) (dbg : dpu_dbg_base) (value : Nat) : dpu_dbg_base :=
  if value = 42 then
    _dpu_dump_array env dbg (some dbg.req_dump_blks) DPU_DBG_BASE_MAX false "42isans".toList
      true
  else dbg

/-! ## The engine as a transition system -/

/-- One sequential step of the engine.  The dump work runs only when queued
(the worker takes it off the queue first); the devcoredump framework calls the
read and free callbacks only for a published artifact that it has not
released yet, and calls free once per artifact; nothing runs after a halt. -/
inductive engine_step (env : dpu_env) : dpu_dbg_base → dpu_dbg_base → Prop where
  | register_base (s : dpu_dbg_base) (name : Option CStr) (base max_offset : Nat) :
      s.dead = false →
      engine_step env s (dpu_dbg_reg_register_base env s name base max_offset).2
  | register_dump_range (s : dpu_dbg_base) (base_name : CStr) (range_name : Option CStr)
      (offset_start offset_end xin_id : Nat) :
      s.dead = false →
      engine_step env s
        (dpu_dbg_reg_register_dump_range env s base_name range_name offset_start offset_end
          xin_id)
  | dump (s : dpu_dbg_base) (dump_mode : dpu_dbg_dump_context) (name : CStr)
      (targets : List CStr) :
      s.dead = false → engine_step env s (dpu_dbg_dump s dump_mode name targets)
  | work (s : dpu_dbg_base) (now snapshot : Nat) :
      s.dead = false → s.work_queued = true →
      engine_step env s (_dpu_dump_work { s with work_queued := false } now snapshot)
  | read (s : dpu_dbg_base) :
      s.dead = false → s.released < s.published →
      engine_step env s (dpu_devcoredump_read env s)
  | free (s : dpu_dbg_base) :
      s.dead = false → s.released < s.published →
      engine_step env s { dpu_devcoredump_free s with released := s.released + 1 }
  | debugfs_set (s : dpu_dbg_base) (value : Nat) :
      s.dead = false → engine_step env s (dpu_debugfs_set env s value)

/-- States reachable from `dpu_dbg_init` on the static object. -/
inductive engine_reachable (env : dpu_env) : dpu_dbg_base → Prop where
  | init (dev : Nat) : engine_reachable env (dpu_dbg_init dpu_dbg_static (some dev)).2
  | step (s t : dpu_dbg_base) :
      engine_reachable env s → engine_step env s t → engine_reachable env t

/-- Number of artifacts published and not yet released. -/
def artifacts_outstanding (s : dpu_dbg_base) : Nat := s.published - s.released

/-- The pointers for which `_dpu_dump_reg_by_ranges` was entered, in order. -/
def reader_calls (trace : List dbg_event) : List (Option Nat) :=
  trace.filterMap (fun e => match e with
    | .reader dbg => some dbg
    | _ => none)

/-- An environment in which every allocation and every power enable succeeds
and every register reads as its own address. -/
def env_ok : dpu_env :=
  { readl_relaxed := fun a => a, pm_runtime_get_sync := fun _ => 0, kzalloc_ok := fun _ => true }

/-- The engine right after `dpu_dbg_init`. -/
def dbg0 : dpu_dbg_base := (dpu_dbg_init dpu_dbg_static (some 1)).2

/-- A range node with no capture buffer. -/
def mk_range (name : String) (start end_ : Nat) : dpu_dbg_reg_range :=
  { reg_dump := none, range_name := name.toList, offset := { start := start, end_ := end_ },
    xin_id := 0 }

/-- The engine after registering base "mdp" (length 0x90000000) and on it the
ranges "hi" = (0x80000001, 0x80000011) and "lo" = (0, 16), in this order. -/
def dbg_wrap : dpu_dbg_base :=
  dpu_dbg_reg_register_dump_range env_ok
    (dpu_dbg_reg_register_dump_range env_ok
      (dpu_dbg_reg_register_base env_ok dbg0 (some "mdp".toList) 0x1000 0x90000000).2
      "mdp".toList (some "hi".toList) 0x80000001 0x80000011 0)
    "mdp".toList (some "lo".toList) 0 16 0

def register_all (env : dpu_env) (dbg : dpu_dbg_base) (regs : List (CStr × Nat × Nat)) :
    dpu_dbg_base :=
  regs.foldl (fun s r => (dpu_dbg_reg_register_base env s (some r.1) r.2.1 r.2.2).2) dbg

def fresh_base (r : CStr × Nat × Nat) : dpu_dbg_reg_base :=
  { sub_range_list := [], name := r.1, base := r.2.1, max_offset := r.2.2, reg_dump := none,
    cb := none }

def dbg_mdp : dpu_dbg_base :=
  (dpu_dbg_reg_register_base env_ok dbg0 (some "mdp".toList) 0x1000 0x100).2

/-- The bases the target names resolve to, in argument order, unknown names
skipped (the selection in the words of the specification). -/
def resolved_targets (reg_base_list : List dpu_dbg_reg_base) (targets : List CStr) : List Nat :=
  targets.filterMap (_dpu_dump_get_blk_addr reg_base_list)

/-- The selection array the specification describes: the first `DPU_DBG_BASE_MAX`
resolved bases, the remaining slots empty. -/
def selection_of (reg_base_list : List dpu_dbg_reg_base) (targets : List CStr) :
    List (Option Nat) :=
  ((resolved_targets reg_base_list targets).take DPU_DBG_BASE_MAX).map some ++
    List.replicate (DPU_DBG_BASE_MAX - (resolved_targets reg_base_list targets).length) none

/-- The engine with a single base registered under the name "all". -/
def dbg_all : dpu_dbg_base :=
  (dpu_dbg_reg_register_base env_ok dbg0 (some "all".toList) 0x1000 0x100).2

/-- The bookkeeping invariant of the engine. -/
def engine_inv (s : dpu_dbg_base) : Prop :=
  (s.enable_reg_dump = DPU_DBG_DUMP_IN_MEM ∨ s.enable_reg_dump = DPU_DBG_DUMP_IN_COREDUMP) ∧
    s.released ≤ s.published ∧ s.published ≤ s.released + 1 ∧
    (s.coredump_pending = true ↔ s.published = s.released + 1) ∧
    (s.coredump_pending = true → s.work_queued = false)

/-- Relation between the reader state before and after a piece of the dump
path that enters no base: same list of bases, same reader entries in the
trace, and no fault when there was none. -/
def steady (st st' : dump_st) : Prop :=
  st'.reg_base_list = st.reg_base_list ∧
    reader_calls st'.trace = reader_calls st.trace ∧
    (st.dead = false → st'.dead = false)

/-- The capture buffer behind `dump_addr` (if there is one) has room for `n`
chunks of four words, at indices the `int` expression `i * 4 + 3` can
represent. -/
def has_room (n : Nat) (dump_addr : Option (List Nat)) : Prop :=
  ∀ b, dump_addr = some b → n * 4 ≤ b.length ∧ n * 4 ≤ 2 ^ 31

/-- A window of `len_bytes` bytes whose capture buffer can be used without an
access outside the allocation: the padded length `16 * ceil(len_bytes / 16)`
fits the 32-bit local `len_padded` (so that a buffer allocated by the dump has
all the chunks), and a buffer that exists has the `4 * ceil(len_bytes / 16)`
words of the chunks. -/
def window_fits (len_bytes : Nat) (dump_mem : Option (List Nat)) : Prop :=
  len_bytes ≤ 2 ^ 32 - 16 ∧ ∀ b, dump_mem = some b → 4 * ((len_bytes + 15) / 16) ≤ b.length

/-- Every window the reader can dump from the catalog fits its capture
buffer: the whole base when it has no ranges, else each of its ranges. -/
def catalog_fits (l : List dpu_dbg_reg_base) : Prop :=
  ∀ b ∈ l, (b.sub_range_list = [] → window_fits b.max_offset b.reg_dump) ∧
    ∀ r ∈ b.sub_range_list,
      window_fits (_dpu_dbg_get_dump_range r.offset b.max_offset) r.reg_dump

/-- The engine with base "mdp" after the trigger `dpu_dbg_dump` with an empty
target list. -/
def dbg_req_empty : dpu_dbg_base :=
  dpu_dbg_dump dbg_mdp .DPU_DBG_DUMP_PROC_CTX "test".toList []

/-- An environment in which every allocation fails. -/
def env_nomem : dpu_env :=
  { readl_relaxed := fun a => a, pm_runtime_get_sync := fun _ => 0, kzalloc_ok := fun _ => false }

/-- The engine after registering base "a" (0x10 bytes) and then base "big"
(`2^32` bytes). -/
def dbg_a_big : dpu_dbg_base :=
  (dpu_dbg_reg_register_base env_ok
    (dpu_dbg_reg_register_base env_ok dbg0 (some "a".toList) 0x1000 0x10).2
    (some "big".toList) 0x100000 (2 ^ 32)).2

/-- The engine with the bases "a" and "big" after the trigger
`dpu_dbg_dump(DPU_DBG_DUMP_PROC_CTX, "test", "big", "panic")` and the run of
the dump work that processes it (timestamp 5, snapshot 9). -/
def dbg_big_panic : dpu_dbg_base :=
  _dpu_dump_work
    { dpu_dbg_dump dbg_a_big .DPU_DBG_DUMP_PROC_CTX "test".toList
        ["big".toList, "panic".toList] with
      work_queued := false } 5 9

/-- The engine with the one base "wide" (`2^32 + 16` bytes) after the trigger
`dpu_dbg_dump(DPU_DBG_DUMP_PROC_CTX, "test", "wide")` and the run of the dump
work (timestamp 5, snapshot 9). -/
def dbg_wide_dumped : dpu_dbg_base :=
  _dpu_dump_work
    { dpu_dbg_dump
        (dpu_dbg_reg_register_base env_ok dbg0 (some "wide".toList) 0x100000 (2 ^ 32 + 16)).2
        .DPU_DBG_DUMP_PROC_CTX "test".toList ["wide".toList] with
      work_queued := false } 5 9

/-- Catalogs reachable from `dpu_dbg_init` through `dpu_dbg_reg_register_base`
and `dpu_dbg_reg_register_dump_range`, the offsets being `u32` arguments. -/
inductive catalog_reachable (env : dpu_env) : dpu_dbg_base → Prop where
  | init (dev : Nat) : catalog_reachable env (dpu_dbg_init dpu_dbg_static (some dev)).2
  | register_base (s : dpu_dbg_base) (name : Option CStr) (base max_offset : Nat) :
      catalog_reachable env s →
      catalog_reachable env (dpu_dbg_reg_register_base env s name base max_offset).2
  | register_dump_range (s : dpu_dbg_base) (base_name : CStr) (range_name : Option CStr)
      (offset_start offset_end xin_id : Nat) :
      catalog_reachable env s → offset_start < 2 ^ 32 → offset_end < 2 ^ 32 →
      catalog_reachable env
        (dpu_dbg_reg_register_dump_range env s base_name range_name offset_start offset_end
          xin_id)

/-- Every stored range is a 32-bit range at least one alignment unit wide. -/
def ranges_wide (l : List dpu_dbg_reg_base) : Prop :=
  ∀ b ∈ l, ∀ r ∈ b.sub_range_list,
    r.offset.start < r.offset.end_ ∧ 16 ≤ r.offset.end_ - r.offset.start ∧
      r.offset.end_ < 2 ^ 32

/-- Events of the chunk loop of `_dpu_dump_reg`: a register read inside
`[lo, hi)`, a chunk line of the Log or Coredump sink, or the fault. -/
def chunk_event (lo hi : Nat) : dbg_event → Prop
  | .readl a => lo ≤ a ∧ a < hi
  | .log_line _ _ _ _ _ => True
  | .dump_line _ _ _ _ _ => True
  | .oops => True
  | .overrun => True
  | _ => False

/-- Events of `_dpu_dump_reg` ahead of the power enable: the window headers. -/
def header_event : dbg_event → Prop
  | .log_start _ _ _ => True
  | .log_mem _ _ _ => True
  | .dump_mem _ _ _ => True
  | _ => False

/-- Events of the register reader: everything but the halt and the lines
`dpu_devcoredump_read` prints itself. -/
def dump_path_event : dbg_event → Prop
  | .halt _ => False
  | .dump_sep => False
  | .dump_module => False
  | .dump_title => False
  | .dump_timestamp _ => False
  | .dump_regs_banner => False
  | .dump_state_banner => False
  | .dump_atomic_state _ => False
  | _ => True

/-- Events of the register reader on a base whose io region is `[lo, hi)`:
as `dump_path_event`, with every register read inside the region. -/
def reader_event (lo hi : Nat) (e : dbg_event) : Prop :=
  dump_path_event e ∧ ∀ a, e = .readl a → lo ≤ a ∧ a < hi

/-- The trace of `st'` is the trace of `st` followed by events that all
satisfy `P`. -/
def emits (P : dbg_event → Prop) (st st' : dump_st) : Prop :=
  ∃ new, st'.trace = st.trace ++ new ∧ ∀ e ∈ new, P e

/-- The lines `dpu_devcoredump_read` prints ahead of the register dump. -/
def coredump_header (timestamp : Nat) : List dbg_event :=
  [.dump_sep, .dump_module, .dump_title, .dump_timestamp timestamp, .dump_regs_banner]

/-- The lines `dpu_devcoredump_read` prints after the register dump: the
drm-state banner, then the snapshot when one is bound. -/
def coredump_tail (atomic_state : Option Nat) : List dbg_event :=
  .dump_state_banner ::
    (match atomic_state with
      | some snapshot => [.dump_atomic_state snapshot]
      | none => [])


/-- The value the chunk loop of `_dpu_dump_reg` uses for the word at address
`a`: the register when reads are made (`rd`, that is `in_log || in_mem`) and
`a` is below `end_addr`, else 0. -/
def chunk_word (env : dpu_env) (rd : Bool) (end_addr a : Nat) : Nat :=
  if rd = true ∧ a < end_addr then env.readl_relaxed a else 0

/-- The addresses of the register reads of the chunk at `addr`, in order. -/
def chunk_reads (rd : Bool) (end_addr addr : Nat) : List Nat :=
  [addr, addr + 4, addr + 8, addr + 12].filter (fun a => rd && decide (a < end_addr))

/-- The engine with base "mdp" after the trigger
`dpu_dbg_dump(DPU_DBG_DUMP_PROC_CTX, "test", "mdp")` and the run of the dump
work that processes it (timestamp 5, snapshot 9). -/
def dbg_mdp_dumped : dpu_dbg_base :=
  _dpu_dump_work
    { dpu_dbg_dump dbg_mdp .DPU_DBG_DUMP_PROC_CTX "test".toList ["mdp".toList] with
      work_queued := false } 5 9

/-- The engine with base "mdp" after the trigger
`dpu_dbg_dump(DPU_DBG_DUMP_PROC_CTX, "test", "mdp", "panic")` and the run of
the dump work that processes it (timestamp 5, snapshot 9). -/
def dbg_mdp_panic : dpu_dbg_base :=
  _dpu_dump_work
    { dpu_dbg_dump dbg_mdp .DPU_DBG_DUMP_PROC_CTX "test".toList
        ["mdp".toList, "panic".toList] with
      work_queued := false } 5 9

/-- The addresses of the register reads in a trace, in order. -/
def readl_addrs (trace : List dbg_event) : List Nat :=
  trace.filterMap (fun e => match e with
    | .readl a => some a
    | _ => none)

/-- The chunk lines of the Log sink in a trace, in order: byte offset and the
four words. -/
def log_lines (trace : List dbg_event) : List (Nat × Nat × Nat × Nat × Nat) :=
  trace.filterMap (fun e => match e with
    | .log_line off x0 x4 x8 xc => some (off, x0, x4, x8, xc)
    | _ => none)

/-- The chunk lines of the Coredump sink in a trace, in order: byte offset and
the four words. -/
def dump_lines (trace : List dbg_event) : List (Nat × Nat × Nat × Nat × Nat) :=
  trace.filterMap (fun e => match e with
    | .dump_line off w0 w1 w2 w3 => some (off, w0, w1, w2, w3)
    | _ => none)

/-- Word `k` of chunk `i` of the window `(addr, len)` in the words of the
specification: the register at `addr + 16 * i + 4 * k` when
`16 * i + 4 * k < len`, else 0. -/
def window_word (env : dpu_env) (addr len i k : Nat) : Nat :=
  if 16 * i + 4 * k < len then env.readl_relaxed (addr + 16 * i + 4 * k) else 0

/-- The register reads of the window `(addr, len)` in the words of the
specification: chunk by chunk, the words `k = 0..3` of chunk `i` with
`16 * i + 4 * k < len`. -/
def window_reads (addr len : Nat) : List Nat :=
  (List.range ((len + 15) / 16)).flatMap (fun i =>
    ([0, 1, 2, 3].filter (fun k => decide (16 * i + 4 * k < len))).map
      (fun k => addr + 16 * i + 4 * k))

/-- Whether an event is a line printed through the coredump printer
(`drm_printf` and `drm_atomic_print_new_state` on `dpu_dbg_printer`). -/
def printer_event : dbg_event → Bool
  | .dump_banner _ => true
  | .dump_mem _ _ _ => true
  | .dump_line _ _ _ _ _ => true
  | .dump_sep => true
  | .dump_module => true
  | .dump_title => true
  | .dump_timestamp _ => true
  | .dump_regs_banner => true
  | .dump_state_banner => true
  | .dump_atomic_state _ => true
  | _ => false

/-- The lines printed through the coredump printer in a trace, in order. -/
def coredump_text (trace : List dbg_event) : List dbg_event := trace.filter printer_event

/-- The engine after `dpu_dbg_init`, the registration of one base
`(name, base, max_offset)`, the trigger
`dpu_dbg_dump(DPU_DBG_DUMP_PROC_CTX, origin, name)` and the run of the dump
work that processes it. -/
def single_base_capture (env : dpu_env) (dev : Nat) (name origin : CStr)
    (base max_offset now snapshot : Nat) : dpu_dbg_base :=
  _dpu_dump_work
    { dpu_dbg_dump
        (dpu_dbg_reg_register_base env (dpu_dbg_init dpu_dbg_static (some dev)).2 (some name) base
          max_offset).2
        .DPU_DBG_DUMP_PROC_CTX origin [name] with
      work_queued := false } now snapshot

/-- Word `j` of a capture buffer as the Coredump sink loads it (`dump_addr[j]`);
a buffer that does not exist yet reads as 0, as the zeroed buffer does that
the dump allocates for it. -/
def buffer_word (dump_mem : Option (List Nat)) (j : Nat) : Nat := (dump_mem.getD []).getD j 0

/-- The chunk line of the Coredump sink for chunk `i` of a window with the
capture buffer `dump_mem`, printed with the offset `off`. -/
def buffer_line (dump_mem : Option (List Nat)) (off i : Nat) : Nat × Nat × Nat × Nat × Nat :=
  (off, buffer_word dump_mem (i * 4), buffer_word dump_mem (i * 4 + 1),
    buffer_word dump_mem (i * 4 + 2), buffer_word dump_mem (i * 4 + 3))

/-- A buffer pointer after a dump that stores nothing: an existing buffer is
the same buffer with the same words, a missing one is still missing or has
been allocated zeroed. -/
def buffer_kept (old new : Option (List Nat)) : Prop :=
  (∀ buf, old = some buf → new = some buf) ∧
    (old = none → ∀ buf, new = some buf → ∀ j, buf.getD j 0 = 0)

/-- A range after a dump that stores nothing: the same name, window and
client, and its capture buffer kept. -/
def range_kept (r r2 : dpu_dbg_reg_range) : Prop :=
  r2.range_name = r.range_name ∧ r2.offset = r.offset ∧ r2.xin_id = r.xin_id ∧
    buffer_kept r.reg_dump r2.reg_dump

/-- A base after a dump that stores nothing: the same name, address, length
and callback, its capture buffer kept, and its ranges the same ranges in some
order (the reader sorts them), with their capture buffers kept. -/
def base_kept (b b2 : dpu_dbg_reg_base) : Prop :=
  b2.name = b.name ∧ b2.base = b.base ∧ b2.max_offset = b.max_offset ∧ b2.cb = b.cb ∧
    buffer_kept b.reg_dump b2.reg_dump ∧
    ∃ rs, rs.Perm b.sub_range_list ∧ List.Forall₂ range_kept rs b2.sub_range_list

/-- A catalog after a dump that stores nothing: behind every pointer the same
base, kept. -/
def catalog_kept (l l2 : List dpu_dbg_reg_base) : Prop :=
  (∀ p b, deref_base l p = some b → ∃ b2, deref_base l2 p = some b2 ∧ base_kept b b2) ∧
    (∀ p b2, deref_base l2 p = some b2 → ∃ b, deref_base l p = some b ∧ base_kept b b2)

/-- The first `m` chunk lines of a window that starts at the byte offset
`start` of its base, read from the capture buffer `dump_mem`: line `i` carries
the offset `start + 16 * i` and the words `4 * i .. 4 * i + 3` of the
buffer. -/
def window_lines_upto (m start : Nat) (dump_mem : Option (List Nat)) :
    List (Nat × Nat × Nat × Nat × Nat) :=
  (List.range m).map (fun i => buffer_line dump_mem (start + 16 * i) i)

/-- The chunk lines `part` are the first lines of the window `(start,
len_bytes)` read from its capture buffer `dump_mem`, and all the
`ceil(len_bytes / 16)` lines of it when `complete` holds. -/
def window_part (complete : Prop) (start len_bytes : Nat) (dump_mem : Option (List Nat))
    (part : List (Nat × Nat × Nat × Nat × Nat)) : Prop :=
  ∃ m, m ≤ (len_bytes + 15) / 16 ∧ part = window_lines_upto m start dump_mem ∧
    (complete → m = (len_bytes + 15) / 16)

/-- The chunk lines `sec` are what the reader prints through the Coredump sink
for the base `b`, from the capture buffers of `b`: nothing for a base with a
callback or a NULL address; the lines of the whole base (offset 0, length
`max_offset`, buffer of the base) when it has no ranges; else the lines of
each of its ranges (offset `start`, the length of the range, the buffer of the
range), range after range in the order `rs` the reader takes them in. -/
def base_section (complete : Prop) (b : dpu_dbg_reg_base)
    (sec : List (Nat × Nat × Nat × Nat × Nat)) : Prop :=
  (b.cb ≠ none ∨ b.base = 0 → sec = []) ∧
    (b.cb = none → b.base ≠ 0 → b.sub_range_list = [] →
      window_part complete 0 b.max_offset b.reg_dump sec) ∧
    (b.cb = none → b.base ≠ 0 → b.sub_range_list ≠ [] →
      ∃ rs parts, rs.Perm b.sub_range_list ∧
        List.Forall₂
          (fun r part => window_part complete r.offset.start
            (_dpu_dbg_get_dump_range r.offset b.max_offset) r.reg_dump part) rs parts ∧
        sec = parts.flatten)

/-- The chunk lines `sec` are what one entry of the reader with the pointer
`dbg` prints through the Coredump sink, read from the capture buffers of the
catalog `l`: nothing for a NULL pointer, else the lines of the base behind
the pointer. -/
def visit_section (l : List dpu_dbg_reg_base) (complete : Prop) (dbg : Option Nat)
    (sec : List (Nat × Nat × Nat × Nat × Nat)) : Prop :=
  match dbg with
  | none => sec = []
  | some p =>
    match deref_base l p with
    | none => sec = []
    | some b => base_section complete b sec

/-- Every allocation and every power enable of the environment succeeds. -/
def env_good (env : dpu_env) : Prop :=
  (∀ n, env.kzalloc_ok n = true) ∧ ∀ n, 0 ≤ env.pm_runtime_get_sync n

/-- A piece of the dump of one window that prints the chunk lines `lines`
through the Coredump sink and does nothing else that the trace projections
see: the catalog, the register reads, the chunk lines of the Log sink and the
entries into the reader are unchanged, and a stopped run stays stopped. -/
def dump_only (st st2 : dump_st) (lines : List (Nat × Nat × Nat × Nat × Nat)) : Prop :=
  st2.reg_base_list = st.reg_base_list ∧ readl_addrs st2.trace = readl_addrs st.trace ∧
    log_lines st2.trace = log_lines st.trace ∧
    reader_calls st2.trace = reader_calls st.trace ∧
    dump_lines st2.trace = dump_lines st.trace ++ lines ∧
    (st.dead = true → st2.dead = true)

/-- The chunk lines of a piece of the dump path run with the Coredump sink
alone, seen from the catalog `l0` the dump started with.  When the catalog is
still the one of `l0` with its buffers kept and its windows fitting: no
register is read and the Log sink prints no chunk line, the catalog
afterwards is again the one of `l0` with its buffers kept and its windows
fitting, and the chunk lines printed come in one section per entry into the
reader, each section read from the capture buffers that the base entered has
in `l0`. -/
def coredump_sections (env : dpu_env) (l0 : List dpu_dbg_reg_base) (st st2 : dump_st) : Prop :=
  catalog_kept l0 st.reg_base_list → catalog_fits st.reg_base_list →
    readl_addrs st2.trace = readl_addrs st.trace ∧ log_lines st2.trace = log_lines st.trace ∧
      catalog_kept l0 st2.reg_base_list ∧ catalog_fits st2.reg_base_list ∧
      ∃ visits sections,
        reader_calls st2.trace = reader_calls st.trace ++ visits ∧
          dump_lines st2.trace = dump_lines st.trace ++ sections.flatten ∧
          List.Forall₂ (visit_section l0 (env_good env ∧ st.dead = false)) visits sections

/-- A piece of the dump path run with the Coredump sink alone that does not
stop the run when the environment never fails: `coredump_sections`, and the
run goes on afterwards. -/
def coredump_pass (env : dpu_env) (l0 : List dpu_dbg_reg_base) (st st2 : dump_st) : Prop :=
  coredump_sections env l0 st st2 ∧
    (catalog_kept l0 st.reg_base_list → catalog_fits st.reg_base_list → env_good env →
      st.dead = false → st2.dead = false)

/-- The engine with the one base "vbif" (address 0x2000, 0x20 bytes) after the
trigger `dpu_dbg_dump(DPU_DBG_DUMP_PROC_CTX, "test", "vbif")` and the run of
the dump work (timestamp 5, snapshot 9); the capture buffer of "vbif" has
never been allocated. -/
def dbg_vbif_unfilled : dpu_dbg_base :=
  _dpu_dump_work
    { dpu_dbg_dump (dpu_dbg_reg_register_base env_ok dbg0 (some "vbif".toList) 0x2000 0x20).2
        .DPU_DBG_DUMP_PROC_CTX "test".toList ["vbif".toList] with
      work_queued := false } 5 9

/-- The same engine when the debugfs file was written with 42 before the
trigger: that dump ran with the Memory sink and filled the capture buffer of
"vbif" with the registers (which read as their addresses under `env_ok`). -/
def dbg_vbif_filled : dpu_dbg_base :=
  _dpu_dump_work
    { dpu_dbg_dump
        (dpu_debugfs_set env_ok
          (dpu_dbg_reg_register_base env_ok dbg0 (some "vbif".toList) 0x2000 0x20).2 42)
        .DPU_DBG_DUMP_PROC_CTX "test".toList ["vbif".toList] with
      work_queued := false } 5 9

/-! ## Theorems -/

/-! ### Pointers and lookups -/

/-- A store through a pointer keeps the length of the list. -/
theorem store_base_length (l : List dpu_dbg_reg_base) (p : Nat) (v : dpu_dbg_reg_base) :
    (store_base l p v).length = l.length := by
  induction l with
  | nil => rfl
  | cons b rest ih =>
    unfold store_base
    split_ifs <;> simp [ih]

/-- A pointer that refers to a base is below the length of the list. -/
theorem deref_base_lt (l : List dpu_dbg_reg_base) (p : Nat) (b : dpu_dbg_reg_base)
    (h : deref_base l p = some b) : p < l.length := by
  induction l with
  | nil => simp [deref_base] at h
  | cons c rest ih =>
    unfold deref_base at h
    split_ifs at h with hp
    · simp [hp]
    · have := ih h
      simp
      omega

/-- The base behind a pointer is a node of the list. -/
theorem deref_base_mem (l : List dpu_dbg_reg_base) (p : Nat) (b : dpu_dbg_reg_base)
    (h : deref_base l p = some b) : b ∈ l := by
  induction l with
  | nil => simp [deref_base] at h
  | cons c rest ih =>
    unfold deref_base at h
    split_ifs at h
    · simp at h
      simp [h]
    · exact List.mem_cons_of_mem _ (ih h)

/-- Reading back a store through a valid pointer. -/
theorem deref_store_same (l : List dpu_dbg_reg_base) (p : Nat) (v : dpu_dbg_reg_base)
    (h : p < l.length) : deref_base (store_base l p v) p = some v := by
  induction l with
  | nil => simp at h
  | cons c rest ih =>
    unfold store_base
    split_ifs with hp
    · simp [deref_base, hp]
    · have h2 : p < rest.length := by simp at h; omega
      simp [deref_base, store_base_length, hp, ih h2]

/-- A store through one pointer is not seen through another. -/
theorem deref_store_other (l : List dpu_dbg_reg_base) (p q : Nat) (v : dpu_dbg_reg_base)
    (h : q ≠ p) : deref_base (store_base l p v) q = deref_base l q := by
  induction l with
  | nil => rfl
  | cons c rest ih =>
    unfold store_base
    split_ifs with hp
    · subst hp
      simp [deref_base, h]
    · simp [deref_base, store_base_length, ih]

/-- A pointer is the index of the node counted from the tail of the list. -/
theorem deref_base_eq_reverse (l : List dpu_dbg_reg_base) (p : Nat) :
    deref_base l p = l.reverse[p]? := by
  induction l with
  | nil => simp [deref_base]
  | cons c rest ih =>
    unfold deref_base
    rw [List.reverse_cons]
    split_ifs with hp
    · subst hp
      rw [List.getElem?_append_right (by simp)]
      simp
    · rw [ih]
      by_cases hlt : p < rest.length
      · rw [List.getElem?_append_left (by simpa using hlt)]
      · rw [List.getElem?_eq_none (by simp; omega), List.getElem?_eq_none (by simp; omega)]

/-- A store of a different value changes the list. -/
theorem store_base_ne (l : List dpu_dbg_reg_base) (p : Nat) (b v : dpu_dbg_reg_base)
    (hb : deref_base l p = some b) (hv : v ≠ b) : store_base l p v ≠ l := by
  intro h
  have h1 := deref_store_same l p v (deref_base_lt l p b hb)
  rw [h, hb] at h1
  exact hv (Option.some.inj h1).symm

/-- A store that keeps the name keeps the names of the list. -/
theorem store_base_names (l : List dpu_dbg_reg_base) (p : Nat) (b v : dpu_dbg_reg_base)
    (hb : deref_base l p = some b) (hv : v.name = b.name) :
    (store_base l p v).map (fun x => x.name) = l.map (fun x => x.name) := by
  induction l with
  | nil => rfl
  | cons c rest ih =>
    unfold deref_base at hb
    unfold store_base
    split_ifs at hb ⊢ with hp
    · simp at hb
      simp [hv, hb]
    · simp [ih hb]

/-- A node of a list after a store is the stored value or a node of the old list. -/
theorem mem_store_base (l : List dpu_dbg_reg_base) (p : Nat) (v x : dpu_dbg_reg_base)
    (h : x ∈ store_base l p v) : x = v ∨ x ∈ l := by
  induction l with
  | nil => simp [store_base] at h
  | cons c rest ih =>
    unfold store_base at h
    split_ifs at h
    · rcases List.mem_cons.mp h with h1 | h1
      · exact Or.inl h1
      · exact Or.inr (List.mem_cons_of_mem _ h1)
    · rcases List.mem_cons.mp h with h1 | h1
      · exact Or.inr (by rw [h1]; exact List.mem_cons_self _ _)
      · rcases ih h1 with h2 | h2
        · exact Or.inl h2
        · exact Or.inr (List.mem_cons_of_mem _ h2)

/-- A successful lookup returns a pointer to a base with the name looked up, which is
non-empty. -/
theorem get_blk_addr_some (l : List dpu_dbg_reg_base) (n : CStr) (p : Nat)
    (h : _dpu_dump_get_blk_addr l n = some p) :
    ∃ b, deref_base l p = some b ∧ b.name = n ∧ b.name ≠ [] := by
  induction l with
  | nil => simp [_dpu_dump_get_blk_addr] at h
  | cons c rest ih =>
    unfold _dpu_dump_get_blk_addr at h
    split_ifs at h with hc
    · simp at h
      subst h
      refine ⟨c, by simp [deref_base], hc.2, ?_⟩
      intro h0
      simp [strlen, h0] at hc
    · obtain ⟨b, hb, hn⟩ := ih h
      refine ⟨b, ?_, hn⟩
      have := deref_base_lt _ _ _ hb
      unfold deref_base
      rw [if_neg (by omega)]
      exact hb

/-- A name that no node carries is not found. -/
theorem get_blk_addr_none (l : List dpu_dbg_reg_base) (n : CStr)
    (h : n ∉ l.map (fun b => b.name)) : _dpu_dump_get_blk_addr l n = none := by
  induction l with
  | nil => rfl
  | cons c rest ih =>
    simp at h
    unfold _dpu_dump_get_blk_addr
    rw [if_neg]
    · apply ih
      simpa using h.2
    · intro hc
      exact h.1 hc.2.symm

/-- With non-empty pairwise distinct names every node is found by its name. -/
theorem get_blk_addr_of_mem (l : List dpu_dbg_reg_base)
    (hnd : (l.map (fun b => b.name)).Nodup) (hne : ∀ b ∈ l, b.name ≠ [])
    (b : dpu_dbg_reg_base) (hb : b ∈ l) :
    ∃ p, _dpu_dump_get_blk_addr l b.name = some p ∧ deref_base l p = some b := by
  induction l with
  | nil => simp at hb
  | cons c rest ih =>
    simp only [List.map_cons, List.nodup_cons] at hnd
    rcases List.mem_cons.mp hb with h | h
    · subst h
      refine ⟨rest.length, ?_, by simp [deref_base]⟩
      unfold _dpu_dump_get_blk_addr
      rw [if_pos]
      refine ⟨?_, rfl⟩
      have := hne b (List.mem_cons_self _ _)
      simpa [strlen] using this
    · obtain ⟨p, hp, hd⟩ := ih hnd.2 (fun x hx => hne x (List.mem_cons_of_mem _ hx)) h
      refine ⟨p, ?_, ?_⟩
      · unfold _dpu_dump_get_blk_addr
        rw [if_neg]
        · exact hp
        · intro hc
          apply hnd.1
          rw [hc.2]
          exact List.mem_map_of_mem _ h
      · have := deref_base_lt _ _ _ hd
        unfold deref_base
        rw [if_neg (by omega)]
        exact hd

/-- C1: for 32-bit `start`, `end` and `max_offset`, `_dpu_dbg_get_dump_range`
returns `max_offset` for the range (0,0), `max_offset - start` when
`start < max_offset < end`, `end - start` when `start < end <= max_offset`, and
0 in every other case; among the other cases are `start >= max_offset` and
`start >= end` with `end <= max_offset` (the range not being (0,0)). -/
theorem C1_get_dump_range (s e m : Nat) (hs : s < 2 ^ 32) (he : e < 2 ^ 32)
    (hm : m < 2 ^ 32) :
    _dpu_dbg_get_dump_range ⟨s, e⟩ m =
        (if s = 0 ∧ e = 0 then m
         else if s < m ∧ e > m then m - s
         else if s < e ∧ e ≤ m then e - s
         else 0) ∧
      (¬(s = 0 ∧ e = 0) → m ≤ s → _dpu_dbg_get_dump_range ⟨s, e⟩ m = 0) ∧
      (¬(s = 0 ∧ e = 0) → e ≤ s → e ≤ m → _dpu_dbg_get_dump_range ⟨s, e⟩ m = 0) := by
  unfold _dpu_dbg_get_dump_range u32
  simp only
  refine ⟨?_, ?_, ?_⟩
  · split_ifs <;> omega
  · intro h0 h1
    split_ifs <;> omega
  · intro h0 h1 h2
    split_ifs <;> omega

/-- C1 at the ranges (0,0), (50,60), (10,30) and (60,70) with `max_offset` 55. -/
theorem C1_get_dump_range_witness :
    (0 < 2 ^ 32 ∧ 50 < 2 ^ 32 ∧ 55 < 2 ^ 32) ∧
      _dpu_dbg_get_dump_range ⟨50, 60⟩ 55 = 5 ∧
      _dpu_dbg_get_dump_range ⟨0, 0⟩ 55 = 55 ∧
      _dpu_dbg_get_dump_range ⟨10, 30⟩ 55 = 20 ∧
      _dpu_dbg_get_dump_range ⟨60, 70⟩ 55 = 0 :=
  ⟨by decide,
   by simpa using (C1_get_dump_range 50 60 55 (by decide) (by decide) (by decide)).1,
   by decide, by decide, by decide⟩

/-! ### C2: order of the ranges after the sort -/

/-- Insertion of a node yields a permutation. -/
theorem list_sort_insert_perm {α : Type} (cmp : Option α → Option α → Int) (x : α)
    (l : List α) : (list_sort_insert cmp x l).Perm (x :: l) := by
  induction l with
  | nil => exact List.Perm.refl _
  | cons y b ih =>
    unfold list_sort_insert
    split_ifs
    · exact List.Perm.refl _
    · exact (List.Perm.cons y ih).trans (List.Perm.swap x y b)

/-- The sort yields a permutation of the list. -/
theorem list_sort_perm {α : Type} (cmp : Option α → Option α → Int) (l : List α) :
    (list_sort cmp l).Perm l := by
  induction l with
  | nil => exact List.Perm.refl _
  | cons x l ih =>
    unfold list_sort
    exact (list_sort_insert_perm cmp x _).trans (List.Perm.cons x ih)

/-- Insertion into a list sorted by `key` keeps it sorted, when the sign of `cmp`
agrees with the order of the keys. -/
theorem list_sort_insert_sorted {α : Type} (cmp : Option α → Option α → Int) (key : α → Nat)
    (x : α) (l : List α)
    (hx : ∀ b ∈ l, (cmp (some x) (some b) ≤ 0 ↔ key x ≤ key b))
    (hl : l.Pairwise (fun a b => key a ≤ key b)) :
    (list_sort_insert cmp x l).Pairwise (fun a b => key a ≤ key b) := by
  induction l with
  | nil => simp [list_sort_insert]
  | cons y b ih =>
    unfold list_sort_insert
    rw [List.pairwise_cons] at hl
    split_ifs with hc
    · have hxy : key x ≤ key y := (hx y (List.mem_cons_self _ _)).mp hc
      refine List.Pairwise.cons ?_ (List.Pairwise.cons hl.1 hl.2)
      intro z hz
      rcases List.mem_cons.mp hz with h | h
      · rw [h]; exact hxy
      · exact le_trans hxy (hl.1 z h)
    · have hyx : key y ≤ key x := by
        have := mt (hx y (List.mem_cons_self _ _)).mpr hc
        omega
      refine List.Pairwise.cons ?_ (ih (fun z hz => hx z (List.mem_cons_of_mem _ hz)) hl.2)
      intro z hz
      have hz2 := (list_sort_insert_perm cmp x b).subset hz
      rcases List.mem_cons.mp hz2 with h | h
      · rw [h]; exact hyx
      · exact hl.1 z h

/-- The sort yields a list sorted by `key` when the sign of `cmp` agrees with the
order of the keys. -/
theorem list_sort_sorted {α : Type} (cmp : Option α → Option α → Int) (key : α → Nat)
    (l : List α)
    (h : ∀ a ∈ l, ∀ b ∈ l, (cmp (some a) (some b) ≤ 0 ↔ key a ≤ key b)) :
    (list_sort cmp l).Pairwise (fun a b => key a ≤ key b) := by
  induction l with
  | nil => simp [list_sort]
  | cons x l ih =>
    unfold list_sort
    apply list_sort_insert_sorted
    · intro b hb
      exact h x (List.mem_cons_self _ _) b
        (List.mem_cons_of_mem _ ((list_sort_perm cmp l).subset hb))
    · exact ih (fun a ha b hb => h a (List.mem_cons_of_mem _ ha) b (List.mem_cons_of_mem _ hb))

/-- Insertion keeps a node in front of the nodes of equal key. -/
theorem list_sort_insert_stable {α : Type} (cmp : Option α → Option α → Int) (key : α → Nat)
    (x : α) (l : List α) (k : Nat)
    (hx : ∀ b ∈ l, (cmp (some x) (some b) ≤ 0 ↔ key x ≤ key b)) :
    (list_sort_insert cmp x l).filter (fun a => decide (key a = k)) =
      (x :: l).filter (fun a => decide (key a = k)) := by
  induction l with
  | nil => simp [list_sort_insert]
  | cons y b ih =>
    unfold list_sort_insert
    split_ifs with hc
    · rfl
    · have hyx : key y < key x := by
        have := mt (hx y (List.mem_cons_self _ _)).mpr hc
        omega
      have ih2 := ih (fun z hz => hx z (List.mem_cons_of_mem _ hz))
      by_cases hyk : key y = k
      · have hxk : ¬ key x = k := by omega
        simp only [List.filter_cons, hyk, hxk, decide_True, decide_False, if_true] at ih2 ⊢
        simpa using ih2
      · simp only [List.filter_cons, hyk, decide_False] at ih2 ⊢
        simpa using ih2

/-- The sort keeps the nodes of equal key in their original order. -/
theorem list_sort_stable {α : Type} (cmp : Option α → Option α → Int) (key : α → Nat)
    (l : List α) (k : Nat)
    (h : ∀ a ∈ l, ∀ b ∈ l, (cmp (some a) (some b) ≤ 0 ↔ key a ≤ key b)) :
    (list_sort cmp l).filter (fun a => decide (key a = k)) =
      l.filter (fun a => decide (key a = k)) := by
  induction l with
  | nil => simp [list_sort]
  | cons x l ih =>
    unfold list_sort
    rw [list_sort_insert_stable cmp key x _ k]
    · simp only [List.filter_cons]
      rw [ih (fun a ha b hb => h a (List.mem_cons_of_mem _ ha) b (List.mem_cons_of_mem _ hb))]
    · intro b hb
      exact h x (List.mem_cons_self _ _) b
        (List.mem_cons_of_mem _ ((list_sort_perm cmp l).subset hb))

/-- For 32-bit starts that differ by less than 2^31 the comparison callback is
non-positive exactly when the first start is at most the second. -/
theorem range_cmp_le_iff (a b : dpu_dbg_reg_range) (ha : a.offset.start < 2 ^ 32)
    (hb : b.offset.start < 2 ^ 32) (h1 : a.offset.start - b.offset.start < 2 ^ 31)
    (h2 : b.offset.start - a.offset.start < 2 ^ 31) :
    _dpu_dump_reg_range_cmp (some a) (some b) ≤ 0 ↔ a.offset.start ≤ b.offset.start := by
  unfold _dpu_dump_reg_range_cmp s32 u32_sub u32
  dsimp only
  split_ifs <;> omega

/-- When the start offsets of a range list are 32-bit values any two of which
differ by less than 2^31, the sort of `_dpu_dump_reg_by_ranges` yields a
permutation of the list in non-decreasing `start` order in which ranges of
equal start keep their registration order. -/
theorem range_sort_correct_of_close_starts (l : List dpu_dbg_reg_range)
    (h : ∀ a ∈ l, ∀ b ∈ l, a.offset.start < 2 ^ 32 ∧
      a.offset.start - b.offset.start < 2 ^ 31) :
    (list_sort _dpu_dump_reg_range_cmp l).Perm l ∧
      (list_sort _dpu_dump_reg_range_cmp l).Pairwise
        (fun a b => a.offset.start ≤ b.offset.start) ∧
      (∀ k, (list_sort _dpu_dump_reg_range_cmp l).filter
          (fun a => decide (a.offset.start = k)) =
        l.filter (fun a => decide (a.offset.start = k))) := by
  have hk : ∀ a ∈ l, ∀ b ∈ l, (_dpu_dump_reg_range_cmp (some a) (some b) ≤ 0 ↔
      a.offset.start ≤ b.offset.start) := fun a ha b hb =>
    range_cmp_le_iff a b (h a ha b hb).1 (h b hb a ha).1 (h a ha b hb).2 (h b hb a ha).2
  exact ⟨list_sort_perm _ l, list_sort_sorted _ (fun r => r.offset.start) l hk,
    fun k => list_sort_stable _ (fun r => r.offset.start) l k hk⟩

/-- The example of the specification: the ranges (50,60), (10,30), (40,45) on a
base of length 55 are visited as (10,30), (40,45), (50,60) with the window
lengths 20, 5 and 5. -/
theorem range_sort_spec_example :
    (list_sort _dpu_dump_reg_range_cmp
        [mk_range "r0" 50 60, mk_range "r1" 10 30, mk_range "r2" 40 45]).map
      (fun r => (r.offset.start, r.offset.end_, _dpu_dbg_get_dump_range r.offset 55)) =
      [(10, 30, 20), (40, 45, 5), (50, 60, 5)] := by
  decide

/-- C2 (code evaluated at the failing input): with the ranges "hi" =
(0x80000001, 0x80000011) and "lo" = (0, 16) registered in this order, the
comparison callback returns the negative value 0x80000001 - 2^32 for
("hi", "lo"), the sort leaves "hi" in front of "lo", and the Log-sink dump of
the base visits the window at offset 0x80000001 before the window at offset 0:
the list is not in non-decreasing `start` order. -/
theorem C2_sort_wraps_at_large_start :
    _dpu_dump_reg_range_cmp (some (mk_range "hi" 0x80000001 0x80000011))
        (some (mk_range "lo" 0 16)) = -0x7fffffff ∧
      (list_sort _dpu_dump_reg_range_cmp
          [mk_range "hi" 0x80000001 0x80000011, mk_range "lo" 0 16]).map
        (fun r => r.offset.start) = [0x80000001, 0] ∧
      ((_dpu_dump_reg_by_ranges env_ok .DPU_DBG_DUMP_CLK_ENABLED_CTX dbg_wrap.todump_st
          (some 0) DPU_DBG_DUMP_IN_LOG).trace.filterMap
        (fun e => match e with
          | .log_start name off len => some (name, off, len)
          | _ => none)) =
        [("hi".toList, 0x80000001, 16), ("lo".toList, 0, 16)] := by
  refine ⟨by decide, by decide, by decide⟩

/-! ### C3: registration of a range -/

/-- The rejection test of `dpu_dbg_reg_register_dump_range` on 32-bit offsets. -/
theorem u32_sub_lt_iff (a b : Nat) (ha : a < 2 ^ 32) (hb : b < 2 ^ 32) :
    (u32_sub b a < REG_DUMP_ALIGN ∨ a > b) ↔ ¬ (a ≤ b ∧ 16 ≤ b - a) := by
  unfold u32_sub u32 REG_DUMP_ALIGN
  omega

/-- C3: with 32-bit `start` and `end` and the allocation succeeding,
`dpu_dbg_reg_register_dump_range` changes the catalog if and only if
`base_name` resolves to a registered base, `range_name` is non-empty,
`start <= end` and `end - start >= 16`; when it does, the base the name
resolves to has its old range list followed by one new range with exactly
`start`, `end`, the client id and no capture buffer; when it does not, the
whole state is unchanged; in both cases every other base is unchanged and the
catalog has the same number of bases. -/
theorem C3_register_dump_range (env : dpu_env) (dbg : dpu_dbg_base) (base_name : CStr)
    (range_name : Option CStr) (start end_ client_id : Nat)
    (hs : start < 2 ^ 32) (he : end_ < 2 ^ 32) (halloc : env.kzalloc_ok dbg.n_alloc = true) :
    ((dpu_dbg_reg_register_dump_range env dbg base_name range_name start end_
          client_id).reg_base_list ≠ dbg.reg_base_list ↔
        ((∃ p, _dpu_dump_get_blk_addr dbg.reg_base_list base_name = some p) ∧
          (∃ rn, range_name = some rn ∧ rn ≠ []) ∧ start ≤ end_ ∧ 16 ≤ end_ - start)) ∧
      (∀ p rn, _dpu_dump_get_blk_addr dbg.reg_base_list base_name = some p →
        range_name = some rn → rn ≠ [] → start ≤ end_ → 16 ≤ end_ - start →
        ∃ b, deref_base dbg.reg_base_list p = some b ∧
          deref_base (dpu_dbg_reg_register_dump_range env dbg base_name range_name start end_
              client_id).reg_base_list p =
            some { b with sub_range_list := b.sub_range_list ++
              [{ reg_dump := none, range_name := strlcpy rn RANGE_NAME_LEN,
                 offset := { start := start, end_ := end_ }, xin_id := client_id }] }) ∧
      (¬((∃ p, _dpu_dump_get_blk_addr dbg.reg_base_list base_name = some p) ∧
          (∃ rn, range_name = some rn ∧ rn ≠ []) ∧ start ≤ end_ ∧ 16 ≤ end_ - start) →
        dpu_dbg_reg_register_dump_range env dbg base_name range_name start end_ client_id =
          dbg) ∧
      (∀ p q, _dpu_dump_get_blk_addr dbg.reg_base_list base_name = some p → q ≠ p →
        deref_base (dpu_dbg_reg_register_dump_range env dbg base_name range_name start end_
            client_id).reg_base_list q = deref_base dbg.reg_base_list q) ∧
      (dpu_dbg_reg_register_dump_range env dbg base_name range_name start end_
          client_id).reg_base_list.length = dbg.reg_base_list.length := by
  have hrej := u32_sub_lt_iff start end_ hs he
  cases hl : _dpu_dump_get_blk_addr dbg.reg_base_list base_name with
  | none =>
    simp [dpu_dbg_reg_register_dump_range, hl]
  | some p =>
    obtain ⟨b, hb, -, -⟩ := get_blk_addr_some _ _ _ hl
    cases range_name with
    | none => simp [dpu_dbg_reg_register_dump_range, hl]
    | some rn =>
      by_cases hrn : rn = []
      · simp [dpu_dbg_reg_register_dump_range, hl, hrn, strlen]
      · by_cases hok : start ≤ end_ ∧ 16 ≤ end_ - start
        · have hcond : ¬ (u32_sub end_ start < REG_DUMP_ALIGN ∨ start > end_) := by
            rw [hrej]; exact not_not.mpr hok
          have hlen : ¬ strlen rn = 0 := by simpa [strlen] using hrn
          have hres : (dpu_dbg_reg_register_dump_range env dbg base_name (some rn) start end_
              client_id).reg_base_list = store_base dbg.reg_base_list p
                { b with sub_range_list := b.sub_range_list ++
                  [{ reg_dump := none, range_name := strlcpy rn RANGE_NAME_LEN,
                     offset := { start := start, end_ := end_ }, xin_id := client_id }] } := by
            simp only [dpu_dbg_reg_register_dump_range, hl, hlen, hcond, halloc, hb]
            simp
          rw [hres]
          refine ⟨?_, ?_, ?_, ?_, ?_⟩
          · constructor
            · intro _
              exact ⟨⟨p, rfl⟩, ⟨rn, rfl, hrn⟩, hok⟩
            · intro _
              apply store_base_ne _ _ b _ hb
              intro hEq
              have := congrArg (fun x => x.sub_range_list.length) hEq
              simp at this
          · intro p' rn' hp' hrn' _ _ _
            simp at hp' hrn'
            subst hp' hrn'
            exact ⟨b, hb, deref_store_same _ _ _ (deref_base_lt _ _ _ hb)⟩
          · intro hno
            exact absurd ⟨⟨p, rfl⟩, ⟨rn, rfl, hrn⟩, hok⟩ hno
          · intro p' q hp' hq
            simp at hp'
            subst hp'
            exact deref_store_other _ _ _ _ hq
          · exact store_base_length _ _ _
        · have hcond : (u32_sub end_ start < REG_DUMP_ALIGN ∨ start > end_) := by
            rw [hrej]; exact hok
          have hlen : ¬ strlen rn = 0 := by simpa [strlen] using hrn
          have hres : dpu_dbg_reg_register_dump_range env dbg base_name (some rn) start end_
              client_id = dbg := by
            simp only [dpu_dbg_reg_register_dump_range, hl, hlen, hcond]
            simp
          rw [hres]
          refine ⟨?_, ?_, ?_, ?_, ?_⟩
          · simp
            intro _ h1
            by_contra h2
            exact hok ⟨h1, by omega⟩
          · intro p' rn' _ _ _ h1 h2
            exact absurd ⟨h1, h2⟩ hok
          · intro _; trivial
          · intro _ _ _ _; trivial
          · trivial

/-- C3 on the engine with the base "mdp" and the range "r" = (0, 16) of client 7. -/
theorem C3_register_dump_range_witness :
    ((0 : Nat) < 2 ^ 32 ∧ (16 : Nat) < 2 ^ 32 ∧ env_ok.kzalloc_ok dbg_mdp.n_alloc = true) ∧
      (∃ b, deref_base dbg_mdp.reg_base_list 0 = some b ∧
        deref_base (dpu_dbg_reg_register_dump_range env_ok dbg_mdp "mdp".toList
            (some "r".toList) 0 16 7).reg_base_list 0 =
          some { b with sub_range_list := b.sub_range_list ++
            [{ reg_dump := none, range_name := strlcpy "r".toList RANGE_NAME_LEN,
               offset := { start := 0, end_ := 16 }, xin_id := 7 }] }) :=
  ⟨⟨by decide, by decide, rfl⟩,
   (C3_register_dump_range env_ok dbg_mdp "mdp".toList (some "r".toList) 0 16 7 (by decide)
      (by decide) rfl).2.1 0 "r".toList (by decide) rfl (by decide) (by decide) (by decide)⟩

/-! ### C4: registration of a base -/

/-- A registration with a non-empty name and a successful allocation. -/
theorem register_base_accepts (env : dpu_env) (dbg : dpu_dbg_base) (nm : CStr)
    (base max_offset : Nat) (halloc : env.kzalloc_ok dbg.n_alloc = true) (hnm : nm ≠ []) :
    (dpu_dbg_reg_register_base env dbg (some nm) base max_offset).1 = 0 ∧
      (dpu_dbg_reg_register_base env dbg (some nm) base max_offset).2.reg_base_list =
        { sub_range_list := [], name := nm.take 79, base := base, max_offset := max_offset,
          reg_dump := none, cb := none } :: dbg.reg_base_list := by
  have hlen : ¬ strlen nm = 0 := by simpa [strlen] using hnm
  simp [dpu_dbg_reg_register_base, hlen, halloc, strlcpy, REG_BASE_NAME_LEN]

/-- C4 (amended): with the allocation succeeding, `dpu_dbg_reg_register_base`
returns an error exactly when the name is NULL or empty, and then returns
`-EINVAL` and leaves the state unchanged; otherwise it returns 0 and the
catalog gains exactly one base, at the head of the list, whose name is the
first 79 characters of the given name, with the given address and length, no
ranges, no callback and no capture buffer - whether or not a base of that name
is registered already. -/
theorem C4_register_base (env : dpu_env) (dbg : dpu_dbg_base) (name : Option CStr)
    (base max_offset : Nat) (halloc : env.kzalloc_ok dbg.n_alloc = true) :
    ((dpu_dbg_reg_register_base env dbg name base max_offset).1 ≠ 0 ↔
        (name = none ∨ name = some [])) ∧
      ((name = none ∨ name = some []) →
        dpu_dbg_reg_register_base env dbg name base max_offset = (-EINVAL, dbg)) ∧
      (∀ nm, name = some nm → nm ≠ [] →
        (dpu_dbg_reg_register_base env dbg name base max_offset).1 = 0 ∧
        (dpu_dbg_reg_register_base env dbg name base max_offset).2.reg_base_list =
          { sub_range_list := [], name := nm.take 79, base := base, max_offset := max_offset,
            reg_dump := none, cb := none } :: dbg.reg_base_list) := by
  cases name with
  | none => simp [dpu_dbg_reg_register_base, EINVAL]
  | some nm =>
    by_cases hnm : nm = []
    · simp [dpu_dbg_reg_register_base, hnm, strlen, EINVAL]
    · have h := register_base_accepts env dbg nm base max_offset halloc hnm
      refine ⟨?_, ?_, ?_⟩
      · simp [h.1, hnm]
      · simp [hnm]
      · intro nm' h1 _
        simp at h1
        subst h1
        exact h

/-- C4 on the freshly initialised engine and the name "mdp". -/
theorem C4_register_base_witness :
    env_ok.kzalloc_ok dbg0.n_alloc = true ∧
      ((dpu_dbg_reg_register_base env_ok dbg0 (some "mdp".toList) 0x1000 0x100).1 ≠ 0 ↔
        ((some "mdp".toList : Option CStr) = none ∨ some "mdp".toList = some [])) :=
  ⟨rfl, (C4_register_base env_ok dbg0 (some "mdp".toList) 0x1000 0x100 rfl).1⟩

/-- C4 (counterexample): registering "mdp" a second time returns 0 and leaves
two bases named "mdp" in the catalog, the new one in front; and registering a
name of 80 characters returns 0 and stores a base whose name is only the
first 79 characters. -/
theorem C4_duplicate_name_is_accepted :
    (_dpu_dump_get_blk_addr dbg_mdp.reg_base_list "mdp".toList = some 0 ∧
        (dpu_dbg_reg_register_base env_ok dbg_mdp (some "mdp".toList) 0x2000 0x80).1 = 0 ∧
        ((dpu_dbg_reg_register_base env_ok dbg_mdp (some "mdp".toList) 0x2000
            0x80).2.reg_base_list.map (fun b => (b.name, b.base))) =
          [("mdp".toList, 0x2000), ("mdp".toList, 0x1000)]) ∧
      ((dpu_dbg_reg_register_base env_ok dbg0 (some (List.replicate 80 'a')) 0x1000 0x100).1 = 0 ∧
        ((dpu_dbg_reg_register_base env_ok dbg0 (some (List.replicate 80 'a')) 0x1000
            0x100).2.reg_base_list.map (fun b => b.name)) = [List.replicate 79 'a']) := by
  decide

/-! ### C5: lookup after registration -/

/-- The catalog after a sequence of registrations with names of at most 79
characters: the new bases in front, the latest first. -/
theorem register_all_list (env : dpu_env) (halloc : ∀ n, env.kzalloc_ok n = true)
    (regs : List (CStr × Nat × Nat))
    (hlen : ∀ r ∈ regs, r.1 ≠ [] ∧ r.1.length ≤ 79) (dbg : dpu_dbg_base) :
    (register_all env dbg regs).reg_base_list =
      (regs.reverse.map fresh_base) ++ dbg.reg_base_list := by
  induction regs generalizing dbg with
  | nil => simp [register_all]
  | cons r rest ih =>
    have hr := hlen r (List.mem_cons_self _ _)
    have hstep : (dpu_dbg_reg_register_base env dbg (some r.1) r.2.1 r.2.2).2.reg_base_list =
        fresh_base r :: dbg.reg_base_list := by
      have := register_base_accepts env dbg r.1 r.2.1 r.2.2 (halloc _) hr.1
      rw [this.2, List.take_of_length_le hr.2]
      rfl
    have := ih (fun x hx => hlen x (List.mem_cons_of_mem _ hx))
      (dpu_dbg_reg_register_base env dbg (some r.1) r.2.1 r.2.2).2
    simp only [register_all, List.foldl_cons] at this ⊢
    rw [this, hstep]
    simp

/-- In a catalog built by registrations alone, the pointer `p` is the base of
the `p`-th registration (counted from 0). -/
theorem register_all_pointer (env : dpu_env) (halloc : ∀ n, env.kzalloc_ok n = true)
    (regs : List (CStr × Nat × Nat)) (hlen : ∀ r ∈ regs, r.1 ≠ [] ∧ r.1.length ≤ 79)
    (p : Nat) :
    deref_base (register_all env dbg0 regs).reg_base_list p = regs[p]?.map fresh_base := by
  rw [register_all_list env halloc regs hlen dbg0, deref_base_eq_reverse]
  have h0 : dbg0.reg_base_list = [] := rfl
  rw [h0, List.append_nil, ← List.map_reverse, List.reverse_reverse, List.getElem?_map]

/-- C5 (amended): after any sequence of registrations (allocations succeeding)
with pairwise distinct non-empty names of at most 79 characters on a freshly
initialised engine, the lookup of each registered name returns the base
holding exactly the name, address and length of that registration, with no
ranges, no callback and no capture buffer; the lookup of any other name
returns no base. -/
theorem C5_lookup_after_registration (env : dpu_env) (regs : List (CStr × Nat × Nat))
    (halloc : ∀ n, env.kzalloc_ok n = true)
    (hlen : ∀ r ∈ regs, r.1 ≠ [] ∧ r.1.length ≤ 79)
    (hnd : (regs.map (fun r => r.1)).Nodup) :
    (∀ r ∈ regs, ∃ p,
        _dpu_dump_get_blk_addr (register_all env dbg0 regs).reg_base_list r.1 = some p ∧
        deref_base (register_all env dbg0 regs).reg_base_list p =
          some { sub_range_list := [], name := r.1, base := r.2.1, max_offset := r.2.2,
                 reg_dump := none, cb := none }) ∧
      (∀ nm, nm ∉ regs.map (fun r => r.1) →
        _dpu_dump_get_blk_addr (register_all env dbg0 regs).reg_base_list nm = none) := by
  have hl := register_all_list env halloc regs hlen dbg0
  have h0 : dbg0.reg_base_list = [] := rfl
  rw [h0, List.append_nil] at hl
  rw [hl]
  have hnames : (regs.reverse.map fresh_base).map (fun b => b.name) =
      (regs.map (fun r => r.1)).reverse := by
    simp [List.map_reverse, fresh_base, Function.comp_def]
  constructor
  · intro r hr
    have hmem : fresh_base r ∈ regs.reverse.map fresh_base :=
      List.mem_map_of_mem _ (List.mem_reverse.mpr hr)
    have := get_blk_addr_of_mem (regs.reverse.map fresh_base)
      (by rw [hnames]; exact List.nodup_reverse.mpr hnd)
      (by
        intro b hb
        obtain ⟨x, hx, rfl⟩ := List.mem_map.mp hb
        exact (hlen x (List.mem_reverse.mp hx)).1)
      (fresh_base r) hmem
    exact this
  · intro nm hnm
    apply get_blk_addr_none
    rw [hnames]
    simpa using hnm

/-- C5 on the registrations of "mdp" and "vbif". -/
theorem C5_lookup_after_registration_witness :
    ((∀ n, env_ok.kzalloc_ok n = true) ∧
      (∀ r ∈ [("mdp".toList, 0x1000, 0x100), ("vbif".toList, 0x2000, 0x80)],
        r.1 ≠ [] ∧ r.1.length ≤ 79) ∧
      ([("mdp".toList, 0x1000, 0x100), ("vbif".toList, 0x2000, 0x80)].map
        (fun r : CStr × Nat × Nat => r.1)).Nodup) ∧
      (∃ p, _dpu_dump_get_blk_addr (register_all env_ok dbg0
            [("mdp".toList, 0x1000, 0x100), ("vbif".toList, 0x2000, 0x80)]).reg_base_list
            "mdp".toList = some p ∧
          deref_base (register_all env_ok dbg0
            [("mdp".toList, 0x1000, 0x100), ("vbif".toList, 0x2000, 0x80)]).reg_base_list p =
            some { sub_range_list := [], name := "mdp".toList, base := 0x1000,
                   max_offset := 0x100, reg_dump := none, cb := none }) :=
  ⟨⟨fun _ => rfl, by decide, by decide⟩,
   (C5_lookup_after_registration env_ok
      [("mdp".toList, 0x1000, 0x100), ("vbif".toList, 0x2000, 0x80)]
      (fun _ => rfl) (by decide) (by decide)).1 ("mdp".toList, 0x1000, 0x100)
      (List.mem_cons_self _ _)⟩

/-- C5 (counterexample): a base registered under a name of 80 characters is not
found when that name is looked up. -/
theorem C5_long_name_is_not_found :
    (dpu_dbg_reg_register_base env_ok dbg0 (some (List.replicate 80 'a')) 0x1000 0x100).1 = 0 ∧
      _dpu_dump_get_blk_addr
        (dpu_dbg_reg_register_base env_ok dbg0 (some (List.replicate 80 'a')) 0x1000
          0x100).2.reg_base_list (List.replicate 80 'a') = none := by
  decide

/-! ### C6: the request stored by a trigger -/

/-- The locals of `dpu_dbg_dump` after the argument loop. -/
theorem dump_fold_spec (l : List dpu_dbg_reg_base) (targets : List CStr) :
    (targets.foldl (dpu_dbg_dump_arg l DPU_DBG_BASE_MAX)
        { blk_arr := List.replicate DPU_DBG_BASE_MAX none, index := 0, do_panic := false,
          dump_all := false }) =
      { blk_arr := selection_of l targets,
        index := min DPU_DBG_BASE_MAX (resolved_targets l targets).length,
        do_panic := decide ("panic".toList ∈ targets),
        dump_all := decide ("all".toList ∈ targets) } := by
  induction targets using List.reverseRecOn with
  | nil => simp [selection_of, resolved_targets]
  | append_singleton ts t ih =>
    rw [List.foldl_append, ih]
    simp only [List.foldl_cons, List.foldl_nil]
    have hR : resolved_targets l (ts ++ [t]) =
        resolved_targets l ts ++ (match _dpu_dump_get_blk_addr l t with
          | some p => [p]
          | none => []) := by
      unfold resolved_targets
      rw [List.filterMap_append]
      cases h : _dpu_dump_get_blk_addr l t <;> simp [List.filterMap, h]
    generalize hRdef : resolved_targets l ts = R at hR
    have hsel : (match _dpu_dump_get_blk_addr l t with
        | some blk_base =>
          if min DPU_DBG_BASE_MAX R.length < DPU_DBG_BASE_MAX then
            ({ blk_arr := (selection_of l ts).set (min DPU_DBG_BASE_MAX R.length) (some blk_base),
               index := min DPU_DBG_BASE_MAX R.length + 1,
               do_panic := decide ("panic".toList ∈ ts),
               dump_all := decide ("all".toList ∈ ts) } : dump_args)
          else { blk_arr := selection_of l ts, index := min DPU_DBG_BASE_MAX R.length,
                 do_panic := decide ("panic".toList ∈ ts),
                 dump_all := decide ("all".toList ∈ ts) }
        | none => { blk_arr := selection_of l ts, index := min DPU_DBG_BASE_MAX R.length,
                    do_panic := decide ("panic".toList ∈ ts),
                    dump_all := decide ("all".toList ∈ ts) }) =
        { blk_arr := selection_of l (ts ++ [t]),
          index := min DPU_DBG_BASE_MAX (resolved_targets l (ts ++ [t])).length,
          do_panic := decide ("panic".toList ∈ ts),
          dump_all := decide ("all".toList ∈ ts) } := by
      unfold selection_of
      rw [hR, hRdef]
      cases hlk : _dpu_dump_get_blk_addr l t with
      | none => simp
      | some p =>
        simp only [DPU_DBG_BASE_MAX]
        by_cases hlt : R.length < 10
        · have h1 : min 10 R.length = R.length := by omega
          have h2 : List.take 10 R = R := List.take_of_length_le (by omega)
          have h3 : List.take 10 (R ++ [p]) = R ++ [p] :=
            List.take_of_length_le (by simp; omega)
          have h4 : 10 - R.length = (10 - (R ++ [p]).length) + 1 := by simp; omega
          rw [h1, if_pos hlt, h2, h3, h4]
          congr 1
          · rw [List.set_append_right _ _ (by simp)]
            simp [List.replicate_succ]
          · simp; omega
        · have h1 : min 10 R.length = 10 := by omega
          have h2 : List.take 10 (R ++ [p]) = List.take 10 R := by
            rw [List.take_append_of_le_length (by omega)]
          have h3 : 10 - (R ++ [p]).length = 10 - R.length := by simp; omega
          have h5 : min 10 (R ++ [p]).length = 10 := by simp; omega
          rw [h1, if_neg (by omega), h2, h3, h5]
    unfold dpu_dbg_dump_arg
    simp only []
    rw [hsel]
    have hca : (['a', 'l', 'l'] = t) = (t = ['a', 'l', 'l']) := propext eq_comm
    have hcp : (['p', 'a', 'n', 'i', 'c'] = t) = (t = ['p', 'a', 'n', 'i', 'c']) :=
      propext eq_comm
    by_cases ha : t = ['a', 'l', 'l'] <;> by_cases hp : t = ['p', 'a', 'n', 'i', 'c'] <;>
      simp [hca, hcp, ha, hp]

/-- The state `dpu_dbg_dump` returns when no capture is pending. -/
theorem dump_not_pending (dbg : dpu_dbg_base) (dump_mode : dpu_dbg_dump_context) (name : CStr)
    (targets : List CStr) (hp : dbg.coredump_pending = false) :
    dpu_dbg_dump dbg dump_mode name targets =
      { dbg with req_dump_blks := selection_of dbg.reg_base_list targets,
                 dump_mode := dump_mode,
                 work_panic := decide ("panic".toList ∈ targets),
                 dump_all := decide ("all".toList ∈ targets),
                 work_queued := true } := by
  unfold dpu_dbg_dump
  rw [if_neg (by simp [hp])]
  simp only [dump_fold_spec]

/-- C6: a trigger accepted while no capture is pending stores the context, the
selection (the bases the names resolve to, in argument order, unknown names
skipped, at most the first 10, the other slots empty), `dump_all` = the name
"all" occurs, `work_panic` = the name "panic" occurs, and queues the dump work;
the catalog with its buffers, the sink flags and `coredump_pending` are
unchanged, and the stored request is the same from any other state with the
same catalog. -/
theorem C6_dump_stores_request (dbg : dpu_dbg_base) (dump_mode : dpu_dbg_dump_context)
    (name : CStr) (targets : List CStr) (hp : dbg.coredump_pending = false) :
    (dpu_dbg_dump dbg dump_mode name targets).dump_mode = dump_mode ∧
      (dpu_dbg_dump dbg dump_mode name targets).req_dump_blks =
        selection_of dbg.reg_base_list targets ∧
      ((dpu_dbg_dump dbg dump_mode name targets).dump_all = true ↔ "all".toList ∈ targets) ∧
      ((dpu_dbg_dump dbg dump_mode name targets).work_panic = true ↔
        "panic".toList ∈ targets) ∧
      (dpu_dbg_dump dbg dump_mode name targets).work_queued = true ∧
      (dpu_dbg_dump dbg dump_mode name targets).todump_st = dbg.todump_st ∧
      (dpu_dbg_dump dbg dump_mode name targets).enable_reg_dump = dbg.enable_reg_dump ∧
      (dpu_dbg_dump dbg dump_mode name targets).coredump_pending = dbg.coredump_pending ∧
      (∀ (dbg2 : dpu_dbg_base) (name2 : CStr), dbg2.coredump_pending = false →
        dbg2.reg_base_list = dbg.reg_base_list →
        (dpu_dbg_dump dbg2 dump_mode name2 targets).req_dump_blks =
            (dpu_dbg_dump dbg dump_mode name targets).req_dump_blks ∧
          (dpu_dbg_dump dbg2 dump_mode name2 targets).dump_all =
            (dpu_dbg_dump dbg dump_mode name targets).dump_all ∧
          (dpu_dbg_dump dbg2 dump_mode name2 targets).work_panic =
            (dpu_dbg_dump dbg dump_mode name targets).work_panic ∧
          (dpu_dbg_dump dbg2 dump_mode name2 targets).dump_mode =
            (dpu_dbg_dump dbg dump_mode name targets).dump_mode) := by
  rw [dump_not_pending dbg dump_mode name targets hp]
  refine ⟨rfl, rfl, by simp, by simp, rfl, rfl, rfl, rfl, ?_⟩
  intro dbg2 name2 hp2 hl
  rw [dump_not_pending dbg2 dump_mode name2 targets hp2, hl]
  exact ⟨rfl, rfl, rfl, rfl⟩

/-- C6 on the engine with the base "mdp" and the targets "nope", "mdp", "panic". -/
theorem C6_dump_stores_request_witness :
    dbg_mdp.coredump_pending = false ∧
      (dpu_dbg_dump dbg_mdp .DPU_DBG_DUMP_PROC_CTX "test".toList
          ["nope".toList, "mdp".toList, "panic".toList]).req_dump_blks =
        [some 0, none, none, none, none, none, none, none, none, none] :=
  ⟨rfl, (C6_dump_stores_request dbg_mdp .DPU_DBG_DUMP_PROC_CTX "test".toList
      ["nope".toList, "mdp".toList, "panic".toList] rfl).2.1.trans (by decide)⟩

/-! ### C7: the names "all" and "panic" -/

/-- Names that resolve to no base can be removed from the target list without
changing the selection. -/
theorem selection_of_filter (l : List dpu_dbg_reg_base) (targets : List CStr)
    (q : CStr → Bool) (hq : ∀ t ∈ targets, q t = false → _dpu_dump_get_blk_addr l t = none) :
    selection_of l (targets.filter q) = selection_of l targets := by
  have : resolved_targets l (targets.filter q) = resolved_targets l targets := by
    unfold resolved_targets
    induction targets with
    | nil => rfl
    | cons t ts ih =>
      have ih2 := ih (fun x hx => hq x (List.mem_cons_of_mem _ hx))
      by_cases h : q t = true
      · rw [List.filter_cons_of_pos h]
        simp only [List.filterMap_cons]
        rw [ih2]
      · rw [List.filter_cons_of_neg h]
        have := hq t (List.mem_cons_self _ _) (by simpa using h)
        simp only [List.filterMap_cons, this]
        exact ih2
  unfold selection_of
  rw [this]

/-- The selection for a target list split at a name that resolves to the base
`p`: with fewer than `DPU_DBG_BASE_MAX` bases resolved before it the base is in
the next slot, otherwise the selection is the one of the names before it. -/
theorem selection_of_split (l : List dpu_dbg_reg_base) (pre post : List CStr) (t : CStr)
    (p : Nat) (hlk : _dpu_dump_get_blk_addr l t = some p) :
    ((resolved_targets l pre).length < DPU_DBG_BASE_MAX →
        (selection_of l (pre ++ t :: post)).getD (resolved_targets l pre).length none =
          some p) ∧
      (DPU_DBG_BASE_MAX ≤ (resolved_targets l pre).length →
        selection_of l (pre ++ t :: post) = selection_of l pre) := by
  have hR : resolved_targets l (pre ++ t :: post) =
      resolved_targets l pre ++ p :: resolved_targets l post := by
    unfold resolved_targets
    rw [List.filterMap_append, List.filterMap_cons_some hlk]
  unfold selection_of
  rw [hR]
  generalize resolved_targets l pre = a
  generalize resolved_targets l post = c
  constructor
  · intro hk
    have h1 : a.length < (List.map some (List.take DPU_DBG_BASE_MAX (a ++ p :: c))).length := by
      rw [List.length_map, List.length_take, List.length_append, List.length_cons]
      omega
    rw [List.getD_eq_getElem?_getD, List.getElem?_append_left h1, List.getElem?_map,
      List.getElem?_take_of_lt hk, List.getElem?_append_right (le_refl _), Nat.sub_self]
    simp
  · intro hk
    have h2 : List.take DPU_DBG_BASE_MAX (a ++ p :: c) = List.take DPU_DBG_BASE_MAX a := by
      rw [List.take_append_of_le_length hk]
    have h3 : DPU_DBG_BASE_MAX - (a ++ p :: c).length = DPU_DBG_BASE_MAX - a.length := by
      rw [List.length_append, List.length_cons]
      omega
    rw [h2, h3]

/-- C7 (amended): when no base is registered under the name "all" or "panic",
the selection array stored by `dpu_dbg_dump` is the one stored for the target
list with these two names removed: they contribute no base.  On an accepted
trigger they set `dump_all` and `work_panic`.  When a base `p` is registered
under the name "all" or "panic", an accepted trigger looks that name up like
any other: with fewer than `DPU_DBG_BASE_MAX` bases selected by the targets
before it, `p` is placed into the next free slot of the selection array; with
the ten slots taken it is not placed, the array being the one of the targets
before it. -/
theorem C7_sentinels_not_selected (dbg : dpu_dbg_base) (dump_mode : dpu_dbg_dump_context)
    (name : CStr) (targets : List CStr) :
    (_dpu_dump_get_blk_addr dbg.reg_base_list "all".toList = none →
      _dpu_dump_get_blk_addr dbg.reg_base_list "panic".toList = none →
      (dpu_dbg_dump dbg dump_mode name targets).req_dump_blks =
        (dpu_dbg_dump dbg dump_mode name
          (targets.filter (fun t => decide (t ≠ "all".toList ∧ t ≠ "panic".toList)))).req_dump_blks) ∧
      (dbg.coredump_pending = false →
        ((dpu_dbg_dump dbg dump_mode name targets).dump_all = true ↔
          "all".toList ∈ targets) ∧
        ((dpu_dbg_dump dbg dump_mode name targets).work_panic = true ↔
          "panic".toList ∈ targets)) ∧
      (dbg.coredump_pending = false →
        ∀ (pre post : List CStr) (t : CStr) (p : Nat), targets = pre ++ t :: post →
          t = "all".toList ∨ t = "panic".toList →
          _dpu_dump_get_blk_addr dbg.reg_base_list t = some p →
          ((resolved_targets dbg.reg_base_list pre).length < DPU_DBG_BASE_MAX →
            (dpu_dbg_dump dbg dump_mode name targets).req_dump_blks.getD
              (resolved_targets dbg.reg_base_list pre).length none = some p) ∧
          (DPU_DBG_BASE_MAX ≤ (resolved_targets dbg.reg_base_list pre).length →
            (dpu_dbg_dump dbg dump_mode name targets).req_dump_blks =
              (dpu_dbg_dump dbg dump_mode name pre).req_dump_blks)) := by
  refine ⟨?_, ?_, ?_⟩
  · intro hall hpanic
    by_cases hp : dbg.coredump_pending = false
    · rw [dump_not_pending dbg dump_mode name targets hp,
        dump_not_pending dbg dump_mode name _ hp]
      simp only
      rw [selection_of_filter]
      intro t _ ht
      simp only [decide_eq_false_iff_not, not_and_or, not_not, ne_eq] at ht
      rcases ht with h | h
      · rw [h]; exact hall
      · rw [h]; exact hpanic
    · have hp2 : dbg.coredump_pending = true := by simpa using hp
      unfold dpu_dbg_dump
      by_cases hf : (dbg.enable_reg_dump = DPU_DBG_DUMP_IN_MEM ∨
          dbg.enable_reg_dump = DPU_DBG_DUMP_IN_COREDUMP) ∧ dbg.coredump_pending = true
      · rw [if_pos hf, if_pos hf]
      · rw [if_neg hf, if_neg hf]
        simp only [dump_fold_spec]
        rw [selection_of_filter]
        intro t _ ht
        simp only [decide_eq_false_iff_not, not_and_or, not_not, ne_eq] at ht
        rcases ht with h | h
        · rw [h]; exact hall
        · rw [h]; exact hpanic
  · intro hp
    rw [dump_not_pending dbg dump_mode name targets hp]
    simp
  · intro hp pre post t p htar _ hlk
    rw [dump_not_pending dbg dump_mode name targets hp, dump_not_pending dbg dump_mode name pre hp]
    subst htar
    exact selection_of_split dbg.reg_base_list pre post t p hlk

/-- C7 on the engine with the base "mdp" and the targets "all", "mdp" (no
base named "all": the target contributes nothing), and on the engine with the
base "all" and the targets "all" (the base is placed into slot 0). -/
theorem C7_sentinels_not_selected_witness :
    ((_dpu_dump_get_blk_addr dbg_mdp.reg_base_list "all".toList = none ∧
      _dpu_dump_get_blk_addr dbg_mdp.reg_base_list "panic".toList = none) ∧
      (dpu_dbg_dump dbg_mdp .DPU_DBG_DUMP_PROC_CTX "test".toList
          ["all".toList, "mdp".toList]).req_dump_blks =
        (dpu_dbg_dump dbg_mdp .DPU_DBG_DUMP_PROC_CTX "test".toList
          (["all".toList, "mdp".toList].filter
            (fun t => decide (t ≠ "all".toList ∧ t ≠ "panic".toList)))).req_dump_blks) ∧
    ((dbg_all.coredump_pending = false ∧
      _dpu_dump_get_blk_addr dbg_all.reg_base_list "all".toList = some 0 ∧
      (resolved_targets dbg_all.reg_base_list []).length < DPU_DBG_BASE_MAX) ∧
      (dpu_dbg_dump dbg_all .DPU_DBG_DUMP_PROC_CTX "test".toList
          ["all".toList]).req_dump_blks.getD 0 none = some 0) :=
  ⟨⟨⟨by decide, by decide⟩,
    (C7_sentinels_not_selected dbg_mdp .DPU_DBG_DUMP_PROC_CTX "test".toList
      ["all".toList, "mdp".toList]).1 (by decide) (by decide)⟩,
   ⟨⟨by decide, by decide, by decide⟩,
    ((C7_sentinels_not_selected dbg_all .DPU_DBG_DUMP_PROC_CTX "test".toList
      ["all".toList]).2.2 (by decide) [] [] "all".toList 0 rfl (Or.inl rfl) (by decide)).1
      (by decide)⟩⟩

/-- C7 (counterexample): with a base registered under the name "all", the
target "all" puts that base into slot 0 of the selection array (and sets
`dump_all`), while the empty target list leaves the array empty. -/
theorem C7_base_named_all_is_selected :
    (dpu_dbg_dump dbg_all .DPU_DBG_DUMP_PROC_CTX "test".toList ["all".toList]).req_dump_blks =
        [some 0, none, none, none, none, none, none, none, none, none] ∧
      (dpu_dbg_dump dbg_all .DPU_DBG_DUMP_PROC_CTX "test".toList ["all".toList]).dump_all =
        true ∧
      (dpu_dbg_dump dbg_all .DPU_DBG_DUMP_PROC_CTX "test".toList []).req_dump_blks =
        [none, none, none, none, none, none, none, none, none, none] ∧
      (deref_base dbg_all.reg_base_list 0).map (fun b => b.name) = some "all".toList := by
  decide

/-! ### C8: at most one pending artifact -/

/-- Fields of the engine that `_dpu_dump_array` leaves alone. -/
theorem dump_array_frame (env : dpu_env) (d : dpu_dbg_base)
    (blk_arr : Option (List (Option Nat))) (len : Nat) (do_panic : Bool) (name : CStr)
    (dump_all : Bool) :
    (_dpu_dump_array env d blk_arr len do_panic name dump_all).enable_reg_dump =
        d.enable_reg_dump ∧
      (_dpu_dump_array env d blk_arr len do_panic name dump_all).coredump_pending =
        d.coredump_pending ∧
      (_dpu_dump_array env d blk_arr len do_panic name dump_all).published = d.published ∧
      (_dpu_dump_array env d blk_arr len do_panic name dump_all).released = d.released ∧
      (_dpu_dump_array env d blk_arr len do_panic name dump_all).work_queued = d.work_queued :=
  ⟨rfl, rfl, rfl, rfl, rfl⟩

/-- Fields of the engine that `dpu_dbg_reg_register_base` leaves alone. -/
theorem register_base_frame (env : dpu_env) (d : dpu_dbg_base) (name : Option CStr)
    (base max_offset : Nat) :
    (dpu_dbg_reg_register_base env d name base max_offset).2.enable_reg_dump =
        d.enable_reg_dump ∧
      (dpu_dbg_reg_register_base env d name base max_offset).2.coredump_pending =
        d.coredump_pending ∧
      (dpu_dbg_reg_register_base env d name base max_offset).2.published = d.published ∧
      (dpu_dbg_reg_register_base env d name base max_offset).2.released = d.released ∧
      (dpu_dbg_reg_register_base env d name base max_offset).2.work_queued = d.work_queued := by
  unfold dpu_dbg_reg_register_base
  cases name with
  | none => exact ⟨rfl, rfl, rfl, rfl, rfl⟩
  | some nm =>
    simp only
    split_ifs <;> exact ⟨rfl, rfl, rfl, rfl, rfl⟩

/-- Fields of the engine that `dpu_dbg_reg_register_dump_range` leaves alone. -/
theorem register_dump_range_frame (env : dpu_env) (d : dpu_dbg_base) (base_name : CStr)
    (range_name : Option CStr) (a b c : Nat) :
    (dpu_dbg_reg_register_dump_range env d base_name range_name a b c).enable_reg_dump =
        d.enable_reg_dump ∧
      (dpu_dbg_reg_register_dump_range env d base_name range_name a b c).coredump_pending =
        d.coredump_pending ∧
      (dpu_dbg_reg_register_dump_range env d base_name range_name a b c).published =
        d.published ∧
      (dpu_dbg_reg_register_dump_range env d base_name range_name a b c).released =
        d.released ∧
      (dpu_dbg_reg_register_dump_range env d base_name range_name a b c).work_queued =
        d.work_queued := by
  unfold dpu_dbg_reg_register_dump_range
  cases _dpu_dump_get_blk_addr d.reg_base_list base_name with
  | none => exact ⟨rfl, rfl, rfl, rfl, rfl⟩
  | some p =>
    cases range_name with
    | none => exact ⟨rfl, rfl, rfl, rfl, rfl⟩
    | some rn =>
      simp only
      split_ifs
      · exact ⟨rfl, rfl, rfl, rfl, rfl⟩
      · exact ⟨rfl, rfl, rfl, rfl, rfl⟩
      · exact ⟨rfl, rfl, rfl, rfl, rfl⟩
      · cases deref_base d.reg_base_list p <;> exact ⟨rfl, rfl, rfl, rfl, rfl⟩

/-- Fields of the engine after `dpu_devcoredump_read`. -/
theorem read_frame (env : dpu_env) (d : dpu_dbg_base) :
    (dpu_devcoredump_read env d).enable_reg_dump = DPU_DBG_DUMP_IN_COREDUMP ∧
      (dpu_devcoredump_read env d).coredump_pending = d.coredump_pending ∧
      (dpu_devcoredump_read env d).published = d.published ∧
      (dpu_devcoredump_read env d).released = d.released ∧
      (dpu_devcoredump_read env d).work_queued = d.work_queued := by
  unfold dpu_devcoredump_read
  simp only
  split_ifs
  · exact ⟨rfl, rfl, rfl, rfl, rfl⟩
  · split <;> exact ⟨rfl, rfl, rfl, rfl, rfl⟩

/-- Fields of the engine that `dpu_debugfs_set` leaves alone. -/
theorem debugfs_set_frame (env : dpu_env) (d : dpu_dbg_base) (value : Nat) :
    (dpu_debugfs_set env d value).enable_reg_dump = d.enable_reg_dump ∧
      (dpu_debugfs_set env d value).coredump_pending = d.coredump_pending ∧
      (dpu_debugfs_set env d value).published = d.published ∧
      (dpu_debugfs_set env d value).released = d.released ∧
      (dpu_debugfs_set env d value).work_queued = d.work_queued := by
  unfold dpu_debugfs_set
  split_ifs <;> exact ⟨rfl, rfl, rfl, rfl, rfl⟩

/-- Fields of the engine after `dpu_devcoredump_free`. -/
theorem free_frame (d : dpu_dbg_base) :
    (dpu_devcoredump_free d).enable_reg_dump = d.enable_reg_dump ∧
      (dpu_devcoredump_free d).coredump_pending = false ∧
      (dpu_devcoredump_free d).published = d.published ∧
      (dpu_devcoredump_free d).released = d.released ∧
      (dpu_devcoredump_free d).work_queued = d.work_queued := by
  unfold dpu_devcoredump_free
  cases d.atomic_state <;> exact ⟨rfl, rfl, rfl, rfl, rfl⟩

/-- The state after `_dpu_dump_work`: the default sink flags contain the Memory
sink, so an artifact is always published. -/
theorem dump_work_eq (d : dpu_dbg_base) (now snapshot : Nat) :
    _dpu_dump_work d now snapshot =
      { d with enable_reg_dump := DEFAULT_REGDUMP, timestamp := now,
               atomic_state := some snapshot, published := d.published + 1,
               coredump_pending := true } := by
  unfold _dpu_dump_work
  simp only
  rw [if_pos (by decide)]

/-- Under the invariant a trigger made while a capture is pending changes nothing. -/
theorem dump_pending_noop (s : dpu_dbg_base) (hinv : engine_inv s)
    (hp : s.coredump_pending = true) (dump_mode : dpu_dbg_dump_context) (name : CStr)
    (targets : List CStr) : dpu_dbg_dump s dump_mode name targets = s := by
  unfold dpu_dbg_dump
  rw [if_pos ⟨hinv.1, hp⟩]

/-- Every step of the engine keeps the invariant. -/
theorem engine_inv_step (env : dpu_env) (s t : dpu_dbg_base) (hinv : engine_inv s)
    (hst : engine_step env s t) : engine_inv t := by
  obtain ⟨h1, h2, h3, h4, h5⟩ := hinv
  cases hst with
  | register_base name base max_offset _ =>
    obtain ⟨e1, e2, e3, e4, e5⟩ := register_base_frame env s name base max_offset
    unfold engine_inv
    rw [e1, e2, e3, e4, e5]
    exact ⟨h1, h2, h3, h4, h5⟩
  | register_dump_range base_name range_name a b c _ =>
    obtain ⟨e1, e2, e3, e4, e5⟩ := register_dump_range_frame env s base_name range_name a b c
    unfold engine_inv
    rw [e1, e2, e3, e4, e5]
    exact ⟨h1, h2, h3, h4, h5⟩
  | dump dump_mode name targets _ =>
    by_cases hp : s.coredump_pending = true
    · rw [dump_pending_noop s ⟨h1, h2, h3, h4, h5⟩ hp]
      exact ⟨h1, h2, h3, h4, h5⟩
    · have hp2 : s.coredump_pending = false := by simpa using hp
      rw [dump_not_pending s dump_mode name targets hp2]
      refine ⟨h1, h2, h3, h4, ?_⟩
      intro hpt
      exact absurd hpt hp
  | work now snapshot _ hq =>
    have hnp : s.coredump_pending ≠ true := fun hp => by
      have := h5 hp
      rw [hq] at this
      exact Bool.noConfusion this
    have hpub : s.published = s.released := by
      have := mt h4.mpr hnp
      omega
    rw [dump_work_eq]
    refine ⟨Or.inl rfl, ?_, ?_, ?_, ?_⟩
    · show s.released ≤ s.published + 1
      omega
    · show s.published + 1 ≤ s.released + 1
      omega
    · show (true = true ↔ s.published + 1 = s.released + 1)
      simp [hpub]
    · intro _
      rfl
  | read _ _ =>
    obtain ⟨e1, e2, e3, e4, e5⟩ := read_frame env s
    unfold engine_inv
    rw [e1, e2, e3, e4, e5]
    exact ⟨Or.inr rfl, h2, h3, h4, h5⟩
  | free _ hlt =>
    obtain ⟨e1, e2, e3, e4, e5⟩ := free_frame s
    refine ⟨?_, ?_, ?_, ?_, ?_⟩
    · show (dpu_devcoredump_free s).enable_reg_dump = _ ∨ (dpu_devcoredump_free s).enable_reg_dump = _
      rw [e1]; exact h1
    · show s.released + 1 ≤ (dpu_devcoredump_free s).published
      rw [e3]; omega
    · show (dpu_devcoredump_free s).published ≤ s.released + 1 + 1
      rw [e3]; omega
    · show ((dpu_devcoredump_free s).coredump_pending = true ↔
        (dpu_devcoredump_free s).published = s.released + 1 + 1)
      rw [e2, e3]
      constructor
      · intro h; exact Bool.noConfusion h
      · intro h; omega
    · show (dpu_devcoredump_free s).coredump_pending = true → _
      rw [e2]
      intro h
      exact Bool.noConfusion h
  | debugfs_set value _ =>
    obtain ⟨e1, e2, e3, e4, e5⟩ := debugfs_set_frame env s value
    unfold engine_inv
    rw [e1, e2, e3, e4, e5]
    exact ⟨h1, h2, h3, h4, h5⟩

/-- The invariant holds in every reachable state. -/
theorem engine_inv_reachable (env : dpu_env) (s : dpu_dbg_base)
    (h : engine_reachable env s) : engine_inv s := by
  induction h with
  | init dev =>
    refine ⟨Or.inl rfl, ?_, ?_, ?_, ?_⟩
    · show (0 : Nat) ≤ 0
      omega
    · show (0 : Nat) ≤ 0 + 1
      omega
    · show (false = true ↔ (0 : Nat) = 0 + 1)
      simp
    · intro _
      rfl
  | step s t _ hst ih => exact engine_inv_step env s t ih hst

/-- C8: in every state reachable from `dpu_dbg_init` at most one artifact is
published and not yet released, `coredump_pending` is true exactly when there
is one, a `dpu_dbg_dump` call made while `coredump_pending` is true leaves the
whole state unchanged (so it queues no work), and no step taken from such a
state publishes a further artifact. -/
theorem C8_single_pending_artifact (env : dpu_env) (s : dpu_dbg_base)
    (h : engine_reachable env s) :
    artifacts_outstanding s ≤ 1 ∧
      (s.coredump_pending = true ↔ artifacts_outstanding s = 1) ∧
      (s.coredump_pending = true →
        ∀ (dump_mode : dpu_dbg_dump_context) (name : CStr) (targets : List CStr),
          dpu_dbg_dump s dump_mode name targets = s) ∧
      (s.coredump_pending = true → s.work_queued = false) ∧
      (s.coredump_pending = true → ∀ t, engine_step env s t → t.published = s.published) := by
  have hinv := engine_inv_reachable env s h
  obtain ⟨h1, h2, h3, h4, h5⟩ := hinv
  unfold artifacts_outstanding
  refine ⟨by omega, ?_, ?_, h5, ?_⟩
  · rw [h4]
    omega
  · intro hp dump_mode name targets
    exact dump_pending_noop s ⟨h1, h2, h3, h4, h5⟩ hp dump_mode name targets
  · intro hp t hst
    cases hst with
    | register_base name base max_offset _ =>
      exact (register_base_frame env s name base max_offset).2.2.1
    | register_dump_range base_name range_name a b c _ =>
      exact (register_dump_range_frame env s base_name range_name a b c).2.2.1
    | dump dump_mode name targets _ =>
      rw [dump_pending_noop s ⟨h1, h2, h3, h4, h5⟩ hp]
    | work now snapshot _ hq =>
      have := h5 hp
      rw [hq] at this
      exact Bool.noConfusion this
    | read _ _ => exact (read_frame env s).2.2.1
    | free _ _ => exact (free_frame s).2.2.1
    | debugfs_set value _ => exact (debugfs_set_frame env s value).2.2.1

/-- C8 on the state reached by init, a trigger for "mdp" and one run of the
dump work: one artifact is outstanding and `coredump_pending` is set. -/
theorem C8_single_pending_artifact_witness :
    engine_reachable env_ok
        (_dpu_dump_work
          { dpu_dbg_dump dbg0 .DPU_DBG_DUMP_PROC_CTX "test".toList ["mdp".toList] with
            work_queued := false } 5 7) ∧
      artifacts_outstanding
        (_dpu_dump_work
          { dpu_dbg_dump dbg0 .DPU_DBG_DUMP_PROC_CTX "test".toList ["mdp".toList] with
            work_queued := false } 5 7) ≤ 1 :=
  ⟨engine_reachable.step _ _
      (engine_reachable.step _ _ (engine_reachable.init 1)
        (engine_step.dump _ .DPU_DBG_DUMP_PROC_CTX "test".toList ["mdp".toList] rfl))
      (engine_step.work _ 5 7 rfl rfl),
   (C8_single_pending_artifact env_ok _
      (engine_reachable.step _ _
        (engine_reachable.step _ _ (engine_reachable.init 1)
          (engine_step.dump _ .DPU_DBG_DUMP_PROC_CTX "test".toList ["mdp".toList] rfl))
        (engine_step.work _ 5 7 rfl rfl))).1⟩

/-! ### C9: the dump of everything -/

/-- Reflexivity of `steady`. -/
theorem steady_refl (st : dump_st) : steady st st := ⟨rfl, rfl, id⟩

/-- Transitivity of `steady`. -/
theorem steady_trans {a b c : dump_st} (h1 : steady a b) (h2 : steady b c) : steady a c :=
  ⟨h2.1.trans h1.1, h2.2.1.trans h1.2.1, fun h => h2.2.2 (h1.2.2 h)⟩

/-- Reader entries of a concatenated trace. -/
theorem reader_calls_append (t1 t2 : List dbg_event) :
    reader_calls (t1 ++ t2) = reader_calls t1 ++ reader_calls t2 := by
  unfold reader_calls
  rw [List.filterMap_append]

/-- Register reads of a concatenated trace. -/
theorem readl_addrs_append (t1 t2 : List dbg_event) :
    readl_addrs (t1 ++ t2) = readl_addrs t1 ++ readl_addrs t2 := by
  unfold readl_addrs
  rw [List.filterMap_append]

/-- Log-sink chunk lines of a concatenated trace. -/
theorem log_lines_append (t1 t2 : List dbg_event) :
    log_lines (t1 ++ t2) = log_lines t1 ++ log_lines t2 := by
  unfold log_lines
  rw [List.filterMap_append]

/-- Coredump-sink chunk lines of a concatenated trace. -/
theorem dump_lines_append (t1 t2 : List dbg_event) :
    dump_lines (t1 ++ t2) = dump_lines t1 ++ dump_lines t2 := by
  unfold dump_lines
  rw [List.filterMap_append]

/-- An event other than a reader entry keeps the state steady. -/
theorem steady_emit (st : dump_st) (e : dbg_event) (he : reader_calls [e] = []) :
    steady st (st.emit e) := by
  refine ⟨rfl, ?_, id⟩
  show reader_calls (st.trace ++ [e]) = _
  rw [reader_calls_append, he, List.append_nil]

/-- A guarded register read keeps the state steady. -/
theorem steady_word (env : dpu_env) (c : Bool) (a : Nat) (st : dump_st) :
    steady st (_dpu_dump_reg_word env c a st).2 := by
  unfold _dpu_dump_reg_word
  split_ifs
  · exact steady_emit st _ rfl
  · exact steady_refl st

/-- Room for more chunks is room for fewer. -/
theorem has_room_mono (n m : Nat) (dump_addr : Option (List Nat)) (h : has_room n dump_addr)
    (hm : m ≤ n) : has_room m dump_addr :=
  fun b hb => by have := h b hb; omega

/-- Room depends on the length of the buffer only. -/
theorem has_room_of_length (n : Nat) (a b : Option (List Nat))
    (hl : b.map List.length = a.map List.length) (h : has_room n a) : has_room n b := by
  intro x hx
  subst hx
  cases a with
  | none => simp at hl
  | some y =>
    simp only [Option.map_some', Option.some.injEq] at hl
    rw [hl]
    exact h y rfl

/-- The sinks of a chunk keep the state steady when a Coredump-sink dump has a
buffer and the buffer has room for the chunk, and keep the length of the
buffer. -/
theorem steady_sinks (in_log in_mem in_dump base_addr i addr x0 x4 x8 xc : Nat)
    (st : dump_st) (dump_addr : Option (List Nat))
    (hbuf : in_dump ≠ 0 → dump_addr.isSome = true) (hroom : has_room (i + 1) dump_addr) :
    steady st (_dpu_dump_reg_sinks in_log in_mem in_dump base_addr i addr x0 x4 x8 xc st
        dump_addr).1 ∧
      (_dpu_dump_reg_sinks in_log in_mem in_dump base_addr i addr x0 x4 x8 xc st
        dump_addr).2.map List.length = dump_addr.map List.length := by
  have h1 : steady st
      (if in_log ≠ 0 then st.emit (.log_line (addr - base_addr) x0 x4 x8 xc) else st) := by
    split_ifs
    · exact steady_emit st _ rfl
    · exact steady_refl st
  unfold _dpu_dump_reg_sinks
  cases dump_addr with
  | none =>
    have hd : ¬ in_dump ≠ 0 := fun h => by simpa using hbuf h
    dsimp only
    rw [if_neg hd]
    exact ⟨h1, rfl⟩
  | some b =>
    dsimp only
    have hin : i * 4 + 3 < b.length ∧ i * 4 + 3 < 2 ^ 31 := by
      have h2 := hroom b rfl
      omega
    have hlen : (if in_mem ≠ 0 then
        (((b.set (i * 4) x0).set (i * 4 + 1) x4).set (i * 4 + 2) x8).set (i * 4 + 3) xc
        else b).length = b.length := by
      split_ifs <;> simp
    rw [if_neg (fun h => h.2 hin)]
    by_cases hd : in_dump ≠ 0
    · rw [if_pos hd]
      exact ⟨steady_trans h1 (steady_emit _ _ rfl), by simp only [Option.map_some', hlen]⟩
    · rw [if_neg hd]
      exact ⟨h1, by simp only [Option.map_some', hlen]⟩

/-- A chunk keeps the state steady when a Coredump-sink dump has a buffer with
room for the chunk. -/
theorem steady_chunk (env : dpu_env) (in_log in_mem in_dump base_addr end_addr i addr : Nat)
    (st : dump_st) (dump_addr : Option (List Nat))
    (hbuf : in_dump ≠ 0 → dump_addr.isSome = true) (hroom : has_room (i + 1) dump_addr) :
    steady st (_dpu_dump_reg_chunk env in_log in_mem in_dump base_addr end_addr i addr st
        dump_addr).1 ∧
      (_dpu_dump_reg_chunk env in_log in_mem in_dump base_addr end_addr i addr st
        dump_addr).2.map List.length = dump_addr.map List.length := by
  unfold _dpu_dump_reg_chunk
  dsimp only
  have hw := steady_trans (steady_trans (steady_trans
    (steady_word env (decide (in_log ≠ 0 ∨ in_mem ≠ 0) && decide (addr < end_addr))
      (addr + 0x0) st)
    (steady_word env (decide (in_log ≠ 0 ∨ in_mem ≠ 0) && decide (addr + 0x4 < end_addr))
      (addr + 0x4) _))
    (steady_word env (decide (in_log ≠ 0 ∨ in_mem ≠ 0) && decide (addr + 0x8 < end_addr))
      (addr + 0x8) _))
    (steady_word env (decide (in_log ≠ 0 ∨ in_mem ≠ 0) && decide (addr + 0xc < end_addr))
      (addr + 0xc) _)
  exact ⟨steady_trans hw (steady_sinks _ _ _ _ _ _ _ _ _ _ _ _ hbuf hroom).1,
    (steady_sinks _ _ _ _ _ _ _ _ _ _ _ _ hbuf hroom).2⟩

/-- The chunk loop keeps the state steady when a Coredump-sink dump has a
buffer and the buffer has room for all the chunks; it keeps the length of the
buffer. -/
theorem steady_loop (env : dpu_env) (in_log in_mem in_dump base_addr end_addr : Nat)
    (n i addr : Nat) (st : dump_st) (dump_addr : Option (List Nat))
    (hbuf : in_dump ≠ 0 → dump_addr.isSome = true) (hroom : has_room (i + n) dump_addr) :
    steady st (_dpu_dump_reg_loop env in_log in_mem in_dump base_addr end_addr n i addr st
        dump_addr).1 ∧
      (_dpu_dump_reg_loop env in_log in_mem in_dump base_addr end_addr n i addr st
        dump_addr).2.map List.length = dump_addr.map List.length := by
  induction n generalizing i addr st dump_addr with
  | zero => exact ⟨steady_refl st, rfl⟩
  | succ n ih =>
    unfold _dpu_dump_reg_loop
    split_ifs with hd
    · exact ⟨steady_refl st, rfl⟩
    · have hc := steady_chunk env in_log in_mem in_dump base_addr end_addr i addr st dump_addr
        hbuf (has_room_mono _ _ _ hroom (by omega))
      have hsome : in_dump ≠ 0 → (_dpu_dump_reg_chunk env in_log in_mem in_dump base_addr
          end_addr i addr st dump_addr).2.isSome = true := by
        intro h
        have h2 := hbuf h
        have h3 := hc.2
        cases hx : (_dpu_dump_reg_chunk env in_log in_mem in_dump base_addr end_addr i addr st
          dump_addr).2 with
        | some _ => rfl
        | none =>
          rw [hx] at h3
          cases dump_addr with
          | none => simp at h2
          | some _ => simp at h3
      have hi := ih (i + 1) (addr + REG_DUMP_ALIGN)
        (_dpu_dump_reg_chunk env in_log in_mem in_dump base_addr end_addr i addr st dump_addr).1
        (_dpu_dump_reg_chunk env in_log in_mem in_dump base_addr end_addr i addr st dump_addr).2
        hsome
        (has_room_of_length _ _ _ hc.2 (by
          have e : i + 1 + n = i + (n + 1) := by omega
          rw [e]
          exact hroom))
      exact ⟨steady_trans hc.1 hi.1, hi.2.trans hc.2⟩

/-- Advancing the power-call counter keeps the state steady. -/
theorem steady_set_n_pm (st : dump_st) (n : Nat) : steady st { st with n_pm := n } :=
  ⟨rfl, rfl, id⟩

/-- Advancing the allocation counter keeps the state steady. -/
theorem steady_set_n_alloc (st : dump_st) (n : Nat) : steady st { st with n_alloc := n } :=
  ⟨rfl, rfl, id⟩

/-- The buffer headers keep the state steady. -/
theorem steady_headers (st : dump_st) (dump_name : CStr) (in_dump len_padded reg_offset : Nat) :
    steady st (_dpu_dump_reg_headers st dump_name in_dump len_padded reg_offset) := by
  unfold _dpu_dump_reg_headers
  dsimp only
  split_ifs
  · exact steady_trans (steady_emit st (.log_mem dump_name len_padded reg_offset) rfl)
      (steady_emit _ (.dump_mem dump_name len_padded reg_offset) rfl)
  · exact steady_emit st (.log_mem dump_name len_padded reg_offset) rfl

/-- With allocations succeeding the buffer set-up keeps the state steady,
leaves a buffer for the Coredump sink, and leaves buffers with room for the
`n` chunks of the window when `*dump_mem` has room and `len_padded` holds the
padded length. -/
theorem steady_alloc (env : dpu_env) (halloc : ∀ n, env.kzalloc_ok n = true) (st : dump_st)
    (dump_name : CStr) (in_mem in_dump len_padded reg_offset n : Nat)
    (dump_mem : Option (List Nat)) (hroom : has_room n dump_mem) (hpad : n * 16 ≤ len_padded)
    (hpad32 : len_padded < 2 ^ 32) :
    steady st (_dpu_dump_reg_alloc env st dump_name in_mem in_dump len_padded reg_offset
        dump_mem).st ∧
      (in_dump ≠ 0 → (_dpu_dump_reg_alloc env st dump_name in_mem in_dump len_padded reg_offset
        dump_mem).dump_addr.isSome = true) ∧
      has_room n (_dpu_dump_reg_alloc env st dump_name in_mem in_dump len_padded reg_offset
        dump_mem).dump_addr ∧
      has_room n (_dpu_dump_reg_alloc env st dump_name in_mem in_dump len_padded reg_offset
        dump_mem).dump_mem := by
  have hfresh : has_room n (some (List.replicate (len_padded / 4) 0)) := by
    intro b hb
    cases hb
    rw [List.length_replicate]
    omega
  unfold _dpu_dump_reg_alloc
  by_cases h : in_mem ≠ 0 ∨ in_dump ≠ 0
  · rw [if_pos h]
    cases dump_mem with
    | some b => exact ⟨steady_headers _ _ _ _ _, fun _ => rfl, hroom, hroom⟩
    | none =>
      dsimp only
      rw [if_pos (halloc _)]
      exact ⟨steady_trans (steady_set_n_alloc st _) (steady_headers _ _ _ _ _), fun _ => rfl,
        hfresh, hfresh⟩
  · rw [if_neg h]
    exact ⟨steady_refl st, fun hd => absurd (Or.inr hd) h, (fun _ hb => nomatch hb), hroom⟩

/-- The power bracket and chunk loop keep the state steady when the buffers
have room for the chunks, and hand back a buffer with room. -/
theorem steady_dump_reg_run (env : dpu_env) (dump_mode : dpu_dbg_dump_context)
    (in_log in_dump base_addr end_addr len_align addr : Nat) (bufs : dump_reg_bufs)
    (hbuf : in_dump ≠ 0 → bufs.dump_addr.isSome = true)
    (hroom : has_room len_align bufs.dump_addr) (hmem : has_room len_align bufs.dump_mem) :
    steady bufs.st (_dpu_dump_reg_run env dump_mode in_log in_dump base_addr end_addr len_align
      addr bufs).1 ∧
      has_room len_align (_dpu_dump_reg_run env dump_mode in_log in_dump base_addr end_addr
        len_align addr bufs).2 := by
  have hpm : steady bufs.st ({ bufs.st.emit (.pm_get (env.pm_runtime_get_sync bufs.st.n_pm)) with
      n_pm := bufs.st.n_pm + 1 } : dump_st) :=
    steady_trans (steady_emit bufs.st (.pm_get (env.pm_runtime_get_sync bufs.st.n_pm)) rfl)
      (steady_set_n_pm _ _)
  have hr0 : has_room (0 + len_align) bufs.dump_addr := by
    rw [Nat.zero_add]
    exact hroom
  have hback : ∀ (x : Option (List Nat)), x.map List.length = bufs.dump_addr.map List.length →
      has_room len_align (match x with
        | some b => some b
        | none => bufs.dump_mem) := by
    intro x hx
    cases x with
    | none => exact hmem
    | some b => exact has_room_of_length _ _ _ hx hroom
  unfold _dpu_dump_reg_run
  dsimp only
  split_ifs
  · exact ⟨hpm, hmem⟩
  · have hl := steady_loop env in_log bufs.in_mem in_dump base_addr end_addr len_align 0 addr
      ({ bufs.st.emit (.pm_get (env.pm_runtime_get_sync bufs.st.n_pm)) with
        n_pm := bufs.st.n_pm + 1 } : dump_st) bufs.dump_addr hbuf hr0
    exact ⟨steady_trans hpm hl.1, hback _ hl.2⟩
  · have hl := steady_loop env in_log bufs.in_mem in_dump base_addr end_addr len_align 0 addr
      ({ bufs.st.emit (.pm_get (env.pm_runtime_get_sync bufs.st.n_pm)) with
        n_pm := bufs.st.n_pm + 1 } : dump_st) bufs.dump_addr hbuf hr0
    exact ⟨steady_trans (steady_trans hpm hl.1) (steady_emit _ .pm_put rfl), hback _ hl.2⟩
  · have hl := steady_loop env in_log bufs.in_mem in_dump base_addr end_addr len_align 0 addr
      bufs.st bufs.dump_addr hbuf hr0
    exact ⟨hl.1, hback _ hl.2⟩

/-- The chunk count and padded length of a window of at most `2^32 - 16`
bytes are not truncated. -/
theorem len_align_of_fits (len_bytes : Nat) (h : len_bytes ≤ 2 ^ 32 - 16) :
    u32 ((len_bytes + REG_DUMP_ALIGN - 1) / REG_DUMP_ALIGN) = (len_bytes + 15) / 16 ∧
      u32 (u32 ((len_bytes + REG_DUMP_ALIGN - 1) / REG_DUMP_ALIGN) * REG_DUMP_ALIGN) =
        (len_bytes + 15) / 16 * 16 ∧
      (len_bytes + 15) / 16 * 4 ≤ 2 ^ 30 := by
  unfold u32 REG_DUMP_ALIGN
  have e : len_bytes + 16 - 1 = len_bytes + 15 := by omega
  rw [e]
  have h1 : (len_bytes + 15) / 16 < 2 ^ 28 := by omega
  rw [Nat.mod_eq_of_lt (by omega), Nat.mod_eq_of_lt (by omega)]
  exact ⟨rfl, rfl, by omega⟩

/-- A window that fits has room for its chunks. -/
theorem has_room_of_fits (len_bytes : Nat) (dump_mem : Option (List Nat))
    (h : window_fits len_bytes dump_mem) :
    has_room (u32 ((len_bytes + REG_DUMP_ALIGN - 1) / REG_DUMP_ALIGN)) dump_mem := by
  obtain ⟨e1, _, e3⟩ := len_align_of_fits len_bytes h.1
  rw [e1]
  intro b hb
  have := h.2 b hb
  omega

/-- A buffer with room for the chunks of a window of at most `2^32 - 16` bytes
fits the window. -/
theorem fits_of_has_room (len_bytes : Nat) (dump_mem : Option (List Nat))
    (hlen : len_bytes ≤ 2 ^ 32 - 16)
    (h : has_room (u32 ((len_bytes + REG_DUMP_ALIGN - 1) / REG_DUMP_ALIGN)) dump_mem) :
    window_fits len_bytes dump_mem := by
  obtain ⟨e1, _, _⟩ := len_align_of_fits len_bytes hlen
  rw [e1] at h
  refine ⟨hlen, fun b hb => ?_⟩
  have := h b hb
  omega

/-- With allocations succeeding the dump of a window that fits its buffer
keeps the state steady, and the window fits the buffer handed back. -/
theorem steady_dump_reg (env : dpu_env) (halloc : ∀ n, env.kzalloc_ok n = true)
    (dump_mode : dpu_dbg_dump_context) (st : dump_st) (dump_name : CStr)
    (reg_dump_flag base_addr addr len_bytes : Nat) (dump_mem : Option (List Nat))
    (hfit : window_fits len_bytes dump_mem) :
    steady st (_dpu_dump_reg env dump_mode st dump_name reg_dump_flag base_addr addr len_bytes
      dump_mem).1 ∧
      window_fits len_bytes (_dpu_dump_reg env dump_mode st dump_name reg_dump_flag base_addr
        addr len_bytes dump_mem).2 := by
  unfold _dpu_dump_reg
  by_cases h1 : len_bytes = 0
  · rw [if_pos h1]
    exact ⟨steady_refl st, hfit⟩
  · rw [if_neg h1]
    dsimp only
    by_cases h2 : reg_dump_flag &&& DPU_DBG_DUMP_IN_LOG = 0 ∧
        reg_dump_flag &&& DPU_DBG_DUMP_IN_MEM = 0 ∧ reg_dump_flag &&& DPU_DBG_DUMP_IN_COREDUMP = 0
    · rw [if_pos h2]
      exact ⟨steady_refl st, hfit⟩
    · rw [if_neg h2]
      have hst1 : steady st (if reg_dump_flag &&& DPU_DBG_DUMP_IN_LOG ≠ 0 then
          st.emit (.log_start dump_name (addr - base_addr) len_bytes) else st) := by
        split_ifs
        · exact steady_emit st (.log_start dump_name (addr - base_addr) len_bytes) rfl
        · exact steady_refl st
      have hroom := has_room_of_fits len_bytes dump_mem hfit
      have hpad : u32 ((len_bytes + REG_DUMP_ALIGN - 1) / REG_DUMP_ALIGN) * 16 ≤
          u32 (u32 ((len_bytes + REG_DUMP_ALIGN - 1) / REG_DUMP_ALIGN) * REG_DUMP_ALIGN) := by
        obtain ⟨e1, e2, _⟩ := len_align_of_fits len_bytes hfit.1
        rw [e2, e1]
      have ha := steady_alloc env halloc
        (if reg_dump_flag &&& DPU_DBG_DUMP_IN_LOG ≠ 0 then
          st.emit (.log_start dump_name (addr - base_addr) len_bytes) else st)
        dump_name (reg_dump_flag &&& DPU_DBG_DUMP_IN_MEM)
        (reg_dump_flag &&& DPU_DBG_DUMP_IN_COREDUMP)
        (u32 (u32 ((len_bytes + REG_DUMP_ALIGN - 1) / REG_DUMP_ALIGN) * REG_DUMP_ALIGN))
        (addr - base_addr) (u32 ((len_bytes + REG_DUMP_ALIGN - 1) / REG_DUMP_ALIGN)) dump_mem
        hroom hpad (Nat.mod_lt _ (by decide))
      have hrun := steady_dump_reg_run env dump_mode (reg_dump_flag &&& DPU_DBG_DUMP_IN_LOG)
        (reg_dump_flag &&& DPU_DBG_DUMP_IN_COREDUMP) base_addr (addr + len_bytes)
        (u32 ((len_bytes + REG_DUMP_ALIGN - 1) / REG_DUMP_ALIGN)) addr _ ha.2.1 ha.2.2.1
        ha.2.2.2
      exact ⟨steady_trans (steady_trans hst1 ha.1) hrun.1,
        fits_of_has_room len_bytes _ hfit.1 hrun.2⟩

/-- With allocations succeeding the loop over ranges that fit their buffers
keeps the state steady, and the ranges handed back fit their buffers. -/
theorem steady_ranges (env : dpu_env) (halloc : ∀ n, env.kzalloc_ok n = true)
    (dump_mode : dpu_dbg_dump_context) (reg_dump_flag base max_offset : Nat)
    (st : dump_st) (ranges : List dpu_dbg_reg_range)
    (hfit : ∀ r ∈ ranges, window_fits (_dpu_dbg_get_dump_range r.offset max_offset) r.reg_dump) :
    steady st (_dpu_dump_reg_ranges env dump_mode reg_dump_flag base max_offset st ranges).1 ∧
      ∀ r ∈ (_dpu_dump_reg_ranges env dump_mode reg_dump_flag base max_offset st ranges).2,
        window_fits (_dpu_dbg_get_dump_range r.offset max_offset) r.reg_dump := by
  induction ranges generalizing st with
  | nil => exact ⟨steady_refl st, fun r hr => by simp [_dpu_dump_reg_ranges] at hr⟩
  | cons r rest ih =>
    unfold _dpu_dump_reg_ranges
    split_ifs
    · exact ⟨steady_refl st, hfit⟩
    · have hw := steady_dump_reg env halloc dump_mode st r.range_name reg_dump_flag base
        (base + r.offset.start) (_dpu_dbg_get_dump_range r.offset max_offset) r.reg_dump
        (hfit r (List.mem_cons_self _ _))
      have hi := ih (_dpu_dump_reg env dump_mode st r.range_name reg_dump_flag base
        (base + r.offset.start) (_dpu_dbg_get_dump_range r.offset max_offset) r.reg_dump).1
        (fun x hx => hfit x (List.mem_cons_of_mem _ hx))
      refine ⟨steady_trans hw.1 hi.1, ?_⟩
      intro x hx
      rcases List.mem_cons.mp hx with e | e
      · subst e
        exact hw.2
      · exact hi.2 x e

/-- The loop over the ranges hands back as many ranges as it was given. -/
theorem ranges_length (env : dpu_env) (dump_mode : dpu_dbg_dump_context)
    (reg_dump_flag base max_offset : Nat) (ranges : List dpu_dbg_reg_range) (st : dump_st) :
    (_dpu_dump_reg_ranges env dump_mode reg_dump_flag base max_offset st ranges).2.length =
      ranges.length := by
  induction ranges generalizing st with
  | nil => rfl
  | cons r rest ih =>
    unfold _dpu_dump_reg_ranges
    split_ifs
    · rfl
    · simp only [List.length_cons, ih]

/-- A fold keeps what each of its steps keeps. -/
theorem inv_foldl {α : Type} (I : dump_st → Prop) (f : dump_st → α → dump_st)
    (hf : ∀ st x, I st → I (f st x)) (l : List α) (st : dump_st) (h : I st) :
    I (l.foldl f st) := by
  induction l generalizing st with
  | nil => exact h
  | cons x l ih => exact ih _ (hf st x h)

/-- Storing back a base whose windows fit keeps the catalog fitting. -/
theorem store_fits (l : List dpu_dbg_reg_base) (p : Nat) (b2 : dpu_dbg_reg_base)
    (hl : catalog_fits l)
    (hb2 : (b2.sub_range_list = [] → window_fits b2.max_offset b2.reg_dump) ∧
      ∀ r ∈ b2.sub_range_list,
        window_fits (_dpu_dbg_get_dump_range r.offset b2.max_offset) r.reg_dump) :
    catalog_fits (store_base l p b2) := by
  intro x hx
  rcases mem_store_base l p b2 x hx with h | h
  · rw [h]
    exact hb2
  · exact hl x h

/-- The three-way branch of the reader keeps the names of the bases, enters no
base, does not fault (allocations succeeding, the windows fitting their
buffers) and leaves a catalog whose windows fit. -/
theorem by_ranges_body_calls (env : dpu_env) (halloc : ∀ n, env.kzalloc_ok n = true)
    (dump_mode : dpu_dbg_dump_context) (reg_dump_flag p : Nat) (b : dpu_dbg_reg_base)
    (st : dump_st) (hb : deref_base st.reg_base_list p = some b)
    (hfit : catalog_fits st.reg_base_list) :
    (_dpu_dump_reg_by_ranges_body env dump_mode reg_dump_flag p b st).reg_base_list.map
        (fun x => x.name) = st.reg_base_list.map (fun x => x.name) ∧
      reader_calls (_dpu_dump_reg_by_ranges_body env dump_mode reg_dump_flag p b st).trace =
        reader_calls st.trace ∧
      (st.dead = false →
        (_dpu_dump_reg_by_ranges_body env dump_mode reg_dump_flag p b st).dead = false) ∧
      catalog_fits (_dpu_dump_reg_by_ranges_body env dump_mode reg_dump_flag p b
        st).reg_base_list := by
  have hbfit := hfit b (deref_base_mem _ _ _ hb)
  unfold _dpu_dump_reg_by_ranges_body
  by_cases hcb : b.cb = none
  · rw [hcb]
    dsimp only
    by_cases h4 : b.sub_range_list ≠ []
    · rw [if_pos h4]
      have hperm := list_sort_perm _dpu_dump_reg_range_cmp b.sub_range_list
      have hr := steady_ranges env halloc dump_mode reg_dump_flag b.base b.max_offset st
        (list_sort _dpu_dump_reg_range_cmp b.sub_range_list)
        (fun r hr => hbfit.2 r (hperm.mem_iff.mp hr))
      refine ⟨?_, hr.1.2.1, hr.1.2.2, ?_⟩
      · show (store_base _ p _).map _ = _
        rw [hr.1.1]
        exact store_base_names _ _ b _ hb rfl
      · show catalog_fits (store_base _ p _)
        rw [hr.1.1]
        refine store_fits _ _ _ hfit ⟨?_, hr.2⟩
        intro hnil
        have hnil2 : (_dpu_dump_reg_ranges env dump_mode reg_dump_flag b.base b.max_offset st
            (list_sort _dpu_dump_reg_range_cmp b.sub_range_list)).2 = [] := hnil
        exfalso
        apply h4
        have hlen := ranges_length env dump_mode reg_dump_flag b.base b.max_offset
          (list_sort _dpu_dump_reg_range_cmp b.sub_range_list) st
        rw [hnil2, hperm.length_eq] at hlen
        exact List.length_eq_zero.mp hlen.symm
    · rw [if_neg h4]
      have hw := steady_dump_reg env halloc dump_mode
        ((st.emit .log_no_ranges).emit (.log_base_len b.base b.max_offset)) b.name
        reg_dump_flag b.base b.base b.max_offset b.reg_dump (hbfit.1 (not_not.mp h4))
      have hr := steady_trans
        (steady_trans (steady_emit st .log_no_ranges rfl)
          (steady_emit _ (.log_base_len b.base b.max_offset) rfl)) hw.1
      refine ⟨?_, hr.2.1, hr.2.2, ?_⟩
      · show (store_base _ p _).map _ = _
        rw [hr.1]
        exact store_base_names _ _ b _ hb rfl
      · show catalog_fits (store_base _ p _)
        rw [hr.1]
        exact store_fits _ _ _ hfit ⟨fun _ => hw.2, fun r hr => hbfit.2 r hr⟩
  · obtain ⟨id, hid⟩ := Option.ne_none_iff_exists'.mp hcb
    rw [hid]
    have := steady_emit st (.cb id) rfl
    exact ⟨by rw [this.1], this.2.1, this.2.2, hfit⟩

/-- What one entry of the reader does to the state, in terms of the names of
the bases, the reader entries in the trace, the fault flag and the fit of the
windows. -/
theorem by_ranges_calls (env : dpu_env) (halloc : ∀ n, env.kzalloc_ok n = true)
    (dump_mode : dpu_dbg_dump_context) (st : dump_st) (dbg : Option Nat)
    (reg_dump_flag : Nat) (hfit : catalog_fits st.reg_base_list) :
    (_dpu_dump_reg_by_ranges env dump_mode st dbg reg_dump_flag).reg_base_list.map
        (fun x => x.name) = st.reg_base_list.map (fun x => x.name) ∧
      reader_calls (_dpu_dump_reg_by_ranges env dump_mode st dbg reg_dump_flag).trace =
        reader_calls st.trace ++ [dbg] ∧
      (st.dead = false →
        (_dpu_dump_reg_by_ranges env dump_mode st dbg reg_dump_flag).dead = false) ∧
      catalog_fits (_dpu_dump_reg_by_ranges env dump_mode st dbg reg_dump_flag).reg_base_list := by
  have h0 : (st.emit (.reader dbg)).reg_base_list = st.reg_base_list ∧
      reader_calls (st.emit (.reader dbg)).trace = reader_calls st.trace ++ [dbg] ∧
      (st.dead = false → (st.emit (.reader dbg)).dead = false) := by
    refine ⟨rfl, ?_, id⟩
    show reader_calls (st.trace ++ [.reader dbg]) = _
    rw [reader_calls_append]
    rfl
  have base0 : (st.emit (.reader dbg)).reg_base_list.map (fun x => x.name) =
        st.reg_base_list.map (fun x => x.name) ∧
      reader_calls (st.emit (.reader dbg)).trace = reader_calls st.trace ++ [dbg] ∧
      (st.dead = false → (st.emit (.reader dbg)).dead = false) ∧
      catalog_fits (st.emit (.reader dbg)).reg_base_list :=
    ⟨by rw [h0.1], h0.2.1, h0.2.2, hfit⟩
  unfold _dpu_dump_reg_by_ranges
  dsimp only
  cases dbg with
  | none => exact base0
  | some p =>
    dsimp only
    cases hb : deref_base st.reg_base_list p with
    | none => exact base0
    | some b =>
      dsimp only
      by_cases h1 : b.base = 0 ∧ b.cb = none
      · rw [if_pos h1]
        exact base0
      · rw [if_neg h1]
        have hban : steady (st.emit (.reader (some p)))
            (if reg_dump_flag &&& DPU_DBG_DUMP_IN_COREDUMP ≠ 0 then
              ((st.emit (.reader (some p))).emit (.log_banner b.name)).emit
                (.dump_banner b.name)
            else (st.emit (.reader (some p))).emit (.log_banner b.name)) := by
          split_ifs
          · exact steady_trans (steady_emit _ (.log_banner b.name) rfl)
              (steady_emit _ (.dump_banner b.name) rfl)
          · exact steady_emit _ (.log_banner b.name) rfl
        have hbody := by_ranges_body_calls env halloc dump_mode reg_dump_flag p b
          (if reg_dump_flag &&& DPU_DBG_DUMP_IN_COREDUMP ≠ 0 then
              ((st.emit (.reader (some p))).emit (.log_banner b.name)).emit
                (.dump_banner b.name)
            else (st.emit (.reader (some p))).emit (.log_banner b.name))
          (by rw [hban.1]; exact hb) (by rw [hban.1]; exact hfit)
        refine ⟨?_, ?_, ?_, hbody.2.2.2⟩
        · rw [hbody.1, hban.1]
          rfl
        · rw [hbody.2.1, hban.2.1]
          exact h0.2.1
        · intro hd
          exact hbody.2.2.1 (hban.2.2 (h0.2.2 hd))

/-- A check of `catalog_fits` that can be evaluated: a missing buffer counts
as long enough. -/
theorem catalog_fits_of_check (l : List dpu_dbg_reg_base)
    (h : ∀ b ∈ l,
      (b.sub_range_list = [] → b.max_offset ≤ 2 ^ 32 - 16 ∧
        4 * ((b.max_offset + 15) / 16) ≤ (b.reg_dump.map List.length).getD (2 ^ 32)) ∧
      ∀ r ∈ b.sub_range_list,
        _dpu_dbg_get_dump_range r.offset b.max_offset ≤ 2 ^ 32 - 16 ∧
          4 * ((_dpu_dbg_get_dump_range r.offset b.max_offset + 15) / 16) ≤
            (r.reg_dump.map List.length).getD (2 ^ 32)) :
    catalog_fits l := by
  intro b hb
  obtain ⟨h1, h2⟩ := h b hb
  constructor
  · intro hnil
    refine ⟨(h1 hnil).1, fun x hx => ?_⟩
    have := (h1 hnil).2
    rw [hx] at this
    exact this
  · intro r hr
    refine ⟨(h2 r hr).1, fun x hx => ?_⟩
    have := (h2 r hr).2
    rw [hx] at this
    exact this

/-- With `dump_all = false`, a selection array whose slots are all empty and a
length other than 0, `_dpu_dump_array` enters the register reader for no base:
the state is unchanged apart from the halt when `do_panic` is set. -/
theorem dump_array_empty (env : dpu_env) (d : dpu_dbg_base) (blk : List (Option Nat))
    (len : Nat) (do_panic : Bool) (name : CStr) (hempty : ∀ i, blk.getD i none = none)
    (hlen : len ≠ 0) :
    _dpu_dump_array env d (some blk) len do_panic name false =
      { d with todump_st :=
          if d.dead then d.todump_st
          else if do_panic then { d.todump_st.emit (.halt name) with dead := true }
          else d.todump_st } := by
  have hfold : ∀ (l : List Nat) (st : dump_st),
      l.foldl
        (fun st i =>
          if st.dead then st
          else
            match ((some blk).getD []).getD i none with
            | some p => _dpu_dump_reg_by_ranges env d.dump_mode st (some p) d.enable_reg_dump
            | none => st) st = st := by
    intro l
    induction l with
    | nil => intro st; rfl
    | cons i l ih =>
      intro st
      rw [List.foldl_cons]
      have hstep : (if st.dead then st
          else
            match ((some blk).getD []).getD i none with
            | some p => _dpu_dump_reg_by_ranges env d.dump_mode st (some p) d.enable_reg_dump
            | none => st) = st := by
        split_ifs
        · rfl
        · rw [Option.getD_some, hempty i]
      rw [hstep]
      exact ih st
  have hcond : ¬ (false = true ∨ some blk = none ∨ len = 0) := by simp [hlen]
  unfold _dpu_dump_array
  simp only [if_neg hcond, hfold]

/-- C10 (amended): for every catalog, when the stored request `d` has
`dump_all = false` and an empty selection (ten empty slots), the capture
executed on that request, `_dpu_dump_array` applied to `req_dump_blks` with
its capacity of 10, enters the register reader for no base and reads no
register, whatever the panic flag and the name are, and so does the pull read
`dpu_devcoredump_read`: the array pointer is not NULL and the length 10 is not
0, so the dump of all bases is not taken.  An accepted trigger whose targets
resolve to no base and do not contain "all" (an empty list, unknown names
only, just "panic") stores such a request, and the dump work keeps it. -/
theorem C10_empty_selection_enters_no_base (env : dpu_env) (d : dpu_dbg_base)
    (do_panic : Bool) (name : CStr) (hall : d.dump_all = false)
    (hsel : d.req_dump_blks = List.replicate DPU_DBG_BASE_MAX none) :
    reader_calls (_dpu_dump_array env d (some d.req_dump_blks) DPU_DBG_BASE_MAX do_panic name
        d.dump_all).trace = reader_calls d.trace ∧
      readl_addrs (_dpu_dump_array env d (some d.req_dump_blks) DPU_DBG_BASE_MAX do_panic name
        d.dump_all).trace = readl_addrs d.trace ∧
      reader_calls (dpu_devcoredump_read env d).trace = reader_calls d.trace ∧
      readl_addrs (dpu_devcoredump_read env d).trace = readl_addrs d.trace ∧
      ∀ (dbg : dpu_dbg_base) (dump_mode : dpu_dbg_dump_context) (origin : CStr)
        (targets : List CStr) (now snapshot : Nat), dbg.coredump_pending = false →
        resolved_targets dbg.reg_base_list targets = [] → "all".toList ∉ targets →
        (dpu_dbg_dump dbg dump_mode origin targets).dump_all = false ∧
          (dpu_dbg_dump dbg dump_mode origin targets).req_dump_blks =
            List.replicate DPU_DBG_BASE_MAX none ∧
          (_dpu_dump_work
            { dpu_dbg_dump dbg dump_mode origin targets with work_queued := false }
            now snapshot).dump_all = false ∧
          (_dpu_dump_work
            { dpu_dbg_dump dbg dump_mode origin targets with work_queued := false }
            now snapshot).req_dump_blks = List.replicate DPU_DBG_BASE_MAX none := by
  have hempty : ∀ i, (List.replicate DPU_DBG_BASE_MAX (none : Option Nat)).getD i none = none := by
    intro i
    rw [List.getD_eq_getElem?_getD, List.getElem?_replicate]
    split_ifs <;> rfl
  refine ⟨?_, ?_, ?_, ?_, ?_⟩
  · rw [hall, hsel, dump_array_empty env _ _ _ _ _ hempty (by decide)]
    show reader_calls (if d.dead = true then d.todump_st
      else if do_panic = true then _ else d.todump_st).trace = _
    split_ifs
    · rfl
    · show reader_calls (d.trace ++ [_]) = _
      rw [reader_calls_append]
      simp [reader_calls]
    · rfl
  · rw [hall, hsel, dump_array_empty env _ _ _ _ _ hempty (by decide)]
    show readl_addrs (if d.dead = true then d.todump_st
      else if do_panic = true then _ else d.todump_st).trace = _
    split_ifs
    · rfl
    · show readl_addrs (d.trace ++ [_]) = _
      rw [readl_addrs_append]
      simp [readl_addrs]
    · rfl
  · unfold dpu_devcoredump_read
    dsimp only
    rw [hall, hsel, dump_array_empty env _ _ _ _ _ hempty (by decide)]
    dsimp only
    cases d.atomic_state <;> split_ifs <;>
      simp [reader_calls, dump_st.emit, List.filterMap_append]
  · unfold dpu_devcoredump_read
    dsimp only
    rw [hall, hsel, dump_array_empty env _ _ _ _ _ hempty (by decide)]
    dsimp only
    cases d.atomic_state <;> split_ifs <;>
      simp [readl_addrs, dump_st.emit, List.filterMap_append]
  · intro dbg dump_mode origin targets now snapshot hp hres hnall
    have hs : selection_of dbg.reg_base_list targets =
        List.replicate DPU_DBG_BASE_MAX none := by
      unfold selection_of
      rw [hres]
      rfl
    have hda : decide ("all".toList ∈ targets) = false := by simpa using hnall
    rw [dump_not_pending dbg dump_mode origin targets hp, dump_work_eq]
    simp only [hs, hda]
    exact ⟨trivial, trivial, trivial, trivial⟩

/-- C10 on the request stored for the targets "nope", "panic" on the engine
with the base "mdp", after the dump work: the read of the artifact enters the
reader for no base. -/
theorem C10_empty_selection_enters_no_base_witness :
    ((_dpu_dump_work
        { dpu_dbg_dump dbg_mdp .DPU_DBG_DUMP_PROC_CTX "test".toList
            ["nope".toList, "panic".toList] with work_queued := false } 5 9).dump_all = false ∧
      (_dpu_dump_work
        { dpu_dbg_dump dbg_mdp .DPU_DBG_DUMP_PROC_CTX "test".toList
            ["nope".toList, "panic".toList] with work_queued := false } 5 9).req_dump_blks =
        List.replicate DPU_DBG_BASE_MAX none) ∧
      reader_calls (dpu_devcoredump_read env_ok
        (_dpu_dump_work
          { dpu_dbg_dump dbg_mdp .DPU_DBG_DUMP_PROC_CTX "test".toList
              ["nope".toList, "panic".toList] with work_queued := false }
          5 9)).trace =
        reader_calls (_dpu_dump_work
          { dpu_dbg_dump dbg_mdp .DPU_DBG_DUMP_PROC_CTX "test".toList
              ["nope".toList, "panic".toList] with work_queued := false } 5 9).trace :=
  ⟨⟨by decide, by decide⟩,
   (C10_empty_selection_enters_no_base env_ok
      (_dpu_dump_work
        { dpu_dbg_dump dbg_mdp .DPU_DBG_DUMP_PROC_CTX "test".toList
            ["nope".toList, "panic".toList] with work_queued := false } 5 9)
      true "evtlog_workitem".toList (by decide) (by decide)).2.2.1⟩

/-- C10 (counterexample): on the catalog with the single base "mdp", the
trigger with an empty target list stores `dump_all = false` and ten empty
slots; `_dpu_dump_array` applied to that request with the capacity 10, and
the pull read `dpu_devcoredump_read` after the dump work, enter the register
reader for no base at all, while the same call with `dump_all = true` enters
it for "mdp". -/
theorem C10_empty_selection_dumps_nothing :
    dbg_req_empty.reg_base_list.length = 1 ∧
      dbg_req_empty.dump_all = false ∧
      dbg_req_empty.req_dump_blks = List.replicate 10 none ∧
      reader_calls (_dpu_dump_array env_ok dbg_req_empty (some dbg_req_empty.req_dump_blks)
        DPU_DBG_BASE_MAX dbg_req_empty.work_panic "evtlog_workitem".toList
        dbg_req_empty.dump_all).trace = [] ∧
      reader_calls (dpu_devcoredump_read env_ok
        (_dpu_dump_work { dbg_req_empty with work_queued := false } 5 7)).trace = [] ∧
      reader_calls (_dpu_dump_array env_ok dbg_req_empty (some dbg_req_empty.req_dump_blks)
        DPU_DBG_BASE_MAX dbg_req_empty.work_panic "evtlog_workitem".toList true).trace =
        [some 0] := by
  decide

/-! ### The events of the register reader -/

/-- Reflexivity of `emits`. -/
theorem emits_refl (P : dbg_event → Prop) (st : dump_st) : emits P st st :=
  ⟨[], by simp, by simp⟩

/-- Transitivity of `emits`. -/
theorem emits_trans {P : dbg_event → Prop} {a b c : dump_st} (h1 : emits P a b)
    (h2 : emits P b c) : emits P a c := by
  obtain ⟨n1, e1, p1⟩ := h1
  obtain ⟨n2, e2, p2⟩ := h2
  refine ⟨n1 ++ n2, by rw [e2, e1, List.append_assoc], ?_⟩
  intro e he
  rcases List.mem_append.mp he with h | h
  · exact p1 e h
  · exact p2 e h

/-- Monotonicity of `emits` in the class of events. -/
theorem emits_mono {P Q : dbg_event → Prop} {a b : dump_st} (hPQ : ∀ e, P e → Q e)
    (h : emits P a b) : emits Q a b := by
  obtain ⟨n, e, p⟩ := h
  exact ⟨n, e, fun x hx => hPQ x (p x hx)⟩

/-- One emitted event. -/
theorem emits_emit {P : dbg_event → Prop} (st : dump_st) (e : dbg_event) (he : P e) :
    emits P st (st.emit e) :=
  ⟨[e], rfl, by simpa using he⟩

/-- A state with the same trace emits nothing. -/
theorem emits_of_trace_eq (P : dbg_event → Prop) {a b : dump_st} (h : b.trace = a.trace) :
    emits P a b :=
  ⟨[], by simp [h], by simp⟩

/-- A chunk event with reads in `[lo, hi)` is a reader event for that region. -/
theorem reader_event_of_chunk (lo hi : Nat) (e : dbg_event) (h : chunk_event lo hi e) :
    reader_event lo hi e := by
  cases e <;> simp_all [chunk_event, reader_event, dump_path_event]

/-- A window header is a reader event. -/
theorem reader_event_of_header (lo hi : Nat) (e : dbg_event) (h : header_event e) :
    reader_event lo hi e := by
  cases e <;> simp_all [header_event, reader_event, dump_path_event]

/-- Chunk events for a window are chunk events for any larger window. -/
theorem chunk_event_mono {lo hi lo2 hi2 : Nat} (h1 : lo2 ≤ lo) (h2 : hi ≤ hi2)
    (e : dbg_event) (h : chunk_event lo hi e) : chunk_event lo2 hi2 e := by
  cases e <;> simp_all [chunk_event]
  omega

/-- Reader events for a region are reader events for any larger region. -/
theorem reader_event_mono {lo hi lo2 hi2 : Nat} (h1 : lo2 ≤ lo) (h2 : hi ≤ hi2)
    (e : dbg_event) (h : reader_event lo hi e) : reader_event lo2 hi2 e := by
  refine ⟨h.1, fun a ha => ?_⟩
  have := h.2 a ha
  omega

/-- A guarded read emits at most a read of its address. -/
theorem emits_word (env : dpu_env) (lo hi : Nat) (c : Bool) (a : Nat) (st : dump_st)
    (h : c = true → lo ≤ a ∧ a < hi) :
    emits (chunk_event lo hi) st (_dpu_dump_reg_word env c a st).2 := by
  unfold _dpu_dump_reg_word
  split_ifs with hc
  · exact emits_emit st _ (h hc)
  · exact emits_refl _ st

/-- The sinks of a chunk emit chunk events. -/
theorem emits_sinks (lo hi : Nat) (in_log in_mem in_dump base_addr i addr x0 x4 x8 xc : Nat)
    (st : dump_st) (dump_addr : Option (List Nat)) :
    emits (chunk_event lo hi) st (_dpu_dump_reg_sinks in_log in_mem in_dump base_addr i addr
      x0 x4 x8 xc st dump_addr).1 := by
  have h1 : emits (chunk_event lo hi) st
      (if in_log ≠ 0 then st.emit (.log_line (addr - base_addr) x0 x4 x8 xc) else st) := by
    split_ifs
    · exact emits_emit st _ trivial
    · exact emits_refl _ st
  unfold _dpu_dump_reg_sinks
  cases dump_addr with
  | none =>
    dsimp only
    by_cases hd : in_dump ≠ 0
    · rw [if_pos hd]
      exact emits_trans h1 (emits_trans (emits_emit _ .oops trivial)
        (emits_of_trace_eq _ rfl))
    · rw [if_neg hd]
      exact h1
  | some b =>
    dsimp only
    by_cases hover : (in_mem ≠ 0 ∨ in_dump ≠ 0) ∧
        ¬ (i * 4 + 3 < b.length ∧ i * 4 + 3 < 2 ^ 31)
    · rw [if_pos hover]
      exact emits_trans h1 (emits_trans (emits_emit _ .overrun trivial)
        (emits_of_trace_eq _ rfl))
    · rw [if_neg hover]
      by_cases hd : in_dump ≠ 0
      · rw [if_pos hd]
        exact emits_trans h1 (emits_emit _ _ trivial)
      · rw [if_neg hd]
        exact h1

/-- A chunk at `addr` of a window ending at `end_addr` emits chunk events with
reads inside `[addr, end_addr)`. -/
theorem emits_chunk (env : dpu_env) (in_log in_mem in_dump base_addr end_addr i addr : Nat)
    (st : dump_st) (dump_addr : Option (List Nat)) :
    emits (chunk_event addr end_addr) st (_dpu_dump_reg_chunk env in_log in_mem in_dump
      base_addr end_addr i addr st dump_addr).1 := by
  unfold _dpu_dump_reg_chunk
  dsimp only
  have w0 := emits_word env addr end_addr
    (decide (in_log ≠ 0 ∨ in_mem ≠ 0) && decide (addr < end_addr)) (addr + 0x0) st
    (by intro h; simp at h; omega)
  have w4 := emits_word env addr end_addr
    (decide (in_log ≠ 0 ∨ in_mem ≠ 0) && decide (addr + 0x4 < end_addr)) (addr + 0x4)
    (_dpu_dump_reg_word env (decide (in_log ≠ 0 ∨ in_mem ≠ 0) && decide (addr < end_addr))
      (addr + 0x0) st).2
    (by intro h; simp at h; omega)
  have w8 := emits_word env addr end_addr
    (decide (in_log ≠ 0 ∨ in_mem ≠ 0) && decide (addr + 0x8 < end_addr)) (addr + 0x8)
    (_dpu_dump_reg_word env (decide (in_log ≠ 0 ∨ in_mem ≠ 0) && decide (addr + 0x4 < end_addr))
      (addr + 0x4)
      (_dpu_dump_reg_word env (decide (in_log ≠ 0 ∨ in_mem ≠ 0) && decide (addr < end_addr))
        (addr + 0x0) st).2).2
    (by intro h; simp at h; omega)
  have wc := emits_word env addr end_addr
    (decide (in_log ≠ 0 ∨ in_mem ≠ 0) && decide (addr + 0xc < end_addr)) (addr + 0xc)
    (_dpu_dump_reg_word env (decide (in_log ≠ 0 ∨ in_mem ≠ 0) && decide (addr + 0x8 < end_addr))
      (addr + 0x8)
      (_dpu_dump_reg_word env
        (decide (in_log ≠ 0 ∨ in_mem ≠ 0) && decide (addr + 0x4 < end_addr)) (addr + 0x4)
        (_dpu_dump_reg_word env (decide (in_log ≠ 0 ∨ in_mem ≠ 0) && decide (addr < end_addr))
          (addr + 0x0) st).2).2).2
    (by intro h; simp at h; omega)
  exact emits_trans (emits_trans (emits_trans (emits_trans w0 w4) w8) wc)
    (emits_sinks _ _ _ _ _ _ _ _ _ _ _ _ _ _)

/-- The chunk loop started at `addr` emits chunk events with reads inside
`[lo, end_addr)` for every `lo <= addr`. -/
theorem emits_loop (env : dpu_env) (in_log in_mem in_dump base_addr end_addr lo : Nat)
    (n i addr : Nat) (st : dump_st) (dump_addr : Option (List Nat)) (hlo : lo ≤ addr) :
    emits (chunk_event lo end_addr) st (_dpu_dump_reg_loop env in_log in_mem in_dump base_addr
      end_addr n i addr st dump_addr).1 := by
  induction n generalizing i addr st dump_addr with
  | zero => exact emits_refl _ st
  | succ n ih =>
    unfold _dpu_dump_reg_loop
    split_ifs
    · exact emits_refl _ st
    · refine emits_trans (emits_mono (chunk_event_mono hlo (le_refl _))
        (emits_chunk env in_log in_mem in_dump base_addr end_addr i addr st dump_addr)) ?_
      exact ih _ _ _ _ (by unfold REG_DUMP_ALIGN; omega)

/-- The buffer headers are window headers. -/
theorem emits_headers (st : dump_st) (dump_name : CStr) (in_dump len_padded reg_offset : Nat) :
    emits header_event st (_dpu_dump_reg_headers st dump_name in_dump len_padded reg_offset) := by
  unfold _dpu_dump_reg_headers
  dsimp only
  split_ifs
  · exact emits_trans (emits_emit st (.log_mem dump_name len_padded reg_offset) trivial)
      (emits_emit _ (.dump_mem dump_name len_padded reg_offset) trivial)
  · exact emits_emit st (.log_mem dump_name len_padded reg_offset) trivial

/-- The buffer set-up emits window headers only and keeps the fault flag. -/
theorem emits_alloc (env : dpu_env) (st : dump_st) (dump_name : CStr)
    (in_mem in_dump len_padded reg_offset : Nat) (dump_mem : Option (List Nat)) :
    emits header_event st (_dpu_dump_reg_alloc env st dump_name in_mem in_dump len_padded
        reg_offset dump_mem).st := by
  unfold _dpu_dump_reg_alloc
  by_cases h : in_mem ≠ 0 ∨ in_dump ≠ 0
  · rw [if_pos h]
    cases dump_mem with
    | some b => exact emits_headers _ _ _ _ _
    | none =>
      dsimp only
      by_cases hk : env.kzalloc_ok st.n_alloc = true
      · rw [if_pos hk]
        exact emits_trans (emits_of_trace_eq _ rfl)
          (emits_headers { st with n_alloc := st.n_alloc + 1 } _ _ _ _)
      · rw [if_neg hk]
        exact emits_of_trace_eq _ rfl
  · rw [if_neg h]
    exact emits_refl _ st

/-- The power bracket with the chunk loop emits reader events with reads
inside `[lo, end_addr)` for every `lo <= addr`. -/
theorem emits_dump_reg_run (env : dpu_env) (dump_mode : dpu_dbg_dump_context)
    (in_log in_dump base_addr end_addr len_align addr lo : Nat) (bufs : dump_reg_bufs)
    (hlo : lo ≤ addr) :
    emits (reader_event lo end_addr) bufs.st (_dpu_dump_reg_run env dump_mode in_log in_dump
      base_addr end_addr len_align addr bufs).1 := by
  have hloop : ∀ st : dump_st, emits (reader_event lo end_addr) st
      (_dpu_dump_reg_loop env in_log bufs.in_mem in_dump base_addr end_addr len_align 0 addr
        st bufs.dump_addr).1 := fun st =>
    emits_mono (reader_event_of_chunk lo end_addr) (emits_loop _ _ _ _ _ _ _ _ _ _ _ _ hlo)
  have hpm : emits (reader_event lo end_addr) bufs.st
      ({ bufs.st.emit (.pm_get (env.pm_runtime_get_sync bufs.st.n_pm)) with
        n_pm := bufs.st.n_pm + 1 } : dump_st) :=
    emits_trans (emits_emit bufs.st (.pm_get (env.pm_runtime_get_sync bufs.st.n_pm))
      ⟨trivial, fun a ha => by cases ha⟩) (emits_of_trace_eq _ rfl)
  unfold _dpu_dump_reg_run
  dsimp only
  split_ifs
  · exact hpm
  · exact emits_trans hpm (hloop _)
  · exact emits_trans (emits_trans hpm (hloop _))
      (emits_emit _ .pm_put ⟨trivial, fun a ha => by cases ha⟩)
  · exact hloop _

/-- The dump of a window emits reader events with reads inside the window. -/
theorem emits_dump_reg (env : dpu_env) (dump_mode : dpu_dbg_dump_context) (st : dump_st)
    (dump_name : CStr) (reg_dump_flag base_addr addr len_bytes lo hi : Nat)
    (dump_mem : Option (List Nat)) (hwin : len_bytes ≠ 0 → lo ≤ addr ∧ addr + len_bytes ≤ hi) :
    emits (reader_event lo hi) st (_dpu_dump_reg env dump_mode st dump_name reg_dump_flag
      base_addr addr len_bytes dump_mem).1 := by
  unfold _dpu_dump_reg
  by_cases h1 : len_bytes = 0
  · rw [if_pos h1]
    exact emits_refl _ st
  · rw [if_neg h1]
    dsimp only
    by_cases h2 : reg_dump_flag &&& DPU_DBG_DUMP_IN_LOG = 0 ∧
        reg_dump_flag &&& DPU_DBG_DUMP_IN_MEM = 0 ∧ reg_dump_flag &&& DPU_DBG_DUMP_IN_COREDUMP = 0
    · rw [if_pos h2]
      exact emits_refl _ st
    · rw [if_neg h2]
      obtain ⟨hlo, hhi⟩ := hwin h1
      have hst1 : emits (reader_event lo hi) st (if reg_dump_flag &&& DPU_DBG_DUMP_IN_LOG ≠ 0 then
          st.emit (.log_start dump_name (addr - base_addr) len_bytes) else st) := by
        split_ifs
        · exact emits_emit st _ ⟨trivial, fun a ha => by cases ha⟩
        · exact emits_refl _ st
      have ha := emits_alloc env
        (if reg_dump_flag &&& DPU_DBG_DUMP_IN_LOG ≠ 0 then
          st.emit (.log_start dump_name (addr - base_addr) len_bytes) else st)
        dump_name (reg_dump_flag &&& DPU_DBG_DUMP_IN_MEM)
        (reg_dump_flag &&& DPU_DBG_DUMP_IN_COREDUMP)
        (u32 (u32 ((len_bytes + REG_DUMP_ALIGN - 1) / REG_DUMP_ALIGN) * REG_DUMP_ALIGN))
        (addr - base_addr) dump_mem
      exact emits_trans (emits_trans hst1 (emits_mono (reader_event_of_header lo hi) ha))
        (emits_mono (reader_event_mono (le_refl _) hhi)
          (emits_dump_reg_run env dump_mode _ _ _ _ _ _ lo _ hlo))

/-- A window of non-zero length lies inside the base. -/
theorem get_dump_range_le (off : dpu_dbg_reg_offset) (max_offset : Nat)
    (h : _dpu_dbg_get_dump_range off max_offset ≠ 0) :
    off.start + _dpu_dbg_get_dump_range off max_offset ≤ max_offset := by
  unfold _dpu_dbg_get_dump_range u32 at *
  split_ifs at h ⊢ <;> omega

/-- The loop over the ranges of a base emits reader events with reads inside
the base. -/
theorem emits_ranges (env : dpu_env) (dump_mode : dpu_dbg_dump_context)
    (reg_dump_flag base max_offset : Nat) (st : dump_st) (ranges : List dpu_dbg_reg_range) :
    emits (reader_event base (base + max_offset)) st
      (_dpu_dump_reg_ranges env dump_mode reg_dump_flag base max_offset st ranges).1 := by
  induction ranges generalizing st with
  | nil => exact emits_refl _ st
  | cons r rest ih =>
    unfold _dpu_dump_reg_ranges
    split_ifs
    · exact emits_refl _ st
    · refine emits_trans (emits_dump_reg env dump_mode st _ _ _ _ _ _ _ _ ?_) (ih _)
      intro hne
      have := get_dump_range_le r.offset max_offset hne
      omega

/-- The three-way branch of the reader emits reader events with reads inside
the base. -/
theorem emits_by_ranges_body (env : dpu_env) (dump_mode : dpu_dbg_dump_context)
    (reg_dump_flag p : Nat) (b : dpu_dbg_reg_base) (st : dump_st) :
    emits (reader_event b.base (b.base + b.max_offset)) st
      (_dpu_dump_reg_by_ranges_body env dump_mode reg_dump_flag p b st) := by
  unfold _dpu_dump_reg_by_ranges_body
  cases hcb : b.cb with
  | some id => exact emits_emit st (.cb id) ⟨trivial, fun a ha => by cases ha⟩
  | none =>
    dsimp only
    by_cases h4 : b.sub_range_list ≠ []
    · rw [if_pos h4]
      exact emits_trans (emits_ranges env dump_mode reg_dump_flag b.base b.max_offset st _)
        (emits_of_trace_eq _ rfl)
    · rw [if_neg h4]
      refine emits_trans (emits_trans
        (emits_trans (emits_emit st .log_no_ranges ⟨trivial, fun a ha => by cases ha⟩)
          (emits_emit _ (.log_base_len b.base b.max_offset)
            ⟨trivial, fun a ha => by cases ha⟩))
        (emits_dump_reg env dump_mode _ b.name reg_dump_flag b.base b.base b.max_offset
          b.base (b.base + b.max_offset) b.reg_dump (fun _ => ⟨le_refl _, le_refl _⟩)))
        (emits_of_trace_eq _ rfl)

/-- The reader on the base `b` behind a pointer emits reader events with
reads inside `[b.base, b.base + b.max_offset)`. -/
theorem emits_by_ranges (env : dpu_env) (dump_mode : dpu_dbg_dump_context) (st : dump_st)
    (p : Nat) (b : dpu_dbg_reg_base) (reg_dump_flag : Nat)
    (hb : deref_base st.reg_base_list p = some b) :
    emits (reader_event b.base (b.base + b.max_offset)) st
      (_dpu_dump_reg_by_ranges env dump_mode st (some p) reg_dump_flag) := by
  have h0 : emits (reader_event b.base (b.base + b.max_offset)) st
      (st.emit (.reader (some p))) :=
    emits_emit st _ ⟨trivial, fun a ha => by cases ha⟩
  unfold _dpu_dump_reg_by_ranges
  dsimp only
  rw [hb]
  dsimp only
  by_cases h1 : b.base = 0 ∧ b.cb = none
  · rw [if_pos h1]
    exact h0
  · rw [if_neg h1]
    have hban : emits (reader_event b.base (b.base + b.max_offset))
        (st.emit (.reader (some p)))
        (if reg_dump_flag &&& DPU_DBG_DUMP_IN_COREDUMP ≠ 0 then
          ((st.emit (.reader (some p))).emit (.log_banner b.name)).emit (.dump_banner b.name)
        else (st.emit (.reader (some p))).emit (.log_banner b.name)) := by
      split_ifs
      · exact emits_trans (emits_emit _ (.log_banner b.name) ⟨trivial, fun a ha => by cases ha⟩)
          (emits_emit _ (.dump_banner b.name) ⟨trivial, fun a ha => by cases ha⟩)
      · exact emits_emit _ (.log_banner b.name) ⟨trivial, fun a ha => by cases ha⟩
    exact emits_trans (emits_trans h0 hban) (emits_by_ranges_body env dump_mode _ p b _)

/-- The reader emits events of the dump path only, whatever the pointer. -/
theorem emits_by_ranges_any (env : dpu_env) (dump_mode : dpu_dbg_dump_context) (st : dump_st)
    (dbg : Option Nat) (reg_dump_flag : Nat) :
    emits dump_path_event st (_dpu_dump_reg_by_ranges env dump_mode st dbg reg_dump_flag) := by
  have h0 : emits dump_path_event st (st.emit (.reader dbg)) := emits_emit st _ trivial
  cases dbg with
  | none =>
    unfold _dpu_dump_reg_by_ranges
    exact h0
  | some p =>
    cases hb : deref_base st.reg_base_list p with
    | none =>
      unfold _dpu_dump_reg_by_ranges
      dsimp only
      rw [hb]
      exact h0
    | some b => exact emits_mono (fun e he => he.1) (emits_by_ranges env dump_mode st p b _ hb)

/-- The dump of a base by name emits events of the dump path only. -/
theorem emits_by_blk (env : dpu_env) (dump_mode : dpu_dbg_dump_context) (enable_reg_dump : Nat)
    (st : dump_st) (blk_name : CStr) :
    emits dump_path_event st (_dpu_dump_reg_by_blk env dump_mode enable_reg_dump st blk_name) := by
  unfold _dpu_dump_reg_by_blk
  cases _dpu_dump_get_blk_addr st.reg_base_list blk_name with
  | none => exact emits_refl _ st
  | some p => exact emits_by_ranges_any env dump_mode st (some p) _

/-- A left fold of steps that each emit events of a class emits events of that
class. -/
theorem emits_foldl {α : Type} (P : dbg_event → Prop) (f : dump_st → α → dump_st)
    (hf : ∀ st x, emits P st (f st x)) (l : List α) (st : dump_st) :
    emits P st (l.foldl f st) := by
  induction l generalizing st with
  | nil => exact emits_refl _ st
  | cons x l ih => exact emits_trans (hf st x) (ih _)

/-- The dump of all bases emits events of the dump path only. -/
theorem emits_reg_all (env : dpu_env) (dump_mode : dpu_dbg_dump_context) (enable_reg_dump : Nat)
    (st : dump_st) :
    emits dump_path_event st (_dpu_dump_reg_all env dump_mode enable_reg_dump st) := by
  unfold _dpu_dump_reg_all
  apply emits_foldl
  intro s p
  dsimp only
  split_ifs
  · exact emits_refl _ s
  · cases deref_base s.reg_base_list p with
    | none => exact emits_refl _ s
    | some b =>
      dsimp only
      split_ifs
      · exact emits_refl _ s
      · exact emits_by_blk env dump_mode enable_reg_dump s b.name

/-- A left fold of steps that each keep the fault flag clear keeps it clear. -/
theorem alive_foldl {α : Type} (f : dump_st → α → dump_st)
    (hf : ∀ st x, st.dead = false → (f st x).dead = false) (l : List α) (st : dump_st)
    (h : st.dead = false) : (l.foldl f st).dead = false := by
  induction l generalizing st with
  | nil => exact h
  | cons x l ih => exact ih _ (hf st x h)

/-- With allocations succeeding and the windows fitting their buffers the
dump of all bases does not fault and leaves a catalog whose windows fit. -/
theorem alive_reg_all (env : dpu_env) (halloc : ∀ n, env.kzalloc_ok n = true)
    (dump_mode : dpu_dbg_dump_context) (enable_reg_dump : Nat) (st : dump_st)
    (h : st.dead = false) (hfit : catalog_fits st.reg_base_list) :
    (_dpu_dump_reg_all env dump_mode enable_reg_dump st).dead = false ∧
      catalog_fits (_dpu_dump_reg_all env dump_mode enable_reg_dump st).reg_base_list := by
  unfold _dpu_dump_reg_all
  apply inv_foldl (fun s => s.dead = false ∧ catalog_fits s.reg_base_list) _ _ _ _ ⟨h, hfit⟩
  intro s p hs
  dsimp only
  rw [if_neg (by simp [hs.1])]
  cases deref_base s.reg_base_list p with
  | none => exact hs
  | some b =>
    dsimp only
    split_ifs
    · exact hs
    · unfold _dpu_dump_reg_by_blk
      cases _dpu_dump_get_blk_addr s.reg_base_list b.name with
      | none => exact hs
      | some q =>
        have hc := by_ranges_calls env halloc dump_mode s (some q) enable_reg_dump hs.2
        exact ⟨hc.2.2.1 hs.1, hc.2.2.2⟩

/-- The register dump of `_dpu_dump_array`: the state after the dump of all
bases or of the selection, ahead of the panic test. -/
theorem dump_array_shape (env : dpu_env) (d : dpu_dbg_base)
    (blk_arr : Option (List (Option Nat))) (len : Nat) (do_panic : Bool) (name : CStr)
    (dump_all : Bool) :
    ∃ st1 : dump_st, emits dump_path_event d.todump_st st1 ∧
      ((∀ n, env.kzalloc_ok n = true) → catalog_fits d.reg_base_list → d.dead = false →
        st1.dead = false ∧ catalog_fits st1.reg_base_list) ∧
      (_dpu_dump_array env d blk_arr len do_panic name dump_all).todump_st =
        (if st1.dead then st1
         else if do_panic then { st1.emit (.halt name) with dead := true }
         else st1) := by
  by_cases hall : dump_all = true ∨ blk_arr = none ∨ len = 0
  · refine ⟨_dpu_dump_reg_all env d.dump_mode d.enable_reg_dump d.todump_st,
      emits_reg_all _ _ _ _, fun halloc hfit hd => alive_reg_all env halloc _ _ _ hd hfit, ?_⟩
    unfold _dpu_dump_array
    dsimp only
    rw [if_pos hall]
  · refine ⟨(List.range len).foldl
        (fun st i =>
          if st.dead then st
          else
            match (blk_arr.getD []).getD i none with
            | some p =>
              _dpu_dump_reg_by_ranges env d.dump_mode st (some p) d.enable_reg_dump
            | none => st)
        d.todump_st, ?_, ?_, ?_⟩
    · apply emits_foldl
      intro s i
      dsimp only
      split_ifs
      · exact emits_refl _ s
      · cases (blk_arr.getD []).getD i none with
        | none => exact emits_refl _ s
        | some p => exact emits_by_ranges_any env _ s (some p) _
    · intro halloc hfit hd
      apply inv_foldl (fun s => s.dead = false ∧ catalog_fits s.reg_base_list) _ _ _ _
        ⟨hd, hfit⟩
      intro s i hs
      dsimp only
      rw [if_neg (by simp [hs.1])]
      cases (blk_arr.getD []).getD i none with
      | none => exact hs
      | some p =>
        have hc := by_ranges_calls env halloc d.dump_mode s (some p) d.enable_reg_dump hs.2
        exact ⟨hc.2.2.1 hs.1, hc.2.2.2⟩
    · unfold _dpu_dump_array
      dsimp only
      rw [if_neg hall]

/-- The trace of `dpu_devcoredump_read`: the header lines, the events `mid` of
the register dump, and then nothing when the dump did not run to its end
(`alive = false`), the halt when the request carries the panic flag, and the
drm-state section otherwise.  With allocations succeeding on an engine that
has not halted, and with the windows fitting their buffers, the dump runs to
its end. -/
theorem read_shape (env : dpu_env) (s : dpu_dbg_base) :
    ∃ (mid : List dbg_event) (alive : Bool), (∀ e ∈ mid, dump_path_event e) ∧
      ((∀ n, env.kzalloc_ok n = true) → catalog_fits s.reg_base_list → s.dead = false →
        alive = true) ∧
      (dpu_devcoredump_read env s).trace =
        s.trace ++ coredump_header s.timestamp ++ mid ++
          (if alive = true then
            (if s.work_panic = true then [.halt "evtlog_workitem".toList]
             else coredump_tail s.atomic_state)
           else []) ∧
      (dpu_devcoredump_read env s).dead = (!alive || s.work_panic) := by
  obtain ⟨st1, ⟨mid, hmid, hP⟩, halive, hst⟩ := dump_array_shape env
    { s with
      todump_st := ((((s.todump_st.emit .dump_sep).emit .dump_module).emit .dump_title).emit
        (.dump_timestamp s.timestamp)).emit .dump_regs_banner,
      enable_reg_dump := DPU_DBG_DUMP_IN_COREDUMP }
    (some s.req_dump_blks) DPU_DBG_BASE_MAX s.work_panic "evtlog_workitem".toList s.dump_all
  have htr : st1.trace = s.trace ++ coredump_header s.timestamp ++ mid := by
    rw [hmid]
    simp [dump_st.emit, coredump_header]
  have hat : (_dpu_dump_array env
      { s with
        todump_st := ((((s.todump_st.emit .dump_sep).emit .dump_module).emit
          .dump_title).emit (.dump_timestamp s.timestamp)).emit .dump_regs_banner,
        enable_reg_dump := DPU_DBG_DUMP_IN_COREDUMP }
      (some s.req_dump_blks) DPU_DBG_BASE_MAX s.work_panic "evtlog_workitem".toList
      s.dump_all).atomic_state = s.atomic_state := rfl
  have hread : dpu_devcoredump_read env s =
      (fun d3 : dpu_dbg_base =>
        if d3.dead = true then d3
        else
          match d3.atomic_state with
          | some snapshot =>
            { d3 with todump_st :=
                (d3.todump_st.emit .dump_state_banner).emit (.dump_atomic_state snapshot) }
          | none => { d3 with todump_st := d3.todump_st.emit .dump_state_banner })
      (_dpu_dump_array env
        { s with
          todump_st := ((((s.todump_st.emit .dump_sep).emit .dump_module).emit
            .dump_title).emit (.dump_timestamp s.timestamp)).emit .dump_regs_banner,
          enable_reg_dump := DPU_DBG_DUMP_IN_COREDUMP }
        (some s.req_dump_blks) DPU_DBG_BASE_MAX s.work_panic "evtlog_workitem".toList
        s.dump_all) := rfl
  rw [hread]
  generalize (_dpu_dump_array env
      { s with
        todump_st := ((((s.todump_st.emit .dump_sep).emit .dump_module).emit
          .dump_title).emit (.dump_timestamp s.timestamp)).emit .dump_regs_banner,
        enable_reg_dump := DPU_DBG_DUMP_IN_COREDUMP }
      (some s.req_dump_blks) DPU_DBG_BASE_MAX s.work_panic "evtlog_workitem".toList
      s.dump_all) = d3 at hst hat
  refine ⟨mid, !st1.dead, hP, ?_, ?_⟩
  · intro halloc hfit hd
    have := (halive halloc hfit hd).1
    simp [this]
  · dsimp only
    have hdd : d3.dead = d3.todump_st.dead := rfl
    have htt : ∀ d : dpu_dbg_base, d.trace = d.todump_st.trace := fun _ => rfl
    by_cases h1 : st1.dead = true
    · rw [if_pos h1] at hst
      rw [if_pos (by rw [hdd, hst, h1])]
      rw [htt, hdd, hst, htr]
      simp [h1]
    · by_cases h2 : s.work_panic = true
      · rw [if_neg h1, if_pos h2] at hst
        rw [if_pos (by rw [hdd, hst])]
        rw [htt, hdd, hst]
        refine ⟨?_, by simp [h2]⟩
        show st1.trace ++ [_] = _
        rw [htr]
        simp [h1, h2]
      · rw [if_neg h1, if_neg h2] at hst
        rw [if_neg (by rw [hdd, hst]; exact h1)]
        rw [hat]
        cases hsnap : s.atomic_state with
        | none =>
          refine ⟨?_, ?_⟩
          · show d3.todump_st.trace ++ [_] = _
            rw [hst, htr]
            simp [h1, h2, coredump_tail]
          · show d3.todump_st.dead = _
            rw [hst]
            simp at h1 h2
            simp [h1, h2]
        | some snap =>
          refine ⟨?_, ?_⟩
          · show (d3.todump_st.trace ++ [_]) ++ [_] = _
            rw [hst, htr]
            simp [h1, h2, coredump_tail]
          · show d3.todump_st.dead = _
            rw [hst]
            simp at h1 h2
            simp [h1, h2]

/-- A chunk of `_dpu_dump_reg`: the reads of the words below `end_addr`, in
order, then the sinks applied to the four words, a word at or beyond
`end_addr` being 0. -/
theorem chunk_eq (env : dpu_env) (in_log in_mem in_dump base_addr end_addr i addr : Nat)
    (st : dump_st) (dump_addr : Option (List Nat)) :
    _dpu_dump_reg_chunk env in_log in_mem in_dump base_addr end_addr i addr st dump_addr =
      _dpu_dump_reg_sinks in_log in_mem in_dump base_addr i addr
        (chunk_word env (decide (in_log ≠ 0 ∨ in_mem ≠ 0)) end_addr addr)
        (chunk_word env (decide (in_log ≠ 0 ∨ in_mem ≠ 0)) end_addr (addr + 4))
        (chunk_word env (decide (in_log ≠ 0 ∨ in_mem ≠ 0)) end_addr (addr + 8))
        (chunk_word env (decide (in_log ≠ 0 ∨ in_mem ≠ 0)) end_addr (addr + 12))
        { st with trace := st.trace ++
            (chunk_reads (decide (in_log ≠ 0 ∨ in_mem ≠ 0)) end_addr addr).map .readl }
        dump_addr := by
  unfold _dpu_dump_reg_chunk _dpu_dump_reg_word chunk_word chunk_reads
  by_cases hrd : in_log ≠ 0 ∨ in_mem ≠ 0
  · by_cases h0 : addr < end_addr <;> by_cases h4 : addr + 4 < end_addr <;>
      by_cases h8 : addr + 8 < end_addr <;> by_cases hc : addr + 12 < end_addr <;>
      simp [hrd, h0, h4, h8, hc, dump_st.emit, List.filter]
  · simp [hrd, List.filter]

/-- The buffer set-up of `_dpu_dump_reg` case by case: it makes no power call
and does not fault; with no buffer sink nothing is set up; an existing buffer
is reused; a missing one is allocated zeroed; when that fails `in_mem` is
cleared and `dump_addr` stays NULL. -/
theorem alloc_cases (env : dpu_env) (st : dump_st) (dump_name : CStr)
    (in_mem in_dump len_padded reg_offset : Nat) (dump_mem : Option (List Nat)) :
    (_dpu_dump_reg_alloc env st dump_name in_mem in_dump len_padded reg_offset dump_mem).st.dead =
        st.dead ∧
      (_dpu_dump_reg_alloc env st dump_name in_mem in_dump len_padded reg_offset
        dump_mem).st.n_pm = st.n_pm ∧
      (in_mem = 0 ∧ in_dump = 0 →
        _dpu_dump_reg_alloc env st dump_name in_mem in_dump len_padded reg_offset dump_mem =
          { st := st, dump_mem := dump_mem, dump_addr := none, in_mem := in_mem }) ∧
      (in_mem ≠ 0 ∨ in_dump ≠ 0 → ∀ b, dump_mem = some b →
        _dpu_dump_reg_alloc env st dump_name in_mem in_dump len_padded reg_offset dump_mem =
          { st := _dpu_dump_reg_headers st dump_name in_dump len_padded reg_offset,
            dump_mem := some b, dump_addr := some b, in_mem := in_mem }) ∧
      (in_mem ≠ 0 ∨ in_dump ≠ 0 → dump_mem = none → env.kzalloc_ok st.n_alloc = true →
        _dpu_dump_reg_alloc env st dump_name in_mem in_dump len_padded reg_offset dump_mem =
          { st := _dpu_dump_reg_headers { st with n_alloc := st.n_alloc + 1 } dump_name in_dump
              len_padded reg_offset,
            dump_mem := some (List.replicate (len_padded / 4) 0),
            dump_addr := some (List.replicate (len_padded / 4) 0), in_mem := in_mem }) ∧
      (in_mem ≠ 0 ∨ in_dump ≠ 0 → dump_mem = none → env.kzalloc_ok st.n_alloc = false →
        _dpu_dump_reg_alloc env st dump_name in_mem in_dump len_padded reg_offset dump_mem =
          { st := { st with n_alloc := st.n_alloc + 1 }, dump_mem := none, dump_addr := none,
            in_mem := 0 }) := by
  have hh : ∀ s : dump_st,
      (_dpu_dump_reg_headers s dump_name in_dump len_padded reg_offset).dead = s.dead ∧
      (_dpu_dump_reg_headers s dump_name in_dump len_padded reg_offset).n_pm = s.n_pm := by
    intro s
    unfold _dpu_dump_reg_headers
    by_cases hd : in_dump ≠ 0
    · simp only [if_pos hd]
      exact ⟨rfl, rfl⟩
    · simp only [if_neg hd]
      exact ⟨rfl, rfl⟩
  unfold _dpu_dump_reg_alloc
  by_cases h : in_mem ≠ 0 ∨ in_dump ≠ 0
  · rw [if_pos h]
    cases dump_mem with
    | some b =>
      refine ⟨(hh st).1, (hh st).2, ?_, ?_, ?_, ?_⟩
      · intro h0
        omega
      · intro _ b2 hb2
        cases hb2
        rfl
      · intro _ hn
        cases hn
      · intro _ hn
        cases hn
    | none =>
      by_cases hk : env.kzalloc_ok st.n_alloc = true
      · simp only [if_pos hk]
        refine ⟨(hh _).1, (hh _).2, ?_, ?_, ?_, ?_⟩
        · intro h0
          omega
        · intro _ b2 hb2
          cases hb2
        · intro _ _ _
          first | rfl | trivial
        · intro _ _ hf
          rw [hk] at hf
          cases hf
      · simp only [if_neg hk]
        refine ⟨by first | rfl | trivial, by first | rfl | trivial, ?_, ?_, ?_, ?_⟩
        · intro h0
          omega
        · intro _ b2 hb2
          cases hb2
        · intro _ _ ht
          exact absurd ht hk
        · intro _ _ _
          first | rfl | trivial
  · rw [if_neg h]
    refine ⟨rfl, rfl, fun _ => rfl, fun h2 => absurd h2 h, fun h2 => absurd h2 h,
      fun h2 => absurd h2 h⟩

/-- The power bracket of `_dpu_dump_reg` when the Coredump sink has a buffer:
the events `body` of the chunk loop stand alone when the clock is already
enabled, and between the one `pm_get` and the one `pm_put` otherwise; a failed
enable is followed by nothing and leaves `*dump_mem` as the set-up left it. -/
theorem run_shape (env : dpu_env) (dump_mode : dpu_dbg_dump_context)
    (in_log in_dump base_addr end_addr len_align addr : Nat) (bufs : dump_reg_bufs)
    (hbuf : in_dump ≠ 0 → bufs.dump_addr.isSome = true) (hlive : bufs.st.dead = false)
    (hroom : has_room len_align bufs.dump_addr) :
    ∃ body : List dbg_event, (∀ e ∈ body, chunk_event addr end_addr e) ∧
      (_dpu_dump_reg_run env dump_mode in_log in_dump base_addr end_addr len_align addr
        bufs).1.dead = false ∧
      (_dpu_dump_reg_run env dump_mode in_log in_dump base_addr end_addr len_align addr
        bufs).1.trace = bufs.st.trace ++
          (if _dpu_power_check dump_mode = true then
            (if env.pm_runtime_get_sync bufs.st.n_pm < 0 then
              [.pm_get (env.pm_runtime_get_sync bufs.st.n_pm)]
             else [.pm_get (env.pm_runtime_get_sync bufs.st.n_pm)] ++ body ++ [.pm_put])
           else body) ∧
      (_dpu_power_check dump_mode = true → env.pm_runtime_get_sync bufs.st.n_pm < 0 →
        (_dpu_dump_reg_run env dump_mode in_log in_dump base_addr end_addr len_align addr
          bufs).2 = bufs.dump_mem) := by
  have hr0 : has_room (0 + len_align) bufs.dump_addr := by
    rw [Nat.zero_add]
    exact hroom
  unfold _dpu_dump_reg_run
  by_cases hp : _dpu_power_check dump_mode = true
  · simp only [if_pos hp]
    by_cases hrc : env.pm_runtime_get_sync bufs.st.n_pm < 0
    · simp only [if_pos hrc]
      exact ⟨[], by simp, hlive, rfl, fun _ _ => trivial⟩
    · simp only [if_neg hrc]
      obtain ⟨body, hbody, hP⟩ := emits_loop env in_log bufs.in_mem in_dump base_addr end_addr
        addr len_align 0 addr
        { bufs.st.emit (.pm_get (env.pm_runtime_get_sync bufs.st.n_pm)) with
          n_pm := bufs.st.n_pm + 1 }
        bufs.dump_addr (le_refl _)
      have hs := (steady_loop env in_log bufs.in_mem in_dump base_addr end_addr len_align 0 addr
        { bufs.st.emit (.pm_get (env.pm_runtime_get_sync bufs.st.n_pm)) with
          n_pm := bufs.st.n_pm + 1 }
        bufs.dump_addr hbuf hr0).1.2.2 hlive
      rw [if_neg (by rw [hs]; simp)]
      refine ⟨body, hP, hs, ?_, fun _ h => absurd h hrc⟩
      show (_dpu_dump_reg_loop _ _ _ _ _ _ _ _ _ _ _).1.trace ++ [_] = _
      rw [hbody]
      simp [dump_st.emit]
  · simp only [if_neg hp]
    obtain ⟨body, hbody, hP⟩ := emits_loop env in_log bufs.in_mem in_dump base_addr end_addr
      addr len_align 0 addr bufs.st bufs.dump_addr (le_refl _)
    have hs := (steady_loop env in_log bufs.in_mem in_dump base_addr end_addr len_align 0 addr
      bufs.st bufs.dump_addr hbuf hr0).1.2.2 hlive
    exact ⟨body, hP, hs, hbody, fun h => absurd h hp⟩

/-- A window of non-zero length with a sink enabled: `_dpu_dump_reg` is the
power bracket and chunk loop run on the locals left by the buffer set-up. -/
theorem dump_reg_eq (env : dpu_env) (dump_mode : dpu_dbg_dump_context) (st : dump_st)
    (dump_name : CStr) (reg_dump_flag base_addr addr len_bytes : Nat)
    (dump_mem : Option (List Nat)) (hlen : len_bytes ≠ 0)
    (hsink : ¬ (reg_dump_flag &&& DPU_DBG_DUMP_IN_LOG = 0 ∧
      reg_dump_flag &&& DPU_DBG_DUMP_IN_MEM = 0 ∧ reg_dump_flag &&& DPU_DBG_DUMP_IN_COREDUMP = 0)) :
    _dpu_dump_reg env dump_mode st dump_name reg_dump_flag base_addr addr len_bytes dump_mem =
      _dpu_dump_reg_run env dump_mode (reg_dump_flag &&& DPU_DBG_DUMP_IN_LOG)
        (reg_dump_flag &&& DPU_DBG_DUMP_IN_COREDUMP) base_addr (addr + len_bytes)
        (u32 ((len_bytes + REG_DUMP_ALIGN - 1) / REG_DUMP_ALIGN)) addr
        (_dpu_dump_reg_alloc env
          (if reg_dump_flag &&& DPU_DBG_DUMP_IN_LOG ≠ 0 then
            st.emit (.log_start dump_name (addr - base_addr) len_bytes) else st)
          dump_name (reg_dump_flag &&& DPU_DBG_DUMP_IN_MEM)
          (reg_dump_flag &&& DPU_DBG_DUMP_IN_COREDUMP)
          (u32 (u32 ((len_bytes + REG_DUMP_ALIGN - 1) / REG_DUMP_ALIGN) * REG_DUMP_ALIGN))
          (addr - base_addr) dump_mem) := by
  unfold _dpu_dump_reg
  rw [if_neg hlen]
  dsimp only
  rw [if_neg hsink]

/-- The start line of the Log sink: a header event; the state is otherwise
unchanged. -/
theorem log_start_cases (st : dump_st) (in_log : Nat) (e : dbg_event) (he : header_event e) :
    emits header_event st (if in_log ≠ 0 then st.emit e else st) ∧
      (if in_log ≠ 0 then st.emit e else st).dead = st.dead ∧
      (if in_log ≠ 0 then st.emit e else st).n_pm = st.n_pm ∧
      (if in_log ≠ 0 then st.emit e else st).n_alloc = st.n_alloc := by
  by_cases h : in_log ≠ 0
  · simp only [if_pos h]
    exact ⟨emits_emit st e he, rfl, rfl, rfl⟩
  · simp only [if_neg h]
    exact ⟨emits_refl _ st, trivial, trivial, trivial⟩

/-- The locals after the buffer set-up of a window whose Coredump sink, if
enabled, gets a buffer: header events only, no fault, no power call, a buffer
behind `dump_addr` for the Coredump sink, and `*dump_mem` either the buffer
that was there or a zeroed one. -/
theorem alloc_shape (env : dpu_env) (st : dump_st) (dump_name : CStr)
    (in_mem in_dump len_padded reg_offset : Nat) (dump_mem : Option (List Nat))
    (hbuf : in_dump ≠ 0 → dump_mem ≠ none ∨ env.kzalloc_ok st.n_alloc = true) :
    emits header_event st
        (_dpu_dump_reg_alloc env st dump_name in_mem in_dump len_padded reg_offset dump_mem).st ∧
      (_dpu_dump_reg_alloc env st dump_name in_mem in_dump len_padded reg_offset
        dump_mem).st.dead = st.dead ∧
      (_dpu_dump_reg_alloc env st dump_name in_mem in_dump len_padded reg_offset
        dump_mem).st.n_pm = st.n_pm ∧
      (in_dump ≠ 0 → (_dpu_dump_reg_alloc env st dump_name in_mem in_dump len_padded reg_offset
        dump_mem).dump_addr.isSome = true) ∧
      (∀ b, dump_mem = some b →
        (_dpu_dump_reg_alloc env st dump_name in_mem in_dump len_padded reg_offset
          dump_mem).dump_mem = some b) ∧
      (dump_mem = none → ∀ b,
        (_dpu_dump_reg_alloc env st dump_name in_mem in_dump len_padded reg_offset
          dump_mem).dump_mem = some b → ∀ j, b.getD j 0 = 0) := by
  obtain ⟨hd, hpm, h0, hsome, hok, hfail⟩ := alloc_cases env st dump_name in_mem in_dump
    len_padded reg_offset dump_mem
  refine ⟨emits_alloc env st dump_name in_mem in_dump len_padded reg_offset dump_mem, hd, hpm,
    ?_, ?_, ?_⟩
  · intro hdump
    cases hm : dump_mem with
    | some b =>
      rw [← hm, hsome (Or.inr hdump) b hm]
      rfl
    | none =>
      have hk : env.kzalloc_ok st.n_alloc = true := by
        rcases hbuf hdump with h | h
        · exact absurd hm h
        · exact h
      rw [← hm, hok (Or.inr hdump) hm hk]
      rfl
  · intro b hm
    by_cases h : in_mem ≠ 0 ∨ in_dump ≠ 0
    · rw [hsome h b hm]
    · rw [h0 (by omega)]
      exact hm
  · intro hm b hb j
    by_cases h : in_mem ≠ 0 ∨ in_dump ≠ 0
    · by_cases hk : env.kzalloc_ok st.n_alloc = true
      · rw [hok h hm hk] at hb
        cases hb
        simp [List.getD_eq_getElem?_getD, List.getElem?_replicate]
        split_ifs <;> rfl
      · rw [hfail h hm (by simpa using hk)] at hb
        cases hb
    · rw [h0 (by omega), hm] at hb
      cases hb

/-- The buffers the set-up of a window leaves have room for the chunks of the
window, when the window fits its buffer. -/
theorem alloc_room (env : dpu_env) (st : dump_st) (dump_name : CStr)
    (in_mem in_dump len_bytes reg_offset : Nat) (dump_mem : Option (List Nat))
    (hfit : window_fits len_bytes dump_mem) :
    has_room (u32 ((len_bytes + REG_DUMP_ALIGN - 1) / REG_DUMP_ALIGN))
        (_dpu_dump_reg_alloc env st dump_name in_mem in_dump
          (u32 (u32 ((len_bytes + REG_DUMP_ALIGN - 1) / REG_DUMP_ALIGN) * REG_DUMP_ALIGN))
          reg_offset dump_mem).dump_addr ∧
      has_room (u32 ((len_bytes + REG_DUMP_ALIGN - 1) / REG_DUMP_ALIGN))
        (_dpu_dump_reg_alloc env st dump_name in_mem in_dump
          (u32 (u32 ((len_bytes + REG_DUMP_ALIGN - 1) / REG_DUMP_ALIGN) * REG_DUMP_ALIGN))
          reg_offset dump_mem).dump_mem := by
  obtain ⟨e1, e2, e3⟩ := len_align_of_fits len_bytes hfit.1
  have hroom := has_room_of_fits len_bytes dump_mem hfit
  have hfresh : has_room (u32 ((len_bytes + REG_DUMP_ALIGN - 1) / REG_DUMP_ALIGN))
      (some (List.replicate
        (u32 (u32 ((len_bytes + REG_DUMP_ALIGN - 1) / REG_DUMP_ALIGN) * REG_DUMP_ALIGN) / 4)
        0)) := by
    intro b hb
    cases hb
    rw [List.length_replicate, e2, e1]
    omega
  unfold _dpu_dump_reg_alloc
  by_cases h : in_mem ≠ 0 ∨ in_dump ≠ 0
  · rw [if_pos h]
    cases dump_mem with
    | some b => exact ⟨hroom, hroom⟩
    | none =>
      dsimp only
      by_cases hk : env.kzalloc_ok st.n_alloc = true
      · rw [if_pos hk]
        exact ⟨hfresh, hfresh⟩
      · rw [if_neg hk]
        exact ⟨(fun _ hb => nomatch hb), (fun _ hb => nomatch hb)⟩
  · rw [if_neg h]
    exact ⟨(fun _ hb => nomatch hb), hroom⟩

/-! ### C11: the chunks of a window -/

/-- The register reads of a list of read events. -/
theorem readl_addrs_map_readl (l : List Nat) : readl_addrs (l.map .readl) = l := by
  induction l with
  | nil => rfl
  | cons a l ih =>
    unfold readl_addrs at ih ⊢
    simp only [List.map_cons, List.filterMap_cons]
    rw [ih]

/-- Read events are no chunk lines of the Log sink. -/
theorem log_lines_map_readl (l : List Nat) : log_lines (l.map .readl) = [] := by
  induction l with
  | nil => rfl
  | cons a l ih =>
    unfold log_lines at ih ⊢
    simp only [List.map_cons, List.filterMap_cons]
    rw [ih]

/-- Header lines are neither register reads nor chunk lines. -/
theorem projections_of_header (new : List dbg_event) (h : ∀ e ∈ new, header_event e) :
    readl_addrs new = [] ∧ log_lines new = [] ∧ dump_lines new = [] := by
  induction new with
  | nil => exact ⟨rfl, rfl, rfl⟩
  | cons e l ih =>
    obtain ⟨h1, h2, h3⟩ := ih (fun x hx => h x (List.mem_cons_of_mem _ hx))
    have he := h e (List.mem_cons_self _ _)
    have hcons : e :: l = [e] ++ l := rfl
    rw [hcons, readl_addrs_append, log_lines_append, dump_lines_append, h1, h2, h3]
    cases e <;> first | exact he.elim | exact ⟨rfl, rfl, rfl⟩

/-- The four stores of a chunk into a buffer that holds the chunk: the four
words at `4 * i .. 4 * i + 3`, every other word unchanged. -/
theorem chunk_store_getD (b : List Nat) (i x0 x4 x8 xc : Nat) (hlen : 4 * i + 3 < b.length)
    (j : Nat) :
    ((((b.set (i * 4) x0).set (i * 4 + 1) x4).set (i * 4 + 2) x8).set (i * 4 + 3) xc).getD j 0 =
      if j = 4 * i then x0 else if j = 4 * i + 1 then x4 else if j = 4 * i + 2 then x8
      else if j = 4 * i + 3 then xc else b.getD j 0 := by
  simp only [List.getD_eq_getElem?_getD, List.getElem?_set, List.length_set]
  by_cases h0 : j = 4 * i
  · subst h0
    rw [if_neg (by omega), if_neg (by omega), if_neg (by omega), if_pos (by omega),
      if_pos (by omega), if_pos rfl]
    rfl
  · rw [if_neg h0]
    by_cases h1 : j = 4 * i + 1
    · subst h1
      rw [if_neg (by omega), if_neg (by omega), if_pos (by omega), if_pos (by omega), if_pos rfl]
      rfl
    · rw [if_neg h1]
      by_cases h2 : j = 4 * i + 2
      · subst h2
        rw [if_neg (by omega), if_pos (by omega), if_pos (by omega), if_pos rfl]
        rfl
      · rw [if_neg h2]
        by_cases h3 : j = 4 * i + 3
        · subst h3
          rw [if_pos (by omega), if_pos (by omega), if_pos rfl]
          rfl
        · rw [if_neg h3, if_neg (by omega), if_neg (by omega), if_neg (by omega),
            if_neg (by omega)]

/-- The length of a buffer after the four stores of a chunk. -/
theorem chunk_store_length (b : List Nat) (i x0 x4 x8 xc : Nat) :
    ((((b.set (i * 4) x0).set (i * 4 + 1) x4).set (i * 4 + 2) x8).set (i * 4 + 3) xc).length =
      b.length := by
  simp only [List.length_set]

/-- The sinks of a chunk when the Coredump sink has a buffer: no fault, no
register read, one chunk line of the Log sink when it is enabled, and the four
stores into the buffer when the Memory sink is enabled. -/
theorem sinks_spec (in_log in_mem in_dump base_addr i addr x0 x4 x8 xc : Nat) (st : dump_st)
    (dump_addr : Option (List Nat)) (hbuf : in_dump ≠ 0 → dump_addr ≠ none)
    (hlive : st.dead = false) (hroom : has_room (i + 1) dump_addr) :
    (_dpu_dump_reg_sinks in_log in_mem in_dump base_addr i addr x0 x4 x8 xc st
        dump_addr).1.dead = false ∧
      readl_addrs (_dpu_dump_reg_sinks in_log in_mem in_dump base_addr i addr x0 x4 x8 xc st
        dump_addr).1.trace = readl_addrs st.trace ∧
      log_lines (_dpu_dump_reg_sinks in_log in_mem in_dump base_addr i addr x0 x4 x8 xc st
        dump_addr).1.trace =
        log_lines st.trace ++
          (if in_log ≠ 0 then [(addr - base_addr, x0, x4, x8, xc)] else []) ∧
      (_dpu_dump_reg_sinks in_log in_mem in_dump base_addr i addr x0 x4 x8 xc st dump_addr).2 =
        dump_addr.map (fun b =>
          if in_mem ≠ 0 then
            (((b.set (i * 4) x0).set (i * 4 + 1) x4).set (i * 4 + 2) x8).set (i * 4 + 3) xc
          else b) := by
  have hl : ∀ s : dump_st, (if in_log ≠ 0 then
        s.emit (.log_line (addr - base_addr) x0 x4 x8 xc) else s).dead = s.dead ∧
      readl_addrs (if in_log ≠ 0 then
        s.emit (.log_line (addr - base_addr) x0 x4 x8 xc) else s).trace = readl_addrs s.trace ∧
      log_lines (if in_log ≠ 0 then
        s.emit (.log_line (addr - base_addr) x0 x4 x8 xc) else s).trace =
        log_lines s.trace ++
          (if in_log ≠ 0 then [(addr - base_addr, x0, x4, x8, xc)] else []) := by
    intro s
    by_cases h : in_log ≠ 0
    · rw [if_pos h, if_pos h]
      refine ⟨rfl, ?_, ?_⟩
      · show readl_addrs (s.trace ++ [_]) = _
        rw [readl_addrs_append]
        simp [readl_addrs]
      · show log_lines (s.trace ++ [_]) = _
        rw [log_lines_append]
        simp [log_lines]
    · rw [if_neg h, if_neg h]
      exact ⟨rfl, rfl, by simp⟩
  obtain ⟨hl1, hl2, hl3⟩ := hl st
  unfold _dpu_dump_reg_sinks
  cases dump_addr with
  | some b =>
    dsimp only
    have hin : i * 4 + 3 < b.length ∧ i * 4 + 3 < 2 ^ 31 := by
      have h2 := hroom b rfl
      omega
    rw [if_neg (fun h => h.2 hin)]
    by_cases hd : in_dump ≠ 0
    · rw [if_pos hd]
      refine ⟨?_, ?_, ?_, rfl⟩
      · show (if in_log ≠ 0 then _ else st).dead = false
        rw [hl1, hlive]
      · show readl_addrs ((if in_log ≠ 0 then _ else st).trace ++ [_]) = _
        rw [readl_addrs_append, hl2]
        simp [readl_addrs]
      · show log_lines ((if in_log ≠ 0 then _ else st).trace ++ [_]) = _
        rw [log_lines_append, hl3]
        simp [log_lines]
    · rw [if_neg hd]
      exact ⟨by rw [hl1, hlive], hl2, hl3, rfl⟩
  | none =>
    dsimp only
    have hd : ¬ in_dump ≠ 0 := fun h => hbuf h rfl
    rw [if_neg hd]
    exact ⟨by rw [hl1, hlive], hl2, hl3, rfl⟩

/-- A chunk of `_dpu_dump_reg` with the Log or Memory sink enabled, the
Coredump sink having a buffer: the registers below `end_addr` are read, the
Log sink prints the four words, the Memory sink stores them. -/
theorem chunk_spec (env : dpu_env) (in_log in_mem in_dump base_addr end_addr i addr : Nat)
    (st : dump_st) (dump_addr : Option (List Nat)) (hrd : in_log ≠ 0 ∨ in_mem ≠ 0)
    (hbuf : in_dump ≠ 0 → dump_addr ≠ none) (hlive : st.dead = false)
    (hroom : has_room (i + 1) dump_addr) :
    (_dpu_dump_reg_chunk env in_log in_mem in_dump base_addr end_addr i addr st
        dump_addr).1.dead = false ∧
      readl_addrs (_dpu_dump_reg_chunk env in_log in_mem in_dump base_addr end_addr i addr st
        dump_addr).1.trace = readl_addrs st.trace ++ chunk_reads true end_addr addr ∧
      log_lines (_dpu_dump_reg_chunk env in_log in_mem in_dump base_addr end_addr i addr st
        dump_addr).1.trace =
        log_lines st.trace ++
          (if in_log ≠ 0 then
            [(addr - base_addr, chunk_word env true end_addr addr,
              chunk_word env true end_addr (addr + 4), chunk_word env true end_addr (addr + 8),
              chunk_word env true end_addr (addr + 12))]
           else []) ∧
      (_dpu_dump_reg_chunk env in_log in_mem in_dump base_addr end_addr i addr st dump_addr).2 =
        dump_addr.map (fun b =>
          if in_mem ≠ 0 then
            (((b.set (i * 4) (chunk_word env true end_addr addr)).set (i * 4 + 1)
              (chunk_word env true end_addr (addr + 4))).set (i * 4 + 2)
              (chunk_word env true end_addr (addr + 8))).set (i * 4 + 3)
              (chunk_word env true end_addr (addr + 12))
          else b) := by
  rw [chunk_eq]
  have hdec : decide (in_log ≠ 0 ∨ in_mem ≠ 0) = true := by simpa using hrd
  rw [hdec]
  obtain ⟨h1, h2, h3, h4⟩ := sinks_spec in_log in_mem in_dump base_addr i addr
    (chunk_word env true end_addr addr) (chunk_word env true end_addr (addr + 4))
    (chunk_word env true end_addr (addr + 8)) (chunk_word env true end_addr (addr + 12))
    { st with trace := st.trace ++ (chunk_reads true end_addr addr).map .readl } dump_addr hbuf
    hlive hroom
  refine ⟨h1, ?_, ?_, h4⟩
  · rw [h2]
    show readl_addrs (st.trace ++ _) = _
    rw [readl_addrs_append, readl_addrs_map_readl]
  · rw [h3]
    show log_lines (st.trace ++ _) ++ _ = _
    rw [log_lines_append, log_lines_map_readl, List.append_nil]

/-- The chunk loop of `_dpu_dump_reg` with the Log or Memory sink enabled, the
Coredump sink having a buffer and, for the Memory sink, the buffer holding the
`n` chunks from chunk `i` on: no fault; the registers read are those of the chunks in order; the Log
sink prints one line per chunk; the Memory sink leaves the words of chunk
`i + m` at the indices `4 * (i + m) .. 4 * (i + m) + 3` and no other word of
the buffer changes. -/
theorem loop_spec (env : dpu_env) (in_log in_mem in_dump base_addr end_addr : Nat)
    (hrd : in_log ≠ 0 ∨ in_mem ≠ 0) :
    ∀ (n i addr : Nat) (st : dump_st) (dump_addr : Option (List Nat)),
      (in_dump ≠ 0 → dump_addr ≠ none) → st.dead = false → has_room (i + n) dump_addr →
      (_dpu_dump_reg_loop env in_log in_mem in_dump base_addr end_addr n i addr st
          dump_addr).1.dead = false ∧
        readl_addrs (_dpu_dump_reg_loop env in_log in_mem in_dump base_addr end_addr n i addr st
          dump_addr).1.trace =
          readl_addrs st.trace ++
            (List.range n).flatMap (fun m => chunk_reads true end_addr (addr + 16 * m)) ∧
        log_lines (_dpu_dump_reg_loop env in_log in_mem in_dump base_addr end_addr n i addr st
          dump_addr).1.trace =
          log_lines st.trace ++
            (if in_log ≠ 0 then
              (List.range n).map (fun m =>
                (addr + 16 * m - base_addr, chunk_word env true end_addr (addr + 16 * m),
                  chunk_word env true end_addr (addr + 16 * m + 4),
                  chunk_word env true end_addr (addr + 16 * m + 8),
                  chunk_word env true end_addr (addr + 16 * m + 12)))
             else []) ∧
        (∀ b, dump_addr = some b →
          ∃ b2, (_dpu_dump_reg_loop env in_log in_mem in_dump base_addr end_addr n i addr st
              dump_addr).2 = some b2 ∧ b2.length = b.length ∧
            (in_mem ≠ 0 →
              (∀ m, m < n → ∀ k, k < 4 →
                b2.getD (4 * (i + m) + k) 0 =
                  chunk_word env true end_addr (addr + 16 * m + 4 * k)) ∧
              ∀ j, j < 4 * i ∨ 4 * (i + n) ≤ j → b2.getD j 0 = b.getD j 0)) := by
  intro n
  induction n with
  | zero =>
    intro i addr st dump_addr _ hlive _
    refine ⟨hlive, by simp [_dpu_dump_reg_loop], by simp [_dpu_dump_reg_loop], ?_⟩
    intro b hb
    exact ⟨b, by simp [_dpu_dump_reg_loop, hb], rfl, fun _ =>
      ⟨fun m hm => absurd hm (Nat.not_lt_zero m), fun _ _ => rfl⟩⟩
  | succ n ih =>
    intro i addr st dump_addr hbuf hlive hroom
    have hlen : in_mem ≠ 0 → ∀ b, dump_addr = some b → 4 * (i + (n + 1)) ≤ b.length :=
      fun _ b hb => by have := hroom b hb; omega
    obtain ⟨c1, c2, c3, c4⟩ := chunk_spec env in_log in_mem in_dump base_addr end_addr i addr st
      dump_addr hrd hbuf hlive (has_room_mono _ _ _ hroom (by omega))
    have hbuf2 : in_dump ≠ 0 →
        (_dpu_dump_reg_chunk env in_log in_mem in_dump base_addr end_addr i addr st
          dump_addr).2 ≠ none := by
      intro hd
      rw [c4]
      cases hda : dump_addr with
      | none => exact absurd hda (hbuf hd)
      | some b => simp
    have hlen2 : has_room (i + 1 + n) (_dpu_dump_reg_chunk env in_log in_mem in_dump base_addr
          end_addr i addr st dump_addr).2 := by
      apply has_room_of_length (i + 1 + n) dump_addr
      · rw [c4, Option.map_map]
        congr 1
        funext b
        show (if in_mem ≠ 0 then _ else b).length = b.length
        split_ifs
        · rw [chunk_store_length]
        · rfl
      · have e : i + 1 + n = i + (n + 1) := by omega
        rw [e]
        exact hroom
    obtain ⟨d1, d2, d3, d4⟩ := ih (i + 1) (addr + 16)
      (_dpu_dump_reg_chunk env in_log in_mem in_dump base_addr end_addr i addr st dump_addr).1
      (_dpu_dump_reg_chunk env in_log in_mem in_dump base_addr end_addr i addr st dump_addr).2
      hbuf2 c1 hlen2
    have hunf : _dpu_dump_reg_loop env in_log in_mem in_dump base_addr end_addr (n + 1) i addr st
        dump_addr =
        _dpu_dump_reg_loop env in_log in_mem in_dump base_addr end_addr n (i + 1) (addr + 16)
          (_dpu_dump_reg_chunk env in_log in_mem in_dump base_addr end_addr i addr st
            dump_addr).1
          (_dpu_dump_reg_chunk env in_log in_mem in_dump base_addr end_addr i addr st
            dump_addr).2 := by
      conv_lhs => unfold _dpu_dump_reg_loop
      rw [if_neg (by rw [hlive]; simp)]
      rfl
    rw [hunf]
    refine ⟨d1, ?_, ?_, ?_⟩
    · have hf : (fun m => chunk_reads true end_addr (addr + 16 + 16 * m)) =
          (fun m => chunk_reads true end_addr (addr + 16 * m.succ)) := by
        funext m
        congr 1
        omega
      rw [d2, c2, List.range_succ_eq_map, List.flatMap_cons, List.flatMap_map, List.append_assoc,
        hf]
      rfl
    · rw [d3, c3]
      by_cases hl : in_log ≠ 0
      · rw [if_pos hl, if_pos hl, if_pos hl, List.range_succ_eq_map, List.map_cons, List.map_map,
          List.append_assoc]
        congr 1
        simp only [List.singleton_append, Nat.mul_zero, Nat.add_zero]
        congr 1
        apply List.map_congr_left
        intro m _
        show (addr + 16 + 16 * m - base_addr, _, _, _, _) =
          (addr + 16 * (m + 1) - base_addr, _, _, _, _)
        have e : addr + 16 + 16 * m = addr + 16 * (m + 1) := by omega
        rw [e]
      · rw [if_neg hl, if_neg hl, if_neg hl]
        simp
    · intro b hb
      subst hb
      simp only [Option.map_some'] at c4
      obtain ⟨b2, e1, e2, e3⟩ := d4 _ c4
      refine ⟨b2, e1, ?_, ?_⟩
      · rw [e2]
        by_cases hm : in_mem ≠ 0
        · rw [if_pos hm, chunk_store_length]
        · rw [if_neg hm]
      · intro hm
        have h0 := hlen hm b rfl
        obtain ⟨f1, f2⟩ := e3 hm
        rw [if_pos hm] at f2
        constructor
        · intro m hmn k hk
          cases m with
          | zero =>
            rw [f2 _ (Or.inl (by omega)), chunk_store_getD b i _ _ _ _ (by omega)]
            have hk4 : k = 0 ∨ k = 1 ∨ k = 2 ∨ k = 3 := by omega
            rcases hk4 with h | h | h | h <;> subst h
            · rw [if_pos (by omega)]
              rfl
            · rw [if_neg (by omega), if_pos (by omega)]
            · rw [if_neg (by omega), if_neg (by omega), if_pos (by omega)]
            · rw [if_neg (by omega), if_neg (by omega), if_neg (by omega), if_pos (by omega)]
          | succ m =>
            have := f1 m (by omega) k hk
            have e : 4 * (i + (m + 1)) + k = 4 * (i + 1 + m) + k := by omega
            have e2 : addr + 16 * (m + 1) + 4 * k = addr + 16 + 16 * m + 4 * k := by omega
            rw [e, e2]
            exact this
        · intro j hj
          rw [f2 j (by omega), chunk_store_getD b i _ _ _ _ (by omega)]
          rw [if_neg (by omega), if_neg (by omega), if_neg (by omega), if_neg (by omega)]

/-- The power bracket and chunk loop of `_dpu_dump_reg` with the Log or Memory
sink enabled, the power enable succeeding, the Coredump sink having a buffer
and, for the Memory sink, the buffer holding the `len_align` chunks: as
`loop_spec` from chunk 0,
the power calls adding no read and no line. -/
theorem run_spec (env : dpu_env) (dump_mode : dpu_dbg_dump_context)
    (in_log in_dump base_addr end_addr len_align addr : Nat) (bufs : dump_reg_bufs)
    (hrd : in_log ≠ 0 ∨ bufs.in_mem ≠ 0) (hbuf : in_dump ≠ 0 → bufs.dump_addr ≠ none)
    (hlive : bufs.st.dead = false)
    (hpow : _dpu_power_check dump_mode = true → 0 ≤ env.pm_runtime_get_sync bufs.st.n_pm)
    (hlen : has_room len_align bufs.dump_addr) :
    (_dpu_dump_reg_run env dump_mode in_log in_dump base_addr end_addr len_align addr
        bufs).1.dead = false ∧
      readl_addrs (_dpu_dump_reg_run env dump_mode in_log in_dump base_addr end_addr len_align
        addr bufs).1.trace =
        readl_addrs bufs.st.trace ++
          (List.range len_align).flatMap (fun m => chunk_reads true end_addr (addr + 16 * m)) ∧
      log_lines (_dpu_dump_reg_run env dump_mode in_log in_dump base_addr end_addr len_align
        addr bufs).1.trace =
        log_lines bufs.st.trace ++
          (if in_log ≠ 0 then
            (List.range len_align).map (fun m =>
              (addr + 16 * m - base_addr, chunk_word env true end_addr (addr + 16 * m),
                chunk_word env true end_addr (addr + 16 * m + 4),
                chunk_word env true end_addr (addr + 16 * m + 8),
                chunk_word env true end_addr (addr + 16 * m + 12)))
           else []) ∧
      (∀ b, bufs.dump_addr = some b →
        ∃ b2, (_dpu_dump_reg_run env dump_mode in_log in_dump base_addr end_addr len_align addr
            bufs).2 = some b2 ∧ b2.length = b.length ∧
          (bufs.in_mem ≠ 0 →
            (∀ m, m < len_align → ∀ k, k < 4 →
              b2.getD (4 * m + k) 0 = chunk_word env true end_addr (addr + 16 * m + 4 * k)) ∧
            ∀ j, 4 * len_align ≤ j → b2.getD j 0 = b.getD j 0)) := by
  have hfin : ∀ st2 : dump_st, st2.dead = false → readl_addrs st2.trace = readl_addrs bufs.st.trace →
      log_lines st2.trace = log_lines bufs.st.trace →
      (_dpu_dump_reg_loop env in_log bufs.in_mem in_dump base_addr end_addr len_align 0 addr st2
          bufs.dump_addr).1.dead = false ∧
        readl_addrs (_dpu_dump_reg_loop env in_log bufs.in_mem in_dump base_addr end_addr
          len_align 0 addr st2 bufs.dump_addr).1.trace =
          readl_addrs bufs.st.trace ++
            (List.range len_align).flatMap (fun m => chunk_reads true end_addr (addr + 16 * m)) ∧
        log_lines (_dpu_dump_reg_loop env in_log bufs.in_mem in_dump base_addr end_addr
          len_align 0 addr st2 bufs.dump_addr).1.trace =
          log_lines bufs.st.trace ++
            (if in_log ≠ 0 then
              (List.range len_align).map (fun m =>
                (addr + 16 * m - base_addr, chunk_word env true end_addr (addr + 16 * m),
                  chunk_word env true end_addr (addr + 16 * m + 4),
                  chunk_word env true end_addr (addr + 16 * m + 8),
                  chunk_word env true end_addr (addr + 16 * m + 12)))
             else []) ∧
        (∀ b, bufs.dump_addr = some b →
          ∃ b2, (match (_dpu_dump_reg_loop env in_log bufs.in_mem in_dump base_addr end_addr
              len_align 0 addr st2 bufs.dump_addr).2 with
              | some b => some b
              | none => bufs.dump_mem) = some b2 ∧ b2.length = b.length ∧
            (bufs.in_mem ≠ 0 →
              (∀ m, m < len_align → ∀ k, k < 4 →
                b2.getD (4 * m + k) 0 = chunk_word env true end_addr (addr + 16 * m + 4 * k)) ∧
              ∀ j, 4 * len_align ≤ j → b2.getD j 0 = b.getD j 0)) := by
    intro st2 hd2 hr2 hl2
    obtain ⟨l1, l2, l3, l4⟩ := loop_spec env in_log bufs.in_mem in_dump base_addr end_addr hrd
      len_align 0 addr st2 bufs.dump_addr hbuf hd2
      (by rw [Nat.zero_add]; exact hlen)
    refine ⟨l1, by rw [l2, hr2], by rw [l3, hl2], ?_⟩
    intro b hb
    obtain ⟨b2, e1, e2, e3⟩ := l4 b hb
    refine ⟨b2, by rw [e1], e2, ?_⟩
    intro hm
    obtain ⟨f1, f2⟩ := e3 hm
    constructor
    · intro m hmn k hk
      have := f1 m hmn k hk
      rw [Nat.zero_add] at this
      exact this
    · intro j hj
      exact f2 j (Or.inr (by omega))
  unfold _dpu_dump_reg_run
  by_cases hp : _dpu_power_check dump_mode = true
  · have hrc : ¬ env.pm_runtime_get_sync bufs.st.n_pm < 0 := by
      have := hpow hp
      omega
    simp only [if_pos hp, if_neg hrc]
    obtain ⟨l1, l2, l3, l4⟩ := hfin
      { bufs.st.emit (.pm_get (env.pm_runtime_get_sync bufs.st.n_pm)) with
        n_pm := bufs.st.n_pm + 1 }
      hlive
      (by
        show readl_addrs (bufs.st.trace ++ [_]) = _
        rw [readl_addrs_append]
        simp [readl_addrs])
      (by
        show log_lines (bufs.st.trace ++ [_]) = _
        rw [log_lines_append]
        simp [log_lines])
    rw [if_neg (by rw [l1]; simp)]
    refine ⟨l1, ?_, ?_, l4⟩
    · show readl_addrs ((_dpu_dump_reg_loop _ _ _ _ _ _ _ _ _ _ _).1.trace ++ [_]) = _
      rw [readl_addrs_append, l2]
      simp [readl_addrs]
    · show log_lines ((_dpu_dump_reg_loop _ _ _ _ _ _ _ _ _ _ _).1.trace ++ [_]) = _
      rw [log_lines_append, l3]
      simp [log_lines]
  · simp only [if_neg hp]
    exact hfin bufs.st hlive rfl rfl

/-- The reads of a chunk in the words of the specification. -/
theorem chunk_reads_window (addr len i : Nat) :
    chunk_reads true (addr + len) (addr + 16 * i) =
      ([0, 1, 2, 3].filter (fun k => decide (16 * i + 4 * k < len))).map
        (fun k => addr + 16 * i + 4 * k) := by
  unfold chunk_reads
  have e0 : (addr + 16 * i < addr + len) = (16 * i + 4 * 0 < len) := by
    apply propext
    omega
  have e1 : (addr + 16 * i + 4 < addr + len) = (16 * i + 4 * 1 < len) := by
    apply propext
    omega
  have e2 : (addr + 16 * i + 8 < addr + len) = (16 * i + 4 * 2 < len) := by
    apply propext
    omega
  have e3 : (addr + 16 * i + 12 < addr + len) = (16 * i + 4 * 3 < len) := by
    apply propext
    omega
  simp only [List.filter_cons, List.filter_nil, Bool.true_and, e0, e1, e2, e3]
  by_cases h0 : 16 * i + 4 * 0 < len <;> by_cases h1 : 16 * i + 4 * 1 < len <;>
    by_cases h2 : 16 * i + 4 * 2 < len <;> by_cases h3 : 16 * i + 4 * 3 < len <;>
    simp only [h0, h1, h2, h3, decide_True, decide_False, if_true, if_false, List.map_cons,
      List.map_nil, Bool.false_eq_true] <;> rfl

/-- The word of a chunk in the words of the specification. -/
theorem chunk_word_window (env : dpu_env) (addr len i k a : Nat)
    (ha : a = addr + 16 * i + 4 * k) :
    chunk_word env true (addr + len) a = window_word env addr len i k := by
  subst ha
  unfold chunk_word window_word
  by_cases h : 16 * i + 4 * k < len
  · rw [if_pos h, if_pos ⟨rfl, by omega⟩]
  · rw [if_neg h, if_neg (by
      intro hc
      exact h (by omega))]

/-- The buffer set-up of `_dpu_dump_reg` when the allocation succeeds: `in_mem`
is kept, header lines only, no fault, no power call, and with a buffer sink
enabled `dump_addr` is the buffer that was there or a zeroed one of
`len_padded / 4` words. -/
theorem alloc_ok_spec (env : dpu_env) (st : dump_st) (dump_name : CStr)
    (in_mem in_dump len_padded reg_offset : Nat) (dump_mem : Option (List Nat))
    (hk : env.kzalloc_ok st.n_alloc = true) :
    (_dpu_dump_reg_alloc env st dump_name in_mem in_dump len_padded reg_offset dump_mem).in_mem =
        in_mem ∧
      (_dpu_dump_reg_alloc env st dump_name in_mem in_dump len_padded reg_offset
        dump_mem).st.dead = st.dead ∧
      (_dpu_dump_reg_alloc env st dump_name in_mem in_dump len_padded reg_offset
        dump_mem).st.n_pm = st.n_pm ∧
      emits header_event st
        (_dpu_dump_reg_alloc env st dump_name in_mem in_dump len_padded reg_offset dump_mem).st ∧
      (in_mem ≠ 0 ∨ in_dump ≠ 0 →
        ∃ b, (_dpu_dump_reg_alloc env st dump_name in_mem in_dump len_padded reg_offset
            dump_mem).dump_addr = some b ∧
          (dump_mem = some b ∨ (dump_mem = none ∧ b = List.replicate (len_padded / 4) 0))) := by
  obtain ⟨hd, hpm, h0, hsome, hok, _⟩ := alloc_cases env st dump_name in_mem in_dump len_padded
    reg_offset dump_mem
  refine ⟨?_, hd, hpm, emits_alloc env st dump_name in_mem in_dump len_padded reg_offset dump_mem,
    ?_⟩
  · by_cases h : in_mem ≠ 0 ∨ in_dump ≠ 0
    · cases hm : dump_mem with
      | some b => rw [← hm, hsome h b hm]
      | none => rw [← hm, hok h hm hk]
    · rw [h0 (by omega)]
  · intro h
    cases hm : dump_mem with
    | some b =>
      rw [← hm, hsome h b hm]
      exact ⟨b, rfl, Or.inl hm⟩
    | none =>
      rw [← hm, hok h hm hk]
      exact ⟨_, rfl, Or.inr ⟨rfl, rfl⟩⟩

/-- C11 (amended): for a window `(addr, len)` with `0 < len <= 2^36 - 16` and
`base_addr <= addr`, dumped by `_dpu_dump_reg` with the Log or Memory sink
enabled on an engine that has not halted, the power enable (when one is made)
and the buffer allocation succeeding, and, when the Memory or the Coredump
sink is enabled, the window fitting its capture buffer (`len <= 2^32 - 16`,
and a buffer that exists already holds at least `4 * ceil(len/16)` words): the
dump does not fault; the registers read are, chunk by chunk for the
`ceil(len/16)` chunks, exactly the words `k = 0..3` of chunk `i` with
`16*i + 4*k < len`, at `addr + 16*i + 4*k`; with Log enabled the chunk lines
added are one per chunk, carrying the offset `(addr - base_addr) + 16*i` and
the four words, a word being the register at `addr + 16*i + 4*k` when
`16*i + 4*k < len` and 0 otherwise; with Memory enabled the capture buffer
afterwards holds that word at index `4*i + k` for every chunk, and an existing
buffer keeps its length and its words from index `4 * ceil(len/16)` on. -/
theorem C11_window_chunks (env : dpu_env) (dump_mode : dpu_dbg_dump_context) (st : dump_st)
    (dump_name : CStr) (reg_dump_flag base_addr addr len_bytes : Nat)
    (dump_mem : Option (List Nat))
    (hsink : reg_dump_flag &&& DPU_DBG_DUMP_IN_LOG ≠ 0 ∨
      reg_dump_flag &&& DPU_DBG_DUMP_IN_MEM ≠ 0)
    (hlen0 : 0 < len_bytes) (hlen : len_bytes ≤ 2 ^ 36 - 16) (hbase : base_addr ≤ addr)
    (hpow : _dpu_power_check dump_mode = true → 0 ≤ env.pm_runtime_get_sync st.n_pm)
    (halloc : env.kzalloc_ok st.n_alloc = true)
    (hfit : reg_dump_flag &&& DPU_DBG_DUMP_IN_MEM ≠ 0 ∨
      reg_dump_flag &&& DPU_DBG_DUMP_IN_COREDUMP ≠ 0 → window_fits len_bytes dump_mem)
    (hlive : st.dead = false) :
    (_dpu_dump_reg env dump_mode st dump_name reg_dump_flag base_addr addr len_bytes
        dump_mem).1.dead = false ∧
      readl_addrs (_dpu_dump_reg env dump_mode st dump_name reg_dump_flag base_addr addr
        len_bytes dump_mem).1.trace = readl_addrs st.trace ++ window_reads addr len_bytes ∧
      (reg_dump_flag &&& DPU_DBG_DUMP_IN_LOG ≠ 0 →
        log_lines (_dpu_dump_reg env dump_mode st dump_name reg_dump_flag base_addr addr
          len_bytes dump_mem).1.trace =
          log_lines st.trace ++
            (List.range ((len_bytes + 15) / 16)).map (fun i =>
              (addr - base_addr + 16 * i, window_word env addr len_bytes i 0,
                window_word env addr len_bytes i 1, window_word env addr len_bytes i 2,
                window_word env addr len_bytes i 3))) ∧
      (reg_dump_flag &&& DPU_DBG_DUMP_IN_MEM ≠ 0 →
        ∃ b, (_dpu_dump_reg env dump_mode st dump_name reg_dump_flag base_addr addr len_bytes
            dump_mem).2 = some b ∧
          (∀ i, i < (len_bytes + 15) / 16 → ∀ k, k < 4 →
            b.getD (4 * i + k) 0 = window_word env addr len_bytes i k) ∧
          (∀ b0, dump_mem = some b0 →
            b.length = b0.length ∧
              ∀ j, 4 * ((len_bytes + 15) / 16) ≤ j → b.getD j 0 = b0.getD j 0)) := by
  have hsink2 : ¬ (reg_dump_flag &&& DPU_DBG_DUMP_IN_LOG = 0 ∧
      reg_dump_flag &&& DPU_DBG_DUMP_IN_MEM = 0 ∧
      reg_dump_flag &&& DPU_DBG_DUMP_IN_COREDUMP = 0) := by
    intro h
    rcases hsink with h1 | h1
    · exact h1 h.1
    · exact h1 h.2.1
  rw [dump_reg_eq env dump_mode st dump_name reg_dump_flag base_addr addr len_bytes dump_mem
    (by omega) hsink2]
  have hn : u32 ((len_bytes + REG_DUMP_ALIGN - 1) / REG_DUMP_ALIGN) = (len_bytes + 15) / 16 := by
    unfold u32 REG_DUMP_ALIGN
    omega
  rw [hn]
  obtain ⟨hs1, hs1d, hs1pm, hs1al⟩ := log_start_cases st (reg_dump_flag &&& DPU_DBG_DUMP_IN_LOG)
    (.log_start dump_name (addr - base_addr) len_bytes) trivial
  obtain ⟨ha1, ha2, ha3, ha4, ha5⟩ := alloc_ok_spec env
    (if reg_dump_flag &&& DPU_DBG_DUMP_IN_LOG ≠ 0 then
      st.emit (.log_start dump_name (addr - base_addr) len_bytes) else st)
    dump_name (reg_dump_flag &&& DPU_DBG_DUMP_IN_MEM)
    (reg_dump_flag &&& DPU_DBG_DUMP_IN_COREDUMP)
    (u32 ((len_bytes + 15) / 16 * REG_DUMP_ALIGN))
    (addr - base_addr) dump_mem (by rw [hs1al]; exact halloc)
  have hlenb : has_room ((len_bytes + 15) / 16) (_dpu_dump_reg_alloc env
      (if reg_dump_flag &&& DPU_DBG_DUMP_IN_LOG ≠ 0 then
        st.emit (.log_start dump_name (addr - base_addr) len_bytes) else st)
      dump_name (reg_dump_flag &&& DPU_DBG_DUMP_IN_MEM)
      (reg_dump_flag &&& DPU_DBG_DUMP_IN_COREDUMP)
      (u32 ((len_bytes + 15) / 16 * REG_DUMP_ALIGN))
      (addr - base_addr) dump_mem).dump_addr := by
    intro b hb
    by_cases hu : reg_dump_flag &&& DPU_DBG_DUMP_IN_MEM ≠ 0 ∨
        reg_dump_flag &&& DPU_DBG_DUMP_IN_COREDUMP ≠ 0
    · obtain ⟨b1, hb1, hor⟩ := ha5 hu
      have hw := hfit hu
      have h30 := (len_align_of_fits len_bytes hw.1).2.2
      rw [hb1] at hb
      cases hb
      rcases hor with h1 | ⟨_, h1⟩
      · have := hw.2 _ h1
        omega
      · have hl := hw.1
        rw [h1, List.length_replicate]
        unfold u32 REG_DUMP_ALIGN
        omega
    · exfalso
      have hz : reg_dump_flag &&& DPU_DBG_DUMP_IN_MEM = 0 ∧
          reg_dump_flag &&& DPU_DBG_DUMP_IN_COREDUMP = 0 := by
        constructor
        · by_contra h
          exact hu (Or.inl h)
        · by_contra h
          exact hu (Or.inr h)
      rw [(alloc_cases env _ dump_name _ _ _ _ dump_mem).2.2.1 hz] at hb
      cases hb
  obtain ⟨pre, hpre, hpreP⟩ := emits_trans hs1 ha4
  obtain ⟨p1, p2, _⟩ := projections_of_header pre hpreP
  obtain ⟨r1, r2, r3, r4⟩ := run_spec env dump_mode (reg_dump_flag &&& DPU_DBG_DUMP_IN_LOG)
    (reg_dump_flag &&& DPU_DBG_DUMP_IN_COREDUMP) base_addr (addr + len_bytes)
    ((len_bytes + 15) / 16) addr
    (_dpu_dump_reg_alloc env
      (if reg_dump_flag &&& DPU_DBG_DUMP_IN_LOG ≠ 0 then
        st.emit (.log_start dump_name (addr - base_addr) len_bytes) else st)
      dump_name (reg_dump_flag &&& DPU_DBG_DUMP_IN_MEM)
      (reg_dump_flag &&& DPU_DBG_DUMP_IN_COREDUMP)
      (u32 ((len_bytes + 15) / 16 * REG_DUMP_ALIGN))
      (addr - base_addr) dump_mem)
    (by rw [ha1]; exact hsink)
    (by
      intro hd
      obtain ⟨b1, hb1, _⟩ := ha5 (Or.inr hd)
      rw [hb1]
      simp)
    (by rw [ha2, hs1d]; exact hlive)
    (by rw [ha3, hs1pm]; exact hpow)
    hlenb
  rw [hpre, readl_addrs_append, p1, List.append_nil] at r2
  rw [hpre, log_lines_append, p2, List.append_nil] at r3
  refine ⟨r1, ?_, ?_, ?_⟩
  · rw [r2]
    unfold window_reads
    congr 1
    apply List.flatMap_congr
    intro i _
    exact chunk_reads_window addr len_bytes i
  · intro hl
    rw [r3, if_pos hl]
    congr 1
    apply List.map_congr_left
    intro i _
    rw [chunk_word_window env addr len_bytes i 0 _ (by omega),
      chunk_word_window env addr len_bytes i 1 _ (by omega),
      chunk_word_window env addr len_bytes i 2 _ (by omega),
      chunk_word_window env addr len_bytes i 3 _ (by omega)]
    have e : addr + 16 * i - base_addr = addr - base_addr + 16 * i := by omega
    rw [e]
  · intro hm
    obtain ⟨b1, hb1, hor⟩ := ha5 (Or.inl hm)
    obtain ⟨b2, e1, e2, e3⟩ := r4 b1 hb1
    obtain ⟨f1, f2⟩ := e3 (by rw [ha1]; exact hm)
    refine ⟨b2, e1, ?_, ?_⟩
    · intro i hi k hk
      rw [f1 i hi k hk]
      exact chunk_word_window env addr len_bytes i k _ rfl
    · intro b0 hb0
      rcases hor with h1 | ⟨h1, _⟩
      · rw [hb0] at h1
        cases h1
        exact ⟨e2, f2⟩
      · rw [hb0] at h1
        cases h1

/-- C11 on the window (0x1000, 0x14) of "mdp" with the Log and Memory sinks:
two chunks, the second with one word inside the window. -/
theorem C11_window_chunks_witness :
    ((3 &&& DPU_DBG_DUMP_IN_LOG ≠ 0 ∨ 3 &&& DPU_DBG_DUMP_IN_MEM ≠ 0) ∧ (0 : Nat) < 0x14 ∧
      window_fits 0x14 none ∧ env_ok.kzalloc_ok dbg_mdp.n_alloc = true ∧
      dbg_mdp.dead = false) ∧
      readl_addrs (_dpu_dump_reg env_ok .DPU_DBG_DUMP_PROC_CTX dbg_mdp.todump_st "mdp".toList 3
        0x1000 0x1000 0x14 none).1.trace = [0x1000, 0x1004, 0x1008, 0x100c, 0x1010] ∧
      log_lines (_dpu_dump_reg env_ok .DPU_DBG_DUMP_PROC_CTX dbg_mdp.todump_st "mdp".toList 3
        0x1000 0x1000 0x14 none).1.trace =
        [(0, 0x1000, 0x1004, 0x1008, 0x100c), (16, 0x1010, 0, 0, 0)] :=
  ⟨⟨Or.inl (by decide), by decide, ⟨by decide, fun _ h => by cases h⟩, rfl, rfl⟩,
   (C11_window_chunks env_ok .DPU_DBG_DUMP_PROC_CTX dbg_mdp.todump_st "mdp".toList 3 0x1000
      0x1000 0x14 none (Or.inl (by decide)) (by decide) (by decide) (le_refl _)
      (fun _ => le_refl _) rfl (fun _ => ⟨by decide, fun _ h => by cases h⟩)
      rfl).2.1.trans (by decide),
   ((C11_window_chunks env_ok .DPU_DBG_DUMP_PROC_CTX dbg_mdp.todump_st "mdp".toList 3 0x1000
      0x1000 0x14 none (Or.inl (by decide)) (by decide) (by decide) (le_refl _)
      (fun _ => le_refl _) rfl (fun _ => ⟨by decide, fun _ h => by cases h⟩)
      rfl).2.2.1 (by decide)).trans (by decide)⟩

/-- C11 (counterexample): power enable and allocation succeeding.  A window of
`2^36` bytes dumped with the Log sink: `ceil(len/16)` is `2^32`, but the 32-bit
chunk count `len_align` is 0, so the dump prints the start line, brackets an
empty loop with the power calls, reads no register and prints no chunk line.
A window of `2^32` bytes dumped with the Memory sink: the 32-bit padded length
`len_padded` is 0, so the capture buffer allocated for the window has no word;
the dump reads the four registers of chunk 0 and its first store is outside
the allocation: no further chunk is processed and the power is not released. -/
theorem C11_chunk_count_wraps :
    (((2 ^ 36 + 15) / 16 = 2 ^ 32 ∧ 1 &&& DPU_DBG_DUMP_IN_LOG ≠ 0 ∧
      env_ok.kzalloc_ok dbg_mdp.n_alloc = true ∧
      0 ≤ env_ok.pm_runtime_get_sync dbg_mdp.n_pm) ∧
      (_dpu_dump_reg env_ok .DPU_DBG_DUMP_PROC_CTX dbg_mdp.todump_st "mdp".toList 1 0x1000 0x1000
        (2 ^ 36) none).1.trace =
        [.log_start "mdp".toList 0 (2 ^ 36), .pm_get 0, .pm_put]) ∧
      (2 &&& DPU_DBG_DUMP_IN_MEM ≠ 0 ∧ (2 ^ 32 + 15) / 16 = 2 ^ 28 ∧
        (_dpu_dump_reg env_ok .DPU_DBG_DUMP_PROC_CTX dbg_mdp.todump_st "mdp".toList 2 0x1000
          0x1000 (2 ^ 32) none).2 = some [] ∧
        (_dpu_dump_reg env_ok .DPU_DBG_DUMP_PROC_CTX dbg_mdp.todump_st "mdp".toList 2 0x1000
          0x1000 (2 ^ 32) none).1.trace =
          [.log_mem "mdp".toList 0 0, .pm_get 0, .readl 0x1000, .readl 0x1004, .readl 0x1008,
            .readl 0x100c, .overrun] ∧
        (_dpu_dump_reg env_ok .DPU_DBG_DUMP_PROC_CTX dbg_mdp.todump_st "mdp".toList 2 0x1000
          0x1000 (2 ^ 32) none).1.dead = true) := by
  refine ⟨⟨⟨by decide, by decide, by decide, by decide⟩, by decide⟩, by decide, by decide,
    by decide, by decide, by decide⟩

/-! ### C12: no register read at or beyond `max_offset` -/

/-- C12: for every base (behind any valid pointer, with any base address,
`max_offset`, list of ranges and capture buffers) and every sink flag word,
every register read `readl_relaxed(a)` made while `_dpu_dump_reg_by_ranges`
dumps the base has `base <= a` and `a - base < max_offset`; and in every
chunk of the reader the registers read are words below `end_addr`, and each
of the four words handed to the sinks is 0 when its address is at or beyond
`end_addr`.  (Reads made by an external dump callback are not part of the
embedding.) -/
theorem C12_reads_stay_below_max_offset (env : dpu_env) (dump_mode : dpu_dbg_dump_context)
    (st : dump_st) (p : Nat) (b : dpu_dbg_reg_base) (reg_dump_flag : Nat)
    (hb : deref_base st.reg_base_list p = some b) :
    (∃ new, (_dpu_dump_reg_by_ranges env dump_mode st (some p) reg_dump_flag).trace =
        st.trace ++ new ∧
      ∀ a, dbg_event.readl a ∈ new → b.base ≤ a ∧ a - b.base < b.max_offset) ∧
    (∀ (in_log in_mem in_dump base_addr end_addr i addr : Nat) (st0 : dump_st)
      (dump_addr : Option (List Nat)),
      ∃ (x0 x4 x8 xc : Nat) (reads : List Nat),
        _dpu_dump_reg_chunk env in_log in_mem in_dump base_addr end_addr i addr st0 dump_addr =
          _dpu_dump_reg_sinks in_log in_mem in_dump base_addr i addr x0 x4 x8 xc
            { st0 with trace := st0.trace ++ reads.map .readl } dump_addr ∧
        (∀ a ∈ reads, a < end_addr) ∧
        (end_addr ≤ addr → x0 = 0) ∧ (end_addr ≤ addr + 4 → x4 = 0) ∧
        (end_addr ≤ addr + 8 → x8 = 0) ∧ (end_addr ≤ addr + 12 → xc = 0)) := by
  constructor
  · obtain ⟨new, hnew, hP⟩ := emits_by_ranges env dump_mode st p b reg_dump_flag hb
    refine ⟨new, hnew, ?_⟩
    intro a ha
    have h := (hP _ ha).2 a rfl
    omega
  · intro in_log in_mem in_dump base_addr end_addr i addr st0 dump_addr
    refine ⟨_, _, _, _, _, chunk_eq env in_log in_mem in_dump base_addr end_addr i addr st0
      dump_addr, ?_, ?_, ?_, ?_, ?_⟩
    · intro a ha
      unfold chunk_reads at ha
      simp only [List.mem_filter, Bool.and_eq_true, decide_eq_true_eq] at ha
      exact ha.2.2
    all_goals
      intro h
      unfold chunk_word
      rw [if_neg]
      omega

/-- C12 on the base "mdp" (address 0x1000, length 0x90000000) with its two
ranges, all three sinks enabled. -/
theorem C12_reads_stay_below_max_offset_witness :
    deref_base dbg_wrap.reg_base_list 0 =
        some { sub_range_list := [mk_range "hi" 0x80000001 0x80000011, mk_range "lo" 0 16],
               name := "mdp".toList, base := 0x1000, max_offset := 0x90000000,
               reg_dump := none, cb := none } ∧
      ∃ new, (_dpu_dump_reg_by_ranges env_ok .DPU_DBG_DUMP_PROC_CTX dbg_wrap.todump_st (some 0)
          7).trace = dbg_wrap.trace ++ new ∧
        ∀ a, dbg_event.readl a ∈ new → 0x1000 ≤ a ∧ a - 0x1000 < 0x90000000 :=
  ⟨by decide,
   (C12_reads_stay_below_max_offset env_ok .DPU_DBG_DUMP_PROC_CTX dbg_wrap.todump_st 0
      { sub_range_list := [mk_range "hi" 0x80000001 0x80000011, mk_range "lo" 0 16],
        name := "mdp".toList, base := 0x1000, max_offset := 0x90000000,
        reg_dump := none, cb := none } 7 (by decide)).1⟩

/-! ### C13: the panic flag and the halt -/

/-- C13 (amended): a trigger accepted while nothing is pending stores
`work_panic = true` exactly when "panic" is among the targets; without
"panic" the run of the dump work emits nothing and does not halt; a halt on
account of the flag is made by `_dpu_dump_array`, as the last event after all
the events `mid` of the dump, with the message its caller passes; and the
caller that passes the stored flag, `dpu_devcoredump_read`, passes the fixed
message "evtlog_workitem" (not the origin label `origin`) and halts exactly
when "panic" is among the targets.  Allocations succeed, the engine has not
halted before, and the windows of the catalog fit their capture buffers
(every window the reader dumps has at most `2^32 - 16` bytes, every buffer
that exists has the words of the chunks of its window). -/
theorem C13_panic_flag_and_halt (env : dpu_env) (dbg : dpu_dbg_base)
    (dump_mode : dpu_dbg_dump_context) (origin : CStr) (targets : List CStr)
    (now snapshot : Nat) (hp : dbg.coredump_pending = false)
    (halloc : ∀ n, env.kzalloc_ok n = true) (hlive : dbg.dead = false)
    (hfit : catalog_fits dbg.reg_base_list) :
    ((dpu_dbg_dump dbg dump_mode origin targets).work_panic = true ↔
        "panic".toList ∈ targets) ∧
      ("panic".toList ∉ targets →
        (_dpu_dump_work { dpu_dbg_dump dbg dump_mode origin targets with work_queued := false }
          now snapshot).dead = false ∧
        (_dpu_dump_work { dpu_dbg_dump dbg dump_mode origin targets with work_queued := false }
          now snapshot).trace = dbg.trace) ∧
      (∀ (d : dpu_dbg_base) (blk_arr : Option (List (Option Nat))) (len : Nat) (name : CStr)
        (dump_all : Bool), d.dead = false → catalog_fits d.reg_base_list →
        ∃ mid : List dbg_event, (∀ e ∈ mid, dump_path_event e) ∧
          (_dpu_dump_array env d blk_arr len true name dump_all).trace =
            d.trace ++ mid ++ [.halt name] ∧
          (_dpu_dump_array env d blk_arr len true name dump_all).dead = true) ∧
      (∃ mid : List dbg_event, (∀ e ∈ mid, dump_path_event e) ∧
        (dpu_devcoredump_read env
          (_dpu_dump_work { dpu_dbg_dump dbg dump_mode origin targets with work_queued := false }
            now snapshot)).trace =
          dbg.trace ++ coredump_header now ++ mid ++
            (if "panic".toList ∈ targets then [.halt "evtlog_workitem".toList]
             else coredump_tail (some snapshot)) ∧
        ((dpu_devcoredump_read env
          (_dpu_dump_work { dpu_dbg_dump dbg dump_mode origin targets with work_queued := false }
            now snapshot)).dead = true ↔ "panic".toList ∈ targets)) := by
  rw [dump_not_pending dbg dump_mode origin targets hp, dump_work_eq]
  refine ⟨by simp, fun _ => ⟨hlive, rfl⟩, ?_, ?_⟩
  · intro d blk_arr len name dump_all hd hfd
    obtain ⟨st1, ⟨mid, hmid, hP⟩, halive, hst⟩ :=
      dump_array_shape env d blk_arr len true name dump_all
    have hd1 := (halive halloc hfd hd).1
    have htt : (_dpu_dump_array env d blk_arr len true name dump_all).trace =
        (_dpu_dump_array env d blk_arr len true name dump_all).todump_st.trace := rfl
    have hdd : (_dpu_dump_array env d blk_arr len true name dump_all).dead =
        (_dpu_dump_array env d blk_arr len true name dump_all).todump_st.dead := rfl
    rw [if_neg (by rw [hd1]; simp), if_pos rfl] at hst
    refine ⟨mid, hP, ?_, ?_⟩
    · rw [htt, hst]
      show st1.trace ++ [_] = _
      rw [hmid]
    · rw [hdd, hst]
  · obtain ⟨mid, alive, hmid, halive, htr, hdead⟩ := read_shape env
      { dbg with req_dump_blks := selection_of dbg.reg_base_list targets,
                 dump_mode := dump_mode,
                 work_panic := decide ("panic".toList ∈ targets),
                 dump_all := decide ("all".toList ∈ targets),
                 work_queued := false,
                 enable_reg_dump := DEFAULT_REGDUMP, timestamp := now,
                 atomic_state := some snapshot, published := dbg.published + 1,
                 coredump_pending := true }
    have ha := halive halloc hfit hlive
    subst ha
    refine ⟨mid, hmid, ?_, ?_⟩
    · rw [htr]
      simp
    · rw [hdead]
      simp

/-- C13 on the engine with base "mdp" and the targets "mdp", "panic": the
read of the artifact halts. -/
theorem C13_panic_flag_and_halt_witness :
    (dbg_mdp.coredump_pending = false ∧ (∀ n, env_ok.kzalloc_ok n = true) ∧
      dbg_mdp.dead = false ∧ catalog_fits dbg_mdp.reg_base_list) ∧
      ((dpu_dbg_dump dbg_mdp .DPU_DBG_DUMP_PROC_CTX "test".toList
        ["mdp".toList, "panic".toList]).work_panic = true ↔
        "panic".toList ∈ ["mdp".toList, "panic".toList]) ∧
      ((dpu_devcoredump_read env_ok
          (_dpu_dump_work
            { dpu_dbg_dump dbg_mdp .DPU_DBG_DUMP_PROC_CTX "test".toList
                ["mdp".toList, "panic".toList] with work_queued := false } 5 9)).dead = true ↔
        "panic".toList ∈ ["mdp".toList, "panic".toList]) :=
  ⟨⟨rfl, fun _ => rfl, rfl, catalog_fits_of_check _ (by decide)⟩,
   (C13_panic_flag_and_halt env_ok dbg_mdp .DPU_DBG_DUMP_PROC_CTX "test".toList
      ["mdp".toList, "panic".toList] 5 9 rfl (fun _ => rfl) rfl
      (catalog_fits_of_check _ (by decide))).1,
   ((C13_panic_flag_and_halt env_ok dbg_mdp .DPU_DBG_DUMP_PROC_CTX "test".toList
      ["mdp".toList, "panic".toList] 5 9 rfl (fun _ => rfl) rfl
      (catalog_fits_of_check _ (by decide))).2.2.2.elim (fun _ h => h.2.2))⟩

/-- C13 (counterexample): the trigger
`dpu_dbg_dump(DPU_DBG_DUMP_PROC_CTX, "test", "mdp", "panic")` is accepted and
stores `work_panic = true`, but the run of the dump work that processes it
emits nothing and does not halt; the halt comes with the later read of the
artifact, and its message is "evtlog_workitem", not the origin label "test".
With the base "big" of `2^32` bytes selected together with "panic", the read
allocates a buffer of 0 bytes for it (the padded length wraps), its first load
is outside the allocation and the halt of the request is never reached. -/
theorem C13_worker_does_not_halt :
    dbg_mdp.coredump_pending = false ∧
      (dpu_dbg_dump dbg_mdp .DPU_DBG_DUMP_PROC_CTX "test".toList
        ["mdp".toList, "panic".toList]).work_panic = true ∧
      dbg_mdp_panic.trace = [] ∧ dbg_mdp_panic.dead = false ∧
      (dpu_devcoredump_read env_ok dbg_mdp_panic).trace.getLast? =
        some (.halt "evtlog_workitem".toList) ∧
      dbg_event.halt "test".toList ∉ (dpu_devcoredump_read env_ok dbg_mdp_panic).trace ∧
      (dbg_big_panic.work_panic = true ∧ dbg_big_panic.req_dump_blks.getD 0 none = some 1 ∧
        (deref_base dbg_big_panic.reg_base_list 1).map (fun b => (b.name, b.max_offset)) =
          some ("big".toList, 2 ^ 32) ∧
        (dpu_devcoredump_read env_ok dbg_big_panic).trace.getLast? = some .overrun ∧
        dbg_event.halt "evtlog_workitem".toList ∉
          (dpu_devcoredump_read env_ok dbg_big_panic).trace) := by
  refine ⟨by decide, by decide, by decide, by decide, by decide, by decide, by decide, by decide,
    by decide, by decide, by decide⟩

/-! ### C14: the dump work and the register reader -/

/-- C14 (code evaluated at the failing input): on the catalog with the single
base "mdp" (address 0x1000, length 0x100), the trigger with the target "mdp"
selects that base; the run of the dump work that processes the request
publishes the artifact but enters the register reader for no base, reads no
register and leaves the capture buffer of "mdp" unallocated; the later read of
the artifact reads no register either and prints 16 chunk lines of zeros from
a freshly zeroed buffer, although every register of the environment reads as
its own non-zero address.  The call of `_dpu_dump_array` that the worker has
commented out would have read the 64 words of the base into the buffer. -/
theorem C14_worker_reads_no_register :
    dbg_mdp_dumped.req_dump_blks.head? = some (some 0) ∧
      (deref_base dbg_mdp_dumped.reg_base_list 0).map (fun b => (b.name, b.max_offset)) =
        some ("mdp".toList, 0x100) ∧
      dbg_mdp_dumped.published = 1 ∧
      dbg_mdp_dumped.trace = [] ∧
      (deref_base dbg_mdp_dumped.reg_base_list 0).map (fun b => b.reg_dump) = some none ∧
      reader_calls (dpu_devcoredump_read env_ok dbg_mdp_dumped).trace = [some 0] ∧
      readl_addrs (dpu_devcoredump_read env_ok dbg_mdp_dumped).trace = [] ∧
      dump_lines (dpu_devcoredump_read env_ok dbg_mdp_dumped).trace =
        (List.range 16).map (fun i => (16 * i, 0, 0, 0, 0)) ∧
      env_ok.readl_relaxed 0x1000 = 0x1000 ∧
      readl_addrs (_dpu_dump_array env_ok dbg_mdp_dumped (some dbg_mdp_dumped.req_dump_blks)
        DPU_DBG_BASE_MAX dbg_mdp_dumped.work_panic "evtlog_workitem".toList
        dbg_mdp_dumped.dump_all).trace = (List.range 64).map (fun j => 0x1000 + 4 * j) ∧
      (deref_base (_dpu_dump_array env_ok dbg_mdp_dumped (some dbg_mdp_dumped.req_dump_blks)
        DPU_DBG_BASE_MAX dbg_mdp_dumped.work_panic "evtlog_workitem".toList
        dbg_mdp_dumped.dump_all).reg_base_list 0).map (fun b => b.reg_dump) =
        some (some ((List.range 64).map (fun j => 0x1000 + 4 * j))) := by
  refine ⟨by decide, by decide, by decide, by decide, by decide, by decide, by decide,
    by decide, by decide, by decide, by decide⟩

/-! ### C15: one base from trigger to release -/

/-- Printed lines of a concatenated trace. -/
theorem coredump_text_append (t1 t2 : List dbg_event) :
    coredump_text (t1 ++ t2) = coredump_text t1 ++ coredump_text t2 := by
  unfold coredump_text
  rw [List.filter_append]

/-- The chunk loop with the Coredump sink alone on a zeroed buffer: one
printed line of zeros per chunk, no read, no fault, the buffer unchanged. -/
theorem loop_coredump_zero (env : dpu_env) (in_log in_mem in_dump base_addr end_addr m : Nat)
    (hl : in_log = 0) (hm : in_mem = 0) (hd : in_dump ≠ 0) :
    ∀ (n i addr : Nat) (st : dump_st), st.dead = false → (i + n) * 4 ≤ m → m ≤ 2 ^ 31 →
      _dpu_dump_reg_loop env in_log in_mem in_dump base_addr end_addr n i addr st
          (some (List.replicate m 0)) =
        ({ st with trace := st.trace ++
            (List.range n).map (fun k => .dump_line (addr + 16 * k - base_addr) 0 0 0 0) },
         some (List.replicate m 0)) := by
  have hget : ∀ j, (List.replicate m 0).getD j 0 = 0 := by
    intro j
    simp only [List.getD_eq_getElem?_getD, List.getElem?_replicate]
    split_ifs <;> rfl
  intro n
  induction n with
  | zero =>
    intro i addr st _ _ _
    simp [_dpu_dump_reg_loop]
  | succ n ih =>
    intro i addr st hlive hroom hm31
    have hc : _dpu_dump_reg_chunk env in_log in_mem in_dump base_addr end_addr i addr st
        (some (List.replicate m 0)) =
        ({ st with trace := st.trace ++ [.dump_line (addr - base_addr) 0 0 0 0] },
         some (List.replicate m 0)) := by
      rw [chunk_eq]
      have hrd : decide (in_log ≠ 0 ∨ in_mem ≠ 0) = false := by simp [hl, hm]
      rw [hrd]
      unfold _dpu_dump_reg_sinks chunk_reads
      dsimp only
      rw [if_neg (show ¬ in_log ≠ 0 by simp [hl]), if_neg (show ¬ in_mem ≠ 0 by simp [hm]),
        if_neg (fun h => h.2 ⟨by rw [List.length_replicate]; omega, by omega⟩),
        if_pos hd, hget, hget, hget, hget]
      simp [dump_st.emit, List.filter]
    conv_lhs => unfold _dpu_dump_reg_loop
    rw [if_neg (by rw [hlive]; simp)]
    dsimp only
    rw [hc]
    dsimp only
    rw [ih (i + 1) (addr + REG_DUMP_ALIGN)
      { st with trace := st.trace ++ [.dump_line (addr - base_addr) 0 0 0 0] } hlive
      (by omega) hm31]
    have hf : (fun k => dbg_event.dump_line (addr + REG_DUMP_ALIGN + 16 * k - base_addr) 0 0 0 0) =
        (fun k => dbg_event.dump_line (addr + 16 * k.succ - base_addr) 0 0 0 0) := by
      funext k
      have e : addr + REG_DUMP_ALIGN + 16 * k = addr + 16 * k.succ := by
        unfold REG_DUMP_ALIGN
        omega
      rw [e]
    rw [hf, List.range_succ_eq_map, List.map_cons, List.map_map]
    simp only [List.append_assoc, List.singleton_append, Nat.mul_zero, Nat.add_zero]
    rfl

/-- A window dumped in process context with the Coredump sink alone, no
capture buffer yet, allocation and power enable succeeding, the length at most
`2^32 - 16`: the buffer is allocated zeroed, the two header lines carry the
padded length `16 * ceil(len/16)`, and between the power calls every chunk
prints one line of zeros. -/
theorem dump_reg_coredump_fresh (env : dpu_env) (st : dump_st) (dump_name : CStr)
    (base_addr addr len_bytes : Nat) (hlen0 : 0 < len_bytes) (hlen : len_bytes ≤ 2 ^ 32 - 16)
    (hk : env.kzalloc_ok st.n_alloc = true) (hrc : 0 ≤ env.pm_runtime_get_sync st.n_pm)
    (hlive : st.dead = false) :
    _dpu_dump_reg env .DPU_DBG_DUMP_PROC_CTX st dump_name DPU_DBG_DUMP_IN_COREDUMP base_addr addr
        len_bytes none =
      ({ st with
          n_alloc := st.n_alloc + 1, n_pm := st.n_pm + 1,
          trace := st.trace ++
            ([.log_mem dump_name (16 * ((len_bytes + 15) / 16)) (addr - base_addr),
              .dump_mem dump_name (16 * ((len_bytes + 15) / 16)) (addr - base_addr),
              .pm_get (env.pm_runtime_get_sync st.n_pm)] ++
             (List.range ((len_bytes + 15) / 16)).map
               (fun k => .dump_line (addr + 16 * k - base_addr) 0 0 0 0) ++
             [.pm_put]) },
       some (List.replicate (4 * ((len_bytes + 15) / 16)) 0)) := by
  have h1 : DPU_DBG_DUMP_IN_COREDUMP &&& DPU_DBG_DUMP_IN_LOG = 0 := by decide
  have h2 : DPU_DBG_DUMP_IN_COREDUMP &&& DPU_DBG_DUMP_IN_MEM = 0 := by decide
  have h3 : DPU_DBG_DUMP_IN_COREDUMP &&& DPU_DBG_DUMP_IN_COREDUMP = 4 := by decide
  rw [dump_reg_eq env .DPU_DBG_DUMP_PROC_CTX st dump_name DPU_DBG_DUMP_IN_COREDUMP base_addr addr
    len_bytes none (by omega) (by rw [h1, h2, h3]; simp)]
  have hn : u32 ((len_bytes + REG_DUMP_ALIGN - 1) / REG_DUMP_ALIGN) = (len_bytes + 15) / 16 := by
    unfold u32 REG_DUMP_ALIGN
    omega
  have hpad : u32 ((len_bytes + 15) / 16 * REG_DUMP_ALIGN) = 16 * ((len_bytes + 15) / 16) := by
    unfold u32 REG_DUMP_ALIGN
    omega
  have hq : 16 * ((len_bytes + 15) / 16) / 4 = 4 * ((len_bytes + 15) / 16) := by omega
  rw [hn, hpad, h1, h2, h3, if_neg (by simp)]
  obtain ⟨_, _, _, _, hok, _⟩ := alloc_cases env st dump_name 0 4
    (16 * ((len_bytes + 15) / 16)) (addr - base_addr) none
  rw [hok (Or.inr (by decide)) rfl hk, hq]
  unfold _dpu_dump_reg_run _dpu_dump_reg_headers
  have hp : _dpu_power_check .DPU_DBG_DUMP_PROC_CTX = true := rfl
  have h4 : (4 : Nat) ≠ 0 := by decide
  have hneg : ¬ env.pm_runtime_get_sync st.n_pm < 0 := by omega
  simp only [if_pos hp, if_pos h4, dump_st.emit, if_neg hneg]
  rw [loop_coredump_zero env 0 0 4 base_addr (addr + len_bytes) (4 * ((len_bytes + 15) / 16))
    rfl rfl (by decide) ((len_bytes + 15) / 16) 0 addr _ (by exact hlive) (by omega) (by omega)]
  simp [hlive]

/-- The reader on a base without ranges, callback and capture buffer, at a
non-NULL address and of a length at most `2^32 - 16`, in process context with
the Coredump sink alone, allocation and power enable succeeding: the banners,
the header lines for the padded length, one line of zeros per chunk at the
offsets 0, 16, 32, ..., between the two power calls; no fault. -/
theorem by_ranges_fresh_base (env : dpu_env) (st : dump_st) (p : Nat) (b : dpu_dbg_reg_base)
    (hb : deref_base st.reg_base_list p = some b) (hbase : b.base ≠ 0) (hcb : b.cb = none)
    (hsub : b.sub_range_list = []) (hmem : b.reg_dump = none) (hlen0 : 0 < b.max_offset)
    (hlen : b.max_offset ≤ 2 ^ 32 - 16) (hk : env.kzalloc_ok st.n_alloc = true)
    (hrc : 0 ≤ env.pm_runtime_get_sync st.n_pm) (hlive : st.dead = false) :
    (_dpu_dump_reg_by_ranges env .DPU_DBG_DUMP_PROC_CTX st (some p)
        DPU_DBG_DUMP_IN_COREDUMP).dead = false ∧
      (_dpu_dump_reg_by_ranges env .DPU_DBG_DUMP_PROC_CTX st (some p)
        DPU_DBG_DUMP_IN_COREDUMP).trace =
        st.trace ++
          ([.reader (some p), .log_banner b.name, .dump_banner b.name, .log_no_ranges,
            .log_base_len b.base b.max_offset,
            .log_mem b.name (16 * ((b.max_offset + 15) / 16)) 0,
            .dump_mem b.name (16 * ((b.max_offset + 15) / 16)) 0,
            .pm_get (env.pm_runtime_get_sync st.n_pm)] ++
           (List.range ((b.max_offset + 15) / 16)).map (fun k => .dump_line (16 * k) 0 0 0 0) ++
           [.pm_put]) := by
  have h3 : DPU_DBG_DUMP_IN_COREDUMP &&& DPU_DBG_DUMP_IN_COREDUMP ≠ 0 := by decide
  have hfresh := dump_reg_coredump_fresh env
    ((((st.emit (.reader (some p))).emit (.log_banner b.name)).emit (.dump_banner b.name)).emit
      .log_no_ranges |>.emit (.log_base_len b.base b.max_offset))
    b.name b.base b.base b.max_offset hlen0 hlen hk hrc hlive
  unfold _dpu_dump_reg_by_ranges
  simp only [hb]
  rw [if_neg (by
    intro h
    exact hbase h.1), if_pos h3]
  unfold _dpu_dump_reg_by_ranges_body
  simp only [hcb, hsub, hmem]
  rw [if_neg (by simp), hfresh]
  refine ⟨hlive, ?_⟩
  have hf : (fun k => dbg_event.dump_line (b.base + 16 * k - b.base) 0 0 0 0) =
      (fun k => dbg_event.dump_line (16 * k) 0 0 0 0) := by
    funext k
    rw [Nat.add_sub_cancel_left]
  simp only [hf, dump_st.emit, Nat.sub_self, List.append_assoc, List.cons_append,
    List.nil_append]

/-- On a catalog with one named base whose pointer fills the first slot of the
selection, `_dpu_dump_array` without the panic flag is one run of the reader
on that base, whether `dump_all` is set or not. -/
theorem dump_array_single (env : dpu_env) (d : dpu_dbg_base) (b : dpu_dbg_reg_base) (nm : CStr)
    (dump_all : Bool) (hl : d.reg_base_list = [b]) (hname : b.name ≠ [])
    (hlive : d.dead = false) :
    (_dpu_dump_array env d (some (some 0 :: List.replicate 9 none)) DPU_DBG_BASE_MAX false nm
        dump_all).todump_st =
      _dpu_dump_reg_by_ranges env d.dump_mode d.todump_st (some 0) d.enable_reg_dump := by
  have hl2 : d.todump_st.reg_base_list = [b] := hl
  have hlive2 : d.todump_st.dead = false := hlive
  have hne : ¬ strlen b.name = 0 := by simpa [strlen] using hname
  unfold _dpu_dump_array
  simp only [Bool.false_eq_true, if_false, ite_self]
  cases dump_all with
  | true =>
    rw [if_pos (Or.inl rfl)]
    unfold _dpu_dump_reg_all blk_pointers
    rw [hl2]
    have hlook : _dpu_dump_get_blk_addr d.todump_st.reg_base_list b.name = some 0 := by
      rw [hl2]
      unfold _dpu_dump_get_blk_addr
      rw [if_pos ⟨hne, rfl⟩]
      rfl
    have hr : (List.range [b].length).reverse = [0] := rfl
    rw [hr]
    simp only [List.foldl_cons, List.foldl_nil]
    rw [if_neg (by rw [hlive2]; simp), hl2]
    have hd : deref_base [b] 0 = some b := rfl
    simp only [hd]
    rw [if_neg hne]
    unfold _dpu_dump_reg_by_blk
    simp only [hlook]
  | false =>
    rw [if_neg (by simp [DPU_DBG_BASE_MAX])]
    have hr : List.range DPU_DBG_BASE_MAX = [0, 1, 2, 3, 4, 5, 6, 7, 8, 9] := by decide
    rw [hr]
    simp only [List.foldl_cons, List.foldl_nil, Option.getD_some, List.getD_cons_zero,
      List.getD_cons_succ, List.replicate, List.getD_nil]
    simp [hlive]

/-- The state `single_base_capture` for a name of 1 to 79 characters other
than "panic", the allocation of the base succeeding: one base, its pointer in
the first slot of the selection, no panic flag, one artifact published and
pending, the snapshot bound. -/
theorem single_base_capture_eq (env : dpu_env) (dev : Nat) (name origin : CStr)
    (base max_offset now snapshot : Nat) (hne : name ≠ []) (hlen : name.length ≤ 79)
    (hpanic : name ≠ "panic".toList) (hk : env.kzalloc_ok 0 = true) :
    single_base_capture env dev name origin base max_offset now snapshot =
      { dpu_dbg_static with
        reg_base_list := [{ sub_range_list := [], name := name, base := base,
                            max_offset := max_offset, reg_dump := none, cb := none }],
        n_alloc := 1,
        req_dump_blks := some 0 :: List.replicate 9 none,
        dump_mode := .DPU_DBG_DUMP_PROC_CTX,
        work_panic := false,
        dump_all := decide ("all".toList ∈ [name]),
        enable_reg_dump := DEFAULT_REGDUMP,
        timestamp := now,
        atomic_state := some snapshot,
        published := 1,
        coredump_pending := true } := by
  have hreg : (dpu_dbg_reg_register_base env (dpu_dbg_init dpu_dbg_static (some dev)).2 (some name)
      base max_offset).2 =
      { dpu_dbg_static with
        reg_base_list := [{ sub_range_list := [], name := name, base := base,
                            max_offset := max_offset, reg_dump := none, cb := none }],
        n_alloc := 1, work_panic := false, enable_reg_dump := DEFAULT_REGDUMP } := by
    have hs : ¬ strlen name = 0 := by simpa [strlen] using hne
    have hk2 : env.kzalloc_ok (dpu_dbg_init dpu_dbg_static (some dev)).2.n_alloc = true := hk
    unfold dpu_dbg_reg_register_base
    simp only [hs, hk2, if_false, Bool.true_eq_false]
    have ht : strlcpy name REG_BASE_NAME_LEN = name := by
      unfold strlcpy REG_BASE_NAME_LEN
      exact List.take_of_length_le (by omega)
    rw [ht]
    rfl
  have hsel : selection_of
      [({ sub_range_list := [], name := name, base := base, max_offset := max_offset,
          reg_dump := none, cb := none } : dpu_dbg_reg_base)] [name] =
      some 0 :: List.replicate 9 none := by
    have hs : ¬ strlen name = 0 := by simpa [strlen] using hne
    have hres : resolved_targets
        [({ sub_range_list := [], name := name, base := base, max_offset := max_offset,
            reg_dump := none, cb := none } : dpu_dbg_reg_base)] [name] = [0] := by
      simp [resolved_targets, _dpu_dump_get_blk_addr, hs]
    unfold selection_of
    rw [hres]
    rfl
  have hp : decide ("panic".toList ∈ [name]) = false := by
    simp only [List.mem_singleton, decide_eq_false_iff_not]
    exact fun h => hpanic h.symm
  unfold single_base_capture
  rw [hreg, dump_not_pending _ _ _ _ rfl, dump_work_eq]
  simp only [hsel, hp]
  rfl

/-- In a reachable state with an artifact pending, every step of the engine
other than the release of the artifact leaves `coredump_pending` set. -/
theorem pending_kept (env : dpu_env) (s t : dpu_dbg_base) (hr : engine_reachable env s)
    (hp : s.coredump_pending = true) (hst : engine_step env s t) :
    t.coredump_pending = true ∨
      t = { dpu_devcoredump_free s with released := s.released + 1 } := by
  have hinv := engine_inv_reachable env s hr
  cases hst with
  | register_base name base max_offset _ =>
    exact Or.inl ((register_base_frame env s name base max_offset).2.1.trans hp)
  | register_dump_range base_name range_name a b c _ =>
    exact Or.inl ((register_dump_range_frame env s base_name range_name a b c).2.1.trans hp)
  | dump dump_mode name targets _ =>
    rw [dump_pending_noop s hinv hp]
    exact Or.inl hp
  | work now snapshot _ hq =>
    have := hinv.2.2.2.2 hp
    rw [hq] at this
    cases this
  | read _ _ =>
    exact Or.inl ((read_frame env s).2.1.trans hp)
  | free _ _ => exact Or.inr rfl
  | debugfs_set value _ =>
    exact Or.inl ((debugfs_set_frame env s value).2.1.trans hp)

/-- Chunk lines are printed lines. -/
theorem coredump_text_dump_lines (l : List Nat) (f : Nat → Nat) :
    coredump_text (l.map (fun k => .dump_line (f k) 0 0 0 0)) =
      l.map (fun k => .dump_line (f k) 0 0 0 0) := by
  unfold coredump_text
  rw [List.filter_eq_self]
  intro e he
  rw [List.mem_map] at he
  obtain ⟨k, _, hk⟩ := he
  rw [← hk]
  rfl

/-- C15 (amended): for a base registered on a freshly initialised engine under
a name of 1 to 79 characters other than "panic", at a non-NULL address, with
no ranges and a length `0 < L <= 2^32 - 16`, allocations and the power enable
succeeding: the trigger in process context naming the base, followed by one
run of the dump work, publishes exactly one artifact and sets
`coredump_pending`; the lines the pull read prints are the header lines, one
dump section for the base (its banner, one header line for the padded length
`16 * ceil(L/16)` at offset 0, and `ceil(L/16)` chunk lines at the offsets
0, 16, 32, ...), and the drm-state section with the snapshot;
`coredump_pending` is still set after the read, is cleared by
`dpu_devcoredump_free`, and in every reachable state with it set every step
other than that release leaves it set. -/
theorem C15_single_base_artifact (env : dpu_env) (dev : Nat) (name origin : CStr)
    (base max_offset now snapshot : Nat) (hne : name ≠ []) (hlen : name.length ≤ 79)
    (hpanic : name ≠ "panic".toList) (hbase : base ≠ 0) (hL0 : 0 < max_offset)
    (hL : max_offset ≤ 2 ^ 32 - 16) (halloc : ∀ n, env.kzalloc_ok n = true)
    (hpow : 0 ≤ env.pm_runtime_get_sync 0) :
    (single_base_capture env dev name origin base max_offset now snapshot).published = 1 ∧
      (single_base_capture env dev name origin base max_offset now snapshot).coredump_pending =
        true ∧
      coredump_text (dpu_devcoredump_read env
        (single_base_capture env dev name origin base max_offset now snapshot)).trace =
        coredump_header now ++
          [.dump_banner name, .dump_mem name (16 * ((max_offset + 15) / 16)) 0] ++
          (List.range ((max_offset + 15) / 16)).map (fun i => .dump_line (16 * i) 0 0 0 0) ++
          coredump_tail (some snapshot) ∧
      (dpu_devcoredump_read env
        (single_base_capture env dev name origin base max_offset now snapshot)).coredump_pending =
        true ∧
      (dpu_devcoredump_free (dpu_devcoredump_read env
        (single_base_capture env dev name origin base max_offset now
          snapshot))).coredump_pending = false ∧
      (∀ s t, engine_reachable env s → s.coredump_pending = true → engine_step env s t →
        t.coredump_pending = true ∨
          t = { dpu_devcoredump_free s with released := s.released + 1 }) := by
  rw [single_base_capture_eq env dev name origin base max_offset now snapshot hne hlen hpanic
    (halloc 0)]
  refine ⟨rfl, rfl, ?_, (read_frame env _).2.1, (free_frame _).2.1,
    fun s t hr hp hst => pending_kept env s t hr hp hst⟩
  have hsingle := dump_array_single env
    { dpu_dbg_static with
      reg_base_list := [{ sub_range_list := [], name := name, base := base,
                          max_offset := max_offset, reg_dump := none, cb := none }],
      n_alloc := 1,
      trace := coredump_header now,
      req_dump_blks := some 0 :: List.replicate 9 none,
      dump_mode := .DPU_DBG_DUMP_PROC_CTX,
      work_panic := false,
      dump_all := decide ("all".toList ∈ [name]),
      enable_reg_dump := DPU_DBG_DUMP_IN_COREDUMP,
      timestamp := now,
      atomic_state := some snapshot,
      published := 1,
      coredump_pending := true }
    { sub_range_list := [], name := name, base := base, max_offset := max_offset,
      reg_dump := none, cb := none }
    "evtlog_workitem".toList (decide ("all".toList ∈ [name])) rfl hne rfl
  obtain ⟨hdead, htrace⟩ := by_ranges_fresh_base env
    { reg_base_list := [{ sub_range_list := [], name := name, base := base,
                          max_offset := max_offset, reg_dump := none, cb := none }],
      trace := coredump_header now, n_pm := 0, n_alloc := 1, dead := false }
    0
    { sub_range_list := [], name := name, base := base, max_offset := max_offset,
      reg_dump := none, cb := none }
    rfl hbase rfl rfl rfl hL0 hL (halloc 1) hpow rfl
  have hread : dpu_devcoredump_read env
      { dpu_dbg_static with
        reg_base_list := [{ sub_range_list := [], name := name, base := base,
                            max_offset := max_offset, reg_dump := none, cb := none }],
        n_alloc := 1,
        req_dump_blks := some 0 :: List.replicate 9 none,
        dump_mode := .DPU_DBG_DUMP_PROC_CTX,
        work_panic := false,
        dump_all := decide ("all".toList ∈ [name]),
        enable_reg_dump := DEFAULT_REGDUMP,
        timestamp := now,
        atomic_state := some snapshot,
        published := 1,
        coredump_pending := true } =
      (fun d3 : dpu_dbg_base =>
        if d3.dead = true then d3
        else
          match d3.atomic_state with
          | some snapshot =>
            { d3 with todump_st :=
                (d3.todump_st.emit .dump_state_banner).emit (.dump_atomic_state snapshot) }
          | none => { d3 with todump_st := d3.todump_st.emit .dump_state_banner })
      (_dpu_dump_array env
        { dpu_dbg_static with
          reg_base_list := [{ sub_range_list := [], name := name, base := base,
                              max_offset := max_offset, reg_dump := none, cb := none }],
          n_alloc := 1,
          trace := coredump_header now,
          req_dump_blks := some 0 :: List.replicate 9 none,
          dump_mode := .DPU_DBG_DUMP_PROC_CTX,
          work_panic := false,
          dump_all := decide ("all".toList ∈ [name]),
          enable_reg_dump := DPU_DBG_DUMP_IN_COREDUMP,
          timestamp := now,
          atomic_state := some snapshot,
          published := 1,
          coredump_pending := true }
        (some (some 0 :: List.replicate 9 none)) DPU_DBG_BASE_MAX false
        "evtlog_workitem".toList (decide ("all".toList ∈ [name]))) := rfl
  rw [hread]
  have hat : (_dpu_dump_array env
        { dpu_dbg_static with
          reg_base_list := [{ sub_range_list := [], name := name, base := base,
                              max_offset := max_offset, reg_dump := none, cb := none }],
          n_alloc := 1,
          trace := coredump_header now,
          req_dump_blks := some 0 :: List.replicate 9 none,
          dump_mode := .DPU_DBG_DUMP_PROC_CTX,
          work_panic := false,
          dump_all := decide ("all".toList ∈ [name]),
          enable_reg_dump := DPU_DBG_DUMP_IN_COREDUMP,
          timestamp := now,
          atomic_state := some snapshot,
          published := 1,
          coredump_pending := true }
        (some (some 0 :: List.replicate 9 none)) DPU_DBG_BASE_MAX false
        "evtlog_workitem".toList (decide ("all".toList ∈ [name]))).atomic_state =
      some snapshot := rfl
  generalize (_dpu_dump_array env
        { dpu_dbg_static with
          reg_base_list := [{ sub_range_list := [], name := name, base := base,
                              max_offset := max_offset, reg_dump := none, cb := none }],
          n_alloc := 1,
          trace := coredump_header now,
          req_dump_blks := some 0 :: List.replicate 9 none,
          dump_mode := .DPU_DBG_DUMP_PROC_CTX,
          work_panic := false,
          dump_all := decide ("all".toList ∈ [name]),
          enable_reg_dump := DPU_DBG_DUMP_IN_COREDUMP,
          timestamp := now,
          atomic_state := some snapshot,
          published := 1,
          coredump_pending := true }
        (some (some 0 :: List.replicate 9 none)) DPU_DBG_BASE_MAX false
        "evtlog_workitem".toList (decide ("all".toList ∈ [name]))) = d3 at hsingle hat
  have hd3 : d3.todump_st.dead = false := (congrArg dump_st.dead hsingle).trans hdead
  have ht3 := (congrArg dump_st.trace hsingle).trans htrace
  dsimp only
  rw [if_neg (by
    show ¬ d3.todump_st.dead = true
    rw [hd3]
    simp), hat]
  show coredump_text ((d3.todump_st.trace ++ [_]) ++ [_]) = _
  rw [ht3]
  simp only [coredump_text_append, coredump_text_dump_lines]
  simp [coredump_text, coredump_header, coredump_tail, printer_event, List.filter]

/-- C15 on the base "core" at 0x1000 of length 0x100: one dump section with
the header for 0x100 bytes and 16 chunk lines at the offsets 0x0 to 0xf0. -/
theorem C15_single_base_artifact_witness :
    ("core".toList ≠ [] ∧ "core".toList.length ≤ 79 ∧ "core".toList ≠ "panic".toList ∧
      (0x1000 : Nat) ≠ 0 ∧ (0 : Nat) < 0x100 ∧ 0x100 ≤ 2 ^ 32 - 16 ∧
      (∀ n, env_ok.kzalloc_ok n = true) ∧ 0 ≤ env_ok.pm_runtime_get_sync 0) ∧
      coredump_text (dpu_devcoredump_read env_ok
        (single_base_capture env_ok 1 "core".toList "test".toList 0x1000 0x100 5 9)).trace =
        coredump_header 5 ++ [.dump_banner "core".toList, .dump_mem "core".toList 0x100 0] ++
          (List.range 16).map (fun i => .dump_line (16 * i) 0 0 0 0) ++
          coredump_tail (some 9) :=
  ⟨⟨by decide, by decide, by decide, by decide, by decide, by decide, fun _ => rfl, le_refl _⟩,
   (C15_single_base_artifact env_ok 1 "core".toList "test".toList 0x1000 0x100 5 9 (by decide)
      (by decide) (by decide) (by decide) (by decide) (by decide) (fun _ => rfl)
      (le_refl _)).2.2.1⟩

/-- C15 (counterexample): allocations and power enable succeeding.  A base
"core" of length 0x100 registered at the io address 0: the reader skips it,
the read prints no dump section.  A base registered under a name of 80
characters: the trigger naming it selects nothing, the read prints no dump
section.  A base registered under the name "panic": the read prints the dump
section and halts.  A base "core" of length `2^36`: the read prints a header
line for a padded length of 0 bytes and no chunk line. -/
theorem C15_no_dump_section :
    (coredump_text (dpu_devcoredump_read env_ok
        (single_base_capture env_ok 1 "core".toList "test".toList 0 0x100 5 9)).trace =
        coredump_header 5 ++ coredump_tail (some 9)) ∧
      (coredump_text (dpu_devcoredump_read env_ok
        (single_base_capture env_ok 1 (List.replicate 80 'a') "test".toList 0x1000 0x100 5
          9)).trace = coredump_header 5 ++ coredump_tail (some 9)) ∧
      ((dpu_devcoredump_read env_ok
        (single_base_capture env_ok 1 "panic".toList "test".toList 0x1000 0x10 5 9)).dead =
          true ∧
        coredump_text (dpu_devcoredump_read env_ok
          (single_base_capture env_ok 1 "panic".toList "test".toList 0x1000 0x10 5 9)).trace =
          coredump_header 5 ++
            [.dump_banner "panic".toList, .dump_mem "panic".toList 0x10 0,
             .dump_line 0 0 0 0 0]) ∧
      ((2 ^ 36 + 15) / 16 = 2 ^ 32 ∧
        coredump_text (dpu_devcoredump_read env_ok
          (single_base_capture env_ok 1 "core".toList "test".toList 0x1000 (2 ^ 36) 5 9)).trace =
          coredump_header 5 ++ [.dump_banner "core".toList, .dump_mem "core".toList 0 0] ++
            coredump_tail (some 9)) := by
  refine ⟨by decide, by decide, ⟨by decide, by decide⟩, by decide, by decide⟩

/-! ### C16: the text of the read -/

/-- The lines of the header of the read are printed lines. -/
theorem coredump_text_header (timestamp : Nat) :
    coredump_text (coredump_header timestamp) = coredump_header timestamp := rfl

/-- The lines of the drm-state section are printed lines. -/
theorem coredump_text_tail (atomic_state : Option Nat) :
    coredump_text (coredump_tail atomic_state) = coredump_tail atomic_state := by
  cases atomic_state <;> rfl

/-- The text of the read in its order: on an engine that has not halted, the
stored request not carrying the panic flag, capture-buffer allocations
succeeding and the windows of the catalog fitting their buffers,
`dpu_devcoredump_read` returns, and the lines it prints are the
header lines ("---", module, title, timestamp, register banner), then the
printed lines of the register dump `mid`, then the drm-state banner, then the
snapshot exactly when one is bound. -/
theorem read_text_order (env : dpu_env) (s : dpu_dbg_base) (hnp : s.work_panic = false)
    (halloc : ∀ n, env.kzalloc_ok n = true) (hfit : catalog_fits s.reg_base_list)
    (hlive : s.dead = false) :
    ∃ mid : List dbg_event, (∀ e ∈ mid, dump_path_event e) ∧
      (dpu_devcoredump_read env s).dead = false ∧
      coredump_text (dpu_devcoredump_read env s).trace =
        coredump_text s.trace ++ coredump_header s.timestamp ++ coredump_text mid ++
          coredump_tail s.atomic_state := by
  obtain ⟨mid, alive, hmid, halive, htr, hdead⟩ := read_shape env s
  have ha := halive halloc hfit hlive
  subst ha
  refine ⟨mid, hmid, ?_, ?_⟩
  · rw [hdead, hnp]
    rfl
  · rw [htr, hnp]
    simp only [if_true, Bool.false_eq_true, if_false, coredump_text_append, coredump_text_header,
      coredump_text_tail]

/-- The read of the artifact of the base "mdp" (no panic flag, snapshot 9,
timestamp 5), allocations succeeding: the header, the dump section of "mdp",
the drm-state section. -/
theorem read_text_order_example :
    (dbg_mdp_dumped.work_panic = false ∧ (∀ n, env_ok.kzalloc_ok n = true) ∧
      dbg_mdp_dumped.dead = false) ∧
      ∃ mid : List dbg_event,
        coredump_text (dpu_devcoredump_read env_ok dbg_mdp_dumped).trace =
          coredump_text dbg_mdp_dumped.trace ++ coredump_header dbg_mdp_dumped.timestamp ++
            coredump_text mid ++ coredump_tail dbg_mdp_dumped.atomic_state := by
  obtain ⟨mid, _, _, h⟩ := read_text_order env_ok dbg_mdp_dumped (by decide) (fun _ => rfl)
    (catalog_fits_of_check _ (by decide)) (by decide)
  exact ⟨⟨by decide, fun _ => rfl, by decide⟩, mid, h⟩

/-- C16 (code evaluated at the failing input): the stored request selects the
base "mdp" and carries no panic flag, a snapshot is bound, the capture buffer
of "mdp" does not exist yet and its allocation fails: the read prints the
header lines and the banner of "mdp", then dereferences the NULL `dump_addr`
in the first chunk; it prints no drm-state banner and no snapshot and does not
return. -/
theorem C16_read_faults_before_the_state_section :
    dbg_mdp_dumped.work_panic = false ∧ dbg_mdp_dumped.atomic_state = some 9 ∧
      dbg_mdp_dumped.dead = false ∧
      coredump_text (dpu_devcoredump_read env_nomem dbg_mdp_dumped).trace =
        coredump_header 5 ++ [.dump_banner "mdp".toList] ∧
      (dpu_devcoredump_read env_nomem dbg_mdp_dumped).trace.getLast? = some .oops ∧
      (dpu_devcoredump_read env_nomem dbg_mdp_dumped).dead = true := by
  refine ⟨by decide, by decide, by decide, by decide, by decide, by decide⟩

/-! ### C17: release of the artifact -/

/-- C17: `dpu_devcoredump_free` clears the bound snapshot reference, releasing
it (one `drm_atomic_state_put`) exactly when one was bound, sets
`coredump_pending` to false and leaves every other field unchanged; a second
call changes nothing more and releases nothing. -/
theorem C17_free_clears_and_is_idempotent (dbg : dpu_dbg_base) :
    dpu_devcoredump_free dbg =
        { dbg with atomic_state := none, coredump_pending := false,
                   state_puts := dbg.state_puts + (if dbg.atomic_state.isSome then 1 else 0) } ∧
      dpu_devcoredump_free (dpu_devcoredump_free dbg) = dpu_devcoredump_free dbg ∧
      (dpu_devcoredump_free (dpu_devcoredump_free dbg)).state_puts =
        dbg.state_puts + (if dbg.atomic_state.isSome then 1 else 0) := by
  unfold dpu_devcoredump_free
  cases h : dbg.atomic_state with
  | none => simp [h]
  | some snap => simp [h]

/-! ### C18: the power bracket of a window -/

/-- The power bracket of a window of non-zero length with at least one sink
enabled, dumped by `_dpu_dump_reg` on an engine that has not halted, the
Coredump sink (if enabled) having a capture buffer or getting one from a
successful allocation.  The trace grows by header lines `pre` (no register
read, no chunk line, no power call) and then: in the context "clock already
enabled" by the chunk events `body` alone (register reads and chunk lines, no
power call); otherwise by one `pm_get`, which on failure is the last event
(no register read, no chunk line, no `pm_put`) and leaves the capture buffer
as it was or freshly zeroed, and on success is followed by `body` and then one
`pm_put`.  The run does not halt, and the loop over the ranges of a base goes
on with the remaining ranges from the state the window left. -/
theorem power_bracket_of_buffered_window (env : dpu_env) (dump_mode : dpu_dbg_dump_context) (st : dump_st)
    (dump_name : CStr) (reg_dump_flag base_addr addr len_bytes : Nat)
    (dump_mem : Option (List Nat)) (hlen : len_bytes ≠ 0)
    (hsink : ¬ (reg_dump_flag &&& DPU_DBG_DUMP_IN_LOG = 0 ∧
      reg_dump_flag &&& DPU_DBG_DUMP_IN_MEM = 0 ∧ reg_dump_flag &&& DPU_DBG_DUMP_IN_COREDUMP = 0))
    (hbuf : reg_dump_flag &&& DPU_DBG_DUMP_IN_COREDUMP ≠ 0 →
      dump_mem ≠ none ∨ env.kzalloc_ok st.n_alloc = true)
    (hfit : window_fits len_bytes dump_mem) (hlive : st.dead = false) :
    ∃ pre body : List dbg_event,
      (∀ e ∈ pre, header_event e) ∧ (∀ e ∈ body, chunk_event addr (addr + len_bytes) e) ∧
      (_dpu_dump_reg env dump_mode st dump_name reg_dump_flag base_addr addr len_bytes
        dump_mem).1.dead = false ∧
      (dump_mode = .DPU_DBG_DUMP_CLK_ENABLED_CTX →
        (_dpu_dump_reg env dump_mode st dump_name reg_dump_flag base_addr addr len_bytes
          dump_mem).1.trace = st.trace ++ pre ++ body) ∧
      (dump_mode ≠ .DPU_DBG_DUMP_CLK_ENABLED_CTX → env.pm_runtime_get_sync st.n_pm < 0 →
        (_dpu_dump_reg env dump_mode st dump_name reg_dump_flag base_addr addr len_bytes
          dump_mem).1.trace = st.trace ++ pre ++ [.pm_get (env.pm_runtime_get_sync st.n_pm)] ∧
        (∀ b, dump_mem = some b →
          (_dpu_dump_reg env dump_mode st dump_name reg_dump_flag base_addr addr len_bytes
            dump_mem).2 = some b) ∧
        (dump_mem = none → ∀ b,
          (_dpu_dump_reg env dump_mode st dump_name reg_dump_flag base_addr addr len_bytes
            dump_mem).2 = some b → ∀ j, b.getD j 0 = 0)) ∧
      (dump_mode ≠ .DPU_DBG_DUMP_CLK_ENABLED_CTX → 0 ≤ env.pm_runtime_get_sync st.n_pm →
        (_dpu_dump_reg env dump_mode st dump_name reg_dump_flag base_addr addr len_bytes
          dump_mem).1.trace =
          st.trace ++ pre ++ [.pm_get (env.pm_runtime_get_sync st.n_pm)] ++ body ++ [.pm_put]) ∧
      (∀ (max_offset : Nat) (range_node : dpu_dbg_reg_range) (rest : List dpu_dbg_reg_range),
        range_node.range_name = dump_name → range_node.reg_dump = dump_mem →
        base_addr + range_node.offset.start = addr →
        _dpu_dbg_get_dump_range range_node.offset max_offset = len_bytes →
        (_dpu_dump_reg_ranges env dump_mode reg_dump_flag base_addr max_offset st
          (range_node :: rest)).1 =
          (_dpu_dump_reg_ranges env dump_mode reg_dump_flag base_addr max_offset
            (_dpu_dump_reg env dump_mode st dump_name reg_dump_flag base_addr addr len_bytes
              dump_mem).1 rest).1) := by
  obtain ⟨hs1, hs1d, hs1pm, hs1al⟩ := log_start_cases st (reg_dump_flag &&& DPU_DBG_DUMP_IN_LOG)
    (.log_start dump_name (addr - base_addr) len_bytes) trivial
  obtain ⟨ha, had, hapm, haddr, hamem, hazero⟩ := alloc_shape env
    (if reg_dump_flag &&& DPU_DBG_DUMP_IN_LOG ≠ 0 then
      st.emit (.log_start dump_name (addr - base_addr) len_bytes) else st)
    dump_name (reg_dump_flag &&& DPU_DBG_DUMP_IN_MEM)
    (reg_dump_flag &&& DPU_DBG_DUMP_IN_COREDUMP)
    (u32 (u32 ((len_bytes + REG_DUMP_ALIGN - 1) / REG_DUMP_ALIGN) * REG_DUMP_ALIGN))
    (addr - base_addr) dump_mem (by rw [hs1al]; exact hbuf)
  obtain ⟨body, hbody, hrd, hrt, hrf⟩ := run_shape env dump_mode
    (reg_dump_flag &&& DPU_DBG_DUMP_IN_LOG) (reg_dump_flag &&& DPU_DBG_DUMP_IN_COREDUMP)
    base_addr (addr + len_bytes) (u32 ((len_bytes + REG_DUMP_ALIGN - 1) / REG_DUMP_ALIGN)) addr
    (_dpu_dump_reg_alloc env
      (if reg_dump_flag &&& DPU_DBG_DUMP_IN_LOG ≠ 0 then
        st.emit (.log_start dump_name (addr - base_addr) len_bytes) else st)
      dump_name (reg_dump_flag &&& DPU_DBG_DUMP_IN_MEM)
      (reg_dump_flag &&& DPU_DBG_DUMP_IN_COREDUMP)
      (u32 (u32 ((len_bytes + REG_DUMP_ALIGN - 1) / REG_DUMP_ALIGN) * REG_DUMP_ALIGN))
      (addr - base_addr) dump_mem)
    haddr (by rw [had, hs1d]; exact hlive)
    (alloc_room env _ dump_name _ _ len_bytes _ dump_mem hfit).1
  obtain ⟨pre, hpre, hpreP⟩ := emits_trans hs1 ha
  rw [hapm, hs1pm, hpre] at hrt
  rw [hapm, hs1pm] at hrf
  rw [dump_reg_eq env dump_mode st dump_name reg_dump_flag base_addr addr len_bytes dump_mem hlen
    hsink]
  refine ⟨pre, body, hpreP, hbody, hrd, ?_, ?_, ?_, ?_⟩
  · intro hm
    rw [hrt, if_neg (by rw [hm]; decide)]
  · intro hm hrc
    have hp : _dpu_power_check dump_mode = true := by
      cases dump_mode
      · rfl
      · exact absurd rfl hm
    refine ⟨?_, ?_, ?_⟩
    · rw [hrt, if_pos hp, if_pos hrc]
    · intro b hb
      rw [hrf hp hrc]
      exact hamem b hb
    · intro hn b hb j
      rw [hrf hp hrc] at hb
      exact hazero hn b hb j
  · intro hm hrc
    have hp : _dpu_power_check dump_mode = true := by
      cases dump_mode
      · rfl
      · exact absurd rfl hm
    rw [hrt, if_pos hp, if_neg (by omega)]
    simp
  · intro max_offset range_node rest hn hd ha2 hl
    rw [← dump_reg_eq env dump_mode st dump_name reg_dump_flag base_addr addr len_bytes dump_mem
      hlen hsink]
    conv_lhs => unfold _dpu_dump_reg_ranges
    rw [if_neg (by rw [hlive]; simp)]
    dsimp only
    rw [hn, hd, ha2, hl]

/-- The window (0x1000, 0x20) of "mdp" with the Log and Memory sinks in
process context, the enable succeeding: header lines, one `pm_get`, the chunk
events, one `pm_put`. -/
theorem power_bracket_example :
    ∃ pre body : List dbg_event,
      (∀ e ∈ pre, header_event e) ∧ (∀ e ∈ body, chunk_event 0x1000 (0x1000 + 0x20) e) ∧
      (_dpu_dump_reg env_ok .DPU_DBG_DUMP_PROC_CTX dbg_mdp.todump_st "mdp".toList 3 0x1000 0x1000
        0x20 none).1.trace =
        dbg_mdp.trace ++ pre ++ [.pm_get (env_ok.pm_runtime_get_sync dbg_mdp.n_pm)] ++ body ++
          [.pm_put] := by
  obtain ⟨pre, body, h1, h2, _, _, _, h6, _⟩ :=
    power_bracket_of_buffered_window env_ok .DPU_DBG_DUMP_PROC_CTX dbg_mdp.todump_st "mdp".toList 3 0x1000 0x1000
      0x20 none (by decide) (by decide) (fun _ => Or.inr rfl)
      ⟨by decide, fun _ h => nomatch h⟩ rfl
  exact ⟨pre, body, h1, h2, h6 (by decide) (by decide)⟩

/-- C18 (code evaluated at the failing input): a window of 0x20 bytes dumped in
process context with only the Coredump sink enabled, no capture buffer yet and
the allocation failing: the power enable is made and succeeds, the first chunk
dereferences the NULL `dump_addr`, and no power disable follows. -/
theorem C18_failed_allocation_leaves_power_enabled :
    (4 &&& DPU_DBG_DUMP_IN_COREDUMP ≠ 0 ∧ (0x20 : Nat) ≠ 0 ∧
      env_nomem.pm_runtime_get_sync dbg_mdp.n_pm = 0) ∧
      (_dpu_dump_reg env_nomem .DPU_DBG_DUMP_PROC_CTX dbg_mdp.todump_st "mdp".toList 4 0x1000
        0x1000 0x20 none).1.trace = [.pm_get 0, .oops] ∧
      (_dpu_dump_reg env_nomem .DPU_DBG_DUMP_PROC_CTX dbg_mdp.todump_st "mdp".toList 4 0x1000
        0x1000 0x20 none).1.dead = true ∧
      dbg_event.pm_put ∉ (_dpu_dump_reg env_nomem .DPU_DBG_DUMP_PROC_CTX dbg_mdp.todump_st
        "mdp".toList 4 0x1000 0x1000 0x20 none).1.trace := by
  refine ⟨by decide, by decide, by decide, by decide⟩

/-! ### C19: the ranges of a reachable catalog -/

/-- A registration of a base keeps all stored ranges wide. -/
theorem ranges_wide_register_base (env : dpu_env) (s : dpu_dbg_base) (name : Option CStr)
    (base max_offset : Nat) (h : ranges_wide s.reg_base_list) :
    ranges_wide (dpu_dbg_reg_register_base env s name base max_offset).2.reg_base_list := by
  unfold dpu_dbg_reg_register_base
  cases name with
  | none => exact h
  | some nm =>
    dsimp only
    split_ifs
    · exact h
    · exact h
    · intro b hb r hr
      rcases List.mem_cons.mp hb with h1 | h1
      · rw [h1] at hr
        simp at hr
      · exact h b h1 r hr

/-- A registration of a range with `u32` offsets keeps all stored ranges wide. -/
theorem ranges_wide_register_dump_range (env : dpu_env) (s : dpu_dbg_base) (base_name : CStr)
    (range_name : Option CStr) (offset_start offset_end xin_id : Nat)
    (hs : offset_start < 2 ^ 32) (he : offset_end < 2 ^ 32)
    (h : ranges_wide s.reg_base_list) :
    ranges_wide (dpu_dbg_reg_register_dump_range env s base_name range_name offset_start
      offset_end xin_id).reg_base_list := by
  unfold dpu_dbg_reg_register_dump_range
  cases _dpu_dump_get_blk_addr s.reg_base_list base_name with
  | none => exact h
  | some p =>
    cases range_name with
    | none => exact h
    | some rn =>
      dsimp only
      split_ifs with h1 h2 h3
      · exact h
      · exact h
      · exact h
      · cases hb : deref_base s.reg_base_list p with
        | none => exact h
        | some reg_base =>
          have hok := (u32_sub_lt_iff offset_start offset_end hs he).not.mp h2
          rw [not_not] at hok
          intro b hbm r hr
          rcases mem_store_base _ _ _ _ hbm with h4 | h4
          · rw [h4] at hr
            rcases List.mem_append.mp hr with h5 | h5
            · exact h reg_base (deref_base_mem _ _ _ hb) r h5
            · simp at h5
              rw [h5]
              dsimp only
              omega
          · exact h b h4 r hr

/-- In every reachable catalog all stored ranges are wide. -/
theorem ranges_wide_reachable (env : dpu_env) (s : dpu_dbg_base)
    (h : catalog_reachable env s) : ranges_wide s.reg_base_list := by
  induction h with
  | init dev =>
    intro b hb
    simp [dpu_dbg_init] at hb
  | register_base s name base max_offset _ ih =>
    exact ranges_wide_register_base env s name base max_offset ih
  | register_dump_range s base_name range_name a b c _ hs he ih =>
    exact ranges_wide_register_dump_range env s base_name range_name a b c hs he ih

/-- C19: in every catalog reachable through `dpu_dbg_reg_register_base` and
`dpu_dbg_reg_register_dump_range`, every stored range has `start < end` and
`end - start >= 16`; so it is not the range (0,0), and its window length is
`min(end, max_offset) - start` when `start < max_offset` and 0 otherwise. -/
theorem C19_registered_ranges_are_wide (env : dpu_env) (s : dpu_dbg_base)
    (h : catalog_reachable env s) :
    ∀ b ∈ s.reg_base_list, ∀ r ∈ b.sub_range_list,
      r.offset.start < r.offset.end_ ∧ 16 ≤ r.offset.end_ - r.offset.start ∧
        ¬(r.offset.start = 0 ∧ r.offset.end_ = 0) ∧
        _dpu_dbg_get_dump_range r.offset b.max_offset =
          (if r.offset.start < b.max_offset then
            min r.offset.end_ b.max_offset - r.offset.start
           else 0) := by
  intro b hb r hr
  obtain ⟨h1, h2, h3⟩ := ranges_wide_reachable env s h b hb r hr
  refine ⟨h1, h2, by omega, ?_⟩
  unfold _dpu_dbg_get_dump_range u32
  split_ifs <;> omega

/-- C19 on the engine with the base "mdp" and the range "r" = (0x10, 0x40):
the catalog is reachable, the range is stored, and it is at least 16 bytes
wide. -/
theorem C19_registered_ranges_are_wide_witness :
    catalog_reachable env_ok
        (dpu_dbg_reg_register_dump_range env_ok dbg_mdp "mdp".toList (some "r".toList) 0x10 0x40
          7) ∧
      (dpu_dbg_reg_register_dump_range env_ok dbg_mdp "mdp".toList (some "r".toList) 0x10 0x40
          7).reg_base_list.map
          (fun b => b.sub_range_list.map (fun r => (r.offset.start, r.offset.end_))) =
        [[(0x10, 0x40)]] ∧
      ∀ b ∈ (dpu_dbg_reg_register_dump_range env_ok dbg_mdp "mdp".toList (some "r".toList) 0x10
          0x40 7).reg_base_list,
        ∀ r ∈ b.sub_range_list, r.offset.start < r.offset.end_ ∧
          16 ≤ r.offset.end_ - r.offset.start :=
  ⟨catalog_reachable.register_dump_range _ _ _ _ _ _
      (catalog_reachable.register_base _ _ _ _ (catalog_reachable.init 1)) (by decide)
      (by decide),
   by decide,
   fun b hb r hr =>
    ⟨(C19_registered_ranges_are_wide env_ok _
        (catalog_reachable.register_dump_range _ _ _ _ _ _
          (catalog_reachable.register_base _ _ _ _ (catalog_reachable.init 1)) (by decide)
          (by decide)) b hb r hr).1,
     (C19_registered_ranges_are_wide env_ok _
        (catalog_reachable.register_dump_range _ _ _ _ _ _
          (catalog_reachable.register_base _ _ _ _ (catalog_reachable.init 1)) (by decide)
          (by decide)) b hb r hr).2.1⟩⟩

/-! ### C20: the halt of the read -/

/-- The halt of the read: on an engine that has not halted, with capture-buffer
allocations succeeding and the windows of the catalog fitting their buffers,
the trace of `dpu_devcoredump_read` is the header
lines, the events `mid` of the register dump (none of them a halt or a line of
the drm-state section) and then, when the stored request has
`work_panic = true`, the halt with the message "evtlog_workitem" as the last
event, and otherwise the drm-state section; the call halts if and only if
`work_panic = true`. -/
theorem read_halts_iff_work_panic (env : dpu_env) (s : dpu_dbg_base)
    (halloc : ∀ n, env.kzalloc_ok n = true) (hfit : catalog_fits s.reg_base_list)
    (hlive : s.dead = false) :
    ∃ mid : List dbg_event, (∀ e ∈ mid, dump_path_event e) ∧
      (dpu_devcoredump_read env s).trace =
        s.trace ++ coredump_header s.timestamp ++ mid ++
          (if s.work_panic = true then [.halt "evtlog_workitem".toList]
           else coredump_tail s.atomic_state) ∧
      ((dpu_devcoredump_read env s).dead = true ↔ s.work_panic = true) := by
  obtain ⟨mid, alive, hmid, halive, htr, hdead⟩ := read_shape env s
  have ha := halive halloc hfit hlive
  subst ha
  refine ⟨mid, hmid, ?_, ?_⟩
  · rw [htr]
    simp
  · rw [hdead]
    simp

/-- The engine with base "mdp" after a trigger with the targets "mdp" and
"panic": the read halts. -/
theorem read_halts_example :
    ((∀ n, env_ok.kzalloc_ok n = true) ∧ dbg_mdp_panic.dead = false ∧
      dbg_mdp_panic.work_panic = true) ∧
      (dpu_devcoredump_read env_ok dbg_mdp_panic).dead = true := by
  obtain ⟨_, _, _, h⟩ := read_halts_iff_work_panic env_ok dbg_mdp_panic (fun _ => rfl)
    (catalog_fits_of_check _ (by decide)) (by decide)
  exact ⟨⟨fun _ => rfl, by decide, by decide⟩, h.2 (by decide)⟩

/-- C20 (code evaluated at the failing input): the stored request has
`work_panic = true` and selects the base "mdp", whose capture buffer does not
exist yet, and the allocation of the buffer fails: the read stops at the NULL
`dump_addr` of the first chunk and never reaches the halt
`panic("evtlog_workitem")`. -/
theorem C20_read_faults_before_the_halt :
    dbg_mdp_panic.work_panic = true ∧ dbg_mdp_panic.dead = false ∧
      (dpu_devcoredump_read env_nomem dbg_mdp_panic).trace =
        [.dump_sep, .dump_module, .dump_title, .dump_timestamp 5, .dump_regs_banner,
         .reader (some 0), .log_banner "mdp".toList, .dump_banner "mdp".toList,
         .log_no_ranges, .log_base_len 0x1000 0x100, .pm_get 0, .oops] := by
  refine ⟨by decide, by decide, by decide⟩

/-! ### C21: the read prints the capture buffers -/

/-- Doing nothing prints no chunk line. -/
theorem dump_only_refl (st : dump_st) : dump_only st st [] :=
  ⟨rfl, rfl, rfl, rfl, by rw [List.append_nil], id⟩

/-- Two pieces in a row print their lines in a row. -/
theorem dump_only_trans (st st2 st3 : dump_st) (l1 l2 : List (Nat × Nat × Nat × Nat × Nat))
    (h1 : dump_only st st2 l1) (h2 : dump_only st2 st3 l2) : dump_only st st3 (l1 ++ l2) := by
  obtain ⟨a1, a2, a3, a4, a5, a6⟩ := h1
  obtain ⟨b1, b2, b3, b4, b5, b6⟩ := h2
  refine ⟨b1.trans a1, b2.trans a2, b3.trans a3, b4.trans a4, ?_, fun h => b6 (a6 h)⟩
  rw [b5, a5, List.append_assoc]

/-- A state that differs in neither the catalog nor the projections of the
trace, and is stopped when the first one is. -/
theorem dump_only_of_eq (st st2 : dump_st) (h1 : st2.reg_base_list = st.reg_base_list)
    (h2 : st2.trace = st.trace) (h3 : st.dead = true → st2.dead = true) :
    dump_only st st2 [] := by
  refine ⟨h1, ?_, ?_, ?_, ?_, h3⟩
  · rw [h2]
  · rw [h2]
  · rw [h2]
  · rw [h2, List.append_nil]

/-- An event that is neither a register read, a chunk line nor an entry into
the reader prints no chunk line. -/
theorem dump_only_emit (st : dump_st) (e : dbg_event)
    (h1 : ∀ a, e ≠ .readl a) (h2 : ∀ o a b c d, e ≠ .log_line o a b c d)
    (h3 : ∀ o a b c d, e ≠ .dump_line o a b c d) (h4 : ∀ p, e ≠ .reader p) :
    dump_only st (st.emit e) [] := by
  refine ⟨rfl, ?_, ?_, ?_, ?_, id⟩
  · show readl_addrs (st.trace ++ [e]) = _
    rw [readl_addrs_append]
    cases e <;> first | exact absurd rfl (h1 _) | simp [readl_addrs]
  · show log_lines (st.trace ++ [e]) = _
    rw [log_lines_append]
    cases e <;> first | exact absurd rfl (h2 _ _ _ _ _) | simp [log_lines]
  · show reader_calls (st.trace ++ [e]) = _
    rw [reader_calls_append]
    cases e <;> first | exact absurd rfl (h4 _) | simp [reader_calls]
  · show dump_lines (st.trace ++ [e]) = _ ++ []
    rw [dump_lines_append]
    cases e <;> first | exact absurd rfl (h3 _ _ _ _ _) | simp [dump_lines]

/-- A chunk line of the Coredump sink. -/
theorem dump_only_line (st : dump_st) (off w0 w1 w2 w3 : Nat) :
    dump_only st (st.emit (.dump_line off w0 w1 w2 w3)) [(off, w0, w1, w2, w3)] := by
  refine ⟨rfl, ?_, ?_, ?_, ?_, id⟩
  · show readl_addrs (st.trace ++ [_]) = _
    rw [readl_addrs_append]
    simp [readl_addrs]
  · show log_lines (st.trace ++ [_]) = _
    rw [log_lines_append]
    simp [log_lines]
  · show reader_calls (st.trace ++ [_]) = _
    rw [reader_calls_append]
    simp [reader_calls]
  · show dump_lines (st.trace ++ [_]) = _
    rw [dump_lines_append]
    simp [dump_lines]

/-- A halted reader leaves the chunk loop at once. -/
theorem loop_dead (env : dpu_env) (in_log in_mem in_dump base_addr end_addr n i addr : Nat)
    (st : dump_st) (dump_addr : Option (List Nat)) (h : st.dead = true) :
    _dpu_dump_reg_loop env in_log in_mem in_dump base_addr end_addr n i addr st dump_addr =
      (st, dump_addr) := by
  cases n with
  | zero => rfl
  | succ n =>
    unfold _dpu_dump_reg_loop
    rw [if_pos h]

/-- A chunk with the Coredump sink alone: no read and no store; with a buffer
that holds the four words of the chunk, one printed line with these words;
with a shorter buffer the overrun; without a buffer the fault. -/
theorem chunk_coredump (env : dpu_env) (in_log in_mem in_dump base_addr end_addr i addr : Nat)
    (st : dump_st) (dump_addr : Option (List Nat)) (hl : in_log = 0) (hm : in_mem = 0)
    (hd : in_dump ≠ 0) :
    _dpu_dump_reg_chunk env in_log in_mem in_dump base_addr end_addr i addr st dump_addr =
      match dump_addr with
      | some b =>
        if i * 4 + 3 < b.length ∧ i * 4 + 3 < 2 ^ 31 then
          (st.emit (.dump_line (addr - base_addr) (b.getD (i * 4) 0) (b.getD (i * 4 + 1) 0)
              (b.getD (i * 4 + 2) 0) (b.getD (i * 4 + 3) 0)), some b)
        else ({ st.emit .overrun with dead := true }, some b)
      | none => ({ st.emit .oops with dead := true }, none) := by
  rw [chunk_eq]
  have hrd : decide (in_log ≠ 0 ∨ in_mem ≠ 0) = false := by simp [hl, hm]
  rw [hrd]
  have hst : ({ st with trace := st.trace ++ (chunk_reads false end_addr addr).map .readl } :
      dump_st) = st := by
    unfold chunk_reads
    simp [List.filter]
  rw [hst]
  unfold _dpu_dump_reg_sinks
  cases dump_addr with
  | some b =>
    dsimp only
    rw [if_neg (show ¬ in_log ≠ 0 by simp [hl]), if_neg (show ¬ in_mem ≠ 0 by simp [hm])]
    by_cases hin : i * 4 + 3 < b.length ∧ i * 4 + 3 < 2 ^ 31
    · rw [if_neg (fun h => h.2 hin), if_pos hd, if_pos hin]
    · rw [if_pos ⟨Or.inr hd, hin⟩, if_neg hin]
  | none =>
    dsimp only
    rw [if_neg (show ¬ in_log ≠ 0 by simp [hl]), if_pos hd]

/-- The chunk loop with the Coredump sink alone: the buffer pointer is
unchanged and the loop prints the lines of the first `m` of its `n` chunks,
read from the buffer; all of them, without stopping, when the run had not
stopped and there is a buffer with room for the chunks. -/
theorem loop_coredump (env : dpu_env) (in_log in_mem in_dump base_addr end_addr : Nat)
    (dump_addr : Option (List Nat)) (hl : in_log = 0) (hm : in_mem = 0) (hd : in_dump ≠ 0) :
    ∀ (n i addr : Nat) (st : dump_st),
      (_dpu_dump_reg_loop env in_log in_mem in_dump base_addr end_addr n i addr st
          dump_addr).2 = dump_addr ∧
        ∃ m, m ≤ n ∧
          dump_only st
            (_dpu_dump_reg_loop env in_log in_mem in_dump base_addr end_addr n i addr st
              dump_addr).1
            ((List.range m).map (fun k => buffer_line dump_addr (addr + 16 * k - base_addr)
              (i + k))) ∧
          (st.dead = false → dump_addr ≠ none → has_room (i + n) dump_addr →
            (_dpu_dump_reg_loop env in_log in_mem in_dump base_addr end_addr n i addr st
              dump_addr).1.dead = false ∧ m = n) := by
  intro n
  induction n with
  | zero =>
    intro i addr st
    exact ⟨rfl, 0, le_refl _, dump_only_refl st, fun h _ _ => ⟨h, rfl⟩⟩
  | succ n ih =>
    intro i addr st
    by_cases hdead : st.dead = true
    · rw [loop_dead env in_log in_mem in_dump base_addr end_addr (n + 1) i addr st dump_addr
        hdead]
      exact ⟨rfl, 0, Nat.zero_le _, dump_only_refl st, fun h => by rw [hdead] at h; cases h⟩
    · have hunf : _dpu_dump_reg_loop env in_log in_mem in_dump base_addr end_addr (n + 1) i addr
          st dump_addr =
          _dpu_dump_reg_loop env in_log in_mem in_dump base_addr end_addr n (i + 1) (addr + 16)
            (_dpu_dump_reg_chunk env in_log in_mem in_dump base_addr end_addr i addr st
              dump_addr).1
            (_dpu_dump_reg_chunk env in_log in_mem in_dump base_addr end_addr i addr st
              dump_addr).2 := by
        conv_lhs => unfold _dpu_dump_reg_loop
        rw [if_neg hdead]
        rfl
      rw [hunf, chunk_coredump env in_log in_mem in_dump base_addr end_addr i addr st dump_addr
        hl hm hd]
      cases dump_addr with
      | none =>
        dsimp only
        rw [loop_dead env in_log in_mem in_dump base_addr end_addr n (i + 1) (addr + 16) _ none
          rfl]
        refine ⟨rfl, 0, Nat.zero_le _, ?_, fun _ h => absurd rfl h⟩
        exact dump_only_trans _ _ _ _ _
          (dump_only_emit st .oops (fun _ h => nomatch h) (fun _ _ _ _ _ h => nomatch h)
            (fun _ _ _ _ _ h => nomatch h) (fun _ h => nomatch h))
          (dump_only_of_eq _ _ rfl rfl (fun _ => rfl))
      | some b =>
        dsimp only
        by_cases hin : i * 4 + 3 < b.length ∧ i * 4 + 3 < 2 ^ 31
        · rw [if_pos hin]
          obtain ⟨h1, m, hmn, h2, h3⟩ := ih (i + 1) (addr + 16)
            (st.emit (.dump_line (addr - base_addr) (b.getD (i * 4) 0) (b.getD (i * 4 + 1) 0)
              (b.getD (i * 4 + 2) 0) (b.getD (i * 4 + 3) 0)))
          refine ⟨h1, m + 1, by omega, ?_, ?_⟩
          · have hcomp := dump_only_trans _ _ _ _ _
              (dump_only_line st (addr - base_addr) (b.getD (i * 4) 0) (b.getD (i * 4 + 1) 0)
                (b.getD (i * 4 + 2) 0) (b.getD (i * 4 + 3) 0)) h2
            have hlines : (List.range (m + 1)).map
                (fun k => buffer_line (some b) (addr + 16 * k - base_addr) (i + k)) =
                [(addr - base_addr, b.getD (i * 4) 0, b.getD (i * 4 + 1) 0, b.getD (i * 4 + 2) 0,
                  b.getD (i * 4 + 3) 0)] ++
                (List.range m).map
                  (fun k => buffer_line (some b) (addr + 16 + 16 * k - base_addr) (i + 1 + k)) := by
              rw [List.range_succ_eq_map, List.map_cons, List.map_map]
              have hf : (fun k => buffer_line (some b) (addr + 16 + 16 * k - base_addr)
                  (i + 1 + k)) =
                  ((fun k => buffer_line (some b) (addr + 16 * k - base_addr) (i + k)) ∘
                    Nat.succ) := by
                funext k
                show buffer_line (some b) (addr + 16 + 16 * k - base_addr) (i + 1 + k) =
                  buffer_line (some b) (addr + 16 * (k + 1) - base_addr) (i + (k + 1))
                have e1 : addr + 16 + 16 * k = addr + 16 * (k + 1) := by omega
                have e2 : i + 1 + k = i + (k + 1) := by omega
                rw [e1, e2]
              rw [hf]
              rfl
            rw [hlines]
            exact hcomp
          · intro hlive hne hroom
            have hr2 : has_room (i + 1 + n) (some b) := by
              have e : i + 1 + n = i + (n + 1) := by omega
              rw [e]
              exact hroom
            obtain ⟨g1, g2⟩ := h3 hlive hne hr2
            exact ⟨g1, by omega⟩
        · rw [if_neg hin]
          dsimp only
          rw [loop_dead env in_log in_mem in_dump base_addr end_addr n (i + 1) (addr + 16) _
            (some b) rfl]
          refine ⟨rfl, 0, Nat.zero_le _, ?_, ?_⟩
          · exact dump_only_trans _ _ _ _ _
              (dump_only_emit st .overrun (fun _ h => nomatch h) (fun _ _ _ _ _ h => nomatch h)
                (fun _ _ _ _ _ h => nomatch h) (fun _ h => nomatch h))
              (dump_only_of_eq _ _ rfl rfl (fun _ => rfl))
          · intro _ _ hroom
            exfalso
            apply hin
            have := hroom b rfl
            omega

/-- A buffer that was kept prints the lines the old one would have printed. -/
theorem buffer_line_of_kept (old new : Option (List Nat)) (h : buffer_kept old new)
    (off i : Nat) : buffer_line new off i = buffer_line old off i := by
  cases hold : old with
  | some buf => rw [h.1 buf hold]
  | none =>
    cases hnew : new with
    | none => rfl
    | some zbuf =>
      have hz := h.2 hold zbuf hnew
      have hn : ∀ j, ([] : List Nat).getD j 0 = 0 := fun j => by simp
      simp only [buffer_line, buffer_word, Option.getD_some, Option.getD_none, hz, hn]

/-- Keeping a buffer is reflexive. -/
theorem buffer_kept_refl (dump_mem : Option (List Nat)) : buffer_kept dump_mem dump_mem :=
  ⟨fun _ h => h, fun h buf hb => by rw [h] at hb; cases hb⟩

/-- The buffer set-up of a window with the Coredump sink alone: `in_mem` stays
0, `dump_addr` is `*dump_mem`, an existing buffer is kept and a new one is
zeroed, no chunk line is printed, the run is not stopped, and there is a
buffer afterwards when there was one or the allocation succeeds. -/
theorem alloc_coredump (env : dpu_env) (st : dump_st) (dump_name : CStr)
    (in_dump len_padded reg_offset : Nat) (dump_mem : Option (List Nat)) (hd : in_dump ≠ 0) :
    (_dpu_dump_reg_alloc env st dump_name 0 in_dump len_padded reg_offset dump_mem).in_mem = 0 ∧
      (_dpu_dump_reg_alloc env st dump_name 0 in_dump len_padded reg_offset dump_mem).dump_addr =
        (_dpu_dump_reg_alloc env st dump_name 0 in_dump len_padded reg_offset dump_mem).dump_mem ∧
      buffer_kept dump_mem
        (_dpu_dump_reg_alloc env st dump_name 0 in_dump len_padded reg_offset dump_mem).dump_mem ∧
      dump_only st
        (_dpu_dump_reg_alloc env st dump_name 0 in_dump len_padded reg_offset dump_mem).st [] ∧
      (_dpu_dump_reg_alloc env st dump_name 0 in_dump len_padded reg_offset dump_mem).st.dead =
        st.dead ∧
      (_dpu_dump_reg_alloc env st dump_name 0 in_dump len_padded reg_offset dump_mem).st.n_pm =
        st.n_pm ∧
      (env.kzalloc_ok st.n_alloc = true →
        (_dpu_dump_reg_alloc env st dump_name 0 in_dump len_padded reg_offset
          dump_mem).dump_addr ≠ none) := by
  obtain ⟨hdead, hpm, _, hsome, hok, hfail⟩ := alloc_cases env st dump_name 0 in_dump len_padded
    reg_offset dump_mem
  have hh : ∀ s : dump_st,
      dump_only s (_dpu_dump_reg_headers s dump_name in_dump len_padded reg_offset) [] := by
    intro s
    unfold _dpu_dump_reg_headers
    rw [if_pos hd]
    exact dump_only_trans _ _ _ [] []
      (dump_only_emit s (.log_mem dump_name len_padded reg_offset) (fun _ h => nomatch h)
        (fun _ _ _ _ _ h => nomatch h) (fun _ _ _ _ _ h => nomatch h) (fun _ h => nomatch h))
      (dump_only_emit _ (.dump_mem dump_name len_padded reg_offset) (fun _ h => nomatch h)
        (fun _ _ _ _ _ h => nomatch h) (fun _ _ _ _ _ h => nomatch h) (fun _ h => nomatch h))
  refine ⟨?_, ?_, ?_, ?_, hdead, hpm, ?_⟩
  · cases dump_mem with
    | some b => rw [hsome (Or.inr hd) b rfl]
    | none =>
      by_cases hk : env.kzalloc_ok st.n_alloc = true
      · rw [hok (Or.inr hd) rfl hk]
      · rw [hfail (Or.inr hd) rfl (by simpa using hk)]
  · cases dump_mem with
    | some b => rw [hsome (Or.inr hd) b rfl]
    | none =>
      by_cases hk : env.kzalloc_ok st.n_alloc = true
      · rw [hok (Or.inr hd) rfl hk]
      · rw [hfail (Or.inr hd) rfl (by simpa using hk)]
  · cases dump_mem with
    | some b =>
      rw [hsome (Or.inr hd) b rfl]
      exact buffer_kept_refl _
    | none =>
      by_cases hk : env.kzalloc_ok st.n_alloc = true
      · rw [hok (Or.inr hd) rfl hk]
        refine ⟨fun buf h => (nomatch h), fun _ buf hb j => ?_⟩
        cases hb
        simp only [List.getD_eq_getElem?_getD, List.getElem?_replicate]
        split_ifs <;> rfl
      · rw [hfail (Or.inr hd) rfl (by simpa using hk)]
        exact buffer_kept_refl _
  · cases dump_mem with
    | some b =>
      rw [hsome (Or.inr hd) b rfl]
      exact hh st
    | none =>
      by_cases hk : env.kzalloc_ok st.n_alloc = true
      · rw [hok (Or.inr hd) rfl hk]
        exact dump_only_trans _ _ _ [] [] (dump_only_of_eq st _ rfl rfl id) (hh _)
      · rw [hfail (Or.inr hd) rfl (by simpa using hk)]
        exact dump_only_of_eq st _ rfl rfl id
  · intro hk
    cases dump_mem with
    | some b =>
      rw [hsome (Or.inr hd) b rfl]
      exact fun h => nomatch h
    | none =>
      rw [hok (Or.inr hd) rfl hk]
      exact fun h => nomatch h

/-- The power bracket and chunk loop with the Coredump sink alone, on locals
with `in_mem = 0` and `dump_addr = *dump_mem`: `*dump_mem` is unchanged and
the lines of the first `m` chunks of the buffer are printed; all of them,
without stopping, when the run had not stopped, there is a buffer with room
for the chunks and the power enable (when one is made) succeeds. -/
theorem run_coredump (env : dpu_env) (dump_mode : dpu_dbg_dump_context)
    (in_log in_dump base_addr end_addr len_align addr : Nat) (bufs : dump_reg_bufs)
    (hl : in_log = 0) (hm : bufs.in_mem = 0) (hd : in_dump ≠ 0)
    (hda : bufs.dump_addr = bufs.dump_mem) :
    (_dpu_dump_reg_run env dump_mode in_log in_dump base_addr end_addr len_align addr bufs).2 =
        bufs.dump_mem ∧
      ∃ m, m ≤ len_align ∧
        dump_only bufs.st
          (_dpu_dump_reg_run env dump_mode in_log in_dump base_addr end_addr len_align addr
            bufs).1
          ((List.range m).map (fun k => buffer_line bufs.dump_mem (addr + 16 * k - base_addr)
            k)) ∧
        (bufs.st.dead = false → bufs.dump_addr ≠ none → has_room len_align bufs.dump_addr →
          (_dpu_power_check dump_mode = true →
            0 ≤ env.pm_runtime_get_sync bufs.st.n_pm) →
          (_dpu_dump_reg_run env dump_mode in_log in_dump base_addr end_addr len_align addr
            bufs).1.dead = false ∧ m = len_align) := by
  have hmatch : ∀ da : Option (List Nat), da = bufs.dump_mem →
      (match da with
        | some b => some b
        | none => bufs.dump_mem) = bufs.dump_mem := by
    intro da h
    cases da with
    | some b => exact h
    | none => rfl
  have hfin : ∀ st2 : dump_st, dump_only bufs.st st2 [] → st2.dead = bufs.st.dead →
      (match (_dpu_dump_reg_loop env in_log bufs.in_mem in_dump base_addr end_addr len_align 0
          addr st2 bufs.dump_addr).2 with
        | some b => some b
        | none => bufs.dump_mem) = bufs.dump_mem ∧
        ∃ m, m ≤ len_align ∧
          dump_only bufs.st
            (_dpu_dump_reg_loop env in_log bufs.in_mem in_dump base_addr end_addr len_align 0
              addr st2 bufs.dump_addr).1
            ((List.range m).map (fun k => buffer_line bufs.dump_mem
              (addr + 16 * k - base_addr) k)) ∧
          (bufs.st.dead = false → bufs.dump_addr ≠ none → has_room len_align bufs.dump_addr →
            (_dpu_dump_reg_loop env in_log bufs.in_mem in_dump base_addr end_addr len_align 0
              addr st2 bufs.dump_addr).1.dead = false ∧ m = len_align) := by
    intro st2 e1 e2
    obtain ⟨l1, m, hmn, l2, l3⟩ := loop_coredump env in_log bufs.in_mem in_dump base_addr
      end_addr bufs.dump_addr hl hm hd len_align 0 addr st2
    refine ⟨hmatch _ (l1.trans hda), m, hmn, ?_, ?_⟩
    · have := dump_only_trans _ _ _ _ _ e1 l2
      rw [List.nil_append] at this
      rw [← hda]
      simpa only [Nat.zero_add] using this
    · intro hlive hne hroom
      exact l3 (by rw [e2]; exact hlive) hne (by rw [Nat.zero_add]; exact hroom)
  have hpm : dump_only bufs.st
      ({ bufs.st.emit (.pm_get (env.pm_runtime_get_sync bufs.st.n_pm)) with
        n_pm := bufs.st.n_pm + 1 } : dump_st) [] :=
    dump_only_trans _ _ _ [] []
      (dump_only_emit bufs.st (.pm_get (env.pm_runtime_get_sync bufs.st.n_pm))
        (fun _ h => nomatch h) (fun _ _ _ _ _ h => nomatch h)
        (fun _ _ _ _ _ h => nomatch h) (fun _ h => nomatch h))
      (dump_only_of_eq _ _ rfl rfl id)
  unfold _dpu_dump_reg_run
  by_cases hp : _dpu_power_check dump_mode = true
  · rw [if_pos hp]
    dsimp only
    by_cases hrc : env.pm_runtime_get_sync bufs.st.n_pm < 0
    · rw [if_pos hrc]
      refine ⟨rfl, 0, Nat.zero_le _, hpm, ?_⟩
      intro _ _ _ hpow
      have := hpow hp
      omega
    · rw [if_neg hrc]
      obtain ⟨f1, m, hmn, f2, f3⟩ := hfin
        { bufs.st.emit (.pm_get (env.pm_runtime_get_sync bufs.st.n_pm)) with
          n_pm := bufs.st.n_pm + 1 } hpm rfl
      by_cases hdd : (_dpu_dump_reg_loop env in_log bufs.in_mem in_dump base_addr end_addr
          len_align 0 addr
          { bufs.st.emit (.pm_get (env.pm_runtime_get_sync bufs.st.n_pm)) with
            n_pm := bufs.st.n_pm + 1 } bufs.dump_addr).1.dead = true
      · rw [if_pos hdd]
        refine ⟨f1, m, hmn, f2, ?_⟩
        intro hlive hne hroom _
        exact f3 hlive hne hroom
      · rw [if_neg hdd]
        refine ⟨f1, m, hmn, ?_, ?_⟩
        · have := dump_only_trans _ _ _ _ _ f2
            (dump_only_emit _ .pm_put (fun _ h => nomatch h) (fun _ _ _ _ _ h => nomatch h)
              (fun _ _ _ _ _ h => nomatch h) (fun _ h => nomatch h))
          rw [List.append_nil] at this
          exact this
        · intro hlive hne hroom _
          exact f3 hlive hne hroom
  · rw [if_neg hp]
    obtain ⟨f1, m, hmn, f2, f3⟩ := hfin bufs.st (dump_only_refl _) rfl
    refine ⟨f1, m, hmn, f2, ?_⟩
    intro hlive hne hroom _
    exact f3 hlive hne hroom

/-- A window that fits its capture buffer, dumped with the Coredump sink
alone, in any state and context: it prints the first `m` of the
`ceil(len / 16)` chunk lines of the window, read from the capture buffer
`*dump_mem` (zeros when there is none) at the offsets
`addr - base_addr + 16 * k`, and does nothing else the trace projections see;
the buffer is kept (an existing one is unchanged, a missing one is still
missing or allocated zeroed) and the window fits it; and when the environment
never fails and the run had not stopped, the run does not stop and all the
lines are printed. -/
theorem dump_reg_coredump (env : dpu_env) (dump_mode : dpu_dbg_dump_context) (st : dump_st)
    (dump_name : CStr) (base_addr addr len_bytes : Nat) (dump_mem : Option (List Nat))
    (hfit : window_fits len_bytes dump_mem) :
    (∃ m, m ≤ (len_bytes + 15) / 16 ∧
      dump_only st
        (_dpu_dump_reg env dump_mode st dump_name DPU_DBG_DUMP_IN_COREDUMP base_addr addr
          len_bytes dump_mem).1
        ((List.range m).map (fun k => buffer_line dump_mem (addr + 16 * k - base_addr) k)) ∧
      (env_good env → st.dead = false →
        (_dpu_dump_reg env dump_mode st dump_name DPU_DBG_DUMP_IN_COREDUMP base_addr addr
          len_bytes dump_mem).1.dead = false ∧ m = (len_bytes + 15) / 16)) ∧
      buffer_kept dump_mem
        (_dpu_dump_reg env dump_mode st dump_name DPU_DBG_DUMP_IN_COREDUMP base_addr addr
          len_bytes dump_mem).2 ∧
      window_fits len_bytes
        (_dpu_dump_reg env dump_mode st dump_name DPU_DBG_DUMP_IN_COREDUMP base_addr addr
          len_bytes dump_mem).2 := by
  by_cases hlen : len_bytes = 0
  · unfold _dpu_dump_reg
    rw [if_pos hlen]
    refine ⟨⟨0, Nat.zero_le _, dump_only_refl st, fun _ h => ⟨h, ?_⟩⟩, buffer_kept_refl _, hfit⟩
    rw [hlen]
  · have h1 : DPU_DBG_DUMP_IN_COREDUMP &&& DPU_DBG_DUMP_IN_LOG = 0 := by decide
    have h2 : DPU_DBG_DUMP_IN_COREDUMP &&& DPU_DBG_DUMP_IN_MEM = 0 := by decide
    have h3 : DPU_DBG_DUMP_IN_COREDUMP &&& DPU_DBG_DUMP_IN_COREDUMP = 4 := by decide
    obtain ⟨e1, _, _⟩ := len_align_of_fits len_bytes hfit.1
    have hroom := alloc_room env st dump_name 0 4 len_bytes (addr - base_addr) dump_mem hfit
    rw [dump_reg_eq env dump_mode st dump_name DPU_DBG_DUMP_IN_COREDUMP base_addr addr len_bytes
      dump_mem hlen (by rw [h1, h2, h3]; simp)]
    rw [h1, h2, h3, if_neg (by simp)]
    obtain ⟨a1, a2, a3, a4, a5, a6, a7⟩ := alloc_coredump env st dump_name 4
      (u32 (u32 ((len_bytes + REG_DUMP_ALIGN - 1) / REG_DUMP_ALIGN) * REG_DUMP_ALIGN))
      (addr - base_addr) dump_mem (by decide)
    obtain ⟨r1, m, hmn, r2, r3⟩ := run_coredump env dump_mode 0 4 base_addr
      (addr + len_bytes) (u32 ((len_bytes + REG_DUMP_ALIGN - 1) / REG_DUMP_ALIGN)) addr
      (_dpu_dump_reg_alloc env st dump_name 0 4
        (u32 (u32 ((len_bytes + REG_DUMP_ALIGN - 1) / REG_DUMP_ALIGN) * REG_DUMP_ALIGN))
        (addr - base_addr) dump_mem)
      rfl a1 (by decide) a2
    refine ⟨⟨m, by rw [← e1]; exact hmn, ?_, ?_⟩, ?_, ?_⟩
    · have := dump_only_trans _ _ _ _ _ a4 r2
      rw [List.nil_append] at this
      have hl : (List.range m).map (fun k => buffer_line dump_mem (addr + 16 * k - base_addr) k) =
          (List.range m).map (fun k => buffer_line
            (_dpu_dump_reg_alloc env st dump_name 0 4
              (u32 (u32 ((len_bytes + REG_DUMP_ALIGN - 1) / REG_DUMP_ALIGN) * REG_DUMP_ALIGN))
              (addr - base_addr) dump_mem).dump_mem (addr + 16 * k - base_addr) k) := by
        apply List.map_congr_left
        intro k _
        exact (buffer_line_of_kept _ _ a3 _ _).symm
      rw [hl]
      exact this
    · intro hgood hlive
      obtain ⟨g1, g2⟩ := r3 (by rw [a5]; exact hlive) (a7 (hgood.1 _)) hroom.1
        (fun _ => hgood.2 _)
      exact ⟨g1, by rw [g2, e1]⟩
    · rw [r1]
      exact a3
    · rw [r1]
      exact fits_of_has_room len_bytes _ hfit.1 hroom.2

/-- A kept buffer of a kept buffer is a kept buffer. -/
theorem buffer_kept_trans (a b c : Option (List Nat)) (hab : buffer_kept a b)
    (hbc : buffer_kept b c) : buffer_kept a c := by
  refine ⟨fun buf h => hbc.1 buf (hab.1 buf h), fun h buf hc => ?_⟩
  cases hb : b with
  | none => exact hbc.2 hb buf hc
  | some bb =>
    have hz := hab.2 h bb hb
    have e := hbc.1 bb hb
    rw [e] at hc
    cases hc
    exact hz

/-- A range is kept by doing nothing. -/
theorem range_kept_refl (r : dpu_dbg_reg_range) : range_kept r r :=
  ⟨rfl, rfl, rfl, buffer_kept_refl _⟩

/-- A kept range of a kept range is a kept range. -/
theorem range_kept_trans (a b c : dpu_dbg_reg_range) (hab : range_kept a b)
    (hbc : range_kept b c) : range_kept a c :=
  ⟨hbc.1.trans hab.1, hbc.2.1.trans hab.2.1, hbc.2.2.1.trans hab.2.2.1,
    buffer_kept_trans _ _ _ hab.2.2.2 hbc.2.2.2⟩

/-- A pointwise relation followed by a reordering is a reordering followed by
the pointwise relation. -/
theorem forall2_perm {α β : Type} (r : α → β → Prop) (a : List α) (u v : List β)
    (h1 : List.Forall₂ r a u) (h2 : u.Perm v) : ∃ b, a.Perm b ∧ List.Forall₂ r b v := by
  have h : Relation.Comp (List.Forall₂ r) List.Perm a v := ⟨u, h1, h2⟩
  rw [List.forall₂_comp_perm_eq_perm_comp_forall₂] at h
  exact h

/-- Two pointwise relations in a row. -/
theorem forall2_comp {α β γ : Type} (R : α → β → Prop) (S : β → γ → Prop) (T : α → γ → Prop)
    (hT : ∀ x y z, R x y → S y z → T x z) :
    ∀ (a : List α) (b : List β) (c : List γ), List.Forall₂ R a b → List.Forall₂ S b c →
      List.Forall₂ T a c := by
  intro a b c hab
  induction hab generalizing c with
  | nil =>
    intro hbc
    cases hbc
    exact List.Forall₂.nil
  | cons h _ ih =>
    intro hbc
    cases hbc with
    | cons h2 t2 => exact List.Forall₂.cons (hT _ _ _ h h2) (ih _ t2)

/-- A pointwise relation on two concatenations. -/
theorem forall2_append {α β : Type} (R : α → β → Prop) (a a2 : List α) (b b2 : List β)
    (h : List.Forall₂ R a b) (h2 : List.Forall₂ R a2 b2) :
    List.Forall₂ R (a ++ a2) (b ++ b2) := by
  induction h with
  | nil => exact h2
  | cons h _ ih => exact List.Forall₂.cons h ih

/-- Fewer demands on completeness: the lines of a window under a stronger
completeness condition. -/
theorem window_part_mono (c c2 : Prop) (hc : c → c2) (start len_bytes : Nat)
    (dump_mem : Option (List Nat)) (part : List (Nat × Nat × Nat × Nat × Nat))
    (h : window_part c2 start len_bytes dump_mem part) :
    window_part c start len_bytes dump_mem part := by
  obtain ⟨m, h1, h2, h3⟩ := h
  exact ⟨m, h1, h2, fun x => h3 (hc x)⟩

/-- The lines of a window read from a kept buffer are its lines read from the
buffer before. -/
theorem window_part_of_kept (c : Prop) (start len_bytes : Nat) (old new : Option (List Nat))
    (hk : buffer_kept old new) (part : List (Nat × Nat × Nat × Nat × Nat))
    (h : window_part c start len_bytes new part) : window_part c start len_bytes old part := by
  obtain ⟨m, h1, h2, h3⟩ := h
  refine ⟨m, h1, ?_, h3⟩
  rw [h2]
  unfold window_lines_upto
  apply List.map_congr_left
  intro i _
  exact buffer_line_of_kept _ _ hk _ _

/-- No line at all is a part of every window when completeness is not
demanded. -/
theorem window_part_nil (c : Prop) (hc : ¬ c) (start len_bytes : Nat)
    (dump_mem : Option (List Nat)) : window_part c start len_bytes dump_mem [] :=
  ⟨0, Nat.zero_le _, by simp [window_lines_upto], fun h => absurd h hc⟩

/-- The loop over the ranges of a base with the Coredump sink alone, when the
window of every range fits its buffer: it prints, range after range in the
order given, the first lines of each window read from the buffer of the
range, and does nothing else the trace projections see; the ranges handed
back are the given ones in the same order with their buffers kept and their
windows fitting; and when the environment never fails and the run had not
stopped, it does not stop and every window is printed whole. -/
theorem ranges_coredump (env : dpu_env) (dump_mode : dpu_dbg_dump_context)
    (base max_offset : Nat) :
    ∀ (ranges : List dpu_dbg_reg_range) (st : dump_st),
      (∀ r ∈ ranges, window_fits (_dpu_dbg_get_dump_range r.offset max_offset) r.reg_dump) →
      ∃ parts,
        dump_only st
          (_dpu_dump_reg_ranges env dump_mode DPU_DBG_DUMP_IN_COREDUMP base max_offset st
            ranges).1 parts.flatten ∧
        List.Forall₂
          (fun r part => window_part (env_good env ∧ st.dead = false) r.offset.start
            (_dpu_dbg_get_dump_range r.offset max_offset) r.reg_dump part) ranges parts ∧
        List.Forall₂ range_kept ranges
          (_dpu_dump_reg_ranges env dump_mode DPU_DBG_DUMP_IN_COREDUMP base max_offset st
            ranges).2 ∧
        (∀ r ∈ (_dpu_dump_reg_ranges env dump_mode DPU_DBG_DUMP_IN_COREDUMP base max_offset st
            ranges).2,
          window_fits (_dpu_dbg_get_dump_range r.offset max_offset) r.reg_dump) ∧
        (env_good env → st.dead = false →
          (_dpu_dump_reg_ranges env dump_mode DPU_DBG_DUMP_IN_COREDUMP base max_offset st
            ranges).1.dead = false) := by
  intro ranges
  induction ranges with
  | nil =>
    intro st _
    have hunf : _dpu_dump_reg_ranges env dump_mode DPU_DBG_DUMP_IN_COREDUMP base max_offset st
        [] = (st, []) := by
      unfold _dpu_dump_reg_ranges
      rfl
    rw [hunf]
    exact ⟨[], dump_only_refl st, List.Forall₂.nil, List.Forall₂.nil,
      (fun _ h => nomatch h), fun _ h => h⟩
  | cons rn rest ih =>
    intro st hfit
    by_cases hdead : st.dead = true
    · have hunf : _dpu_dump_reg_ranges env dump_mode DPU_DBG_DUMP_IN_COREDUMP base max_offset st
          (rn :: rest) = (st, rn :: rest) := by
        unfold _dpu_dump_reg_ranges
        rw [if_pos hdead]
      rw [hunf]
      have hj : ∀ l : List dpu_dbg_reg_range,
          (l.map (fun _ => ([] : List (Nat × Nat × Nat × Nat × Nat)))).flatten = [] := by
        intro l
        induction l with
        | nil => rfl
        | cons _ _ ih2 => simp
      refine ⟨(rn :: rest).map (fun _ => []), ?_, ?_,
        List.forall₂_same.mpr (fun x _ => range_kept_refl x), hfit, ?_⟩
      · rw [hj]
        exact dump_only_refl st
      · rw [List.forall₂_map_right_iff]
        exact List.forall₂_same.mpr (fun x _ => window_part_nil _
          (fun h => by rw [hdead] at h; exact Bool.noConfusion h.2) _ _ _)
      · intro _ h
        rw [hdead] at h
        exact Bool.noConfusion h
    · obtain ⟨⟨m, hm, hdo, halive⟩, hkept, hfit2⟩ := dump_reg_coredump env dump_mode st
        rn.range_name base (base + rn.offset.start)
        (_dpu_dbg_get_dump_range rn.offset max_offset) rn.reg_dump
        (hfit rn (List.mem_cons_self _ _))
      obtain ⟨parts, i1, i2, i3, i4, i5⟩ := ih
        (_dpu_dump_reg env dump_mode st rn.range_name DPU_DBG_DUMP_IN_COREDUMP base
          (base + rn.offset.start) (_dpu_dbg_get_dump_range rn.offset max_offset) rn.reg_dump).1
        (fun r hr => hfit r (List.mem_cons_of_mem _ hr))
      have hunf : _dpu_dump_reg_ranges env dump_mode DPU_DBG_DUMP_IN_COREDUMP base max_offset st
          (rn :: rest) =
          ((_dpu_dump_reg_ranges env dump_mode DPU_DBG_DUMP_IN_COREDUMP base max_offset
              (_dpu_dump_reg env dump_mode st rn.range_name DPU_DBG_DUMP_IN_COREDUMP base
                (base + rn.offset.start) (_dpu_dbg_get_dump_range rn.offset max_offset)
                rn.reg_dump).1 rest).1,
           { rn with reg_dump := (_dpu_dump_reg env dump_mode st rn.range_name
                DPU_DBG_DUMP_IN_COREDUMP base (base + rn.offset.start)
                (_dpu_dbg_get_dump_range rn.offset max_offset) rn.reg_dump).2 } ::
             (_dpu_dump_reg_ranges env dump_mode DPU_DBG_DUMP_IN_COREDUMP base max_offset
              (_dpu_dump_reg env dump_mode st rn.range_name DPU_DBG_DUMP_IN_COREDUMP base
                (base + rn.offset.start) (_dpu_dbg_get_dump_range rn.offset max_offset)
                rn.reg_dump).1 rest).2) := by
        conv_lhs => unfold _dpu_dump_reg_ranges
        rw [if_neg hdead]
      rw [hunf]
      have hl : (List.range m).map (fun k => buffer_line rn.reg_dump
          (base + rn.offset.start + 16 * k - base) k) =
          window_lines_upto m rn.offset.start rn.reg_dump := by
        unfold window_lines_upto
        apply List.map_congr_left
        intro k _
        have e : base + rn.offset.start + 16 * k - base = rn.offset.start + 16 * k := by omega
        rw [e]
      rw [hl] at hdo
      refine ⟨window_lines_upto m rn.offset.start rn.reg_dump :: parts, ?_, ?_, ?_, ?_, ?_⟩
      · rw [List.flatten_cons]
        exact dump_only_trans _ _ _ _ _ hdo i1
      · refine List.Forall₂.cons ⟨m, hm, rfl, fun hc => (halive hc.1 hc.2).2⟩ ?_
        refine List.Forall₂.imp ?_ i2
        intro r part hw
        exact window_part_mono _ _ (fun hc => ⟨hc.1, (halive hc.1 hc.2).1⟩) _ _ _ _ hw
      · exact List.Forall₂.cons ⟨rfl, rfl, rfl, hkept⟩ i3
      · intro r hr
        rcases List.mem_cons.mp hr with e | e
        · rw [e]
          exact hfit2
        · exact i4 r e
      · intro hg hlive
        exact i5 hg (halive hg hlive).1

/-- A base is kept by doing nothing. -/
theorem base_kept_refl (b : dpu_dbg_reg_base) : base_kept b b :=
  ⟨rfl, rfl, rfl, rfl, buffer_kept_refl _, b.sub_range_list, List.Perm.refl _,
    List.forall₂_same.mpr (fun r _ => range_kept_refl r)⟩

/-- A kept base of a kept base is a kept base. -/
theorem base_kept_trans (a b c : dpu_dbg_reg_base) (hab : base_kept a b) (hbc : base_kept b c) :
    base_kept a c := by
  obtain ⟨a1, a2, a3, a4, a5, rs1, p1, f1⟩ := hab
  obtain ⟨b1, b2, b3, b4, b5, rs2, p2, f2⟩ := hbc
  obtain ⟨rs, p, f⟩ := forall2_perm range_kept rs1 b.sub_range_list rs2 f1 p2.symm
  exact ⟨b1.trans a1, b2.trans a2, b3.trans a3, b4.trans a4, buffer_kept_trans _ _ _ a5 b5,
    rs, p.symm.trans p1,
    forall2_comp range_kept range_kept range_kept (fun x y z => range_kept_trans x y z) _ _ _
      f f2⟩

/-- A catalog is kept by doing nothing. -/
theorem catalog_kept_refl (l : List dpu_dbg_reg_base) : catalog_kept l l :=
  ⟨fun _ b h => ⟨b, h, base_kept_refl b⟩, fun _ b h => ⟨b, h, base_kept_refl b⟩⟩

/-- Storing back a kept base keeps the catalog. -/
theorem store_kept (l0 l : List dpu_dbg_reg_base) (p : Nat) (b b2 : dpu_dbg_reg_base)
    (hk : catalog_kept l0 l) (hp : deref_base l p = some b) (hb : base_kept b b2) :
    catalog_kept l0 (store_base l p b2) := by
  have hlt := deref_base_lt l p b hp
  constructor
  · intro q b0 hq
    obtain ⟨b1, h1, k1⟩ := hk.1 q b0 hq
    by_cases hqp : q = p
    · subst hqp
      rw [hp] at h1
      cases h1
      exact ⟨b2, deref_store_same l q b2 hlt, base_kept_trans _ _ _ k1 hb⟩
    · refine ⟨b1, ?_, k1⟩
      rw [deref_store_other l p q b2 hqp]
      exact h1
  · intro q bx hq
    by_cases hqp : q = p
    · subst hqp
      rw [deref_store_same l q b2 hlt] at hq
      cases hq
      obtain ⟨b0, h0, k0⟩ := hk.2 q b hp
      exact ⟨b0, h0, base_kept_trans _ _ _ k0 hb⟩
    · rw [deref_store_other l p q b2 hqp] at hq
      exact hk.2 q bx hq

/-- The section of a kept base is the section of the base before: the lines
read from the kept buffers are the lines read from the buffers before. -/
theorem base_section_of_kept (c : Prop) (b0 b2 : dpu_dbg_reg_base) (hk : base_kept b0 b2)
    (sec : List (Nat × Nat × Nat × Nat × Nat)) (h : base_section c b2 sec) :
    base_section c b0 sec := by
  obtain ⟨k1, k2, k3, k4, k5, rs0, hperm0, hF0⟩ := hk
  obtain ⟨s1, s2, s3⟩ := h
  refine ⟨?_, ?_, ?_⟩
  · intro hc
    apply s1
    rw [k4, k2]
    exact hc
  · intro hcb hbase hnil
    have e0 : rs0 = [] := by
      rw [hnil] at hperm0
      exact hperm0.eq_nil
    have e2 : b2.sub_range_list = [] := by
      rw [e0] at hF0
      exact List.forall₂_nil_left_iff.mp hF0
    have := s2 (k4.trans hcb) (by rw [k2]; exact hbase) e2
    rw [k3] at this
    exact window_part_of_kept _ _ _ _ _ k5 _ this
  · intro hcb hbase hne
    have e2 : b2.sub_range_list ≠ [] := by
      intro e
      rw [e] at hF0
      rw [List.forall₂_nil_right_iff.mp hF0] at hperm0
      exact hne hperm0.symm.eq_nil
    obtain ⟨rs2, parts, hperm2, hF2, hsec⟩ := s3 (k4.trans hcb) (by rw [k2]; exact hbase) e2
    obtain ⟨rs, hp, hF⟩ := forall2_perm range_kept rs0 b2.sub_range_list rs2 hF0 hperm2.symm
    refine ⟨rs, parts, hp.symm.trans hperm0, ?_, hsec⟩
    refine forall2_comp range_kept _ _ ?_ _ _ _ hF hF2
    intro r r2 part hrk hwp
    dsimp only at hwp ⊢
    rw [hrk.2.1, k3] at hwp
    exact window_part_of_kept _ _ _ _ _ hrk.2.2.2 _ hwp

/-- Fewer demands on completeness: the section of a base under a stronger
completeness condition. -/
theorem base_section_mono (c c2 : Prop) (hc : c → c2) (b : dpu_dbg_reg_base)
    (sec : List (Nat × Nat × Nat × Nat × Nat)) (h : base_section c2 b sec) :
    base_section c b sec := by
  obtain ⟨s1, s2, s3⟩ := h
  refine ⟨s1, fun h1 h2 h3 => window_part_mono c c2 hc _ _ _ _ (s2 h1 h2 h3), ?_⟩
  intro h1 h2 h3
  obtain ⟨rs, parts, hp, hF, hs⟩ := s3 h1 h2 h3
  exact ⟨rs, parts, hp, List.Forall₂.imp (fun _ _ hw => window_part_mono c c2 hc _ _ _ _ hw) hF,
    hs⟩

/-- Fewer demands on completeness: the section of an entry into the reader
under a stronger completeness condition. -/
theorem visit_section_mono (l : List dpu_dbg_reg_base) (c c2 : Prop) (hc : c → c2)
    (dbg : Option Nat) (sec : List (Nat × Nat × Nat × Nat × Nat))
    (h : visit_section l c2 dbg sec) : visit_section l c dbg sec := by
  unfold visit_section at h ⊢
  cases dbg with
  | none => exact h
  | some p =>
    dsimp only at h ⊢
    cases hd : deref_base l p with
    | none =>
      rw [hd] at h
      exact h
    | some b =>
      rw [hd] at h
      exact base_section_mono c c2 hc b sec h

/-- The three-way branch of `_dpu_dump_reg_by_ranges` with the Coredump sink
alone, for a base `b` of a catalog whose windows fit: no register is read,
the Log sink prints no chunk line, the reader is not entered again, the chunk
lines printed are the section of `b` read from its buffers, and the catalog
afterwards is the same catalog with its buffers kept and its windows fitting;
the run does not stop when the environment never fails. -/
theorem by_ranges_body_coredump (env : dpu_env) (dump_mode : dpu_dbg_dump_context)
    (p : Nat) (b : dpu_dbg_reg_base) (st : dump_st)
    (hp : deref_base st.reg_base_list p = some b) (hfit : catalog_fits st.reg_base_list)
    (hnz : ¬ (b.base = 0 ∧ b.cb = none)) :
    readl_addrs (_dpu_dump_reg_by_ranges_body env dump_mode DPU_DBG_DUMP_IN_COREDUMP p b
        st).trace = readl_addrs st.trace ∧
      log_lines (_dpu_dump_reg_by_ranges_body env dump_mode DPU_DBG_DUMP_IN_COREDUMP p b
        st).trace = log_lines st.trace ∧
      reader_calls (_dpu_dump_reg_by_ranges_body env dump_mode DPU_DBG_DUMP_IN_COREDUMP p b
        st).trace = reader_calls st.trace ∧
      (∃ sec, dump_lines (_dpu_dump_reg_by_ranges_body env dump_mode DPU_DBG_DUMP_IN_COREDUMP p
          b st).trace = dump_lines st.trace ++ sec ∧
        base_section (env_good env ∧ st.dead = false) b sec) ∧
      (∀ l0, catalog_kept l0 st.reg_base_list →
        catalog_kept l0 (_dpu_dump_reg_by_ranges_body env dump_mode DPU_DBG_DUMP_IN_COREDUMP p b
          st).reg_base_list) ∧
      catalog_fits (_dpu_dump_reg_by_ranges_body env dump_mode DPU_DBG_DUMP_IN_COREDUMP p b
        st).reg_base_list ∧
      (env_good env → st.dead = false →
        (_dpu_dump_reg_by_ranges_body env dump_mode DPU_DBG_DUMP_IN_COREDUMP p b
          st).dead = false) := by
  have hfb := hfit b (deref_base_mem _ _ _ hp)
  unfold _dpu_dump_reg_by_ranges_body
  by_cases hcb : b.cb = none
  · rw [hcb]
    dsimp only
    by_cases hr : b.sub_range_list ≠ []
    · rw [if_pos hr]
      have hperm := list_sort_perm _dpu_dump_reg_range_cmp b.sub_range_list
      obtain ⟨parts, i1, i2, i3, i4, i5⟩ := ranges_coredump env dump_mode b.base b.max_offset
        (list_sort _dpu_dump_reg_range_cmp b.sub_range_list) st
        (fun r hrin => hfb.2 r (hperm.mem_iff.mp hrin))
      refine ⟨i1.2.1, i1.2.2.1, i1.2.2.2.1, ⟨parts.flatten, i1.2.2.2.2.1, ?_⟩, ?_, ?_, i5⟩
      · refine ⟨fun hc => ?_, fun _ _ hnil => absurd hnil hr, fun _ _ _ =>
          ⟨_, parts, hperm, i2, rfl⟩⟩
        rcases hc with hc | hc
        · exact absurd hcb hc
        · exact absurd ⟨hc, hcb⟩ hnz
      · intro l0 h
        show catalog_kept l0 (store_base _ p _)
        rw [i1.1]
        exact store_kept l0 st.reg_base_list p b _ h hp
          ⟨rfl, rfl, rfl, hcb.symm, buffer_kept_refl _, _, hperm, i3⟩
      · show catalog_fits (store_base _ p _)
        rw [i1.1]
        refine store_fits st.reg_base_list p _ hfit ⟨fun hnil => ?_, i4⟩
        exfalso
        have hnil2 : (_dpu_dump_reg_ranges env dump_mode DPU_DBG_DUMP_IN_COREDUMP b.base
            b.max_offset st (list_sort _dpu_dump_reg_range_cmp b.sub_range_list)).2 = [] := hnil
        rw [hnil2] at i3
        rw [List.forall₂_nil_right_iff.mp i3] at hperm
        exact hr hperm.symm.eq_nil
    · rw [if_neg hr]
      have q : dump_only st
          ((st.emit .log_no_ranges).emit (.log_base_len b.base b.max_offset)) [] :=
        dump_only_trans _ _ _ [] []
          (dump_only_emit st .log_no_ranges (fun _ h => nomatch h)
            (fun _ _ _ _ _ h => nomatch h) (fun _ _ _ _ _ h => nomatch h)
            (fun _ h => nomatch h))
          (dump_only_emit _ (.log_base_len b.base b.max_offset) (fun _ h => nomatch h)
            (fun _ _ _ _ _ h => nomatch h) (fun _ _ _ _ _ h => nomatch h)
            (fun _ h => nomatch h))
      obtain ⟨⟨m, hm, hdo, halive⟩, hkept, hfit2⟩ := dump_reg_coredump env dump_mode
        ((st.emit .log_no_ranges).emit (.log_base_len b.base b.max_offset)) b.name b.base b.base
        b.max_offset b.reg_dump (hfb.1 (not_not.mp hr))
      have hl : (List.range m).map (fun k => buffer_line b.reg_dump
          (b.base + 16 * k - b.base) k) = window_lines_upto m 0 b.reg_dump := by
        unfold window_lines_upto
        apply List.map_congr_left
        intro k _
        have e : b.base + 16 * k - b.base = 0 + 16 * k := by omega
        rw [e]
      rw [hl] at hdo
      have hall := dump_only_trans _ _ _ _ _ q hdo
      rw [List.nil_append] at hall
      refine ⟨hall.2.1, hall.2.2.1, hall.2.2.2.1,
        ⟨window_lines_upto m 0 b.reg_dump, hall.2.2.2.2.1, ?_⟩, ?_, ?_, ?_⟩
      · refine ⟨fun hc => ?_, fun _ _ _ => ⟨m, hm, rfl, fun hc => (halive hc.1 hc.2).2⟩,
          fun _ _ hne => absurd (not_not.mp hr) hne⟩
        rcases hc with hc | hc
        · exact absurd hcb hc
        · exact absurd ⟨hc, hcb⟩ hnz
      · intro l0 h
        show catalog_kept l0 (store_base _ p _)
        rw [hall.1]
        exact store_kept l0 st.reg_base_list p b _ h hp
          ⟨rfl, rfl, rfl, hcb.symm, hkept, _, List.Perm.refl _,
            List.forall₂_same.mpr (fun r _ => range_kept_refl r)⟩
      · show catalog_fits (store_base _ p _)
        rw [hall.1]
        exact store_fits st.reg_base_list p _ hfit ⟨fun _ => hfit2, hfb.2⟩
      · intro hg hlive
        exact (halive hg hlive).1
  · obtain ⟨id, hid⟩ := Option.ne_none_iff_exists'.mp hcb
    rw [hid]
    have q := dump_only_emit st (.cb id) (fun _ h => nomatch h) (fun _ _ _ _ _ h => nomatch h)
      (fun _ _ _ _ _ h => nomatch h) (fun _ h => nomatch h)
    refine ⟨q.2.1, q.2.2.1, q.2.2.2.1, ⟨[], q.2.2.2.2.1, ?_⟩, fun l0 h => h, hfit,
      fun _ h => h⟩
    exact ⟨fun _ => rfl, fun h => absurd h hcb, fun h => absurd h hcb⟩

/-- A piece that prints no chunk line and enters no base is a Coredump-only
pass when it does not stop the run. -/
theorem coredump_pass_quiet (env : dpu_env) (l0 : List dpu_dbg_reg_base) (st st2 : dump_st)
    (h : dump_only st st2 []) (hd : st.dead = false → st2.dead = false) :
    coredump_pass env l0 st st2 := by
  refine ⟨fun hk hf => ⟨h.2.1, h.2.2.1, ?_, ?_, [], [], ?_, ?_, List.Forall₂.nil⟩,
    fun _ _ _ => hd⟩
  · rw [h.1]
    exact hk
  · rw [h.1]
    exact hf
  · rw [h.2.2.2.1, List.append_nil]
  · rw [h.2.2.2.2.1]
    rfl

/-- Doing nothing is a Coredump-only pass. -/
theorem coredump_pass_refl (env : dpu_env) (l0 : List dpu_dbg_reg_base) (st : dump_st) :
    coredump_pass env l0 st st :=
  coredump_pass_quiet env l0 st st (dump_only_refl st) id

/-- An event that is neither a register read, a chunk line nor an entry into
the reader is a Coredump-only pass. -/
theorem coredump_pass_emit (env : dpu_env) (l0 : List dpu_dbg_reg_base) (st : dump_st)
    (e : dbg_event) (h1 : ∀ a, e ≠ .readl a) (h2 : ∀ o a b c d, e ≠ .log_line o a b c d)
    (h3 : ∀ o a b c d, e ≠ .dump_line o a b c d) (h4 : ∀ p, e ≠ .reader p) :
    coredump_pass env l0 st (st.emit e) :=
  coredump_pass_quiet env l0 st _ (dump_only_emit st e h1 h2 h3 h4) id

/-- A Coredump-only pass followed by a piece of the dump path: the sections
of both in a row. -/
theorem pass_sections_trans (env : dpu_env) (l0 : List dpu_dbg_reg_base) (st st2 st3 : dump_st)
    (h12 : coredump_pass env l0 st st2) (h23 : coredump_sections env l0 st2 st3) :
    coredump_sections env l0 st st3 := by
  intro hk hf
  obtain ⟨a1, a2, a3, a4, v1, s1, a5, a6, a7⟩ := h12.1 hk hf
  have alive := h12.2 hk hf
  obtain ⟨b1, b2, b3, b4, v2, s2, b5, b6, b7⟩ := h23 a3 a4
  refine ⟨b1.trans a1, b2.trans a2, b3, b4, v1 ++ v2, s1 ++ s2, ?_, ?_, ?_⟩
  · rw [b5, a5, List.append_assoc]
  · rw [b6, a6, List.flatten_append, List.append_assoc]
  · refine forall2_append _ _ _ _ _ a7 (List.Forall₂.imp ?_ b7)
    intro v s h
    exact visit_section_mono l0 _ _ (fun hc => ⟨hc.1, alive hc.1 hc.2⟩) v s h

/-- Two Coredump-only passes in a row are one. -/
theorem coredump_pass_trans (env : dpu_env) (l0 : List dpu_dbg_reg_base) (st st2 st3 : dump_st)
    (h12 : coredump_pass env l0 st st2) (h23 : coredump_pass env l0 st2 st3) :
    coredump_pass env l0 st st3 := by
  refine ⟨pass_sections_trans env l0 st st2 st3 h12 h23.1, fun hk hf hg hl => ?_⟩
  obtain ⟨_, _, a3, a4, _⟩ := h12.1 hk hf
  exact h23.2 a3 a4 hg (h12.2 hk hf hg hl)

/-- A piece of the dump path followed by a piece that prints no chunk line and
enters no base: the sections of the first. -/
theorem sections_dump_only (env : dpu_env) (l0 : List dpu_dbg_reg_base) (st st2 st3 : dump_st)
    (h12 : coredump_sections env l0 st st2) (h23 : dump_only st2 st3 []) :
    coredump_sections env l0 st st3 := by
  intro hk hf
  obtain ⟨a1, a2, a3, a4, v1, s1, a5, a6, a7⟩ := h12 hk hf
  refine ⟨h23.2.1.trans a1, h23.2.2.1.trans a2, ?_, ?_, v1, s1, ?_, ?_, a7⟩
  · rw [h23.1]
    exact a3
  · rw [h23.1]
    exact a4
  · rw [h23.2.2.2.1, a5]
  · rw [h23.2.2.2.2.1, a6, List.append_nil]

/-- A loop of Coredump-only passes is a Coredump-only pass. -/
theorem coredump_pass_foldl {α : Type} (env : dpu_env) (l0 : List dpu_dbg_reg_base)
    (f : dump_st → α → dump_st) (hf : ∀ st a, coredump_pass env l0 st (f st a)) :
    ∀ (xs : List α) (st : dump_st), coredump_pass env l0 st (xs.foldl f st) := by
  intro xs
  induction xs with
  | nil => exact fun st => coredump_pass_refl env l0 st
  | cons x rest ih =>
    intro st
    exact coredump_pass_trans env l0 _ _ _ (hf st x) (ih (f st x))

/-- An entry into the reader that returns at once (NULL pointer, pointer to
no node, or a base with neither address nor callback) is a Coredump-only pass
with one empty section. -/
theorem reader_entry_pass (env : dpu_env) (l0 : List dpu_dbg_reg_base) (st : dump_st)
    (dbg : Option Nat)
    (h : catalog_kept l0 st.reg_base_list →
      visit_section l0 (env_good env ∧ st.dead = false) dbg []) :
    coredump_pass env l0 st (st.emit (.reader dbg)) := by
  refine ⟨fun hk hf => ⟨?_, ?_, hk, hf, [dbg], [[]], ?_, ?_,
    List.Forall₂.cons (h hk) List.Forall₂.nil⟩, fun _ _ _ hl => hl⟩
  · show readl_addrs (st.trace ++ [_]) = _
    rw [readl_addrs_append]
    simp [readl_addrs]
  · show log_lines (st.trace ++ [_]) = _
    rw [log_lines_append]
    simp [log_lines]
  · show reader_calls (st.trace ++ [_]) = _
    rw [reader_calls_append]
    simp [reader_calls]
  · show dump_lines (st.trace ++ [_]) = _
    rw [dump_lines_append]
    simp [dump_lines]

/-- The dump of one base with the Coredump sink alone is a Coredump-only pass
with one entry into the reader, whose section is read from the buffers of the
base entered. -/
theorem by_ranges_coredump (env : dpu_env) (dump_mode : dpu_dbg_dump_context)
    (l0 : List dpu_dbg_reg_base) (st : dump_st) (dbg : Option Nat) :
    coredump_pass env l0 st
      (_dpu_dump_reg_by_ranges env dump_mode st dbg DPU_DBG_DUMP_IN_COREDUMP) := by
  cases dbg with
  | none =>
    have hunf : _dpu_dump_reg_by_ranges env dump_mode st none DPU_DBG_DUMP_IN_COREDUMP =
        st.emit (.reader none) := by
      unfold _dpu_dump_reg_by_ranges
      rfl
    rw [hunf]
    exact reader_entry_pass env l0 st none (fun _ => rfl)
  | some p =>
    cases hp : deref_base st.reg_base_list p with
    | none =>
      have hunf : _dpu_dump_reg_by_ranges env dump_mode st (some p) DPU_DBG_DUMP_IN_COREDUMP =
          st.emit (.reader (some p)) := by
        unfold _dpu_dump_reg_by_ranges
        simp only [hp]
      rw [hunf]
      refine reader_entry_pass env l0 st (some p) (fun hk => ?_)
      unfold visit_section
      dsimp only
      cases h0 : deref_base l0 p with
      | none => rfl
      | some b0 =>
        obtain ⟨b2, h2, _⟩ := hk.1 p b0 h0
        rw [hp] at h2
        cases h2
    | some b =>
      by_cases hb : b.base = 0 ∧ b.cb = none
      · have hunf : _dpu_dump_reg_by_ranges env dump_mode st (some p)
            DPU_DBG_DUMP_IN_COREDUMP = st.emit (.reader (some p)) := by
          unfold _dpu_dump_reg_by_ranges
          simp only [hp, if_pos hb]
        rw [hunf]
        refine reader_entry_pass env l0 st (some p) (fun hk => ?_)
        obtain ⟨b0, h0, k0⟩ := hk.2 p b hp
        unfold visit_section
        dsimp only
        rw [h0]
        exact base_section_of_kept _ b0 b k0 []
          ⟨fun _ => rfl, fun _ h _ => absurd hb.1 h, fun _ h _ => absurd hb.1 h⟩
      · have hflag : DPU_DBG_DUMP_IN_COREDUMP &&& DPU_DBG_DUMP_IN_COREDUMP ≠ 0 := by decide
        have hunf : _dpu_dump_reg_by_ranges env dump_mode st (some p)
            DPU_DBG_DUMP_IN_COREDUMP =
            _dpu_dump_reg_by_ranges_body env dump_mode DPU_DBG_DUMP_IN_COREDUMP p b
              (((st.emit (.reader (some p))).emit (.log_banner b.name)).emit
                (.dump_banner b.name)) := by
          unfold _dpu_dump_reg_by_ranges
          simp only [hp, if_neg hb, if_pos hflag]
        rw [hunf]
        have q : dump_only (st.emit (.reader (some p)))
            (((st.emit (.reader (some p))).emit (.log_banner b.name)).emit
              (.dump_banner b.name)) [] :=
          dump_only_trans _ _ _ [] []
            (dump_only_emit _ (.log_banner b.name) (fun _ h => nomatch h)
              (fun _ _ _ _ _ h => nomatch h) (fun _ _ _ _ _ h => nomatch h)
              (fun _ h => nomatch h))
            (dump_only_emit _ (.dump_banner b.name) (fun _ h => nomatch h)
              (fun _ _ _ _ _ h => nomatch h) (fun _ _ _ _ _ h => nomatch h)
              (fun _ h => nomatch h))
        have e1 : readl_addrs (st.emit (.reader (some p))).trace = readl_addrs st.trace := by
          show readl_addrs (st.trace ++ [_]) = _
          rw [readl_addrs_append]
          simp [readl_addrs]
        have e2 : log_lines (st.emit (.reader (some p))).trace = log_lines st.trace := by
          show log_lines (st.trace ++ [_]) = _
          rw [log_lines_append]
          simp [log_lines]
        have e3 : reader_calls (st.emit (.reader (some p))).trace =
            reader_calls st.trace ++ [some p] := by
          show reader_calls (st.trace ++ [_]) = _
          rw [reader_calls_append]
          simp [reader_calls]
        have e4 : dump_lines (st.emit (.reader (some p))).trace = dump_lines st.trace := by
          show dump_lines (st.trace ++ [_]) = _
          rw [dump_lines_append]
          simp [dump_lines]
        refine ⟨fun hk hf => ?_, fun hk hf hg hl => ?_⟩
        · obtain ⟨w1, w2, w3, ⟨sec, w4, w5⟩, w6, w7, _⟩ := by_ranges_body_coredump env
            dump_mode p b
            (((st.emit (.reader (some p))).emit (.log_banner b.name)).emit
              (.dump_banner b.name)) hp hf hb
          obtain ⟨b0, h0, k0⟩ := hk.2 p b hp
          refine ⟨?_, ?_, w6 l0 hk, w7, [some p], [sec], ?_, ?_, List.Forall₂.cons ?_
            List.Forall₂.nil⟩
          · rw [w1, q.2.1, e1]
          · rw [w2, q.2.2.1, e2]
          · rw [w3, q.2.2.2.1, e3]
          · rw [w4, q.2.2.2.2.1, e4]
            simp
          · unfold visit_section
            dsimp only
            rw [h0]
            exact base_section_of_kept _ b0 b k0 sec w5
        · exact (by_ranges_body_coredump env dump_mode p b
            (((st.emit (.reader (some p))).emit (.log_banner b.name)).emit
              (.dump_banner b.name)) hp hf hb).2.2.2.2.2.2 hg hl

/-- The dump of a base by its name with the Coredump sink alone is a
Coredump-only pass. -/
theorem by_blk_coredump (env : dpu_env) (dump_mode : dpu_dbg_dump_context)
    (l0 : List dpu_dbg_reg_base) (st : dump_st) (blk_name : CStr) :
    coredump_pass env l0 st
      (_dpu_dump_reg_by_blk env dump_mode DPU_DBG_DUMP_IN_COREDUMP st blk_name) := by
  unfold _dpu_dump_reg_by_blk
  cases _dpu_dump_get_blk_addr st.reg_base_list blk_name with
  | none => exact coredump_pass_refl env l0 st
  | some p => exact by_ranges_coredump env dump_mode l0 st (some p)

/-- The dump of all bases with the Coredump sink alone is a Coredump-only
pass. -/
theorem reg_all_coredump (env : dpu_env) (dump_mode : dpu_dbg_dump_context)
    (l0 : List dpu_dbg_reg_base) (st : dump_st) :
    coredump_pass env l0 st (_dpu_dump_reg_all env dump_mode DPU_DBG_DUMP_IN_COREDUMP st) := by
  unfold _dpu_dump_reg_all
  apply coredump_pass_foldl
  intro st2 p
  dsimp only
  by_cases hd : st2.dead = true
  · rw [if_pos hd]
    exact coredump_pass_refl env l0 st2
  · rw [if_neg hd]
    cases deref_base st2.reg_base_list p with
    | none => exact coredump_pass_refl env l0 st2
    | some blk_base =>
      dsimp only
      by_cases hn : strlen blk_base.name = 0
      · rw [if_pos hn]
        exact coredump_pass_refl env l0 st2
      · rw [if_neg hn]
        exact by_blk_coredump env dump_mode l0 st2 blk_base.name

/-- The dump of the selection, or of everything, with the Coredump sink
alone, whether or not it ends in the halt: the chunk lines come in one
section per entry into the reader. -/
theorem dump_array_coredump (env : dpu_env) (l0 : List dpu_dbg_reg_base) (d : dpu_dbg_base)
    (blk_arr : Option (List (Option Nat))) (len : Nat) (do_panic : Bool) (name : CStr)
    (dump_all : Bool) (hflag : d.enable_reg_dump = DPU_DBG_DUMP_IN_COREDUMP) :
    coredump_sections env l0 d.todump_st
      (_dpu_dump_array env d blk_arr len do_panic name dump_all).todump_st := by
  have hsel : coredump_pass env l0 d.todump_st
      (if dump_all = true ∨ blk_arr = none ∨ len = 0 then
        _dpu_dump_reg_all env d.dump_mode d.enable_reg_dump d.todump_st
      else
        (List.range len).foldl
          (fun st i =>
            if st.dead then st
            else
              match (blk_arr.getD []).getD i none with
              | some p => _dpu_dump_reg_by_ranges env d.dump_mode st (some p) d.enable_reg_dump
              | none => st)
          d.todump_st) := by
    rw [hflag]
    split_ifs
    · exact reg_all_coredump env d.dump_mode l0 d.todump_st
    · apply coredump_pass_foldl
      intro st2 i
      dsimp only
      by_cases hd : st2.dead = true
      · rw [if_pos hd]
        exact coredump_pass_refl env l0 st2
      · rw [if_neg hd]
        cases (blk_arr.getD []).getD i none with
        | none => exact coredump_pass_refl env l0 st2
        | some p => exact by_ranges_coredump env d.dump_mode l0 st2 (some p)
  unfold _dpu_dump_array
  dsimp only
  generalize (if dump_all = true ∨ blk_arr = none ∨ len = 0 then
        _dpu_dump_reg_all env d.dump_mode d.enable_reg_dump d.todump_st
      else
        (List.range len).foldl
          (fun st i =>
            if st.dead then st
            else
              match (blk_arr.getD []).getD i none with
              | some p => _dpu_dump_reg_by_ranges env d.dump_mode st (some p) d.enable_reg_dump
              | none => st)
          d.todump_st) = st1 at hsel ⊢
  by_cases hd : st1.dead = true
  · rw [if_pos hd]
    exact hsel.1
  · rw [if_neg hd]
    by_cases hpanic : do_panic = true
    · rw [if_pos hpanic]
      refine sections_dump_only env l0 _ _ _ hsel.1 ?_
      exact dump_only_trans _ _ _ [] []
        (dump_only_emit st1 (.halt name) (fun _ h => nomatch h) (fun _ _ _ _ _ h => nomatch h)
          (fun _ _ _ _ _ h => nomatch h) (fun _ h => nomatch h))
        (dump_only_of_eq _ _ rfl rfl (fun _ => rfl))
    · rw [if_neg hpanic]
      exact hsel.1

/-- The whole of `dpu_devcoredump_read`, with the header lines, the register
dump under the flag Coredump and the section of the drm state: the chunk
lines come in one section per entry into the reader, each read from the
capture buffers the base entered had when the read began. -/
theorem read_coredump_sections (env : dpu_env) (l0 : List dpu_dbg_reg_base)
    (s : dpu_dbg_base) :
    coredump_sections env l0 s.todump_st (dpu_devcoredump_read env s).todump_st := by
  have q1 := coredump_pass_emit env l0 s.todump_st .dump_sep (fun _ h => nomatch h)
    (fun _ _ _ _ _ h => nomatch h) (fun _ _ _ _ _ h => nomatch h) (fun _ h => nomatch h)
  have q2 := coredump_pass_emit env l0 (s.todump_st.emit .dump_sep) .dump_module
    (fun _ h => nomatch h) (fun _ _ _ _ _ h => nomatch h) (fun _ _ _ _ _ h => nomatch h)
    (fun _ h => nomatch h)
  have q3 := coredump_pass_emit env l0 ((s.todump_st.emit .dump_sep).emit .dump_module)
    .dump_title (fun _ h => nomatch h) (fun _ _ _ _ _ h => nomatch h)
    (fun _ _ _ _ _ h => nomatch h) (fun _ h => nomatch h)
  have q4 := coredump_pass_emit env l0
    (((s.todump_st.emit .dump_sep).emit .dump_module).emit .dump_title)
    (.dump_timestamp s.timestamp) (fun _ h => nomatch h) (fun _ _ _ _ _ h => nomatch h)
    (fun _ _ _ _ _ h => nomatch h) (fun _ h => nomatch h)
  have q5 := coredump_pass_emit env l0 ((((s.todump_st.emit .dump_sep).emit .dump_module).emit
    .dump_title).emit (.dump_timestamp s.timestamp)) .dump_regs_banner (fun _ h => nomatch h)
    (fun _ _ _ _ _ h => nomatch h) (fun _ _ _ _ _ h => nomatch h) (fun _ h => nomatch h)
  have hhead := coredump_pass_trans env l0 _ _ _ (coredump_pass_trans env l0 _ _ _
    (coredump_pass_trans env l0 _ _ _ (coredump_pass_trans env l0 _ _ _ q1 q2) q3) q4) q5
  have harr := dump_array_coredump env l0
    { s with
      todump_st := ((((s.todump_st.emit .dump_sep).emit .dump_module).emit .dump_title).emit
        (.dump_timestamp s.timestamp)).emit .dump_regs_banner,
      enable_reg_dump := DPU_DBG_DUMP_IN_COREDUMP }
    (some s.req_dump_blks) DPU_DBG_BASE_MAX s.work_panic "evtlog_workitem".toList s.dump_all rfl
  have hmid := pass_sections_trans env l0 _ _ _ hhead harr
  have hread : dpu_devcoredump_read env s =
      (fun d3 : dpu_dbg_base =>
        if d3.dead = true then d3
        else
          match d3.atomic_state with
          | some snapshot =>
            { d3 with todump_st :=
                (d3.todump_st.emit .dump_state_banner).emit (.dump_atomic_state snapshot) }
          | none => { d3 with todump_st := d3.todump_st.emit .dump_state_banner })
      (_dpu_dump_array env
        { s with
          todump_st := ((((s.todump_st.emit .dump_sep).emit .dump_module).emit
            .dump_title).emit (.dump_timestamp s.timestamp)).emit .dump_regs_banner,
          enable_reg_dump := DPU_DBG_DUMP_IN_COREDUMP }
        (some s.req_dump_blks) DPU_DBG_BASE_MAX s.work_panic "evtlog_workitem".toList
        s.dump_all) := rfl
  rw [hread]
  generalize (_dpu_dump_array env
      { s with
        todump_st := ((((s.todump_st.emit .dump_sep).emit .dump_module).emit
          .dump_title).emit (.dump_timestamp s.timestamp)).emit .dump_regs_banner,
        enable_reg_dump := DPU_DBG_DUMP_IN_COREDUMP }
      (some s.req_dump_blks) DPU_DBG_BASE_MAX s.work_panic "evtlog_workitem".toList
      s.dump_all) = d3 at hmid ⊢
  dsimp only
  by_cases hd : d3.dead = true
  · rw [if_pos hd]
    exact hmid
  · rw [if_neg hd]
    have t1 := dump_only_emit d3.todump_st .dump_state_banner (fun _ h => nomatch h)
      (fun _ _ _ _ _ h => nomatch h) (fun _ _ _ _ _ h => nomatch h) (fun _ h => nomatch h)
    cases d3.atomic_state with
    | none => exact sections_dump_only env l0 _ _ _ hmid t1
    | some snapshot =>
      have t2 := dump_only_emit (d3.todump_st.emit .dump_state_banner)
        (.dump_atomic_state snapshot) (fun _ h => nomatch h) (fun _ _ _ _ _ h => nomatch h)
        (fun _ _ _ _ _ h => nomatch h) (fun _ h => nomatch h)
      exact sections_dump_only env l0 _ _ _ hmid (dump_only_trans _ _ _ [] [] t1 t2)

/-- The read of the artifact of the base "vbif" on two engines.  When an
earlier dump with the Memory sink filled the buffer (8 words, the registers
0x2000..0x201c), the read prints these words, chunk by chunk, reads no
register and leaves the buffer as it is; when the buffer was never allocated
the read allocates it zeroed and prints zeros. -/
theorem read_prints_buffer_example :
    (dbg_vbif_filled.reg_base_list.map (fun b => b.reg_dump) =
        [some [0x2000, 0x2004, 0x2008, 0x200c, 0x2010, 0x2014, 0x2018, 0x201c]] ∧
      dump_lines (dpu_devcoredump_read env_ok dbg_vbif_filled).trace =
        [(0, 0x2000, 0x2004, 0x2008, 0x200c), (0x10, 0x2010, 0x2014, 0x2018, 0x201c)] ∧
      readl_addrs (dpu_devcoredump_read env_ok dbg_vbif_filled).trace =
        readl_addrs dbg_vbif_filled.trace ∧
      (dpu_devcoredump_read env_ok dbg_vbif_filled).reg_base_list =
        dbg_vbif_filled.reg_base_list) ∧
    (dbg_vbif_unfilled.reg_base_list.map (fun b => b.reg_dump) = [none] ∧
      dump_lines (dpu_devcoredump_read env_ok dbg_vbif_unfilled).trace =
        [(0, 0, 0, 0, 0), (0x10, 0, 0, 0, 0)] ∧
      readl_addrs (dpu_devcoredump_read env_ok dbg_vbif_unfilled).trace = [] ∧
      (dpu_devcoredump_read env_ok dbg_vbif_unfilled).reg_base_list.map (fun b => b.reg_dump) =
        [some [0, 0, 0, 0, 0, 0, 0, 0]]) := by
  refine ⟨⟨by decide, by decide, by decide, by decide⟩, by decide, by decide, by decide,
    by decide⟩

/-- C21 (amended): for every engine state `s` in which every window the
reader dumps fits its capture buffer (`catalog_fits`: the window has at most
2^32 - 16 bytes and a buffer that exists holds at least the
`4 * ceil(len / 16)` words of its window), with any environment,
`dpu_devcoredump_read` leaves the sink flags at Coredump only; its trace has
the register reads of `s` and no more, so it issues no hardware register
read; the Log sink prints no chunk line; the catalog afterwards is the
catalog of `s` with every base and range kept, every capture buffer that was
allocated being the same buffer with the same words and every new one holding
zeros; and the chunk lines it prints come in one section per entry into the
Register Reader, in the order of the entries, the section of an entry being
read from the capture buffers that the base entered has in `s`: nothing for a
NULL pointer, a base with a callback or a base without address; for a base
without ranges the lines `i = 0, 1, ..` at offset `16 * i` with the words
`4 * i .. 4 * i + 3` of the buffer of the base; for a base with ranges, range
after range in the order the reader takes them in, the lines at offset
`start + 16 * i` with the words `4 * i .. 4 * i + 3` of the buffer of the
range; a buffer that does not exist reads as 0.  Each window is printed from
its first line on without a gap, and whole (`ceil(len / 16)` lines) when
every allocation and power enable succeeds and the run had not stopped. -/
theorem C21_read_prints_buffer_content (env : dpu_env) (s : dpu_dbg_base)
    (hfit : catalog_fits s.reg_base_list) :
    (dpu_devcoredump_read env s).enable_reg_dump = DPU_DBG_DUMP_IN_COREDUMP ∧
      readl_addrs (dpu_devcoredump_read env s).trace = readl_addrs s.trace ∧
      log_lines (dpu_devcoredump_read env s).trace = log_lines s.trace ∧
      catalog_kept s.reg_base_list (dpu_devcoredump_read env s).reg_base_list ∧
      (∃ visits sections,
        reader_calls (dpu_devcoredump_read env s).trace = reader_calls s.trace ++ visits ∧
          dump_lines (dpu_devcoredump_read env s).trace =
            dump_lines s.trace ++ sections.flatten ∧
          List.Forall₂ (visit_section s.reg_base_list (env_good env ∧ s.dead = false)) visits
            sections) ∧
      ∀ off i, buffer_line none off i = (off, 0, 0, 0, 0) := by
  obtain ⟨h1, h2, h3, _, h5⟩ := read_coredump_sections env s.reg_base_list s
    (catalog_kept_refl s.reg_base_list) hfit
  exact ⟨(read_frame env s).1, h1, h2, h3, h5, fun _ _ => rfl⟩

/-- The amended C21 on the engine whose base "vbif" has a buffer filled
through the Memory sink: the windows fit, and the read prints the sections of
the entries from that buffer. -/
theorem C21_read_prints_buffer_content_witness :
    catalog_fits dbg_vbif_filled.reg_base_list ∧
      ((dpu_devcoredump_read env_ok dbg_vbif_filled).enable_reg_dump =
          DPU_DBG_DUMP_IN_COREDUMP ∧
        readl_addrs (dpu_devcoredump_read env_ok dbg_vbif_filled).trace =
          readl_addrs dbg_vbif_filled.trace ∧
        log_lines (dpu_devcoredump_read env_ok dbg_vbif_filled).trace =
          log_lines dbg_vbif_filled.trace ∧
        catalog_kept dbg_vbif_filled.reg_base_list
          (dpu_devcoredump_read env_ok dbg_vbif_filled).reg_base_list ∧
        (∃ visits sections,
          reader_calls (dpu_devcoredump_read env_ok dbg_vbif_filled).trace =
              reader_calls dbg_vbif_filled.trace ++ visits ∧
            dump_lines (dpu_devcoredump_read env_ok dbg_vbif_filled).trace =
              dump_lines dbg_vbif_filled.trace ++ sections.flatten ∧
            List.Forall₂
              (visit_section dbg_vbif_filled.reg_base_list
                (env_good env_ok ∧ dbg_vbif_filled.dead = false)) visits sections) ∧
        ∀ off i, buffer_line none off i = (off, 0, 0, 0, 0)) :=
  ⟨catalog_fits_of_check _ (by decide),
    C21_read_prints_buffer_content env_ok dbg_vbif_filled
      (catalog_fits_of_check _ (by decide))⟩

/-- C21 (counterexample): the engine with the one base "wide" of
2^32 + 16 bytes, after the trigger on "wide" and the run of the worker.  The
read allocates the capture buffer with the padded length wrapped to 16 bytes
(4 words) for 2^28 + 1 chunks; it prints chunk 0 from the buffer and then
loads `dump_addr[4 .. 7]`, words outside the allocation, for the second line:
what the code prints there is not the content of the capture buffer. -/
theorem C21_read_overruns_wrapped_buffer :
    dbg_wide_dumped.reg_base_list.map (fun b => (b.name, b.max_offset, b.reg_dump)) =
        [("wide".toList, 2 ^ 32 + 16, none)] ∧
      ¬ catalog_fits dbg_wide_dumped.reg_base_list ∧
      (dpu_devcoredump_read env_ok dbg_wide_dumped).reg_base_list.map (fun b => b.reg_dump) =
        [some [0, 0, 0, 0]] ∧
      (2 ^ 32 + 16 + 15) / 16 = 2 ^ 28 + 1 ∧
      dump_lines (dpu_devcoredump_read env_ok dbg_wide_dumped).trace = [(0, 0, 0, 0, 0)] ∧
      (dpu_devcoredump_read env_ok dbg_wide_dumped).trace.getLast? = some .overrun ∧
      (dpu_devcoredump_read env_ok dbg_wide_dumped).dead = true := by
  refine ⟨by decide, ?_, by decide, by decide, by decide, by decide, by decide⟩
  intro h
  have hmem : (dpu_dbg_reg_register_base env_ok dbg0 (some "wide".toList) 0x100000
      (2 ^ 32 + 16)).2.reg_base_list.head? ≠ none := by decide
  obtain ⟨b, hb⟩ := Option.ne_none_iff_exists'.mp hmem
  have hin : b ∈ dbg_wide_dumped.reg_base_list := List.mem_of_mem_head? hb
  have hb2 : b.sub_range_list = [] ∧ b.max_offset = 2 ^ 32 + 16 := by
    have e : (dpu_dbg_reg_register_base env_ok dbg0 (some "wide".toList) 0x100000
        (2 ^ 32 + 16)).2.reg_base_list.head?.map
          (fun b => (b.sub_range_list.length, b.max_offset)) = some (0, 2 ^ 32 + 16) := by
      decide
    rw [hb] at e
    simp only [Option.map_some', Option.some.injEq, Prod.mk.injEq] at e
    exact ⟨List.length_eq_zero.mp e.1, e.2⟩
  have hw := ((h b hin).1 hb2.1).1
  rw [hb2.2] at hw
  exact absurd hw (by decide)

/-! ### C22: the comparison of two ranges -/

/-- C22: for two ranges with 32-bit start offsets, `_dpu_dump_reg_range_cmp`
returns the signed 32-bit integer congruent to `a.start - b.start` modulo
`2^32`, that is the 32-bit wrap-around difference read as an `int`; when the
starts differ by less than `2^31` it is the difference itself, so it is
negative, zero or positive exactly when `a.start` is less than, equal to or
greater than `b.start`; a NULL argument gives 0. -/
theorem C22_range_cmp_is_wrapped_difference (a b : dpu_dbg_reg_range)
    (ha : a.offset.start < 2 ^ 32) (hb : b.offset.start < 2 ^ 32) :
    (_dpu_dump_reg_range_cmp (some a) (some b) =
        s32 ((a.offset.start + 2 ^ 32 - b.offset.start) % 2 ^ 32) ∧
      -(2 : Int) ^ 31 ≤ _dpu_dump_reg_range_cmp (some a) (some b) ∧
      _dpu_dump_reg_range_cmp (some a) (some b) < (2 : Int) ^ 31 ∧
      (_dpu_dump_reg_range_cmp (some a) (some b) -
        ((a.offset.start : Int) - (b.offset.start : Int))) % (2 : Int) ^ 32 = 0) ∧
      (a.offset.start - b.offset.start < 2 ^ 31 → b.offset.start - a.offset.start < 2 ^ 31 →
        _dpu_dump_reg_range_cmp (some a) (some b) =
          (a.offset.start : Int) - (b.offset.start : Int) ∧
        (_dpu_dump_reg_range_cmp (some a) (some b) < 0 ↔ a.offset.start < b.offset.start) ∧
        (_dpu_dump_reg_range_cmp (some a) (some b) = 0 ↔ a.offset.start = b.offset.start) ∧
        (0 < _dpu_dump_reg_range_cmp (some a) (some b) ↔ b.offset.start < a.offset.start)) ∧
      (_dpu_dump_reg_range_cmp none (some b) = 0 ∧ _dpu_dump_reg_range_cmp (some a) none = 0) := by
  unfold _dpu_dump_reg_range_cmp s32 u32_sub u32
  dsimp only
  refine ⟨⟨?_, ?_, ?_, ?_⟩, ?_, rfl, rfl⟩
  · split_ifs <;> omega
  · split_ifs <;> omega
  · split_ifs <;> omega
  · split_ifs <;> omega
  · intro h1 h2
    split_ifs <;> omega

/-- C22 on the starts 0x10 and 0x40: the comparison gives -0x30. -/
theorem C22_range_cmp_is_wrapped_difference_witness :
    ((mk_range "a" 0x10 0x20).offset.start < 2 ^ 32 ∧
      (mk_range "b" 0x40 0x50).offset.start < 2 ^ 32) ∧
      _dpu_dump_reg_range_cmp (some (mk_range "a" 0x10 0x20)) (some (mk_range "b" 0x40 0x50)) =
        -0x30 :=
  ⟨⟨by decide, by decide⟩,
   ((C22_range_cmp_is_wrapped_difference (mk_range "a" 0x10 0x20) (mk_range "b" 0x40 0x50)
      (by decide) (by decide)).2.1 (by decide) (by decide)).1.trans (by decide)⟩

end DpuDbg
